import Mathlib

/-! # Period spend computation of the compute marketplace biller

A shallow embedding of `svc/compute/billingaccount/biller.go` and `lib/conv/conv.go`,
with the parts of the Go standard library (`time`, `fmt`, `strconv`) and of the decimal
library `github.com/cockroachdb/apd/v2` that those two files call.

Conventions.
* A `time.Time` is the instant it denotes, an integer count of nanoseconds; `Before`,
  `After`, `Add` and `Sub` only look at the instant.
* A `time.Duration` is an `int64` count of nanoseconds; `Time.Sub` saturates.
* A Go `error` is `Option String`: `none` is `nil`, `some m` is an error whose message is `m`.
-/

namespace Biller

/-! ## `time` -/

/-- A `time.Time`, as the instant it denotes in nanoseconds. -/
abbrev Time := Int

/-- A `time.Duration`: nanoseconds, an `int64`. -/
abbrev Duration := Int

def minDuration : Duration := -(2 ^ 63)
def maxDuration : Duration := 2 ^ 63 - 1

def Nanosecond : Duration := 1
def Hour : Duration := 3600000000000

/-- `t.After(u)`. -/
def Time.After (t u : Time) : Bool := decide (u < t)

/-- `t.Before(u)`. -/
def Time.Before (t u : Time) : Bool := decide (t < u)

/-- `t.Add(d)`. -/
def Time.Add (t : Time) (d : Duration) : Time := t + d

/-- `t.Sub(u)`: the duration `t - u`, saturated to the range of `int64`. -/
def Time.Sub (t u : Time) : Duration :=
  if t - u < minDuration then minDuration
  else if maxDuration < t - u then maxDuration
  else t - u

/-- `sql.NullTime`. -/
structure NullTime where
  Time : Time
  Valid : Bool
  deriving DecidableEq, Repr

/-! ### Calendar: what `Biller.Run` needs of `time.Now`, `time.Date` and `Time.AddDate` -/

/-- A `*time.Location`: for a Unix time in seconds, the offset in seconds east of UTC of the
zone in use then, and the Unix times at which that zone starts and ends. -/
structure Location where
  lookup : Int → Int × Int × Int

/-- `time.UTC`. -/
def UTC : Location := ⟨fun _ => (0, -(2 ^ 63), 2 ^ 63 - 1)⟩

/-- A `time.Time` together with the location it is presented in. -/
structure ZonedTime where
  instant : Time
  loc : Location

/-- Days from 1970-01-01 to the day `d` of month `m` of year `y` (proleptic Gregorian
calendar). -/
def daysFromCivil (y m d : Int) : Int :=
  let y1 : Int := if m ≤ 2 then y - 1 else y
  let era : Int := Int.fdiv y1 400
  let yoe : Int := y1 - era * 400
  let mp : Int := if m ≤ 2 then m + 9 else m - 3
  let doy : Int := Int.fdiv (153 * mp + 2) 5 + d - 1
  let doe : Int := yoe * 365 + Int.fdiv yoe 4 - Int.fdiv yoe 100 + doy
  era * 146097 + doe - 719468

/-- The year, month and day of the day that is `z` days after 1970-01-01. -/
def civilFromDays (z : Int) : Int × Int × Int :=
  let z1 : Int := z + 719468
  let era : Int := Int.fdiv z1 146097
  let doe : Int := z1 - era * 146097
  let yoe : Int :=
    Int.fdiv (doe - Int.fdiv doe 1460 + Int.fdiv doe 36524 - Int.fdiv doe 146096) 365
  let doy : Int := doe - (365 * yoe + Int.fdiv yoe 4 - Int.fdiv yoe 100)
  let mp : Int := Int.fdiv (5 * doy + 2) 153
  let d : Int := doy - Int.fdiv (153 * mp + 2) 5 + 1
  let m : Int := if mp < 10 then mp + 3 else mp - 9
  (if m ≤ 2 then yoe + era * 400 + 1 else yoe + era * 400, m, d)

/-- Seconds since 1970-01-01 00:00:00 on the wall clock of the time's location. -/
def ZonedTime.abs (t : ZonedTime) : Int :=
  Int.fdiv t.instant 1000000000 + (t.loc.lookup (Int.fdiv t.instant 1000000000)).1

/-- `t.Date()`: year, month and day on the wall clock. -/
def ZonedTime.Date (t : ZonedTime) : Int × Int × Int := civilFromDays (Int.fdiv t.abs 86400)

def ZonedTime.Year (t : ZonedTime) : Int := t.Date.1
def ZonedTime.Month (t : ZonedTime) : Int := t.Date.2.1
def ZonedTime.Location (t : ZonedTime) : Location := t.loc

/-- `time.Date(year, month, day, hour, min, sec, nsec, loc)`: the instant at which the wall
clock of `loc` shows the given date and time. A month outside `1..12` carries into the year;
the other fields count on from the first of the month. -/
def time.Date (year month day hour min sec nsec : Int) (loc : Location) : ZonedTime :=
  let m0 : Int := month - 1
  let y : Int := year + Int.fdiv m0 12
  let m : Int := m0 - 12 * Int.fdiv m0 12 + 1
  let unix0 : Int := (daysFromCivil y m 1 + (day - 1)) * 86400 + hour * 3600 + min * 60 + sec +
    Int.fdiv nsec 1000000000
  let (offset, start, stop) := loc.lookup unix0
  let unix : Int :=
    if offset ≠ 0 then
      let utc := unix0 - offset
      if utc < start ∨ utc ≥ stop then unix0 - (loc.lookup utc).1 else unix0 - offset
    else unix0
  ⟨unix * 1000000000 + (nsec - 1000000000 * Int.fdiv nsec 1000000000), loc⟩

/-- `t.AddDate(years, months, days)`. -/
def ZonedTime.AddDate (t : ZonedTime) (years months days : Int) : ZonedTime :=
  let secs : Int := t.abs - 86400 * Int.fdiv t.abs 86400
  time.Date (t.Date.1 + years) (t.Date.2.1 + months) (t.Date.2.2 + days)
    (Int.fdiv secs 3600) (Int.fdiv (secs - 3600 * Int.fdiv secs 3600) 60)
    (secs - 60 * Int.fdiv secs 60)
    (t.instant - 1000000000 * Int.fdiv t.instant 1000000000) t.loc

/-! ## `float64`

A `float64` is its IEEE 754 binary64 bit pattern. The arithmetic the program does on floats
(`Duration.Hours`) rounds to nearest, ties to even. -/

/-- A `float64`: sign bit, biased exponent (11 bits) and fraction (52 bits). -/
structure Float64 where
  sign : Bool
  expo : Fin 2048
  frac : Fin 4503599627370496
  deriving DecidableEq, Repr

namespace Float64

def IsNaN (x : Float64) : Bool := x.expo.val == 2047 && x.frac.val != 0
def IsInf (x : Float64) : Bool := x.expo.val == 2047 && x.frac.val == 0

/-- The mantissa of a finite float, with the hidden bit of a normal number. -/
def mant (x : Float64) : Nat :=
  if x.expo.val == 0 then x.frac.val else x.frac.val + 4503599627370496

/-- The binary exponent of a finite float: its magnitude is `mant * 2 ^ exp2`. -/
def exp2 (x : Float64) : Int :=
  if x.expo.val == 0 then -1074 else (x.expo.val : Int) - 1075

def IsZero (x : Float64) : Bool := x.expo.val == 0 && x.frac.val == 0

def NaN : Float64 := ⟨false, 2047, 1⟩
def Inf (neg : Bool) : Float64 := ⟨neg, 2047, 0⟩
def Zero (neg : Bool) : Float64 := ⟨neg, 0, 0⟩

/-- Number of binary digits of `n` (`0` for zero), with `fuel` bounding the recursion. -/
def bitLenAux : Nat → Nat → Nat
  | 0, _ => 0
  | fuel + 1, n => if n = 0 then 0 else bitLenAux fuel (n / 2) + 1

def bitLen (n : Nat) : Nat := bitLenAux n n

/-- The magnitude of a finite float as a fraction `(numerator, denominator)`. -/
def toFrac (x : Float64) : Nat × Nat :=
  if x.exp2 ≥ 0 then (x.mant * 2 ^ x.exp2.toNat, 1) else (x.mant, 2 ^ (-x.exp2).toNat)

/-- The exponent `e` of the leading bit of `num / den > 0`: `2 ^ e ≤ num / den < 2 ^ (e + 1)`. -/
def leadExp (num den : Nat) : Int :=
  let e0 : Int := (bitLen num : Int) - (bitLen den : Int)
  let ge : Bool :=
    if e0 ≥ 0 then decide (den * 2 ^ e0.toNat ≤ num) else decide (den ≤ num * 2 ^ (-e0).toNat)
  if ge then e0 else e0 - 1

/-- The exponent of the last bit of the mantissa of a float whose leading bit has the
exponent `e`: 52 bits below, but not below the last bit of the subnormal numbers. -/
def scaleOf (e : Int) : Int := if e - 52 < -1074 then -1074 else e - 52

/-- The integer nearest to `a / b`, ties to even. -/
def roundHalfEven (a b : Nat) : Nat :=
  if b < 2 * (a % b) || (2 * (a % b) == b && a / b % 2 == 1) then a / b + 1 else a / b

/-- The float with the sign `neg` and the magnitude `q * 2 ^ s`, for a mantissa `q ≤ 2 ^ 53`
at the scale `s`; an infinity when the exponent leaves the range. -/
def pack (neg : Bool) (q : Nat) (s : Int) : Float64 :=
  if q < 4503599627370496 then ⟨neg, 0, ⟨q % 4503599627370496, Nat.mod_lt _ (by decide)⟩⟩
  else
    let q2 : Nat := if q ≥ 9007199254740992 then q / 2 else q
    let be : Int := (if q ≥ 9007199254740992 then s + 1 else s) + 1075
    if be ≥ 2047 then Inf neg
    else ⟨neg, ⟨be.toNat % 2048, Nat.mod_lt _ (by decide)⟩,
          ⟨(q2 - 4503599627370496) % 4503599627370496, Nat.mod_lt _ (by decide)⟩⟩

/-- The float nearest to `(-1)^neg * num / den` (`den > 0`), ties to even; overflows to an
infinity. -/
def round (neg : Bool) (num den : Nat) : Float64 :=
  if num = 0 then Zero neg
  else
    let s : Int := scaleOf (leadExp num den)
    pack neg
      (roundHalfEven (if s ≥ 0 then num else num * 2 ^ (-s).toNat)
        (if s ≥ 0 then den * 2 ^ s.toNat else den)) s

/-- The conversion `float64(n)` of an integer. -/
def ofInt (n : Int) : Float64 := round (decide (n < 0)) n.natAbs 1

/-- The quotient `x / y` of two floats. -/
def div (x y : Float64) : Float64 :=
  let neg : Bool := x.sign != y.sign
  if x.IsNaN || y.IsNaN then NaN
  else if x.IsInf then (if y.IsInf then NaN else Inf neg)
  else if y.IsInf then Zero neg
  else if y.IsZero then (if x.IsZero then NaN else Inf neg)
  else round neg (x.toFrac.1 * y.toFrac.2) (x.toFrac.2 * y.toFrac.1)

/-- The sum `x + y` of two floats. -/
def add (x y : Float64) : Float64 :=
  if x.IsNaN || y.IsNaN then NaN
  else if x.IsInf then (if y.IsInf && x.sign != y.sign then NaN else x)
  else if y.IsInf then y
  else
    let a : Nat := x.toFrac.1 * y.toFrac.2
    let b : Nat := y.toFrac.1 * x.toFrac.2
    let den : Nat := x.toFrac.2 * y.toFrac.2
    if x.sign == y.sign then round x.sign (a + b) den
    else if a = b then Zero false
    else if b < a then round x.sign (a - b) den
    else round y.sign (b - a) den

end Float64

/-- `d.Hours()`: the duration as a floating-point number of hours. The whole hours and the
remaining nanoseconds are converted apart (`/` and `%` of Go truncate toward zero). -/
def Duration.Hours (d : Duration) : Float64 :=
  let hour : Int := Int.tdiv d Hour
  let nsec : Int := Int.tmod d Hour
  Float64.add (Float64.ofInt hour) (Float64.div (Float64.ofInt nsec) (Float64.ofInt 3600000000000))

/-! ## Decimal digits -/

/-- Number of decimal digits of `n` (`1` for zero), with `fuel` bounding the recursion. -/
def decLenAux : Nat → Nat → Nat
  | 0, _ => 1
  | fuel + 1, n => if n < 10 then 1 else decLenAux fuel (n / 10) + 1

/-- Number of decimal digits of `n`; `1` for zero. -/
def decLen (n : Nat) : Nat := decLenAux n n

/-- The character of the decimal digit `n % 10`: `'0' + n % 10`. -/
def digitChar (n : Nat) : Char := Char.ofNat (48 + n % 10)

/-- The value of a decimal digit character, `ch - '0'`; `none` for any other character. -/
def digitVal (ch : Char) : Option Nat :=
  if 48 ≤ ch.toNat ∧ ch.toNat ≤ 57 then some (ch.toNat - 48) else none

/-- The decimal digits of `n`, most significant first, with `fuel` bounding the recursion. -/
def natDigitsAux : Nat → Nat → List Char
  | 0, _ => []
  | fuel + 1, n =>
    if n < 10 then [digitChar n] else natDigitsAux fuel (n / 10) ++ [digitChar (n % 10)]

/-- The decimal digits of `n` without leading zeros (`"0"` for zero): `big.Int.String`,
`strconv.Itoa` of a non-negative number. -/
def natDigits (n : Nat) : List Char := natDigitsAux (n + 1) n

/-- The number a string of decimal digits denotes, after the digits read so far. -/
def digitsValue : List Char → Nat → Option Nat
  | [], acc => some acc
  | ch :: cs, acc =>
    match digitVal ch with
    | some v => digitsValue cs (10 * acc + v)
    | none => none

/-- A non-empty string of decimal digits as a number. -/
def parseDigits (cs : List Char) : Option Nat :=
  if cs.isEmpty then none else digitsValue cs 0

/-- Whether every character of `cs` is a decimal digit. -/
def isDigits (cs : List Char) : Bool := cs.all (fun ch => (digitVal ch).isSome)

/-- The number a string of decimal digits denotes (`0` for the empty string and for a string
that has another character). -/
def digitsNat (cs : List Char) : Nat := (digitsValue cs 0).getD 0

/-! ## `strconv` and `fmt`: the text of a float under `%v` -/

namespace strconv

/-- The digits of a float: `nd = d.length` digits `d` and the position `dp` of the decimal
point; the value is `0.d * 10 ^ dp`. -/
structure decimalSlice where
  d : List Char
  dp : Int
  deriving DecidableEq, Repr

/-- A digit string without its trailing zeros. -/
def trimZeros (cs : List Char) : List Char :=
  (cs.reverse.dropWhile (fun ch => ch == '0')).reverse

/-- Compares `c * 10 ^ s` with `n / d`. -/
def cmpScaled (c : Nat) (s : Int) (n d : Nat) : Ordering :=
  if s ≥ 0 then compare (c * 10 ^ s.toNat * d) n else compare (c * d) (n * 10 ^ (-s).toNat)

/-- The position of the decimal point of `n / d > 0`: the `dp` with
`10 ^ (dp - 1) ≤ n / d < 10 ^ dp`. -/
def pointOf (n d : Nat) : Int :=
  if d ≤ n then (decLen (n / d) : Int)
  else
    let j : Nat := decLen (d / n)
    if n * 10 ^ (j - 1) = d then 2 - (j : Int) else 1 - (j : Int)

/-- The candidate with `k` digits for the shortest text of the float `v = nv / d`, whose
rounding interval is `[nlo / d, nhi / d]` (with bounds when `inclusive`): the multiple of
`10 ^ (dp - k)` nearest to `v` that lies in the interval, ties to the even one. -/
def candidate (nv nlo nhi d : Nat) (inclusive : Bool) (dp : Int) (k : Nat) : Option Nat :=
  let s : Int := dp - k
  let a : Nat := if s ≥ 0 then nv else nv * 10 ^ (-s).toNat
  let b : Nat := if s ≥ 0 then d * 10 ^ s.toNat else d
  let lo : Nat := a / b
  let hi : Nat := lo + 1
  if a % b = 0 then some lo
  else
    let okdown : Bool :=
      match cmpScaled lo s nlo d with
      | Ordering.gt => true
      | Ordering.eq => inclusive
      | Ordering.lt => false
    let okup : Bool :=
      match cmpScaled hi s nhi d with
      | Ordering.lt => true
      | Ordering.eq => inclusive
      | Ordering.gt => false
    if okdown && okup then
      if 2 * (a % b) < b then some lo
      else if b < 2 * (a % b) then some hi
      else if lo % 2 = 0 then some lo else some hi
    else if okdown then some lo
    else if okup then some hi
    else none

/-- The first length from `k` on, trying `fuel` lengths, that has a candidate. -/
def shortestFrom (nv nlo nhi d : Nat) (inclusive : Bool) (dp : Int) : Nat → Nat → Option (Nat × Nat)
  | 0, _ => none
  | fuel + 1, k =>
    match candidate nv nlo nhi d inclusive dp k with
    | some c => some (c, k)
    | none => shortestFrom nv nlo nhi d inclusive dp fuel (k + 1)

/-- The shortest digits that identify a finite float `x`: the decimal with the fewest digits
that rounds to `x`, and of those the one nearest to `x` (`FormatFloat` with precision `-1`).
Zero has no digits. -/
def shortest (x : Float64) : decimalSlice :=
  if x.mant = 0 then ⟨[], 0⟩
  else
    let m := x.mant
    -- value, lower and upper bound in units of `2 ^ (exp2 - 2)`
    let e : Int := x.exp2 - 2
    let kv : Nat := 4 * m
    let khi : Nat := 4 * m + 2
    let klo : Nat := if x.frac.val == 0 && x.expo.val > 1 then 4 * m - 1 else 4 * m - 2
    let up : Nat := if e ≥ 0 then 2 ^ e.toNat else 1
    let d : Nat := if e ≥ 0 then 1 else 2 ^ (-e).toNat
    let dp : Int := pointOf (kv * up) d
    match shortestFrom (kv * up) (klo * up) (khi * up) d (m % 2 == 0) dp 17 1 with
    | some (c, k) => ⟨trimZeros (natDigits c), dp - k + (natDigits c).length⟩
    | none => ⟨[], 0⟩

/-- The exponent of `%e`, at least two digits. -/
def expDigits (e : Nat) : List Char :=
  if e < 10 then '0' :: natDigits e else natDigits e

/-- `%e`: `d.dddde±dd` with `prec` digits after the point. -/
def fmtE (neg : Bool) (digs : decimalSlice) (prec : Nat) : List Char :=
  let sign : List Char := if neg then ['-'] else []
  let first : Char := digs.d.headD '0'
  let more : List Char :=
    if prec > 0 then
      '.' :: ((digs.d.drop 1).take prec ++ List.replicate (prec - (digs.d.length - 1)) '0')
    else []
  let exp : Int := if digs.d.isEmpty then 0 else digs.dp - 1
  sign ++ first :: more ++ 'e' :: (if exp < 0 then '-' else '+') :: expDigits exp.natAbs

/-- `%f`: `ddddddd.ddddd` with `prec` digits after the point: the digits before the point,
padded with zeros, or `0`; after the point the zeros between the point and the first digit,
the digits from the point on, and zeros up to `prec` places. -/
def fmtF (neg : Bool) (digs : decimalSlice) (prec : Nat) : List Char :=
  let sign : List Char := if neg then ['-'] else []
  let integer : List Char :=
    if digs.dp > 0 then
      digs.d.take digs.dp.toNat ++ List.replicate (digs.dp.toNat - digs.d.length) '0'
    else ['0']
  let places : List Char := List.replicate (-digs.dp).toNat '0' ++ digs.d.drop digs.dp.toNat
  let fraction : List Char :=
    if prec > 0 then '.' :: (places ++ List.replicate (prec - places.length) '0').take prec
    else []
  sign ++ integer ++ fraction

/-- `strconv.FormatFloat(x, 'g', -1, 64)`: the shortest digits, in `%e` form when the decimal
exponent is below `-4` or at least `6` (the precision `%g` takes for this decision when the
digits are the shortest ones), in `%f` form otherwise. -/
def FormatFloat (x : Float64) : List Char :=
  if x.IsNaN then "NaN".data
  else if x.IsInf then (if x.sign then "-Inf".data else "+Inf".data)
  else
    let digs := shortest x
    let exp : Int := digs.dp - 1
    if exp < -4 || exp ≥ 6 then fmtE x.sign digs (digs.d.length - 1)
    else fmtF x.sign digs (digs.d.length - digs.dp).toNat

end strconv

namespace fmt

/-- `fmt.Sprintf("%v", x)` of a `float64`: `%g` with the shortest precision; a `+` is printed
only before `Inf`. -/
def Sprintf_v (x : Float64) : String := String.mk (strconv.FormatFloat x)

end fmt

/-! ## `github.com/cockroachdb/apd/v2`

The decimal library is a dependency of the repository; its code is not among the repository's
sources. The definitions of this section follow the library's behaviour (an implementation of
the General Decimal Arithmetic specification), restricted to what `conv.go` and `biller.go`
call: `New`, `NewFromString`, `Context.Mul`, `Context.Add`, `Condition.Any`,
`Condition.GoError` and `Decimal.String` (here `Decimal.Str`). -/

namespace apd

/-- Modelled from the spec: `apd.Form` of the decimal library (a dependency, not in the
sources): the kind of value a decimal holds. -/
inductive Form
  | Finite
  | Infinite
  | NaNSignaling
  | NaN
  deriving DecidableEq, Repr

/-- Modelled from the spec: `apd.Decimal` of the decimal library (a dependency, not in the
sources), the "exact decimal value" of §4.1. The value of a finite decimal is
`(-1)^Negative * Coeff * 10^Exponent`. `Coeff` is a `big.Int` that the library keeps
non-negative, `Exponent` an `int32`. -/
structure Decimal where
  Form : Form
  Negative : Bool
  Exponent : Int
  Coeff : Nat
  deriving DecidableEq, Repr

/-- The zero value `apd.Decimal{}`. -/
def Decimal.zero : Decimal := ⟨Form.Finite, false, 0, 0⟩

/-- `apd.New(coeff, exponent)`. -/
def New (coeff : Int) (exponent : Int) : Decimal :=
  ⟨Form.Finite, decide (coeff < 0), exponent, coeff.natAbs⟩

/-- Modelled from the spec: `apd.Condition` of the decimal library (a dependency, not in the
sources): the set of condition flags an operation reports ("trapped conditions" of §4.3),
a bit set. -/
abbrev Condition := Nat

def SystemOverflow : Condition := 1
def SystemUnderflow : Condition := 2
def Overflow : Condition := 4
def Underflow : Condition := 8
def Inexact : Condition := 16
def Subnormal : Condition := 32
def Rounded : Condition := 64
def DivisionUndefined : Condition := 128
def DivisionByZero : Condition := 256
def DivisionImpossible : Condition := 512
def InvalidOperation : Condition := 1024
def Clamped : Condition := 2048

/-- `apd.DefaultTraps`. -/
def DefaultTraps : Condition :=
  SystemOverflow ||| SystemUnderflow ||| Overflow ||| Underflow ||| Subnormal |||
    DivisionUndefined ||| DivisionByZero ||| DivisionImpossible ||| InvalidOperation

/-- `r.Any()`: some flag is set. -/
def Condition.Any (r : Condition) : Bool := r != 0

/-- The names of the flags, in bit order. -/
def conditionNames : List (Condition × String) :=
  [(SystemOverflow, "system overflow"), (SystemUnderflow, "system underflow"),
   (Overflow, "overflow"), (Underflow, "underflow"), (Inexact, "inexact"),
   (Subnormal, "subnormal"), (Rounded, "rounded"),
   (DivisionUndefined, "division undefined"), (DivisionByZero, "division by zero"),
   (DivisionImpossible, "division impossible"), (InvalidOperation, "invalid operation"),
   (Clamped, "clamped")]

/-- `r.String()`: the names of the flags set in `r`, joined by `", "`. -/
def Condition.Str (r : Condition) : String :=
  ", ".intercalate ((conditionNames.filter (fun p => r &&& p.1 != 0)).map (fun p => p.2))

/-- The message of the error the library returns when an exponent leaves its system range. -/
def errExponentOutOfRangeStr : String := "exponent out of range"

/-- `r.GoError(traps)`: an error if `r` holds a system error or a flag of `traps`. -/
def Condition.GoError (r traps : Condition) : Condition × Option String :=
  if r &&& (SystemOverflow ||| SystemUnderflow) != 0 then (r, some errExponentOutOfRangeStr)
  else if r &&& traps != 0 then (r, some (Condition.Str (r &&& traps)))
  else (r, none)

/-- Modelled from the spec: `apd.Context` of the decimal library (a dependency, not in the
sources): the "fixed arithmetic context" of §4.3, with its precision and exponent bounds.
Every context of this program rounds half up, the library's default. -/
structure Context where
  Precision : Nat
  MaxExponent : Int
  MinExponent : Int
  Traps : Condition
  deriving DecidableEq, Repr

/-- The highest exponent the library supports. -/
def MaxExponent : Int := 100000

/-- The lowest exponent the library supports. -/
def MinExponent : Int := -100000

/-- `apd.BaseContext`: no limit on precision, the library's exponent limits. -/
def BaseContext : Context := ⟨0, MaxExponent, MinExponent, DefaultTraps⟩

/-- `apd.NumDigits`: the number of decimal digits of a coefficient; `1` for zero. -/
def NumDigits (n : Nat) : Nat := decLen n

/-- `d.NumDigits()`. -/
def Decimal.NumDigits (d : Decimal) : Nat := apd.NumDigits d.Coeff

/-- `d.IsZero()`. -/
def Decimal.IsZero (d : Decimal) : Bool := d.Form == Form.Finite && d.Coeff == 0

/-- The first exponent of `xs` outside the library's limits, as the condition it raises. -/
def exponentOutOfRange : List Int → Option Condition
  | [] => none
  | x :: xs =>
    if x > MaxExponent then some (SystemOverflow ||| Overflow)
    else if x < MinExponent then some (SystemUnderflow ||| Underflow)
    else exponentOutOfRange xs

/-- Modelled from the spec: `Decimal.setExponent` of the decimal library (a dependency, not in
the sources). Sets the exponent of `d` to the sum of `xs` under the bounds of `c`: an exponent
outside the library's limits is a system error and leaves `d` alone; an adjusted exponent
below `c.MinExponent` makes a non-zero `d` subnormal, rounding the coefficient (half up) when
the exponent is below `Etiny`; an adjusted exponent above `c.MaxExponent` overflows to
infinity, or clamps a zero. -/
def Decimal.setExponent (d : Decimal) (c : Context) (res : Condition) (xs : List Int) :
    Decimal × Condition :=
  match exponentOutOfRange xs with
  | some e => (d, e)
  | none =>
    let sum : Int := xs.sum
    let nd : Int := d.NumDigits
    let adj : Int := sum + nd - 1
    if adj > MaxExponent then (d, SystemOverflow ||| Overflow)
    else if adj < MinExponent then (d, SystemUnderflow ||| Underflow)
    else
      let (d1, r, res1) : Decimal × Int × Condition :=
        if adj < c.MinExponent then
          let res1 := if !d.IsZero then res ||| Subnormal else res
          let Etiny : Int := c.MinExponent - ((c.Precision : Int) - 1)
          if sum < Etiny then
            let k : Nat := (Etiny - sum).toNat
            let integ : Nat := d.Coeff / 10 ^ k
            let frac : Nat := d.Coeff % 10 ^ k
            let res2 := if frac != 0 then res1 ||| Inexact else res1
            let integ1 := if frac != 0 && decide (10 ^ k ≤ 2 * frac) then integ + 1 else integ
            let res3 := if integ1 == 0 then res2 ||| Clamped else res2
            ({ d with Coeff := integ1 }, Etiny, res3 ||| Rounded)
          else (d, sum, res1)
        else if adj > c.MaxExponent then
          if d.IsZero then (d, c.MaxExponent, res ||| Clamped)
          else ({ d with Form := Form.Infinite }, sum, res ||| Overflow ||| Inexact)
        else (d, sum, res)
      let res4 := if res1 &&& Inexact != 0 && res1 &&& Subnormal != 0 then res1 ||| Underflow
                  else res1
      ({ d1 with Exponent := r }, res4)

/-- Modelled from the spec: `Rounder.Round` of the decimal library (a dependency, not in the
sources), for the rounder `RoundHalfUp`. Brings `x` to at most `c.Precision` digits: a
coefficient with more digits loses its last `diff` digits and is rounded half up, which
raises `Rounded`, and `Inexact` when a dropped digit was not zero. -/
def Round (c : Context) (x : Decimal) : Decimal × Condition :=
  let nd : Int := x.NumDigits
  if x.Coeff != 0 && decide (x.Exponent + nd - 1 < c.MinExponent) then
    x.setExponent c Subnormal [x.Exponent]
  else
    let diff : Int := nd - (c.Precision : Int)
    if diff > 0 then
      if diff > MaxExponent then (x, SystemOverflow ||| Overflow)
      else
        let e : Nat := 10 ^ diff.toNat
        let y : Nat := x.Coeff / e
        let m : Nat := x.Coeff % e
        let up : Bool := m != 0 && decide (e ≤ 2 * m)
        let carry : Bool := up && decide (apd.NumDigits y < apd.NumDigits (y + 1))
        let y1 : Nat := if carry then (y + 1) / 10 else if up then y + 1 else y
        let diff1 : Int := if carry then diff + 1 else diff
        let res : Condition := if m != 0 then Rounded ||| Inexact else Rounded
        let (d1, res1) := ({ x with Coeff := y1 } : Decimal).setExponent c res [x.Exponent, diff1]
        (d1, res ||| res1)
    else
      x.setExponent c 0 [x.Exponent, 0]

/-- `c.round(d, x)`: no rounding when the context has no precision limit. -/
def Context.round (c : Context) (x : Decimal) : Decimal × Condition :=
  if c.Precision == 0 then x.setExponent c 0 [x.Exponent] else Round c x

/-- `c.goError(res)`. -/
def Context.goError (c : Context) (res : Condition) : Condition × Option String :=
  Condition.GoError res c.Traps

/-- The canonical NaN the library stores as the result of an invalid operation. -/
def decimalNaN : Decimal := ⟨Form.NaN, false, 0, 0⟩

/-- The canonical infinity. -/
def decimalInfinity : Decimal := ⟨Form.Infinite, false, 0, 0⟩

/-- `c.setIfNaN(d, x, y)`: when an operand is a NaN, the result is that NaN, made quiet;
a signalling NaN raises `InvalidOperation`. -/
def Context.setIfNaN (c : Context) (x y : Decimal) : Option (Decimal × Condition × Option String) :=
  let pick (nan : Decimal) (signalling : Bool) : Decimal × Condition × Option String :=
    let res : Condition := if signalling then InvalidOperation else 0
    ({ nan with Form := Form.NaN }, (c.goError res).1, (c.goError res).2)
  if x.Form == Form.NaNSignaling then some (pick x true)
  else if y.Form == Form.NaNSignaling then some (pick y true)
  else if x.Form == Form.NaN then some (pick x false)
  else if y.Form == Form.NaN then some (pick y false)
  else none

/-- Modelled from the spec: `Context.Mul` of the decimal library (a dependency, not in the
sources): `spend = hours_decimal × price_decimal`, computed under the fixed context (§4.3).
The coefficients are multiplied and the exponents added; the result is then rounded to the
context. Returns the result, the conditions raised and the error. -/
def Context.Mul (c : Context) (x y : Decimal) : Decimal × Condition × Option String :=
  match c.setIfNaN x y with
  | some r => r
  | none =>
    let neg : Bool := x.Negative != y.Negative
    if x.Form == Form.Infinite || y.Form == Form.Infinite then
      if x.IsZero || y.IsZero then
        (decimalNaN, (c.goError InvalidOperation).1, (c.goError InvalidOperation).2)
      else ({ decimalInfinity with Negative := neg }, 0, none)
    else
      let d : Decimal := ⟨Form.Finite, neg, 0, x.Coeff * y.Coeff⟩
      let (d1, res) := d.setExponent c 0 [x.Exponent, y.Exponent]
      let (d2, res2) := c.round d1
      (d2, (c.goError (res ||| res2)).1, (c.goError (res ||| res2)).2)

/-- `upscale(a, b)`: the coefficients of `a` and `b` at their smaller exponent, and that
exponent; fails when the exponents are too far apart. -/
def upscale (a b : Decimal) : Option (Nat × Nat × Int) :=
  if a.Exponent == b.Exponent then some (a.Coeff, b.Coeff, a.Exponent)
  else if a.Exponent < b.Exponent then
    if b.Exponent - a.Exponent > MaxExponent then none
    else some (a.Coeff, b.Coeff * 10 ^ (b.Exponent - a.Exponent).toNat, a.Exponent)
  else
    if a.Exponent - b.Exponent > MaxExponent then none
    else some (a.Coeff * 10 ^ (a.Exponent - b.Exponent).toNat, b.Coeff, b.Exponent)

/-- Modelled from the spec: `Context.Add` of the decimal library (a dependency, not in the
sources): exact decimal addition under the fixed context (§4.4). The operands are brought to
their smaller exponent, the signed coefficients added, and the result rounded to the context.
Returns the result, the conditions raised and the error. -/
def Context.Add (c : Context) (x y : Decimal) : Decimal × Condition × Option String :=
  match c.setIfNaN x y with
  | some r => r
  | none =>
    if x.Form == Form.Infinite || y.Form == Form.Infinite then
      if x.Form == Form.Infinite && y.Form == Form.Infinite && x.Negative != y.Negative then
        (decimalNaN, (c.goError InvalidOperation).1, (c.goError InvalidOperation).2)
      else if x.Form == Form.Infinite then (x, 0, none)
      else ({ decimalInfinity with Negative := y.Negative }, 0, none)
    else
      match upscale x y with
      | none => (x, 0, some ("add: " ++ errExponentOutOfRangeStr))
      | some (a, b, s) =>
        let d : Decimal :=
          if x.Negative == y.Negative then ⟨Form.Finite, x.Negative, s, a + b⟩
          else if a < b then ⟨Form.Finite, !x.Negative, s, b - a⟩
          else if b < a then ⟨Form.Finite, x.Negative, s, a - b⟩
          else ⟨Form.Finite, false, s, 0⟩
        let (d1, res) := c.round d
        (d1, (c.goError res).1, (c.goError res).2)

/-! ### Text: `Decimal.String` and `NewFromString` -/

/-- A leading sign is taken off: whether it was `-`, and the rest of the text. -/
def stripSign : List Char → Bool × List Char
  | [] => (false, [])
  | ch :: r => if ch = '-' then (true, r) else if ch = '+' then (false, r) else (false, ch :: r)

/-- `strconv.ParseInt(s, 10, 32)`: an optional sign and decimal digits, within `int32`. -/
def ParseInt32 (cs : List Char) : Option Int :=
  match parseDigits (stripSign cs).2 with
  | none => none
  | some n =>
    let v : Int := if (stripSign cs).1 then -(n : Int) else (n : Int)
    if v < -(2 ^ 31) || v > 2 ^ 31 - 1 then none else some v

/-- `%f` of a finite decimal: `ddddddd.ddddd`. -/
def fmtF (d : Decimal) (digits : List Char) : List Char :=
  if d.Exponent < 0 then
    let left : Int := -d.Exponent - digits.length
    if left ≥ 0 then '0' :: '.' :: (List.replicate left.toNat '0' ++ digits)
    else
      let offset : Nat := (-left).toNat
      digits.take offset ++ '.' :: digits.drop offset
  else digits ++ List.replicate d.Exponent.toNat '0'

/-- `%E` of a finite decimal: `d.dddddE±d`. -/
def fmtE (d : Decimal) (digits : List Char) : List Char :=
  let adj : Int := d.Exponent + digits.length - 1
  let mant : List Char :=
    match digits with
    | [] => []
    | [c] => [c]
    | c :: cs => c :: '.' :: cs
  mant ++ 'E' :: (if adj < 0 then '-' else '+') :: natDigits adj.natAbs

/-- Modelled from the spec: `Decimal.String` of the decimal library (a dependency, not in the
sources): the "textual form" of a decimal (§8), the to-scientific-string conversion of the
General Decimal Arithmetic specification. Plain notation when the exponent is at most zero
and the adjusted exponent at least `-6`, the `E` notation otherwise. -/
def Decimal.Str (d : Decimal) : String :=
  let sign : List Char := if d.Negative then ['-'] else []
  match d.Form with
  | Form.NaN => String.mk (sign ++ "NaN".data)
  | Form.NaNSignaling => String.mk (sign ++ "sNaN".data)
  | Form.Infinite => String.mk (sign ++ "Infinity".data)
  | Form.Finite =>
    let digits := natDigits d.Coeff
    let adj : Int := d.Exponent + digits.length - 1
    if d.Exponent ≤ 0 ∧ adj ≥ -6 then String.mk (sign ++ fmtF d digits)
    else String.mk (sign ++ fmtE d digits)

/-- The text before the first `e` or `E`, and the text after it when there is one. -/
def splitExponent : List Char → List Char × Option (List Char)
  | [] => ([], none)
  | ch :: cs =>
    if ch == 'e' || ch == 'E' then ([], some cs)
    else ((ch :: (splitExponent cs).1), (splitExponent cs).2)

/-- The text before the first `.`, and the text after it when there is one. -/
def splitPoint : List Char → List Char × Option (List Char)
  | [] => ([], none)
  | ch :: cs =>
    if ch == '.' then ([], some cs)
    else ((ch :: (splitPoint cs).1), (splitPoint cs).2)

/-- The second half of `Decimal.setString`: the mantissa `mant` of a numeral, with the
exponents `exps` read so far. The digits after the point lower the exponent; the digits
without the point are the coefficient. -/
def setMantissa (c : Context) (neg : Bool) (mant : List Char) (exps1 : List Int) :
    Except String (Decimal × Condition × Option String) :=
  let digits : List Char :=
    match (splitPoint mant).2 with
    | none => (splitPoint mant).1
    | some f => (splitPoint mant).1 ++ f
  let exps : List Int :=
    match (splitPoint mant).2 with
    | none => exps1
    | some f => exps1 ++ [-(f.length : Int)]
  match parseDigits digits with
  | none => Except.error ("parse mantissa: " ++ String.mk digits)
  | some coeff =>
    Except.ok (((⟨Form.Finite, neg, 0, coeff⟩ : Decimal).setExponent c 0 exps).1,
      (c.goError ((⟨Form.Finite, neg, 0, coeff⟩ : Decimal).setExponent c 0 exps).2).1,
      (c.goError ((⟨Form.Finite, neg, 0, coeff⟩ : Decimal).setExponent c 0 exps).2).2)

/-- Modelled from the spec: `Decimal.setString` of the decimal library (a dependency, not in
the sources): "parses the text into an exact decimal" (§4.1). An optional sign, then
`Inf` or `Infinity` in any case, or a text that begins with `NaN` or `sNaN` in any case (what
follows is a payload, which is not kept), or a numeral: digits with at most one point, and an
optional exponent after `e` or `E`. The coefficient is the digits without the point, the
exponent the written exponent less the number of digits after the point. The numeral's
digits are read as an unsigned number. Returns the error of a text that is none of these, or
the decimal, the conditions and the error of setting its exponent under `c`. -/
def setString (c : Context) (s : String) : Except String (Decimal × Condition × Option String) :=
  let neg : Bool := (stripSign s.data).1
  let body : List Char := (stripSign s.data).2
  if body.head? = some '-' ∨ body.head? = some '+' then Except.error ("could not parse: " ++ s)
  else
    let lower := body.map Char.toLower
    if lower = "infinity".data ∨ lower = "inf".data then
      Except.ok (⟨Form.Infinite, neg, 0, 0⟩, 0, none)
    else if "nan".data.isPrefixOf lower then Except.ok (⟨Form.NaN, neg, 0, 0⟩, 0, none)
    else if "snan".data.isPrefixOf lower then Except.ok (⟨Form.NaNSignaling, neg, 0, 0⟩, 0, none)
    else
      let mant : List Char := (splitExponent body).1
      match (splitExponent body).2 with
      | some t =>
        match ParseInt32 t with
        | none => Except.error ("parse exponent: " ++ String.mk t)
        | some e => setMantissa c neg mant [e]
      | none => setMantissa c neg mant []

/-- `c.SetString(d, s)` on a fresh decimal, that is `c.NewFromString(s)`: the decimal (absent
on error), the conditions and the error. -/
def Context.NewFromString (c : Context) (s : String) : Option Decimal × Condition × Option String :=
  match setString c s with
  | Except.error e => (none, 0, some e)
  | Except.ok (_, _, some e) => (none, 0, some e)
  | Except.ok (d, res, none) =>
    let (d1, res1) := c.round d
    (some d1, res ||| res1, (c.goError (res ||| res1)).2)

/-- `apd.NewFromString(s)`: a new decimal from `s`, with no restriction on exponents or
precision. -/
def NewFromString (s : String) : Option Decimal × Condition × Option String :=
  BaseContext.NewFromString s

end apd

/-! ## `lib/conv/conv.go` -/

namespace fmt

/-- `fmt.Errorf(msg + "%w", err)`, as its message: the text of `err` follows `msg`; Go prints
`%!w(<nil>)` for a nil `err`. The result is a non-nil error in both cases. -/
def Errorf_w (msg : String) (err : Option String) : String :=
  match err with
  | some e => msg ++ e
  | none => msg ++ "%!w(<nil>)"

end fmt

namespace conv

/-- `conv.FromString`: the decimal `apd.NewFromString` reads, unless it reports an error or
any condition. -/
def FromString (val : String) : apd.Decimal × Option String :=
  match apd.NewFromString val with
  | (_, _, some err) =>
    (apd.Decimal.zero, some (fmt.Errorf_w "could not marshal value into decimal: " (some err)))
  | (value, cond, none) =>
    if !cond.Any then
      (match value with
        | some v => v
        | none => apd.Decimal.zero, none)
    else
      (apd.Decimal.zero,
        some (fmt.Errorf_w "could not marshal value into decimal: "
          (apd.Condition.GoError cond apd.DefaultTraps).2))

/-- `conv.FromFloat`: the float is printed with `%v` and the text handed to `FromString`. -/
def FromFloat (val : Float64) : apd.Decimal × Option String :=
  let hoursString := fmt.Sprintf_v val
  match FromString hoursString with
  | (_, some err) => (apd.Decimal.zero, some (fmt.Errorf_w "failure converting value: " (some err)))
  | (res, none) => (res, none)

end conv

/-! ## `svc/compute/store`: the rows and the gateway the biller uses -/

namespace store

structure BillingAccount where
  ID : String
  CreateTime : Time
  SupplyEnabled : Bool
  DemandEnabled : Bool
  deriving DecidableEq, Repr

structure Order where
  ID : String
  BillingAccountID : String
  ProjectID : String
  PriceHr : Float64
  deriving DecidableEq, Repr

structure Lease where
  ID : String
  OrderID : String
  CreateTime : Time
  EndTime : NullTime
  PriceHr : Float64
  deriving DecidableEq, Repr

structure ListLeasesForTimeRangeByOrderIdParams where
  OrderID : String
  StartTime : NullTime
  EndTime : Time
  deriving DecidableEq, Repr

structure CreateOrderSpendParams where
  OrderID : String
  Spend : apd.Decimal
  StartTime : Time
  EndTime : Time
  deriving DecidableEq, Repr

structure CreateProjectSpendParams where
  ProjectID : String
  Spend : apd.Decimal
  StartTime : Time
  EndTime : Time
  deriving DecidableEq, Repr

structure CreateBillingAccountSpendParams where
  BillingAccountID : String
  Spend : apd.Decimal
  StartTime : Time
  EndTime : Time
  deriving DecidableEq, Repr

/-- The part of `store.TxQuerier` the biller calls. A listing answers with rows or with an
error; an upsert answers with an error or with `none` (the row it returns is not used). -/
structure TxQuerier where
  ListAllBillingAccounts : Except String (List BillingAccount)
  ListOrdersByBillingAccountId : String → Except String (List Order)
  ListLeasesForTimeRangeByOrderId : ListLeasesForTimeRangeByOrderIdParams → Except String (List Lease)
  CreateOrderSpend : CreateOrderSpendParams → Option String
  CreateProjectSpend : CreateProjectSpendParams → Option String
  CreateBillingAccountSpend : CreateBillingAccountSpendParams → Option String

/-- A call the biller makes to the gateway. -/
inductive Call
  | ListAllBillingAccounts
  | ListOrdersByBillingAccountId (billingAccountID : String)
  | ListLeasesForTimeRangeByOrderId (arg : ListLeasesForTimeRangeByOrderIdParams)
  | CreateOrderSpend (arg : CreateOrderSpendParams)
  | CreateProjectSpend (arg : CreateProjectSpendParams)
  | CreateBillingAccountSpend (arg : CreateBillingAccountSpendParams)
  deriving DecidableEq, Repr

end store

/-! ## `svc/compute/billingaccount/biller.go` -/

namespace billingaccount

open store

/-- A Go `map[string]V`, as its entries. -/
abbrev StringMap (V : Type) := List (String × V)

/-- `m[k]`, when `k` is in the map. -/
def StringMap.get {V : Type} (m : StringMap V) (k : String) : Option V := List.lookup k m

/-- `m[k] = v`. -/
def StringMap.set {V : Type} : StringMap V → String → V → StringMap V
  | [], k, v => [(k, v)]
  | (k1, v1) :: m, k, v =>
    if k1 = k then (k, v) :: m else (k1, v1) :: StringMap.set m k v

structure OrderSpend where
  OrderID : String
  Spend : apd.Decimal
  deriving DecidableEq, Repr

structure ProjectSpend where
  ProjectID : String
  Spend : apd.Decimal
  Orders : StringMap OrderSpend
  deriving DecidableEq, Repr

structure DemandSpend where
  BillingAccountID : String
  Spend : apd.Decimal
  Projects : StringMap ProjectSpend
  deriving DecidableEq, Repr

/-- The context every multiplication and addition of the biller uses. -/
def apdContext : apd.Context := { MaxExponent := 65, MinExponent := -18, Precision := 65, Traps := 0 }

/-- `spend.Projects[projectID].Spend`. -/
def DemandSpend.projectSpend (spend : DemandSpend) (projectID : String) : apd.Decimal :=
  match spend.Projects.get projectID with
  | some p => p.Spend
  | none => apd.Decimal.zero

/-- `spend.Projects[projectID].Orders[orderID].Spend`. -/
def DemandSpend.orderSpend (spend : DemandSpend) (projectID orderID : String) : apd.Decimal :=
  match spend.Projects.get projectID with
  | some p =>
    match p.Orders.get orderID with
    | some o => o.Spend
    | none => apd.Decimal.zero
  | none => apd.Decimal.zero

/-- Stores `v` in `spend.Projects[projectID].Spend`. -/
def DemandSpend.setProjectSpend (spend : DemandSpend) (projectID : String) (v : apd.Decimal) :
    DemandSpend :=
  match spend.Projects.get projectID with
  | some p =>
    let p1 : ProjectSpend := { p with Spend := v }
    { spend with Projects := spend.Projects.set projectID p1 }
  | none => spend

/-- Stores `v` in `spend.Projects[projectID].Orders[orderID].Spend`. -/
def DemandSpend.setOrderSpend (spend : DemandSpend) (projectID orderID : String)
    (v : apd.Decimal) : DemandSpend :=
  match spend.Projects.get projectID with
  | some p =>
    match p.Orders.get orderID with
    | some o =>
      let o1 : OrderSpend := { o with Spend := v }
      let p1 : ProjectSpend := { p with Orders := p.Orders.set orderID o1 }
      { spend with Projects := spend.Projects.set projectID p1 }
    | none => spend
  | none => spend

/-- The start of the time a lease is billed for: the later of its creation and the start of
the period. -/
def leaseStartTime (lease : Lease) (startTime : Time) : Time :=
  if lease.CreateTime.After startTime then lease.CreateTime else startTime

/-- The end of the time a lease is billed for: its end when it has one before the end of the
period, the last nanosecond of the period otherwise. -/
def leaseEndTime (lease : Lease) (endTime : Time) : Time :=
  if lease.EndTime.Time.Before endTime && lease.EndTime.Valid then lease.EndTime.Time
  else endTime.Add (Nanosecond * -1)

/-- The body of the loop over the leases of an order: the spend of one lease, added to the
totals of the order, the project and the billing account. -/
def leaseStep (startTime endTime : Time) (order : Order) (spend : DemandSpend) (lease : Lease) :
    Except String DemandSpend :=
  let leaseDuration := (leaseEndTime lease endTime).Sub (leaseStartTime lease startTime)
  let leaseHours := Duration.Hours leaseDuration
  match conv.FromFloat lease.PriceHr with
  | (_, some err) => Except.error (fmt.Errorf_w "error converting price hour to decimal: " (some err))
  | (priceHrDecimal, none) =>
    match conv.FromFloat leaseHours with
    | (_, some err) =>
      Except.error (fmt.Errorf_w "error converting lease hours to decimal: " (some err))
    | (leaseHoursDecimal, none) =>
      match apdContext.Mul leaseHoursDecimal priceHrDecimal with
      | (_, _, some err) => Except.error (fmt.Errorf_w "error calculating lease spend: " (some err))
      | (leaseSpendDecimal, cond, none) =>
        if cond.Any then Except.error (fmt.Errorf_w "error calculating lease spend: " none)
        else
          let (orderTotal, cond1, err1) :=
            apdContext.Add (spend.orderSpend order.ProjectID order.ID) leaseSpendDecimal
          let spend1 := spend.setOrderSpend order.ProjectID order.ID orderTotal
          let spend2 := spend1.setProjectSpend order.ProjectID
            (apdContext.Add (spend1.projectSpend order.ProjectID) leaseSpendDecimal).1
          match err1 with
          | some err =>
            Except.error (fmt.Errorf_w "error adding lease spend to order spend: " (some err))
          | none =>
            if cond1.Any then
              Except.error (fmt.Errorf_w "error adding lease spend to project spend: " none)
            else
              Except.ok { spend2 with Spend := (apdContext.Add spend2.Spend leaseSpendDecimal).1 }

/-- The loop over the leases of an order. -/
def leasesLoop (startTime endTime : Time) (order : Order) :
    DemandSpend → List Lease → Except String DemandSpend
  | spend, [] => Except.ok spend
  | spend, lease :: leases =>
    match leaseStep startTime endTime order spend lease with
    | Except.error e => Except.error e
    | Except.ok spend1 => leasesLoop startTime endTime order spend1 leases

/-- The entries an order gets before its leases are listed: a zero entry for its project
unless the project has one, and a zero entry for the order. -/
def DemandSpend.enter (spend : DemandSpend) (order : Order) : DemandSpend :=
  let projects : StringMap ProjectSpend :=
    match spend.Projects.get order.ProjectID with
    | some _ => spend.Projects
    | none => spend.Projects.set order.ProjectID ⟨order.ProjectID, apd.New 0 0, []⟩
  match projects.get order.ProjectID with
  | some p =>
    let p1 : ProjectSpend := { p with Orders := p.Orders.set order.ID ⟨order.ID, apd.New 0 0⟩ }
    { spend with Projects := projects.set order.ProjectID p1 }
  | none => { spend with Projects := projects }

/-- The body of the loop over the orders of a billing account: the gateway calls made, in
order, and the totals after the order, or the error that ends the run. -/
def orderStep (querier : TxQuerier) (startTime endTime : Time) (spend : DemandSpend)
    (order : Order) : List Call × Except String DemandSpend :=
  let spend1 := spend.enter order
  let arg : ListLeasesForTimeRangeByOrderIdParams :=
    { OrderID := order.ID, StartTime := { Time := startTime, Valid := true }, EndTime := endTime }
  match querier.ListLeasesForTimeRangeByOrderId arg with
  | Except.error err =>
    ([Call.ListLeasesForTimeRangeByOrderId arg],
      Except.error (fmt.Errorf_w "list leases for time range by order id failed: " (some err)))
  | Except.ok leases =>
    match leasesLoop startTime endTime order spend1 leases with
    | Except.error e => ([Call.ListLeasesForTimeRangeByOrderId arg], Except.error e)
    | Except.ok spend2 =>
      let orderArg : CreateOrderSpendParams :=
        { OrderID := order.ID, Spend := spend2.orderSpend order.ProjectID order.ID,
          StartTime := startTime, EndTime := endTime }
      match querier.CreateOrderSpend orderArg with
      | some err =>
        ([Call.ListLeasesForTimeRangeByOrderId arg, Call.CreateOrderSpend orderArg],
          Except.error (fmt.Errorf_w "create order spend failed: " (some err)))
      | none =>
        let projectArg : CreateProjectSpendParams :=
          { ProjectID := order.ProjectID, Spend := spend2.projectSpend order.ProjectID,
            StartTime := startTime, EndTime := endTime }
        match querier.CreateProjectSpend projectArg with
        | some err =>
          ([Call.ListLeasesForTimeRangeByOrderId arg, Call.CreateOrderSpend orderArg,
              Call.CreateProjectSpend projectArg],
            Except.error (fmt.Errorf_w "create project spend failed: " (some err)))
        | none =>
          ([Call.ListLeasesForTimeRangeByOrderId arg, Call.CreateOrderSpend orderArg,
              Call.CreateProjectSpend projectArg], Except.ok spend2)

/-- The loop over the orders of a billing account. -/
def ordersLoop (querier : TxQuerier) (startTime endTime : Time) :
    DemandSpend → List Order → List Call × Except String DemandSpend
  | spend, [] => ([], Except.ok spend)
  | spend, order :: orders =>
    match orderStep querier startTime endTime spend order with
    | (calls, Except.error e) => (calls, Except.error e)
    | (calls, Except.ok spend1) =>
      ((calls ++ (ordersLoop querier startTime endTime spend1 orders).1),
        (ordersLoop querier startTime endTime spend1 orders).2)

/-- The body of the loop over the billing accounts: the gateway calls made, in order, and
the error that ends the run, if any. -/
def accountStep (querier : TxQuerier) (startTime endTime : Time) (billingAccount : BillingAccount) :
    List Call × Option String :=
  let spend : DemandSpend :=
    { BillingAccountID := billingAccount.ID, Projects := [], Spend := apd.New 0 0 }
  match querier.ListOrdersByBillingAccountId billingAccount.ID with
  | Except.error err =>
    ([Call.ListOrdersByBillingAccountId billingAccount.ID],
      some (fmt.Errorf_w "error when listing orders for billing account: " (some err)))
  | Except.ok orders =>
    match ordersLoop querier startTime endTime spend orders with
    | (calls, Except.error e) => (Call.ListOrdersByBillingAccountId billingAccount.ID :: calls, some e)
    | (calls, Except.ok spend1) =>
      let accountArg : CreateBillingAccountSpendParams :=
        { BillingAccountID := billingAccount.ID, Spend := spend1.Spend,
          StartTime := startTime, EndTime := endTime }
      match querier.CreateBillingAccountSpend accountArg with
      | some err =>
        (Call.ListOrdersByBillingAccountId billingAccount.ID ::
            (calls ++ [Call.CreateBillingAccountSpend accountArg]),
          some (fmt.Errorf_w "create billing account spend failed: " (some err)))
      | none =>
        (Call.ListOrdersByBillingAccountId billingAccount.ID ::
            (calls ++ [Call.CreateBillingAccountSpend accountArg]), none)

/-- `Biller.calculateDemandSpend`: the spend of demand customers, billing account by billing
account. Returns the gateway calls made, in order, and the error (`none` for `nil`). -/
def calculateDemandSpend (querier : TxQuerier) :
    List BillingAccount → Time → Time → List Call × Option String
  | [], _, _ => ([], none)
  | billingAccount :: billingAccounts, startTime, endTime =>
    match accountStep querier startTime endTime billingAccount with
    | (calls, some e) => (calls, some e)
    | (calls, none) =>
      ((calls ++ (calculateDemandSpend querier billingAccounts startTime endTime).1),
        (calculateDemandSpend querier billingAccounts startTime endTime).2)

/-- `Biller.Run`, with `now` the value of `time.Now()`. The period is the month of `now`:
from its first nanosecond to the first nanosecond of the next month. The error of
`calculateDemandSpend` is logged, and `nil` returned. -/
def Run (querier : TxQuerier) (now : ZonedTime) : List Call × Option String :=
  match querier.ListAllBillingAccounts with
  | Except.error err => ([Call.ListAllBillingAccounts], some err)
  | Except.ok billingAccounts =>
    let startTime := time.Date now.Year now.Month 1 0 0 0 0 now.Location
    let endTime := startTime.AddDate 0 1 0
    let (calls, _) := calculateDemandSpend querier billingAccounts startTime.instant endTime.instant
    (Call.ListAllBillingAccounts :: calls, none)

end billingaccount

/-! ## Values and sample inputs used in the statements -/

namespace apd

/-- The number a finite decimal denotes: `(-1)^Negative * Coeff * 10^Exponent`. -/
def Decimal.value (d : Decimal) : ℚ :=
  (if d.Negative then -1 else 1) * (d.Coeff : ℚ) * (10 : ℚ) ^ d.Exponent

/-- The coefficient of a decimal with its sign. -/
def Decimal.signedCoeff (d : Decimal) : Int := if d.Negative then -(d.Coeff : Int) else d.Coeff

/-- The exact sum of two finite decimals, written at the smaller of their two exponents. -/
def exactSum (x y : Decimal) : Decimal :=
  let s : Int := min x.Exponent y.Exponent
  let n : Int := x.signedCoeff * 10 ^ (x.Exponent - s).toNat +
    y.signedCoeff * 10 ^ (y.Exponent - s).toNat
  ⟨Form.Finite, decide (n < 0), s, n.natAbs⟩

end apd

/-- The text of the digits after the point, with the point. -/
def pointPart : Option (List Char) → List Char
  | some f => '.' :: f
  | none => []

/-- The text of an exponent, as `%e` writes it: `e`, the sign and at least two digits. -/
def expText (e : Int) : List Char := (if e < 0 then '-' else '+') :: strconv.expDigits e.natAbs

/-- The text of an optional exponent, with its `e`. -/
def expPart : Option Int → List Char
  | some e => 'e' :: expText e
  | none => []

/-- The text of a numeral: an optional `-`, the digits `ip` before the point, the digits `fp`
after the point when there is one, and the exponent when there is one. -/
def numeral (neg : Bool) (ip : List Char) (fp : Option (List Char)) (exp : Option Int) :
    List Char :=
  (if neg then ['-'] else []) ++ (ip ++ (pointPart fp ++ expPart exp))

namespace Float64

/-- The float a Go literal with digits `n` and decimal exponent `e` denotes: the float nearest
to `n * 10 ^ e`. -/
def ofLiteral (n : Nat) (e : Int) : Float64 :=
  if e ≥ 0 then round false (n * 10 ^ e.toNat) 1 else round false n (10 ^ (-e).toNat)

end Float64

namespace billingaccount

open store

/-- The billing accounts of the tests of the biller. -/
def testAccounts : List BillingAccount :=
  [⟨"1", 1578009600000000000, true, true⟩, ⟨"2", 1578182400000000000, true, true⟩]

/-- A gateway like the fake of the tests: every listing of orders answers `orders`, every
listing of leases `leases`, and the three upserts answer with the given errors. -/
def fakeQuerier (orders : Except String (List Order)) (leases : Except String (List Lease))
    (orderErr projectErr accountErr : Option String) : TxQuerier :=
  { ListAllBillingAccounts := Except.ok testAccounts
    ListOrdersByBillingAccountId := fun _ => orders
    ListLeasesForTimeRangeByOrderId := fun _ => leases
    CreateOrderSpend := fun _ => orderErr
    CreateProjectSpend := fun _ => projectErr
    CreateBillingAccountSpend := fun _ => accountErr }

/-- The gateway of the test "should fail when ListOrdersByBillingAccountId query returns an
error". -/
def failingOrdersQuerier : TxQuerier :=
  fakeQuerier (Except.error "list orders by billing account id error") (Except.ok []) none none none

/-- The billing account of the tests that compute a spend. -/
def oneAccount : List BillingAccount := [⟨"1", 1577836800000000000, true, true⟩]

/-- The order of the tests that compute a spend. -/
def oneOrder : List Order := [⟨"1", "1", "1", Float64.ofInt 100⟩]

/-- The period of the tests: from 2020-01-01 to 2020-01-30, UTC. -/
def testStart : Time := 1577836800000000000
def testEnd : Time := 1580342400000000000

/-- A lease of one hour from the start of the test period, at `1e66` an hour. -/
def hugePriceLease : Lease :=
  ⟨"1", "1", testStart, ⟨testStart + Hour, true⟩, Float64.ofLiteral 1 66⟩

/-- A gateway with three orders under one project, each with one lease of one hour: the lease
of order `1` costs `1` an hour, the leases of orders `2` and `3` cost `5e64` an hour. -/
def overflowQuerier : TxQuerier :=
  { ListAllBillingAccounts := Except.ok oneAccount
    ListOrdersByBillingAccountId := fun _ =>
      Except.ok [⟨"1", "1", "1", Float64.ofInt 1⟩, ⟨"2", "1", "1", Float64.ofLiteral 5 64⟩,
        ⟨"3", "1", "1", Float64.ofLiteral 5 64⟩]
    ListLeasesForTimeRangeByOrderId := fun arg =>
      if arg.OrderID = "1" then
        Except.ok [⟨"1", "1", testStart, ⟨testStart + Hour, true⟩, Float64.ofInt 1⟩]
      else
        Except.ok [⟨arg.OrderID, arg.OrderID, testStart, ⟨testStart + Hour, true⟩,
          Float64.ofLiteral 5 64⟩]
    CreateOrderSpend := fun _ => none
    CreateProjectSpend := fun _ => none
    CreateBillingAccountSpend := fun _ => none }

/-- The spends of the upserts among `calls`, in order: the level, the entity id and the
spend. -/
def upsertSpends (calls : List Call) : List (String × String × apd.Decimal) :=
  calls.filterMap (fun c =>
    match c with
    | Call.CreateOrderSpend a => some ("order", a.OrderID, a.Spend)
    | Call.CreateProjectSpend a => some ("project", a.ProjectID, a.Spend)
    | Call.CreateBillingAccountSpend a => some ("account", a.BillingAccountID, a.Spend)
    | _ => none)

/-- The leases of the test "should calculate spend for all models when end time on lease is
defined": one from 2020-01-01 to 2020-01-02 and one from 2020-01-02 to 2020-01-04, both at
`100` an hour. -/
def endDefinedLeases : List Lease :=
  [⟨"1", "1", 1577836800000000000, ⟨1577923200000000000, true⟩, Float64.ofInt 100⟩,
   ⟨"2", "1", 1577923200000000000, ⟨1578096000000000000, true⟩, Float64.ofInt 100⟩]

/-- The totals of a billing account with one project and one order in it: the total of the
order, of the project and of the account. -/
def singleSpend (accountID : String) (order : Order) (vo vp va : apd.Decimal) : DemandSpend :=
  { BillingAccountID := accountID, Spend := va,
    Projects := [(order.ProjectID, ⟨order.ProjectID, vp, [(order.ID, ⟨order.ID, vo⟩)]⟩)] }

end billingaccount

namespace billingaccount

open store

/-- A gateway with two orders under one project, each lease of one hour: order `1` has a lease
at `1` an hour and a lease at `5e64` an hour, order `2` has a lease at `5e64` an hour. -/
def roundingQuerier : TxQuerier :=
  { ListAllBillingAccounts := Except.ok oneAccount
    ListOrdersByBillingAccountId := fun _ =>
      Except.ok [⟨"1", "1", "1", Float64.ofInt 1⟩, ⟨"2", "1", "1", Float64.ofInt 1⟩]
    ListLeasesForTimeRangeByOrderId := fun arg =>
      if arg.OrderID = "1" then
        Except.ok [⟨"1", "1", testStart, ⟨testStart + Hour, true⟩, Float64.ofInt 1⟩,
          ⟨"2", "1", testStart, ⟨testStart + Hour, true⟩, Float64.ofLiteral 5 64⟩]
      else
        Except.ok [⟨"3", "2", testStart, ⟨testStart + Hour, true⟩, Float64.ofLiteral 5 64⟩]
    CreateOrderSpend := fun _ => none
    CreateProjectSpend := fun _ => none
    CreateBillingAccountSpend := fun _ => none }

/-- Five leases of one hour whose prices add up to `10 ^ 65 - 10`, a number of 65 digits. -/
def ninesLeases : List Lease :=
  [⟨"1", "1", testStart, ⟨testStart + Hour, true⟩, Float64.ofLiteral 999999999999999 50⟩,
   ⟨"2", "1", testStart, ⟨testStart + Hour, true⟩, Float64.ofLiteral 999999999999999 35⟩,
   ⟨"3", "1", testStart, ⟨testStart + Hour, true⟩, Float64.ofLiteral 999999999999999 20⟩,
   ⟨"4", "1", testStart, ⟨testStart + Hour, true⟩, Float64.ofLiteral 999999999999999 5⟩,
   ⟨"5", "1", testStart, ⟨testStart + Hour, true⟩, Float64.ofInt 99990⟩]

/-- Two leases of one hour, at `15` and at `5` an hour. -/
def smallLeases : List Lease :=
  [⟨"6", "2", testStart, ⟨testStart + Hour, true⟩, Float64.ofInt 15⟩,
   ⟨"7", "2", testStart, ⟨testStart + Hour, true⟩, Float64.ofInt 5⟩]

/-- A gateway with two orders under one project: the leases of order `1` are `ninesLeases`,
those of order `2` are `leases`. -/
def permQuerier (leases : List Lease) : TxQuerier :=
  { ListAllBillingAccounts := Except.ok oneAccount
    ListOrdersByBillingAccountId := fun _ =>
      Except.ok [⟨"1", "1", "1", Float64.ofInt 1⟩, ⟨"2", "1", "1", Float64.ofInt 1⟩]
    ListLeasesForTimeRangeByOrderId := fun arg =>
      if arg.OrderID = "1" then Except.ok ninesLeases else Except.ok leases
    CreateOrderSpend := fun _ => none
    CreateProjectSpend := fun _ => none
    CreateBillingAccountSpend := fun _ => none }

end billingaccount

namespace billingaccount

open store

/-- The error `calculateDemandSpend` returns when the gateway answers a call with an error:
the error of the gateway, wrapped with the stage that failed. `none` when the gateway answers
the call without an error. -/
def callError (querier : TxQuerier) : Call → Option String
  | Call.ListAllBillingAccounts => none
  | Call.ListOrdersByBillingAccountId billingAccountID =>
    match querier.ListOrdersByBillingAccountId billingAccountID with
    | Except.error e => some ("error when listing orders for billing account: " ++ e)
    | Except.ok _ => none
  | Call.ListLeasesForTimeRangeByOrderId arg =>
    match querier.ListLeasesForTimeRangeByOrderId arg with
    | Except.error e => some ("list leases for time range by order id failed: " ++ e)
    | Except.ok _ => none
  | Call.CreateOrderSpend arg =>
    match querier.CreateOrderSpend arg with
    | some e => some ("create order spend failed: " ++ e)
    | none => none
  | Call.CreateProjectSpend arg =>
    match querier.CreateProjectSpend arg with
    | some e => some ("create project spend failed: " ++ e)
    | none => none
  | Call.CreateBillingAccountSpend arg =>
    match querier.CreateBillingAccountSpend arg with
    | some e => some ("create billing account spend failed: " ++ e)
    | none => none

/-- A log of calls and the error of a run fit together: without an error every call was
answered without one; with an error every call but the last was, and the last call either
failed with that error or was the last before a failure that is not the gateway's. -/
def Traced (querier : TxQuerier) (calls : List Call) (err : Option String) : Prop :=
  match err with
  | none => ∀ c ∈ calls, callError querier c = none
  | some m => ∃ pre c, calls = pre ++ [c] ∧ (∀ x ∈ pre, callError querier x = none) ∧
      (callError querier c = some m ∨ callError querier c = none)

/-- The error of a result, if it is one. -/
def errorOf {α : Type} : Except String α → Option String
  | Except.error e => some e
  | Except.ok _ => none

end billingaccount

namespace billingaccount

open store

/-- The orders of the tests in which a call to the gateway fails. -/
def twoOrders : List Order :=
  [⟨"1", "1", "1", Float64.ofInt 100⟩, ⟨"2", "1", "2", Float64.ofInt 150⟩]

end billingaccount

namespace billingaccount

open store

/-- A call without the spend it carries: the spend of an upsert is replaced by zero. -/
def Call.withoutSpend : Call → Call
  | Call.CreateOrderSpend arg => Call.CreateOrderSpend { arg with Spend := apd.New 0 0 }
  | Call.CreateProjectSpend arg => Call.CreateProjectSpend { arg with Spend := apd.New 0 0 }
  | Call.CreateBillingAccountSpend arg =>
    Call.CreateBillingAccountSpend { arg with Spend := apd.New 0 0 }
  | c => c

/-- The orders the gateway lists for a billing account, none when the listing fails. -/
def ordersOf (querier : TxQuerier) (billingAccountID : String) : List Order :=
  match querier.ListOrdersByBillingAccountId billingAccountID with
  | Except.ok orders => orders
  | Except.error _ => []

end billingaccount

namespace billingaccount

open store

/-- Two gateways give the same answer to a call. -/
def sameAnswer (q1 q2 : TxQuerier) : Call → Prop
  | Call.ListAllBillingAccounts => q1.ListAllBillingAccounts = q2.ListAllBillingAccounts
  | Call.ListOrdersByBillingAccountId billingAccountID =>
    q1.ListOrdersByBillingAccountId billingAccountID =
      q2.ListOrdersByBillingAccountId billingAccountID
  | Call.ListLeasesForTimeRangeByOrderId arg =>
    q1.ListLeasesForTimeRangeByOrderId arg = q2.ListLeasesForTimeRangeByOrderId arg
  | Call.CreateOrderSpend arg => q1.CreateOrderSpend arg = q2.CreateOrderSpend arg
  | Call.CreateProjectSpend arg => q1.CreateProjectSpend arg = q2.CreateProjectSpend arg
  | Call.CreateBillingAccountSpend arg =>
    q1.CreateBillingAccountSpend arg = q2.CreateBillingAccountSpend arg

/-- Two logs of calls part at a call: they are the same up to a call that both make and that
the two gateways answer differently, and the gateways answer every call before it the same. -/
def Diverge (q1 q2 : TxQuerier) (calls1 calls2 : List Call) : Prop :=
  ∃ pre c post1 post2, calls1 = pre ++ c :: post1 ∧ calls2 = pre ++ c :: post2 ∧
    (∀ x ∈ pre, sameAnswer q1 q2 x) ∧ ¬ sameAnswer q1 q2 c

/-- The call that lists the leases of an order. -/
abbrev leasesCall (startTime endTime : Time) (order : Order) : Call :=
  Call.ListLeasesForTimeRangeByOrderId
    { OrderID := order.ID, StartTime := { Time := startTime, Valid := true },
      EndTime := endTime }

/-- The upsert of the total of an order, as it stands in `spend`. -/
abbrev orderSpendCall (startTime endTime : Time) (order : Order) (spend : DemandSpend) : Call :=
  Call.CreateOrderSpend
    { OrderID := order.ID, Spend := spend.orderSpend order.ProjectID order.ID,
      StartTime := startTime, EndTime := endTime }

/-- The upsert of the total of the project of an order, as it stands in `spend`. -/
abbrev projectSpendCall (startTime endTime : Time) (order : Order) (spend : DemandSpend) : Call :=
  Call.CreateProjectSpend
    { ProjectID := order.ProjectID, Spend := spend.projectSpend order.ProjectID,
      StartTime := startTime, EndTime := endTime }

end billingaccount

namespace store

/-- A row of one of the tables `order_spend`, `project_spend` and `billing_account_spend`
that the upserts of `spend.sql.go` write: the id of the entity, the spend and the period.
The column `uid` is left out: the biller does not set `Uid`, so it is the same in every row
it writes. -/
structure SpendRow where
  ID : String
  Spend : apd.Decimal
  StartTime : Time
  EndTime : Time
  deriving DecidableEq, Repr

/-- The columns of the `ON CONFLICT` clause: the id of the entity and the period. -/
def SpendRow.key (r : SpendRow) : String × Time × Time := (r.ID, r.StartTime, r.EndTime)

/-- `INSERT INTO ... VALUES (...) ON CONFLICT (id, start_time, end_time) DO UPDATE SET
spend = $3`: the spend of the rows with the key of `r` becomes the spend of `r`; without such
a row, `r` is inserted. -/
def upsertRow (rows : List SpendRow) (r : SpendRow) : List SpendRow :=
  if rows.any (fun x => decide (x.key = r.key)) then
    rows.map (fun x => if x.key = r.key then { x with Spend := r.Spend } else x)
  else rows ++ [r]

/-- The three tables of rollups. -/
structure SpendTables where
  orderSpend : List SpendRow
  projectSpend : List SpendRow
  billingAccountSpend : List SpendRow
  deriving DecidableEq, Repr

/-- What a call does to the tables: an upsert writes its row, a listing nothing. -/
def SpendTables.apply (t : SpendTables) : Call → SpendTables
  | Call.CreateOrderSpend arg =>
    let row : SpendRow := ⟨arg.OrderID, arg.Spend, arg.StartTime, arg.EndTime⟩
    { t with orderSpend := upsertRow t.orderSpend row }
  | Call.CreateProjectSpend arg =>
    let row : SpendRow := ⟨arg.ProjectID, arg.Spend, arg.StartTime, arg.EndTime⟩
    { t with projectSpend := upsertRow t.projectSpend row }
  | Call.CreateBillingAccountSpend arg =>
    let row : SpendRow := ⟨arg.BillingAccountID, arg.Spend, arg.StartTime, arg.EndTime⟩
    { t with billingAccountSpend := upsertRow t.billingAccountSpend row }
  | _ => t

/-- What a log of calls does to the tables, call by call. -/
def SpendTables.run (t : SpendTables) (calls : List Call) : SpendTables :=
  calls.foldl SpendTables.apply t

/-- Every table has at most one row for a key. -/
def SpendTables.WellKeyed (t : SpendTables) : Prop :=
  (t.orderSpend.map SpendRow.key).Nodup ∧ (t.projectSpend.map SpendRow.key).Nodup ∧
    (t.billingAccountSpend.map SpendRow.key).Nodup

/-- The spend of the last row of `ops` with the key `k`, if there is one. -/
def lastSpend (ops : List SpendRow) (k : String × Time × Time) : Option apd.Decimal :=
  match ops with
  | [] => none
  | op :: ops =>
    match lastSpend ops k with
    | some v => some v
    | none => if op.key = k then some op.Spend else none

/-- A row with its spend replaced by the last spend that `ops` has for its key. -/
def overwrite (ops : List SpendRow) (x : SpendRow) : SpendRow :=
  match lastSpend ops x.key with
  | some v => { x with Spend := v }
  | none => x

/-- The rows that the upserts of a log write into `order_spend`. -/
def orderRows (calls : List Call) : List SpendRow :=
  calls.filterMap (fun c =>
    match c with
    | Call.CreateOrderSpend arg => some ⟨arg.OrderID, arg.Spend, arg.StartTime, arg.EndTime⟩
    | _ => none)

/-- The rows that the upserts of a log write into `project_spend`. -/
def projectRows (calls : List Call) : List SpendRow :=
  calls.filterMap (fun c =>
    match c with
    | Call.CreateProjectSpend arg => some ⟨arg.ProjectID, arg.Spend, arg.StartTime, arg.EndTime⟩
    | _ => none)

/-- The rows that the upserts of a log write into `billing_account_spend`. -/
def accountRows (calls : List Call) : List SpendRow :=
  calls.filterMap (fun c =>
    match c with
    | Call.CreateBillingAccountSpend arg =>
      some ⟨arg.BillingAccountID, arg.Spend, arg.StartTime, arg.EndTime⟩
    | _ => none)

end store

namespace billingaccount

open store

/-- A gateway on top of tables of rollups: the listings answer as given, and the upserts
succeed (what they write is `SpendTables.apply`). -/
def storeQuerier (listOrders : String → Except String (List Order))
    (listLeases : ListLeasesForTimeRangeByOrderIdParams → Except String (List Lease)) :
    TxQuerier :=
  { ListAllBillingAccounts := Except.ok []
    ListOrdersByBillingAccountId := listOrders
    ListLeasesForTimeRangeByOrderId := listLeases
    CreateOrderSpend := fun _ => none
    CreateProjectSpend := fun _ => none
    CreateBillingAccountSpend := fun _ => none }

/-- A run of `calculateDemandSpend` against a gateway on top of the tables `t`: the tables
after the run, and the error of the run. -/
def runOnTables (listOrders : String → Except String (List Order))
    (listLeases : ListLeasesForTimeRangeByOrderIdParams → Except String (List Lease))
    (billingAccounts : List BillingAccount) (startTime endTime : Time) (t : SpendTables) :
    SpendTables × Option String :=
  (t.run (calculateDemandSpend (storeQuerier listOrders listLeases) billingAccounts startTime
      endTime).1,
    (calculateDemandSpend (storeQuerier listOrders listLeases) billingAccounts startTime
      endTime).2)

end billingaccount

/-- `t.Clock()`: hour, minute and second on the wall clock. -/
def ZonedTime.Clock (t : ZonedTime) : Int × Int × Int :=
  let secs : Int := t.abs - 86400 * Int.fdiv t.abs 86400
  (Int.fdiv secs 3600, Int.fdiv (secs - 3600 * Int.fdiv secs 3600) 60,
    secs - 60 * Int.fdiv secs 60)

/-- `t.Nanosecond()`: the nanoseconds within the second. -/
def ZonedTime.Nanosecond (t : ZonedTime) : Int :=
  t.instant - 1000000000 * Int.fdiv t.instant 1000000000

/-- The wall-clock reading, in seconds since 1970-01-01 00:00:00, of 00:00:00 on the first
day of month `m` of year `y`. -/
def monthStart (y m : Int) : Int := daysFromCivil y m 1 * 86400

/-- The location does not change its offset around the wall-clock reading `wall`: the zone
in force at the Unix time `wall` has the offset of the zone in force at the Unix time that is
`wall` less that offset, which is when the wall clock shows `wall`. So it is in a location
with one fixed offset; it fails when a change of offset skips the reading. -/
def Location.regularAt (loc : Location) (wall : Int) : Prop :=
  (loc.lookup (wall - (loc.lookup wall).1)).1 = (loc.lookup wall).1

/-- A location whose clocks go forward by an hour at local midnight on 2017-10-01, from four
to three hours behind UTC, as in a zone whose daylight saving time starts at 00:00 on the
first Sunday of October: the wall clock never shows 2017-10-01 00:00:00. -/
def midnightGap : Location :=
  ⟨fun unix =>
    if unix < 1506830400 then (-14400, -(2 ^ 63), 1506830400)
    else (-10800, 1506830400, 2 ^ 63 - 1)⟩

namespace billingaccount

open store

/-- A gateway with the billing account and the order of the tests, and no lease. -/
def idleQuerier : TxQuerier :=
  { ListAllBillingAccounts := Except.ok oneAccount
    ListOrdersByBillingAccountId := fun _ => Except.ok oneOrder
    ListLeasesForTimeRangeByOrderId := fun _ => Except.ok []
    CreateOrderSpend := fun _ => none
    CreateProjectSpend := fun _ => none
    CreateBillingAccountSpend := fun _ => none }

end billingaccount

namespace billingaccount

open store

/-- A gateway whose listing of the billing accounts fails. -/
def failingAccountsQuerier : TxQuerier :=
  { ListAllBillingAccounts := Except.error "list all billing accounts error"
    ListOrdersByBillingAccountId := fun _ => Except.ok []
    ListLeasesForTimeRangeByOrderId := fun _ => Except.ok []
    CreateOrderSpend := fun _ => none
    CreateProjectSpend := fun _ => none
    CreateBillingAccountSpend := fun _ => none }

/-- A lease created two days before the start of the test period and ended one day before
it, at `100` an hour. -/
def endedBeforeLease : Lease :=
  ⟨"1", "1", testStart - 48 * Hour, ⟨testStart - 24 * Hour, true⟩, Float64.ofInt 100⟩

/-- The gateway `querier` with the `PriceHr` of every listed order replaced by `price` of the
order. -/
def repriced (querier : TxQuerier) (price : Order → Float64) : TxQuerier :=
  { querier with
    ListOrdersByBillingAccountId := fun billingAccountID =>
      match querier.ListOrdersByBillingAccountId billingAccountID with
      | Except.error err => Except.error err
      | Except.ok orders => Except.ok (orders.map (fun o => { o with PriceHr := price o })) }

end billingaccount

namespace billingaccount

open store

/-- An order without its price: the `PriceHr` is set to zero, the other fields are kept. -/
def withoutPrice (order : Order) : Order := { order with PriceHr := Float64.Zero false }

/-- Two gateways whose inputs to a run differ at most in the `PriceHr` of the orders: their
listings of orders fail alike or list the same orders up to the prices, and their other
operations are the same. -/
def samePricelessInputs (q1 q2 : TxQuerier) : Prop :=
  (∀ billingAccountID : String,
    match q1.ListOrdersByBillingAccountId billingAccountID,
      q2.ListOrdersByBillingAccountId billingAccountID with
    | Except.ok orders1, Except.ok orders2 => orders1.map withoutPrice = orders2.map withoutPrice
    | Except.error err1, Except.error err2 => err1 = err2
    | _, _ => False) ∧
  q1.ListLeasesForTimeRangeByOrderId = q2.ListLeasesForTimeRangeByOrderId ∧
  q1.CreateOrderSpend = q2.CreateOrderSpend ∧
  q1.CreateProjectSpend = q2.CreateProjectSpend ∧
  q1.CreateBillingAccountSpend = q2.CreateBillingAccountSpend

end billingaccount

/-! ## Resource ids (package `resource`) -/

namespace resource

/-- The class `[a-z]`. -/
def isLower (c : Char) : Bool := decide ('a'.toNat ≤ c.toNat) && decide (c.toNat ≤ 'z'.toNat)

/-- The class `[0-9]`. -/
def isDigit (c : Char) : Bool := decide ('0'.toNat ≤ c.toNat) && decide (c.toNat ≤ '9'.toNat)

/-- The class `[a-z0-9]`. -/
def isLowerOrDigit (c : Char) : Bool := isLower c || isDigit c

/-- The class `[a-z0-9-]`. -/
def isLowerDigitOrDash (c : Char) : Bool := isLower c || isDigit c || c == '-'

/-- A match of `^[a-z]([a-z0-9-]{0,61}[a-z0-9])?$` against the whole text: a letter, then
either nothing, or at most 61 characters of `[a-z0-9-]` followed by one of `[a-z0-9]`. -/
def resourceIDRegexp : List Char → Bool
  | [] => false
  | c :: rest =>
    isLower c &&
      (rest.isEmpty ||
        (decide (rest.dropLast.length ≤ 61) && rest.dropLast.all isLowerDigitOrDash &&
          (rest.getLast?.map isLowerOrDigit).getD false))

/-- `ValidResourceID`. -/
def ValidResourceID (s : String) : Bool := resourceIDRegexp s.toList

/-- A match of `^[a-z][0-9a-z-]{10}[0-9a-z]$` against the whole text: a letter, then ten
characters of `[0-9a-z-]`, then one of `[0-9a-z]`. -/
def nanoIDRegexp : List Char → Bool
  | [] => false
  | c :: rest =>
    isLower c &&
      (decide (rest.dropLast.length = 10) && rest.dropLast.all isLowerDigitOrDash &&
        (rest.getLast?.map isLowerOrDigit).getD false)

/-- `ValidNanoID`. -/
def ValidNanoID (s : String) : Bool := nanoIDRegexp s.toList

def startAlphabet : List Char := "abcdefghijklmnopqrstuvwxyz".toList
def midAlphabet : List Char := "-0123456789abcdefghijklmnopqrstuvwxyz".toList
def endAlphabet : List Char := "0123456789abcdefghijklmnopqrstuvwxyz".toList

/-- `binary.LittleEndian.Uint32` of the first four bytes of `b`. -/
def Uint32 (b : List Nat) : Nat :=
  b.getD 0 0 % 256 + 256 * (b.getD 1 0 % 256) + 65536 * (b.getD 2 0 % 256) +
    16777216 * (b.getD 3 0 % 256)

/-- The body of the loop of `NewNanoID`: the character at position `i` of an id of `size`
characters, from the random `bytes`. -/
def idRune (size : Nat) (bytes : List Nat) (i : Nat) : Char :=
  let alphabet :=
    if 0 < i ∧ i + 1 < size then midAlphabet
    else if i + 1 = size then endAlphabet
    else startAlphabet
  let n := Uint32 (bytes.drop (i * 4))
  alphabet.getD (n % 2 ^ 32 % (alphabet.length % 2 ^ 32)) 'a'

/-- `NewNanoID`, with `read` the outcome of `rand.Read` on the `size * 4` bytes: the bytes it
delivered, or its error. Returns the id and the error. -/
def NewNanoID (size : Nat) (read : Except String (List Nat)) : String × Option String :=
  match read with
  | Except.error err => ("", some err)
  | Except.ok bytes => (String.mk ((List.range size).map (idRune size bytes)), none)

end resource

/-! ## The project service (packages `codes`, `status`, `pgx`, `store`, `billingaccount`,
`project`) -/

namespace codes

/-- The gRPC status codes the project service answers with. -/
inductive Code
  | InvalidArgument
  | NotFound
  | AlreadyExists
  | PermissionDenied
  | Internal
  deriving DecidableEq, Repr

/-- `Code.String`. -/
def Code.String : Code → String
  | Code.InvalidArgument => "InvalidArgument"
  | Code.NotFound => "NotFound"
  | Code.AlreadyExists => "AlreadyExists"
  | Code.PermissionDenied => "PermissionDenied"
  | Code.Internal => "Internal"

end codes

/-- A Go `error` met by the project service: the value `pgx.ErrNoRows`, a gRPC status error
with its code and message, or any other error, with its message. -/
inductive GoError
  | ErrNoRows
  | status (code : codes.Code) (msg : String)
  | other (msg : String)
  deriving DecidableEq, Repr

/-- The method `Error` of an error: its message. -/
def GoError.Error : GoError → String
  | GoError.ErrNoRows => "no rows in result set"
  | GoError.status code msg => "rpc error: code = " ++ code.String ++ " desc = " ++ msg
  | GoError.other msg => msg

namespace status

/-- `status.Error`, for a code other than `OK`. -/
def Error (c : codes.Code) (msg : String) : GoError := GoError.status c msg

end status

namespace store

/-- A row of the table `project`, with the columns `Queries.UpdateProject` scans. -/
structure Project where
  ID : String
  CreateTime : Time
  BillingAccountID : String
  deriving DecidableEq, Repr

structure CreateProjectParams where
  ID : String
  BillingAccountID : String
  deriving DecidableEq, Repr

structure UpdateProjectParams where
  BillingAccountID : String
  ID : String
  deriving DecidableEq, Repr

/-- The parameters `Queries.UpdateProject` binds to `$1` and `$2` of
`UPDATE "project" SET billing_account_id = $1 WHERE id = $2`. -/
def UpdateProjectParams.bound (arg : UpdateProjectParams) : String × String :=
  (arg.BillingAccountID, arg.ID)

/-- The queries of `store.Querier` the project service makes in a transaction. Each returns
its value and its error, as in Go. -/
structure Querier where
  FindBillingAccountById : String → BillingAccount × Option GoError
  FindProjectExistsById : String → Bool × Option GoError
  CreateProject : CreateProjectParams → Project × Option GoError
  SelectProjectForUpdate : String → Project × Option GoError
  UpdateProject : UpdateProjectParams → Project × Option GoError

end store

namespace billingaccount

/-- `EnsureDemandEnabled`: `nil` when the billing account is found and enabled for demand, a
status error otherwise. -/
def EnsureDemandEnabled (querier : store.Querier) (accountID : String) : Option GoError :=
  match querier.FindBillingAccountById accountID with
  | (account, err) =>
    if err = some GoError.ErrNoRows then
      some (status.Error codes.Code.NotFound "billing account not found")
    else
      match err with
      | some e => some (status.Error codes.Code.Internal e.Error)
      | none =>
        if !account.DemandEnabled then
          some (status.Error codes.Code.PermissionDenied "billing account not enabled for demand")
        else none

end billingaccount

namespace project

/-- The message `Project` of the service. -/
structure Project where
  Id : String
  BillingAccountId : String
  deriving DecidableEq, Repr

structure CreateProjectRequest where
  Project : Project
  deriving DecidableEq, Repr

/-- The request of `UpdateProject`; its update mask is not read by the code. -/
structure UpdateProjectRequest where
  Project : Project
  deriving DecidableEq, Repr

/-- The server with its gateway: the error of `BeginTx`, the queries of the transaction it
returns, and the error of the `Commit` of that transaction. -/
structure server where
  BeginTx : Option GoError
  txq : store.Querier
  Commit : Option GoError

/-- A call the project service makes to its gateway, with its argument. -/
inductive Call
  | BeginTx
  | FindBillingAccountById (id : String)
  | FindProjectExistsById (id : String)
  | CreateProject (arg : store.CreateProjectParams)
  | SelectProjectForUpdate (id : String)
  | UpdateProject (arg : store.UpdateProjectParams)
  | Commit
  | Rollback
  deriving DecidableEq, Repr

def toProjectPb (p : store.Project) : Project :=
  { BillingAccountId := p.BillingAccountID, Id := p.ID }

/-- `server.CreateProject`: the gateway calls made, in order (the deferred `Rollback` last),
the project returned and the error. -/
def CreateProject (s : server) (req : CreateProjectRequest) : List Call × Project × Option GoError :=
  let res : Project := ⟨"", ""⟩
  if req.Project.Id = "" then
    ([], res, some (status.Error codes.Code.InvalidArgument "project id is required"))
  else if !resource.ValidResourceID req.Project.Id then
    ([], res, some (status.Error codes.Code.InvalidArgument "invalid project id"))
  else if !resource.ValidResourceID req.Project.BillingAccountId then
    ([], res, some (status.Error codes.Code.InvalidArgument "invalid account id"))
  else
    match s.BeginTx with
    | some err => ([Call.BeginTx], res, some err)
    | none =>
      match billingaccount.EnsureDemandEnabled s.txq req.Project.BillingAccountId with
      | some err =>
        ([Call.BeginTx, Call.FindBillingAccountById req.Project.BillingAccountId, Call.Rollback],
          res, some err)
      | none =>
        match s.txq.FindProjectExistsById req.Project.Id with
        | (_, some _) =>
          ([Call.BeginTx, Call.FindBillingAccountById req.Project.BillingAccountId,
              Call.FindProjectExistsById req.Project.Id, Call.Rollback],
            res, some (status.Error codes.Code.Internal "failed to check if project exists"))
        | (found, none) =>
          if found then
            ([Call.BeginTx, Call.FindBillingAccountById req.Project.BillingAccountId,
                Call.FindProjectExistsById req.Project.Id, Call.Rollback],
              res, some (status.Error codes.Code.AlreadyExists
                "a project with the requested id already exists"))
          else
            let arg : store.CreateProjectParams :=
              { BillingAccountID := req.Project.BillingAccountId, ID := req.Project.Id }
            match s.txq.CreateProject arg with
            | (_, some _) =>
              ([Call.BeginTx, Call.FindBillingAccountById req.Project.BillingAccountId,
                  Call.FindProjectExistsById req.Project.Id, Call.CreateProject arg,
                  Call.Rollback],
                res, some (status.Error codes.Code.Internal "creation failed"))
            | (newProject, none) =>
              match s.Commit with
              | some _ =>
                ([Call.BeginTx, Call.FindBillingAccountById req.Project.BillingAccountId,
                    Call.FindProjectExistsById req.Project.Id, Call.CreateProject arg,
                    Call.Commit, Call.Rollback],
                  res, some (status.Error codes.Code.Internal "creation failed"))
              | none =>
                ([Call.BeginTx, Call.FindBillingAccountById req.Project.BillingAccountId,
                    Call.FindProjectExistsById req.Project.Id, Call.CreateProject arg,
                    Call.Commit, Call.Rollback],
                  toProjectPb newProject, none)

/-- The end of `server.UpdateProject`, from the call of the store's `UpdateProject` with
`updates` on; `calls` are the gateway calls made before. -/
def finishUpdate (s : server) (calls : List Call) (updates : store.UpdateProjectParams) :
    List Call × Project × Option GoError :=
  match s.txq.UpdateProject updates with
  | (_, some _) =>
    (calls ++ [Call.UpdateProject updates, Call.Rollback], ⟨"", ""⟩,
      some (status.Error codes.Code.Internal "update failed"))
  | (updated, none) =>
    match s.Commit with
    | some _ =>
      (calls ++ [Call.UpdateProject updates, Call.Commit, Call.Rollback], ⟨"", ""⟩,
        some (status.Error codes.Code.Internal "update failed"))
    | none =>
      (calls ++ [Call.UpdateProject updates, Call.Commit, Call.Rollback], toProjectPb updated,
        none)

/-- `server.UpdateProject`: the gateway calls made, in order (the deferred `Rollback` last),
the project returned and the error. The `updates` are built with the field
`BillingAccountID` alone; the field `ID` keeps the zero value of a string. -/
def UpdateProject (s : server) (req : UpdateProjectRequest) : List Call × Project × Option GoError :=
  let res : Project := ⟨"", ""⟩
  if !resource.ValidResourceID req.Project.Id then
    ([], res, some (status.Error codes.Code.InvalidArgument "invalid id"))
  else
    match s.BeginTx with
    | some err => ([Call.BeginTx], res, some err)
    | none =>
      match s.txq.SelectProjectForUpdate req.Project.Id with
      | (_, some err) =>
        ([Call.BeginTx, Call.SelectProjectForUpdate req.Project.Id, Call.Rollback], res, some err)
      | (existing, none) =>
        let updates : store.UpdateProjectParams :=
          { BillingAccountID := existing.BillingAccountID, ID := "" }
        if req.Project.BillingAccountId ≠ existing.ID then
          match billingaccount.EnsureDemandEnabled s.txq req.Project.BillingAccountId with
          | some err =>
            ([Call.BeginTx, Call.SelectProjectForUpdate req.Project.Id,
                Call.FindBillingAccountById req.Project.BillingAccountId, Call.Rollback],
              res, some err)
          | none =>
            finishUpdate s
              [Call.BeginTx, Call.SelectProjectForUpdate req.Project.Id,
                Call.FindBillingAccountById req.Project.BillingAccountId]
              { updates with BillingAccountID := req.Project.BillingAccountId }
        else
          finishUpdate s [Call.BeginTx, Call.SelectProjectForUpdate req.Project.Id] updates

/-- The gateway of the tests of the project service: every query answers with the value and
the error it is given. -/
def FakeTxQuerier (billingAccount : store.BillingAccount) (billingAccountError : Option GoError)
    (selectProjectForUpdate updateProject : store.Project) : server :=
  { BeginTx := none
    txq :=
      { FindBillingAccountById := fun _ => (billingAccount, billingAccountError)
        FindProjectExistsById := fun _ => (false, none)
        CreateProject := fun _ => (⟨"", 0, ""⟩, none)
        SelectProjectForUpdate := fun _ => (selectProjectForUpdate, none)
        UpdateProject := fun _ => (updateProject, none) }
    Commit := none }

/-- The request of the tests of the demand check of `CreateProject`. -/
def testCreateRequest : CreateProjectRequest :=
  ⟨⟨"test", "b1b391aa-5755-4ca8-966e-8ef8b0f30664"⟩⟩

/-- The server and the request of the test "should successfully return an updated
project". -/
def updateTestServer : server :=
  FakeTxQuerier ⟨"", 0, false, true⟩ none ⟨"", 0, ""⟩ ⟨"test-update", 0, "billing-account-id-update"⟩

def updateTestRequest : UpdateProjectRequest := ⟨⟨"test", "billing-account-id-update"⟩⟩

end project

namespace conv

end conv

namespace billingaccount

open store

/-- The spend of a lease in a period: the hours of its clamped duration times its own
`PriceHr`, both as decimals, multiplied under the context of the biller. -/
def leaseSpendOf (startTime endTime : Time) (lease : Lease) : apd.Decimal :=
  (apdContext.Mul
    (conv.FromFloat
      (Duration.Hours ((leaseEndTime lease endTime).Sub (leaseStartTime lease startTime)))).1
    (conv.FromFloat lease.PriceHr).1).1

/-- The totals with `amount` added to the total of the order, of its project and of the
billing account, under the context of the biller. -/
def DemandSpend.bill (spend : DemandSpend) (order : Order) (amount : apd.Decimal) : DemandSpend :=
  let spend1 := spend.setOrderSpend order.ProjectID order.ID
    (apdContext.Add (spend.orderSpend order.ProjectID order.ID) amount).1
  let spend2 := spend1.setProjectSpend order.ProjectID
    (apdContext.Add (spend1.projectSpend order.ProjectID) amount).1
  { spend2 with Spend := (apdContext.Add spend2.Spend amount).1 }

end billingaccount

/-! ## Flags from the command line and the environment (packages `strings`, `flag`, `ff`) -/

namespace strings

/-- The upper case of an ASCII character: the letters `a` to `z` become `A` to `Z`, every other
character is kept. -/
def upperASCIIChar (c : Char) : Char :=
  if 'a'.toNat ≤ c.toNat ∧ c.toNat ≤ 'z'.toNat then Char.ofNat (c.toNat - 32) else c

/-- What `strings.ToUpper` gives for a text of ASCII characters; it stands for
`strings.ToUpper` at the names of the tests only. The functions of `ff` below take
`strings.ToUpper` itself as the argument `ToUpper`, since its table of cases is not in the
sources. -/
def upperASCII (s : String) : String := String.mk (s.toList.map upperASCIIChar)

end strings

namespace flag

/-- A defined flag: its name, its default, and its `Value`: the variable `Var` the value is
kept in (two flags defined on one variable have the same `Var`), whether it is a boolean
flag, and `Set`, which gives the value the variable holds after the flag is set from a text,
or an error. -/
structure Flag where
  Name : String
  DefValue : String
  Var : String
  IsBoolFlag : Bool
  Set : String → Except String String

/-- A `FlagSet`: the defined flags, what every variable holds, the names of the flags that
were set, and the arguments that remain. -/
structure FlagSet where
  formal : List Flag
  vars : String → String
  actual : List String
  args : List String

/-- The errors of `FlagSet.Parse`, with what their messages are made of. -/
inductive ParseError
  | badSyntax (s : String)
  | ErrHelp
  | notDefined (name : String)
  | invalidBoolean (value name err : String)
  | invalidBooleanFlag (name err : String)
  | needsArgument (name : String)
  | invalidValue (value name err : String)
  deriving DecidableEq, Repr

/-- The map access `f.formal[name]`. -/
def FlagSet.lookup (f : FlagSet) (name : String) : Option Flag :=
  f.formal.find? (fun g => g.Name == name)

/-- What the flag `name` holds (`Value.String`): what its variable holds. -/
def FlagSet.value (f : FlagSet) (name : String) : Option String :=
  (f.lookup name).map (fun g => f.vars g.Var)

/-- The flag `flag`, of name `name`, set to the value `v`: its variable holds `v`, and the
name is among the flags that were set. -/
def FlagSet.assign (f : FlagSet) (name : String) (flag : Flag) (v : String) : FlagSet :=
  { f with vars := fun x => if x = flag.Var then v else f.vars x, actual := name :: f.actual }

/-- `FlagSet.Set`. -/
def FlagSet.Set (f : FlagSet) (name value : String) : Except String FlagSet :=
  match f.lookup name with
  | none => Except.error ("no such flag -" ++ name)
  | some flag =>
    match flag.Set value with
    | Except.error err => Except.error err
    | Except.ok v => Except.ok (f.assign name flag v)

/-- The name and the value of an argument without its dashes: the text before the first `=`
that is not its first character, and the text after it, if there is one. -/
def splitValue : List Char → List Char × Option (List Char)
  | [] => ([], none)
  | c :: tail =>
    match tail.span (fun x => x != '=') with
    | (pre, []) => (c :: pre, none)
    | (pre, _ :: post) => (c :: pre, some post)

/-- The second half of `FlagSet.parseOne`: the flag `name` is looked up and set, from the
value the argument carries after `=`, or from `true` for a boolean flag, or from the next of
the arguments `rest`. -/
def FlagSet.parseFlag (f : FlagSet) (name : String) (value : Option String) (rest : List String) :
    Except ParseError (Bool × FlagSet) :=
  match f.lookup name with
  | none =>
    if name = "help" ∨ name = "h" then Except.error ParseError.ErrHelp
    else Except.error (ParseError.notDefined name)
  | some flag =>
    if flag.IsBoolFlag then
      match value with
      | some value =>
        match flag.Set value with
        | Except.error err => Except.error (ParseError.invalidBoolean value name err)
        | Except.ok v => Except.ok (true, { f.assign name flag v with args := rest })
      | none =>
        match flag.Set "true" with
        | Except.error err => Except.error (ParseError.invalidBooleanFlag name err)
        | Except.ok v => Except.ok (true, { f.assign name flag v with args := rest })
    else
      match value, rest with
      | some value, _ =>
        match flag.Set value with
        | Except.error err => Except.error (ParseError.invalidValue value name err)
        | Except.ok v => Except.ok (true, { f.assign name flag v with args := rest })
      | none, value :: rest1 =>
        match flag.Set value with
        | Except.error err => Except.error (ParseError.invalidValue value name err)
        | Except.ok v => Except.ok (true, { f.assign name flag v with args := rest1 })
      | none, [] => Except.error (ParseError.needsArgument name)

/-- An argument `-` `c` `cs` without its one or two dashes. -/
def withoutDashes (c : Char) (cs : List Char) : List Char := if c = '-' then cs else c :: cs

/-- `FlagSet.parseOne`: whether a flag was seen, and the flag set after it; or the error. -/
def FlagSet.parseOne (f : FlagSet) : Except ParseError (Bool × FlagSet) :=
  match f.args with
  | [] => Except.ok (false, f)
  | s :: rest =>
    match s.toList with
    | '-' :: c :: cs =>
      if c = '-' ∧ cs = [] then Except.ok (false, { f with args := rest })
      else if (withoutDashes c cs).isEmpty ∨ (withoutDashes c cs).head? = some '-' ∨
          (withoutDashes c cs).head? = some '=' then
        Except.error (ParseError.badSyntax s)
      else
        f.parseFlag (String.mk (splitValue (withoutDashes c cs)).1)
          ((splitValue (withoutDashes c cs)).2.map String.mk) rest
    | _ => Except.ok (false, f)

/-- The loop of `FlagSet.Parse`: `parseOne` until no flag is seen. Every flag seen takes an
argument away, so `fuel` above the number of arguments is never used up. -/
def FlagSet.parseLoop : Nat → FlagSet → Except ParseError FlagSet
  | 0, f => Except.ok f
  | fuel + 1, f =>
    match f.parseOne with
    | Except.error err => Except.error err
    | Except.ok (false, f1) => Except.ok f1
    | Except.ok (true, f1) => parseLoop fuel f1

/-- `FlagSet.Parse`, for a flag set that returns the error of the parsing
(`ContinueOnError`). -/
def FlagSet.Parse (f : FlagSet) (arguments : List String) : Except ParseError FlagSet :=
  FlagSet.parseLoop (arguments.length + 1) { f with args := arguments }

/-- The order `<` of Go on strings: the order of their bytes, which for texts is the order of
their characters, the shorter of two texts first when it begins the longer. -/
def stringLess : List Char → List Char → Bool
  | _, [] => false
  | [], _ :: _ => true
  | a :: as, b :: bs =>
    decide (a.toNat < b.toNat) || (decide (a.toNat = b.toNat) && stringLess as bs)

/-- The place of a flag in a list of flags sorted by name. -/
def insertFlag (f : Flag) : List Flag → List Flag
  | [] => [f]
  | g :: gs => if stringLess f.Name.data g.Name.data then f :: g :: gs else g :: insertFlag f gs

/-- `sortFlags`: the flags in the order of their names, the order in which `VisitAll` visits
them. -/
def sortFlags : List Flag → List Flag
  | [] => []
  | f :: fs => insertFlag f (sortFlags fs)

/-- A flag set as it is after its flags are defined: no flag was set, and the variable of every
flag holds the default of the flag. -/
def FlagSet.fresh (f : FlagSet) : Prop :=
  f.actual = [] ∧ ∀ g ∈ f.formal, f.vars g.Var = g.DefValue

/-- Every flag has a variable of its own: flags of different names are kept in different
variables. -/
def FlagSet.ownVariables (f : FlagSet) : Prop :=
  ∀ g ∈ f.formal, ∀ h ∈ f.formal, g.Var = h.Var → g.Name = h.Name

/-- What the parsing keeps of a flag set: the defined flags, what every variable holds that is
not the variable of a flag among the flags set, and the flags that were set before. -/
def Grows (f f1 : FlagSet) : Prop :=
  f1.formal = f.formal ∧
    (∀ x, (∀ n g, n ∈ f1.actual → f.lookup n = some g → g.Var ≠ x) → f1.vars x = f.vars x) ∧
    ∀ n, n ∈ f.actual → n ∈ f1.actual

end flag

namespace ff

open flag

/-- `envVarReplacer.Replace`: every `-`, `.` and `/` becomes `_`. -/
def envVarReplacer.Replace (s : String) : String :=
  String.mk (s.toList.map (fun c => if c = '-' ∨ c = '.' ∨ c = '/' then '_' else c))

/-- The errors of `FillUsingPrefix`: the error of `Parse`, or
"error parsing env vars: error setting flag ... from env var ...: ..." with the name of the
flag, the name of the variable and the error of `Set`. -/
inductive Error
  | parse (err : ParseError)
  | envVars (name key err : String)
  deriving DecidableEq, Repr

/-- The name of the environment variable of the flag `name`. -/
def envKey (ToUpper : String → String) (envVarPrefix name : String) : String :=
  let key := envVarReplacer.Replace (ToUpper name)
  if envVarPrefix ≠ "" then ToUpper envVarPrefix ++ "_" ++ key else key

/-- The function `FillUsingPrefix` passes to `VisitAll`, on the flag set and `visitErr`. -/
def visit (ToUpper : String → String) (provided : List String) (getenv : String → String)
    (envVarPrefix : String) (state : FlagSet × Option Error) (f : Flag) :
    FlagSet × Option Error :=
  match state with
  | (fs, some err) => (fs, some err)
  | (fs, none) =>
    if f.Name ∈ provided then (fs, none)
    else
      let key := envKey ToUpper envVarPrefix f.Name
      let value := getenv key
      if value = "" then (fs, none)
      else
        match fs.Set f.Name value with
        | Except.error err => (fs, some (Error.envVars f.Name key err))
        | Except.ok fs1 => (fs1, none)

/-- `FillUsingPrefix`, with `ToUpper` for `strings.ToUpper` and `getenv` for `os.Getenv`: the
flag set after it, or the error. -/
def FillUsingPrefix (ToUpper : String → String) (fs : FlagSet) (args : List String)
    (envVarPrefix : String) (getenv : String → String) : Except Error FlagSet :=
  match fs.Parse args with
  | Except.error err => Except.error (Error.parse err)
  | Except.ok fs1 =>
    let provided := fs1.actual
    match (sortFlags fs1.formal).foldl (visit ToUpper provided getenv envVarPrefix)
        (fs1, none) with
    | (_, some err) => Except.error err
    | (fs2, none) => Except.ok fs2

/-- `Fill`. -/
def Fill (ToUpper : String → String) (fs : FlagSet) (args : List String)
    (getenv : String → String) : Except Error FlagSet :=
  FillUsingPrefix ToUpper fs args "" getenv

/-- The flag set of the tests: the string flag `test-flag` with the default `empty`. -/
def testFlagSet : FlagSet :=
  { formal := [⟨"test-flag", "empty", "testFlag", false, fun s => Except.ok s⟩]
    vars := fun _ => "empty"
    actual := []
    args := [] }

/-- The environment of the tests: `TEST_FLAG=env-flag`. -/
def testEnv (key : String) : String := if key = "TEST_FLAG" then "env-flag" else ""

/-- The flag set after `Fill`, or the flag set itself when `Fill` fails. -/
def filled (fs : FlagSet) (args : List String) (getenv : String → String) : FlagSet :=
  match Fill strings.upperASCII fs args getenv with
  | Except.ok fs2 => fs2
  | Except.error _ => fs

/-- Two string flags `a` and `b` defined on one variable, with the default `empty`. -/
def sharedFlagSet : FlagSet :=
  { formal := [⟨"a", "empty", "shared", false, fun s => Except.ok s⟩,
      ⟨"b", "empty", "shared", false, fun s => Except.ok s⟩]
    vars := fun _ => "empty"
    actual := []
    args := [] }

/-- An environment with `B=env-flag`. -/
def sharedEnv (key : String) : String := if key = "B" then "env-flag" else ""

/-- The flag set of the tests after the program has set its flag to `earlier`. -/
def earlierFlagSet : FlagSet :=
  match testFlagSet.Set "test-flag" "earlier" with
  | Except.ok fs => fs
  | Except.error _ => testFlagSet

end ff

set_option exponentiation.threshold 5000

/-! # Theorems -/

/-- A number has at least one digit. -/
theorem one_le_decLen (n : Nat) : 1 ≤ decLen n := by
  unfold decLen
  cases n with
  | zero => simp [decLenAux]
  | succ n => unfold decLenAux; split <;> omega


namespace billingaccount

open store

/-- C1: the effective end of a lease is its own end time when that is valid and strictly
before the period end, and the period end minus one nanosecond in every other case (no end
time, or an end time at or after the period end). -/
theorem leaseEndTime_clamp (lease : Lease) (endTime : Time) :
    leaseEndTime lease endTime =
      if lease.EndTime.Valid = true ∧ lease.EndTime.Time < endTime then lease.EndTime.Time
      else endTime - 1 := by
  unfold leaseEndTime Time.Before Time.Add Nanosecond
  by_cases hv : lease.EndTime.Valid = true <;> by_cases hlt : lease.EndTime.Time < endTime <;>
    simp [hv, hlt] <;> ring

/-- C2: the effective start of a lease is the later of its creation time and the period
start: the creation time when it is strictly after the period start, the period start
otherwise. -/
theorem leaseStartTime_clamp (lease : Lease) (startTime : Time) :
    leaseStartTime lease startTime = max lease.CreateTime startTime ∧
      leaseStartTime lease startTime =
        if startTime < lease.CreateTime then lease.CreateTime else startTime := by
  unfold leaseStartTime Time.After
  by_cases h : startTime < lease.CreateTime
  · simp [h, max_eq_left (le_of_lt h)]
  · simp [h, max_eq_right (not_lt.mp h)]

/-- C5 (the code at a failing input): with the gateway whose listing of orders fails,
`calculateDemandSpend` returns an error for every period, and `Run` returns `nil`. -/
theorem Run_nil_although_calculateDemandSpend_fails :
    (∀ startTime endTime : Time,
      (calculateDemandSpend failingOrdersQuerier testAccounts startTime endTime).2 =
        some "error when listing orders for billing account: list orders by billing account id error") ∧
    (∀ now : ZonedTime, (Run failingOrdersQuerier now).2 = none) := by
  constructor
  · intro startTime endTime
    rfl
  · intro now
    rfl

end billingaccount

namespace conv

end conv

namespace billingaccount

open store

/-! ### The loops over a list that is split in two -/

theorem leasesLoop_append (startTime endTime : Time) (order : Order) (spend : DemandSpend)
    (xs ys : List Lease) :
    leasesLoop startTime endTime order spend (xs ++ ys) =
      match leasesLoop startTime endTime order spend xs with
      | Except.error e => Except.error e
      | Except.ok spend1 => leasesLoop startTime endTime order spend1 ys := by
  induction xs generalizing spend with
  | nil => simp [leasesLoop]
  | cons x xs ih =>
    simp only [List.cons_append, leasesLoop]
    cases leaseStep startTime endTime order spend x with
    | error e => simp
    | ok s1 => simpa using ih s1

theorem ordersLoop_append (querier : TxQuerier) (startTime endTime : Time) (spend : DemandSpend)
    (xs ys : List Order) :
    ordersLoop querier startTime endTime spend (xs ++ ys) =
      match ordersLoop querier startTime endTime spend xs with
      | (calls, Except.error e) => (calls, Except.error e)
      | (calls, Except.ok spend1) =>
        (calls ++ (ordersLoop querier startTime endTime spend1 ys).1,
          (ordersLoop querier startTime endTime spend1 ys).2) := by
  induction xs generalizing spend with
  | nil => simp [ordersLoop]
  | cons x xs ih =>
    simp only [List.cons_append, ordersLoop]
    rcases hx : orderStep querier startTime endTime spend x with ⟨c, r⟩
    cases r with
    | error e => simp
    | ok s1 =>
      have h1 := ih s1
      rcases hxs : ordersLoop querier startTime endTime s1 xs with ⟨c2, r2⟩
      rw [hxs] at h1
      cases r2 with
      | error e => simp [h1, hxs]
      | ok s2 => simp [h1, hxs, List.append_assoc]

theorem calculateDemandSpend_append (querier : TxQuerier) (startTime endTime : Time)
    (xs ys : List BillingAccount) :
    calculateDemandSpend querier (xs ++ ys) startTime endTime =
      match calculateDemandSpend querier xs startTime endTime with
      | (calls, some e) => (calls, some e)
      | (calls, none) =>
        (calls ++ (calculateDemandSpend querier ys startTime endTime).1,
          (calculateDemandSpend querier ys startTime endTime).2) := by
  induction xs with
  | nil => simp [calculateDemandSpend]
  | cons x xs ih =>
    simp only [List.cons_append, calculateDemandSpend]
    rcases hx : accountStep querier startTime endTime x with ⟨c, r⟩
    cases r with
    | some e => simp
    | none =>
      have h1 := ih
      rcases hxs : calculateDemandSpend querier xs startTime endTime with ⟨c2, r2⟩
      rw [hxs] at h1
      cases r2 with
      | some e => simp [h1, hxs]
      | none => simp [h1, hxs, List.append_assoc]

/-- A lease whose multiplication reports a condition ends the loop over the leases with the
error "error calculating lease spend: ...". -/
theorem leaseStep_mul_condition (startTime endTime : Time) (order : Order) (spend : DemandSpend)
    (lease : Lease) (price hours : apd.Decimal)
    (hprice : conv.FromFloat lease.PriceHr = (price, none))
    (hhours : conv.FromFloat
      (Duration.Hours ((leaseEndTime lease endTime).Sub (leaseStartTime lease startTime))) =
        (hours, none))
    (hcond : (apdContext.Mul hours price).2.1 ≠ 0) :
    leaseStep startTime endTime order spend lease =
      Except.error (fmt.Errorf_w "error calculating lease spend: " (apdContext.Mul hours price).2.2) := by
  unfold leaseStep
  simp only [hprice, hhours]
  rcases hm : apdContext.Mul hours price with ⟨d, cond, err⟩
  rw [hm] at hcond
  cases err with
  | some e => simp
  | none => simp [apd.Condition.Any, hcond]

/-- C10: when the run reaches a lease whose multiplication `hours * price` reports a
condition under the fixed context, `calculateDemandSpend` returns the error
"error calculating lease spend: ..." and the last gateway call it makes is the listing of
the leases of that order: no upsert follows, for this order or any later one. -/
theorem calculateDemandSpend_mul_condition (querier : TxQuerier) (startTime endTime : Time)
    (pre post : List BillingAccount) (account : BillingAccount)
    (opre opost : List Order) (order : Order) (lpre lpost : List Lease) (lease : Lease)
    (calls1 calls2 : List Call) (spend1 spend2 : DemandSpend) (price hours : apd.Decimal)
    (hpre : calculateDemandSpend querier pre startTime endTime = (calls1, none))
    (horders : querier.ListOrdersByBillingAccountId account.ID = Except.ok (opre ++ order :: opost))
    (hopre : ordersLoop querier startTime endTime
      { BillingAccountID := account.ID, Projects := [], Spend := apd.New 0 0 } opre =
        (calls2, Except.ok spend1))
    (hleases : querier.ListLeasesForTimeRangeByOrderId
      { OrderID := order.ID, StartTime := { Time := startTime, Valid := true }, EndTime := endTime } =
        Except.ok (lpre ++ lease :: lpost))
    (hlpre : leasesLoop startTime endTime order (spend1.enter order) lpre = Except.ok spend2)
    (hprice : conv.FromFloat lease.PriceHr = (price, none))
    (hhours : conv.FromFloat
      (Duration.Hours ((leaseEndTime lease endTime).Sub (leaseStartTime lease startTime))) =
        (hours, none))
    (hcond : (apdContext.Mul hours price).2.1.Any = true) :
    calculateDemandSpend querier (pre ++ account :: post) startTime endTime =
      (calls1 ++ Call.ListOrdersByBillingAccountId account.ID ::
        (calls2 ++ [Call.ListLeasesForTimeRangeByOrderId
          { OrderID := order.ID, StartTime := { Time := startTime, Valid := true },
            EndTime := endTime }]),
        some (fmt.Errorf_w "error calculating lease spend: " (apdContext.Mul hours price).2.2)) := by
  have hc : (apdContext.Mul hours price).2.1 ≠ 0 := by
    simpa [apd.Condition.Any] using hcond
  have hl := leaseStep_mul_condition startTime endTime order spend2 lease price hours hprice hhours hc
  have hloop : leasesLoop startTime endTime order (spend1.enter order) (lpre ++ lease :: lpost) =
      Except.error (fmt.Errorf_w "error calculating lease spend: " (apdContext.Mul hours price).2.2) := by
    rw [leasesLoop_append, hlpre]
    simp [leasesLoop, hl]
  have hstep : orderStep querier startTime endTime spend1 order =
      ([Call.ListLeasesForTimeRangeByOrderId
          { OrderID := order.ID, StartTime := { Time := startTime, Valid := true },
            EndTime := endTime }],
        Except.error (fmt.Errorf_w "error calculating lease spend: " (apdContext.Mul hours price).2.2)) := by
    simp [orderStep, hleases, hloop]
  have hol : ordersLoop querier startTime endTime
      { BillingAccountID := account.ID, Projects := [], Spend := apd.New 0 0 }
      (opre ++ order :: opost) =
      (calls2 ++ [Call.ListLeasesForTimeRangeByOrderId
          { OrderID := order.ID, StartTime := { Time := startTime, Valid := true },
            EndTime := endTime }],
        Except.error (fmt.Errorf_w "error calculating lease spend: " (apdContext.Mul hours price).2.2)) := by
    rw [ordersLoop_append, hopre]
    simp [ordersLoop, hstep]
  have hacc : accountStep querier startTime endTime account =
      (Call.ListOrdersByBillingAccountId account.ID ::
        (calls2 ++ [Call.ListLeasesForTimeRangeByOrderId
          { OrderID := order.ID, StartTime := { Time := startTime, Valid := true },
            EndTime := endTime }]),
        some (fmt.Errorf_w "error calculating lease spend: " (apdContext.Mul hours price).2.2)) := by
    simp [accountStep, horders, hol]
  rw [calculateDemandSpend_append, hpre]
  simp [calculateDemandSpend, hacc]

end billingaccount

namespace apd

open billingaccount



/-- `setExponent` leaves a decimal whose adjusted exponent is within the bounds alone. -/
theorem setExponent_in_range (d : Decimal) (c : Context) (xs : List Int)
    (hxs : exponentOutOfRange xs = none)
    (hlo : c.MinExponent ≤ xs.sum + (d.NumDigits : Int) - 1)
    (hhi : xs.sum + (d.NumDigits : Int) - 1 ≤ c.MaxExponent)
    (hsyslo : MinExponent ≤ xs.sum + (d.NumDigits : Int) - 1)
    (hsyshi : xs.sum + (d.NumDigits : Int) - 1 ≤ MaxExponent) :
    d.setExponent c 0 xs = ({ d with Exponent := xs.sum }, 0) := by
  unfold Decimal.setExponent
  simp only [hxs]
  rw [if_neg (not_lt.mpr hsyshi), if_neg (not_lt.mpr hsyslo), if_neg (not_lt.mpr hlo),
    if_neg (not_lt.mpr hhi)]
  simp

/-- `Round` leaves a decimal that fits the precision and the exponent bounds alone. -/
theorem Round_in_range (c : Context) (x : Decimal)
    (hp : x.NumDigits ≤ c.Precision)
    (hexp : MinExponent ≤ x.Exponent ∧ x.Exponent ≤ MaxExponent)
    (hlo : c.MinExponent ≤ x.Exponent + (x.NumDigits : Int) - 1)
    (hhi : x.Exponent + (x.NumDigits : Int) - 1 ≤ c.MaxExponent)
    (hsyslo : MinExponent ≤ x.Exponent + (x.NumDigits : Int) - 1)
    (hsyshi : x.Exponent + (x.NumDigits : Int) - 1 ≤ MaxExponent) :
    Round c x = (x, 0) := by
  unfold Round
  have h1 : ¬ (x.Exponent + (x.NumDigits : Int) - 1 < c.MinExponent) := not_lt.mpr hlo
  have h2 : ¬ ((x.NumDigits : Int) - (c.Precision : Int) > 0) := by
    have : (x.NumDigits : Int) ≤ (c.Precision : Int) := by exact_mod_cast hp
    omega
  simp only [h1, h2, decide_False, Bool.and_false, if_false, Bool.false_eq_true]
  rw [setExponent_in_range]
  · simp
  · unfold MinExponent MaxExponent at hexp
    simp only [exponentOutOfRange, MaxExponent, MinExponent]
    rw [if_neg (by omega), if_neg (by omega), if_neg (by omega), if_neg (by omega)]
  · simpa using hlo
  · simpa using hhi
  · simpa using hsyslo
  · simpa using hsyshi

/-- The product of two finite decimals within the bounds is exact and raises no flag. -/
theorem Mul_exact_aux (x y : Decimal) (hx : x.Form = Form.Finite) (hy : y.Form = Form.Finite)
    (hxe : MinExponent ≤ x.Exponent ∧ x.Exponent ≤ MaxExponent)
    (hye : MinExponent ≤ y.Exponent ∧ y.Exponent ≤ MaxExponent)
    (hd : NumDigits (x.Coeff * y.Coeff) ≤ 65)
    (hlo : -18 ≤ x.Exponent + y.Exponent + (NumDigits (x.Coeff * y.Coeff) : Int) - 1)
    (hhi : x.Exponent + y.Exponent + (NumDigits (x.Coeff * y.Coeff) : Int) - 1 ≤ 65) :
    apdContext.Mul x y =
      (⟨Form.Finite, x.Negative != y.Negative, x.Exponent + y.Exponent, x.Coeff * y.Coeff⟩,
        0, none) := by
  have hnd : 1 ≤ NumDigits (x.Coeff * y.Coeff) := one_le_decLen _
  unfold MinExponent MaxExponent at hxe hye
  have hset : (⟨Form.Finite, x.Negative != y.Negative, 0, x.Coeff * y.Coeff⟩ : Decimal).setExponent
      apdContext 0 [x.Exponent, y.Exponent] =
      (⟨Form.Finite, x.Negative != y.Negative, x.Exponent + y.Exponent, x.Coeff * y.Coeff⟩, 0) := by
    rw [setExponent_in_range]
    · simp
    · simp only [exponentOutOfRange, MaxExponent, MinExponent]
      rw [if_neg (by omega), if_neg (by omega), if_neg (by omega), if_neg (by omega)]
    · simp [apdContext, Decimal.NumDigits]; omega
    · simp [apdContext, Decimal.NumDigits]; omega
    · simp [MinExponent, Decimal.NumDigits]; omega
    · simp [MaxExponent, Decimal.NumDigits]; omega
  have hround : apdContext.round
      ⟨Form.Finite, x.Negative != y.Negative, x.Exponent + y.Exponent, x.Coeff * y.Coeff⟩ =
      (⟨Form.Finite, x.Negative != y.Negative, x.Exponent + y.Exponent, x.Coeff * y.Coeff⟩, 0) := by
    unfold Context.round
    rw [if_neg (by simp [apdContext])]
    apply Round_in_range
    · simpa [apdContext, Decimal.NumDigits] using hd
    · simp [MaxExponent, MinExponent]; omega
    · simp [apdContext, Decimal.NumDigits]; omega
    · simp [apdContext, Decimal.NumDigits]; omega
    · simp [MinExponent, Decimal.NumDigits]; omega
    · simp [MaxExponent, Decimal.NumDigits]; omega
  unfold Context.Mul Context.setIfNaN
  simp only [hx, hy, hset, hround]
  simp [Context.goError, Condition.GoError]
/-- `upscale` brings both coefficients to the smaller exponent. -/
theorem upscale_eq (x y : Decimal) (hdiff : x.Exponent - y.Exponent ≤ 100000 ∧ y.Exponent - x.Exponent ≤ 100000) :
    upscale x y = some (x.Coeff * 10 ^ (x.Exponent - min x.Exponent y.Exponent).toNat,
      y.Coeff * 10 ^ (y.Exponent - min x.Exponent y.Exponent).toNat, min x.Exponent y.Exponent) := by
  unfold upscale
  rcases lt_trichotomy x.Exponent y.Exponent with h | h | h
  · have hne : ¬ x.Exponent = y.Exponent := ne_of_lt h
    have hmin : min x.Exponent y.Exponent = x.Exponent := min_eq_left (le_of_lt h)
    simp [hne, h, hmin, MaxExponent, not_lt.mpr hdiff.2]
  · simp [h]
  · have hne : ¬ x.Exponent = y.Exponent := ne_of_gt h
    have hmin : min x.Exponent y.Exponent = y.Exponent := min_eq_right (le_of_lt h)
    simp [hne, not_lt.mpr (le_of_lt h), hmin, MaxExponent, not_lt.mpr hdiff.1]

/-- The value of a decimal, written at a smaller exponent. -/
theorem value_at (v : Decimal) (s : Int) (hs : s ≤ v.Exponent) :
    v.value = ((v.signedCoeff * 10 ^ (v.Exponent - s).toNat : Int) : ℚ) * (10 : ℚ) ^ s := by
  have he : v.Exponent = ((v.Exponent - s).toNat : Int) + s := by
    rw [Int.toNat_of_nonneg (by omega)]; ring
  unfold Decimal.value Decimal.signedCoeff
  conv_lhs => rw [he]
  rw [zpow_add₀ (by norm_num : (10 : ℚ) ≠ 0), zpow_natCast]
  split <;> push_cast <;> ring



/-- The decimal `Context.Add` rounds: the signed sum of the upscaled coefficients. -/
theorem add_raw_eq (xn yn : Bool) (a b : Nat) (s : Int) :
    let d : Decimal :=
      if xn == yn then ⟨Form.Finite, xn, s, a + b⟩
      else if a < b then ⟨Form.Finite, !xn, s, b - a⟩
      else if b < a then ⟨Form.Finite, xn, s, a - b⟩
      else ⟨Form.Finite, false, s, 0⟩
    let n : Int := (if xn then -(a : Int) else a) + (if yn then -(b : Int) else b)
    d.Form = Form.Finite ∧ d.Exponent = s ∧ d.Coeff = n.natAbs ∧
      ((if d.Negative then -(d.Coeff : Int) else d.Coeff) = n) := by
  intro d n
  cases xn <;> cases yn <;> simp only [d, n] <;>
    rcases lt_trichotomy a b with h | h | h
  all_goals first
    | (simp [h]; done)
    | (simp [h]; omega)
    | (have h2 : ¬ a < b := by omega
       simp [h, h2]; done)
    | (have h2 : ¬ a < b := by omega
       simp [h, h2]; omega)

/-- The sum of two finite decimals within the bounds is exact and raises no flag. -/
theorem Add_exact_aux (x y : Decimal) (hx : x.Form = Form.Finite) (hy : y.Form = Form.Finite)
    (hdiff : x.Exponent - y.Exponent ≤ 100000 ∧ y.Exponent - x.Exponent ≤ 100000)
    (hd : NumDigits (exactSum x y).Coeff ≤ 65)
    (hlo : -18 ≤ min x.Exponent y.Exponent + (NumDigits (exactSum x y).Coeff : Int) - 1)
    (hhi : min x.Exponent y.Exponent + (NumDigits (exactSum x y).Coeff : Int) - 1 ≤ 65) :
    (apdContext.Add x y).2 = (0, none) ∧
      (apdContext.Add x y).1.Form = Form.Finite ∧
      (apdContext.Add x y).1.Exponent = min x.Exponent y.Exponent ∧
      (apdContext.Add x y).1.Coeff = (exactSum x y).Coeff ∧
      (apdContext.Add x y).1.value = x.value + y.value := by
  have hnd : 1 ≤ NumDigits (exactSum x y).Coeff := one_le_decLen _
  obtain ⟨hF, hE, hC, hS⟩ := add_raw_eq x.Negative y.Negative
    (x.Coeff * 10 ^ (x.Exponent - min x.Exponent y.Exponent).toNat)
    (y.Coeff * 10 ^ (y.Exponent - min x.Exponent y.Exponent).toNat) (min x.Exponent y.Exponent)
  have hsum : (exactSum x y).Coeff =
      ((if x.Negative then
          -((x.Coeff * 10 ^ (x.Exponent - min x.Exponent y.Exponent).toNat : Nat) : Int)
        else ((x.Coeff * 10 ^ (x.Exponent - min x.Exponent y.Exponent).toNat : Nat) : Int)) +
       (if y.Negative then
          -((y.Coeff * 10 ^ (y.Exponent - min x.Exponent y.Exponent).toNat : Nat) : Int)
        else ((y.Coeff * 10 ^ (y.Exponent - min x.Exponent y.Exponent).toNat : Nat) : Int))).natAbs := by
    unfold exactSum Decimal.signedCoeff
    simp only
    congr 1
    cases x.Negative <;> cases y.Negative <;> simp
  generalize hdef : (if (x.Negative == y.Negative) = true then
      (⟨Form.Finite, x.Negative, min x.Exponent y.Exponent,
        x.Coeff * 10 ^ (x.Exponent - min x.Exponent y.Exponent).toNat +
          y.Coeff * 10 ^ (y.Exponent - min x.Exponent y.Exponent).toNat⟩ : Decimal)
    else if x.Coeff * 10 ^ (x.Exponent - min x.Exponent y.Exponent).toNat <
        y.Coeff * 10 ^ (y.Exponent - min x.Exponent y.Exponent).toNat then
      ⟨Form.Finite, !x.Negative, min x.Exponent y.Exponent,
        y.Coeff * 10 ^ (y.Exponent - min x.Exponent y.Exponent).toNat -
          x.Coeff * 10 ^ (x.Exponent - min x.Exponent y.Exponent).toNat⟩
    else if y.Coeff * 10 ^ (y.Exponent - min x.Exponent y.Exponent).toNat <
        x.Coeff * 10 ^ (x.Exponent - min x.Exponent y.Exponent).toNat then
      ⟨Form.Finite, x.Negative, min x.Exponent y.Exponent,
        x.Coeff * 10 ^ (x.Exponent - min x.Exponent y.Exponent).toNat -
          y.Coeff * 10 ^ (y.Exponent - min x.Exponent y.Exponent).toNat⟩
    else ⟨Form.Finite, false, min x.Exponent y.Exponent, 0⟩) = d at hF hE hC hS
  rw [← hsum] at hC
  have hround : apdContext.round d = (d, 0) := by
    unfold Context.round
    rw [if_neg (by simp [apdContext])]
    apply Round_in_range
    · simpa [apdContext, Decimal.NumDigits, hC] using hd
    · simp only [MaxExponent, MinExponent, hE]; omega
    · simp only [apdContext, Decimal.NumDigits, hC, hE]; omega
    · simp only [apdContext, Decimal.NumDigits, hC, hE]; omega
    · simp only [MinExponent, Decimal.NumDigits, hC, hE]; omega
    · simp only [MaxExponent, Decimal.NumDigits, hC, hE]; omega
  have hadd : apdContext.Add x y = (d, 0, none) := by
    unfold Context.Add Context.setIfNaN
    simp only [hx, hy, upscale_eq x y hdiff]
    simp only [hdef, hround]
    simp [Context.goError, Condition.GoError]
  rw [hadd]
  refine ⟨rfl, hF, hE, hC, ?_⟩
  have hvx := value_at x (min x.Exponent y.Exponent) (min_le_left _ _)
  have hvy := value_at y (min x.Exponent y.Exponent) (min_le_right _ _)
  have hvd : d.value = (((if d.Negative then -(d.Coeff : Int) else d.Coeff) : Int) : ℚ) *
      (10 : ℚ) ^ (min x.Exponent y.Exponent) := by
    unfold Decimal.value
    rw [hE]
    split <;> push_cast <;> ring
  rw [hvd, hS, hvx, hvy]
  unfold Decimal.signedCoeff
  cases x.Negative <;> cases y.Negative <;> simp <;> ring

end apd

namespace apd

open billingaccount

/-- C6 (as amended): under the fixed context, the product of two finite decimals whose
exponents lie within the library's limits, whose coefficients multiply to at most 65 digits
and whose product has an adjusted exponent within `[-18, 65]`, is exactly the product
(coefficients multiplied, exponents added), with no condition flag and no error. In
particular `FromString("10.246")` times `FromFloat(1.0123)` has the textual form
`"10.3720258"`. -/
theorem Mul_exact (x y : Decimal) (hx : x.Form = Form.Finite) (hy : y.Form = Form.Finite)
    (hxe : MinExponent ≤ x.Exponent ∧ x.Exponent ≤ MaxExponent)
    (hye : MinExponent ≤ y.Exponent ∧ y.Exponent ≤ MaxExponent)
    (hd : NumDigits (x.Coeff * y.Coeff) ≤ 65)
    (hlo : -18 ≤ x.Exponent + y.Exponent + (NumDigits (x.Coeff * y.Coeff) : Int) - 1)
    (hhi : x.Exponent + y.Exponent + (NumDigits (x.Coeff * y.Coeff) : Int) - 1 ≤ 65) :
    apdContext.Mul x y =
        (⟨Form.Finite, x.Negative != y.Negative, x.Exponent + y.Exponent, x.Coeff * y.Coeff⟩,
          0, none) ∧
      (apdContext.Mul (conv.FromString "10.246").1
          (conv.FromFloat (Float64.ofLiteral 10123 (-4))).1).2 = (0, none) ∧
      (apdContext.Mul (conv.FromString "10.246").1
          (conv.FromFloat (Float64.ofLiteral 10123 (-4))).1).1.Str = "10.3720258" :=
  ⟨Mul_exact_aux x y hx hy hxe hye hd hlo hhi, by decide!, by decide!⟩

/-- C6, witness: the product of `10.246` and `1.0123`. -/
theorem Mul_exact_witness :
    apdContext.Mul ⟨Form.Finite, false, -3, 10246⟩ ⟨Form.Finite, false, -4, 10123⟩ =
      (⟨Form.Finite, false, -7, 103720258⟩, 0, none) :=
  (Mul_exact ⟨Form.Finite, false, -3, 10246⟩ ⟨Form.Finite, false, -4, 10123⟩ rfl rfl
    (by decide) (by decide) (by decide!) (by decide!) (by decide!)).1

/-- C6, counterexample: `1E+100001` and `1E-100001` are finite, their exact product `1` has
one digit and the adjusted exponent `0`, and yet the multiplication reports a system overflow
and an error: an operand's exponent is outside the library's limits. -/
theorem Mul_exponent_limit_counterexample :
    (New 1 100001).Form = Form.Finite ∧ (New 1 (-100001)).Form = Form.Finite ∧
      NumDigits ((New 1 100001).Coeff * (New 1 (-100001)).Coeff) = 1 ∧
      (New 1 100001).Exponent + (New 1 (-100001)).Exponent +
        (NumDigits ((New 1 100001).Coeff * (New 1 (-100001)).Coeff) : Int) - 1 = 0 ∧
      apdContext.Mul (New 1 100001) (New 1 (-100001)) =
        (⟨Form.Finite, false, 0, 1⟩, SystemOverflow ||| Overflow, some "exponent out of range") := by
  decide!

/-- C7 (as amended): under the fixed context, the sum of two finite decimals whose exponents
differ by at most 100000 is exact and raises no condition flag whenever the sum, written at
the smaller of the two exponents, has a coefficient of at most 65 digits and an adjusted
exponent within `[-18, 65]`. Adding `10.3720258` three times to `65E-18` gives
`"31.116077400000000065"`, and adding `2.123 * 1.123` three times to zero gives
`"7.152387"`, every addition without a flag. -/
theorem Add_exact (x y : Decimal) (hx : x.Form = Form.Finite) (hy : y.Form = Form.Finite)
    (hdiff : x.Exponent - y.Exponent ≤ 100000 ∧ y.Exponent - x.Exponent ≤ 100000)
    (hd : NumDigits (exactSum x y).Coeff ≤ 65)
    (hlo : -18 ≤ min x.Exponent y.Exponent + (NumDigits (exactSum x y).Coeff : Int) - 1)
    (hhi : min x.Exponent y.Exponent + (NumDigits (exactSum x y).Coeff : Int) - 1 ≤ 65) :
    ((apdContext.Add x y).2 = (0, none) ∧
      (apdContext.Add x y).1.Form = Form.Finite ∧
      (apdContext.Add x y).1.Exponent = min x.Exponent y.Exponent ∧
      (apdContext.Add x y).1.Coeff = (exactSum x y).Coeff ∧
      (apdContext.Add x y).1.value = x.value + y.value) ∧
    (∀ v : Decimal, v = (apdContext.Mul (conv.FromString "10.246").1
          (conv.FromFloat (Float64.ofLiteral 10123 (-4))).1).1 →
      (apdContext.Add (New 65 (-18)) v).2 = (0, none) ∧
      (apdContext.Add (apdContext.Add (New 65 (-18)) v).1 v).2 = (0, none) ∧
      (apdContext.Add (apdContext.Add (apdContext.Add (New 65 (-18)) v).1 v).1 v).2 = (0, none) ∧
      (apdContext.Add (apdContext.Add (apdContext.Add (New 65 (-18)) v).1 v).1 v).1.Str =
        "31.116077400000000065") ∧
    (∀ v : Decimal, v = (apdContext.Mul (conv.FromFloat (Float64.ofLiteral 2123 (-3))).1
          (conv.FromFloat (Float64.ofLiteral 1123 (-3))).1).1 →
      (apdContext.Add (New 0 0) v).2 = (0, none) ∧
      (apdContext.Add (apdContext.Add (New 0 0) v).1 v).2 = (0, none) ∧
      (apdContext.Add (apdContext.Add (apdContext.Add (New 0 0) v).1 v).1 v).2 = (0, none) ∧
      (apdContext.Add (apdContext.Add (apdContext.Add (New 0 0) v).1 v).1 v).1.Str =
        "7.152387") := by
  refine ⟨Add_exact_aux x y hx hy hdiff hd hlo hhi, ?_, ?_⟩
  · intro v hv
    subst hv
    decide!
  · intro v hv
    subst hv
    decide!

/-- C7, witness: `65E-18` plus `10.3720258`. -/
theorem Add_exact_witness :
    apdContext.Add (New 65 (-18)) ⟨Form.Finite, false, -7, 103720258⟩ =
        (⟨Form.Finite, false, -18, 10372025800000000065⟩, 0, none) ∧
      (⟨Form.Finite, false, -18, 10372025800000000065⟩ : Decimal).value =
        (New 65 (-18)).value + (⟨Form.Finite, false, -7, 103720258⟩ : Decimal).value := by
  have h := (Add_exact (New 65 (-18)) ⟨Form.Finite, false, -7, 103720258⟩ rfl rfl
    (by decide) (by decide!) (by decide!) (by decide!)).1
  have he : apdContext.Add (New 65 (-18)) ⟨Form.Finite, false, -7, 103720258⟩ =
      (⟨Form.Finite, false, -18, 10372025800000000065⟩, 0, none) := by decide!
  rw [he] at h
  exact ⟨he, h.2.2.2.2⟩

/-- C7, counterexample: zero and `1E-19` are finite, their sum `1E-19` has one significant
digit, and yet the addition raises the flag `Subnormal`: the adjusted exponent `-19` is below
the minimum exponent `-18` of the context. -/
theorem Add_subnormal_counterexample :
    (New 0 0).Form = Form.Finite ∧ (New 1 (-19)).Form = Form.Finite ∧
      NumDigits (exactSum (New 0 0) (New 1 (-19))).Coeff = 1 ∧
      apdContext.Add (New 0 0) (New 1 (-19)) = (⟨Form.Finite, false, -19, 1⟩, Subnormal, none) ∧
      Condition.Any (apdContext.Add (New 0 0) (New 1 (-19))).2.1 = true := by
  decide!

end apd

namespace billingaccount

open store

/-- C3 (the code at a failing input): three orders under one project, with lease spends `1`,
`5e64` and `5e64`. The run succeeds; the order rollups are the three spends, but the project
rollup written last and the account rollup are `1.000...E+65`, that is `10^65`, not the sum
`10^65 + 1`: the additions to the project and account totals rounded, and their conditions
are not looked at. -/
theorem calculateDemandSpend_rounded_totals :
    (calculateDemandSpend overflowQuerier oneAccount testStart testEnd).2 = none ∧
    upsertSpends (calculateDemandSpend overflowQuerier oneAccount testStart testEnd).1 =
      [("order", "1", ⟨apd.Form.Finite, false, 0, 1⟩),
       ("project", "1", ⟨apd.Form.Finite, false, 0, 1⟩),
       ("order", "2", ⟨apd.Form.Finite, false, 0, 5 * 10 ^ 64⟩),
       ("project", "1", ⟨apd.Form.Finite, false, 0, 5 * 10 ^ 64 + 1⟩),
       ("order", "3", ⟨apd.Form.Finite, false, 0, 5 * 10 ^ 64⟩),
       ("project", "1", ⟨apd.Form.Finite, false, 1, 10 ^ 64⟩),
       ("account", "1", ⟨apd.Form.Finite, false, 1, 10 ^ 64⟩)] ∧
    (⟨apd.Form.Finite, false, 1, 10 ^ 64⟩ : apd.Decimal).value ≠
      (⟨apd.Form.Finite, false, 0, 1⟩ : apd.Decimal).value +
        (⟨apd.Form.Finite, false, 0, 5 * 10 ^ 64⟩ : apd.Decimal).value +
        (⟨apd.Form.Finite, false, 0, 5 * 10 ^ 64⟩ : apd.Decimal).value := by
  refine ⟨by decide!, by decide!, ?_⟩
  simp only [apd.Decimal.value]
  norm_num

/-- C4, counterexample: one account, one order, one lease of one hour inside the period at
the integer price `1e66` an hour: `calculateDemandSpend` fails, and nothing is persisted. -/
theorem calculateDemandSpend_huge_price_counterexample :
    testStart ≤ hugePriceLease.CreateTime ∧ hugePriceLease.EndTime.Valid = true ∧
      hugePriceLease.EndTime.Time < testEnd ∧
      hugePriceLease.EndTime.Time - hugePriceLease.CreateTime = 1 * Hour ∧
      hugePriceLease.PriceHr = Float64.ofInt (10 ^ 66) ∧
      (calculateDemandSpend (fakeQuerier (Except.ok oneOrder) (Except.ok [hugePriceLease])
        none none none) oneAccount testStart testEnd).2 =
          some "error calculating lease spend: %!w(<nil>)" ∧
      upsertSpends (calculateDemandSpend (fakeQuerier (Except.ok oneOrder)
        (Except.ok [hugePriceLease]) none none none) oneAccount testStart testEnd).1 = [] := by
  decide!

/-- C10, witness: the lease of one hour at `1e66` an hour. Its multiplication overflows, the
run returns the error, and the listing of the leases is the last call to the gateway. -/
theorem calculateDemandSpend_mul_condition_witness :
    calculateDemandSpend (fakeQuerier (Except.ok oneOrder) (Except.ok [hugePriceLease]) none none none)
        oneAccount testStart testEnd =
      ([Call.ListOrdersByBillingAccountId "1",
        Call.ListLeasesForTimeRangeByOrderId ⟨"1", ⟨testStart, true⟩, testEnd⟩],
       some "error calculating lease spend: %!w(<nil>)") :=
  calculateDemandSpend_mul_condition
    (fakeQuerier (Except.ok oneOrder) (Except.ok [hugePriceLease]) none none none)
    testStart testEnd [] [] ⟨"1", 1577836800000000000, true, true⟩ [] []
    ⟨"1", "1", "1", Float64.ofInt 100⟩ [] [] hugePriceLease [] []
    { BillingAccountID := "1", Projects := [], Spend := apd.New 0 0 }
    (DemandSpend.enter { BillingAccountID := "1", Projects := [], Spend := apd.New 0 0 }
      ⟨"1", "1", "1", Float64.ofInt 100⟩)
    ⟨apd.Form.Finite, false, 66, 1⟩ ⟨apd.Form.Finite, false, 0, 1⟩
    rfl rfl rfl rfl rfl (by decide!) (by decide!) (by decide!)

end billingaccount

namespace conv

/-- C8, counterexample: `FromFloat(1000000)` succeeds, and its textual form is `"1E+6"`,
while `%v` prints the float as `"1e+06"`. -/
theorem FromFloat_text_counterexample :
    (FromFloat (Float64.ofInt 1000000)).2 = none ∧
      (FromFloat (Float64.ofInt 1000000)).1.Str = "1E+6" ∧
      fmt.Sprintf_v (Float64.ofInt 1000000) = "1e+06" := by
  decide!

end conv

/-! ### Decimal digits -/

theorem digitVal_digitChar (n : Nat) : digitVal (digitChar n) = some (n % 10) := by
  have h : ∀ k, k < 10 → digitVal (Char.ofNat (48 + k)) = some k := by decide
  exact h (n % 10) (Nat.mod_lt _ (by decide))

theorem digitChar_of_digitVal (ch : Char) (v : Nat) (h : digitVal ch = some v) :
    digitChar v = ch ∧ v < 10 := by
  unfold digitVal at h
  split at h
  · rename_i hr
    simp only [Option.some.injEq] at h
    subst h
    have hlt : ch.toNat - 48 < 10 := by omega
    refine ⟨?_, hlt⟩
    unfold digitChar
    rw [Nat.mod_eq_of_lt hlt]
    have : 48 + (ch.toNat - 48) = ch.toNat := by omega
    rw [this]
    exact Char.ofNat_toNat ch
  · simp at h

theorem natDigitsAux_fuel (f g n : Nat) (hf : n < f) (hg : n < g) :
    natDigitsAux f n = natDigitsAux g n := by
  induction f generalizing g n with
  | zero => omega
  | succ f ih =>
    cases g with
    | zero => omega
    | succ g =>
      unfold natDigitsAux
      by_cases h : n < 10
      · simp [h]
      · simp only [h, if_false]
        rw [ih g (n / 10) (by omega) (by omega)]

theorem natDigits_lt (n : Nat) (h : n < 10) : natDigits n = [digitChar n] := by
  unfold natDigits natDigitsAux
  simp [h]

theorem natDigits_ge (n : Nat) (h : 10 ≤ n) :
    natDigits n = natDigits (n / 10) ++ [digitChar (n % 10)] := by
  have h1 : ¬ n < 10 := by omega
  unfold natDigits
  rw [natDigitsAux]
  simp only [h1, if_false]
  rw [natDigitsAux_fuel n (n / 10 + 1) (n / 10) (by omega) (by omega)]

theorem decLenAux_fuel (f g n : Nat) (hf : n ≤ f) (hg : n ≤ g) :
    decLenAux f n = decLenAux g n := by
  induction f generalizing g n with
  | zero =>
    have : n = 0 := by omega
    subst this
    cases g <;> simp [decLenAux]
  | succ f ih =>
    cases g with
    | zero =>
      have : n = 0 := by omega
      subst this
      simp [decLenAux]
    | succ g =>
      unfold decLenAux
      by_cases h : n < 10
      · simp [h]
      · simp only [h, if_false]
        rw [ih g (n / 10) (by omega) (by omega)]

theorem decLen_lt (n : Nat) (h : n < 10) : decLen n = 1 := by
  unfold decLen
  cases n with
  | zero => simp [decLenAux]
  | succ n => unfold decLenAux; simp [h]

theorem decLen_ge (n : Nat) (h : 10 ≤ n) : decLen n = decLen (n / 10) + 1 := by
  have h1 : ¬ n < 10 := by omega
  unfold decLen
  obtain ⟨m, rfl⟩ : ∃ m, n = m + 1 := ⟨n - 1, by omega⟩
  rw [decLenAux]
  simp only [h1, if_false]
  rw [decLenAux_fuel m ((m + 1) / 10) ((m + 1) / 10) (by omega) (le_refl _)]

theorem natDigits_length (n : Nat) : (natDigits n).length = decLen n := by
  induction n using Nat.strong_induction_on with
  | _ n ih =>
    by_cases h : n < 10
    · rw [natDigits_lt n h, decLen_lt n h]; rfl
    · rw [natDigits_ge n (by omega), decLen_ge n (by omega), List.length_append,
        ih (n / 10) (by omega)]
      rfl

/-- A number is below the power of ten of its number of digits. -/
theorem lt_pow_decLen (n : Nat) : n < 10 ^ decLen n := by
  induction n using Nat.strong_induction_on with
  | _ n ih =>
    by_cases h : n < 10
    · rw [decLen_lt n h]; simpa using h
    · rw [decLen_ge n (by omega), pow_succ]
      have := ih (n / 10) (by omega)
      omega

/-- A non-zero number is at least the power of ten below its number of digits. -/
theorem pow_decLen_le (n : Nat) (hn : n ≠ 0) : 10 ^ (decLen n - 1) ≤ n := by
  induction n using Nat.strong_induction_on with
  | _ n ih =>
    by_cases h : n < 10
    · rw [decLen_lt n h]; simp; omega
    · rw [decLen_ge n (by omega)]
      have := ih (n / 10) (by omega) (by omega)
      have h1 : 1 ≤ decLen (n / 10) := one_le_decLen _
      have h2 : decLen (n / 10) + 1 - 1 = (decLen (n / 10) - 1) + 1 := by omega
      rw [h2, pow_succ]
      omega

/-- A number below `10 ^ k` has at most `k` digits (`k ≥ 1`). -/
theorem decLen_le_of_lt_pow (n k : Nat) (hk : 1 ≤ k) (h : n < 10 ^ k) : decLen n ≤ k := by
  by_cases hn : n = 0
  · subst hn; rw [decLen_lt 0 (by decide)]; exact hk
  · by_contra hc
    have h1 := pow_decLen_le n hn
    have h2 : 10 ^ k ≤ 10 ^ (decLen n - 1) := Nat.pow_le_pow_right (by decide) (by omega)
    omega

/-! ### Reading digits -/

theorem isDigits_append (xs ys : List Char) :
    isDigits (xs ++ ys) = (isDigits xs && isDigits ys) := by
  simp [isDigits, List.all_append]

theorem isDigits_cons (x : Char) (xs : List Char) :
    isDigits (x :: xs) = ((digitVal x).isSome && isDigits xs) := by
  simp [isDigits]

theorem digitsValue_append (xs ys : List Char) (acc : Nat) :
    digitsValue (xs ++ ys) acc =
      match digitsValue xs acc with
      | some a => digitsValue ys a
      | none => none := by
  induction xs generalizing acc with
  | nil => simp [digitsValue]
  | cons x xs ih =>
    simp only [List.cons_append, digitsValue]
    cases digitVal x with
    | none => simp
    | some v => simpa using ih (10 * acc + v)

/-- The value of a string of digits, read after `acc`. -/
theorem digitsValue_of_isDigits (cs : List Char) (h : isDigits cs = true) (acc : Nat) :
    digitsValue cs acc = some (acc * 10 ^ cs.length + digitsNat cs) := by
  induction cs generalizing acc with
  | nil => simp [digitsValue, digitsNat]
  | cons x xs ih =>
    rw [isDigits_cons] at h
    simp only [Bool.and_eq_true] at h
    obtain ⟨v, hv⟩ := Option.isSome_iff_exists.mp h.1
    have h0 := ih h.2 (10 * 0 + v)
    have h1 := ih h.2 (10 * acc + v)
    simp only [digitsValue, hv, digitsNat, h0, h1, Option.getD_some, List.length_cons]
    congr 1
    ring

theorem digitsNat_append (xs ys : List Char) (hx : isDigits xs = true) (hy : isDigits ys = true) :
    digitsNat (xs ++ ys) = digitsNat xs * 10 ^ ys.length + digitsNat ys := by
  have h1 := digitsValue_of_isDigits xs hx 0
  have h2 := digitsValue_of_isDigits ys hy (digitsNat xs)
  unfold digitsNat at *
  rw [digitsValue_append, h1]
  simp only [Nat.zero_mul, Nat.zero_add, Option.getD_some] at *
  rw [h2]
  simp

theorem digitsNat_lt (cs : List Char) (h : isDigits cs = true) : digitsNat cs < 10 ^ cs.length := by
  induction cs using List.reverseRecOn with
  | nil => simp [digitsNat, digitsValue]
  | append_singleton xs x ih =>
    rw [isDigits_append] at h
    simp only [Bool.and_eq_true] at h
    rw [digitsNat_append xs [x] h.1 h.2]
    have hx := ih h.1
    have h2 : digitsNat [x] < 10 := by
      have hd := h.2
      rw [isDigits_cons] at hd
      simp only [Bool.and_eq_true] at hd
      obtain ⟨v, hv⟩ := Option.isSome_iff_exists.mp hd.1
      have := (digitChar_of_digitVal x v hv).2
      simp [digitsNat, digitsValue, hv, this]
    simp only [List.length_append, List.length_singleton, pow_succ, pow_one]
    omega

theorem isDigits_natDigits (n : Nat) : isDigits (natDigits n) = true := by
  induction n using Nat.strong_induction_on with
  | _ n ih =>
    by_cases h : n < 10
    · rw [natDigits_lt n h]
      simp [isDigits, digitVal_digitChar]
    · rw [natDigits_ge n (by omega), isDigits_append, ih (n / 10) (by omega)]
      simp [isDigits, digitVal_digitChar]

theorem digitsNat_natDigits (n : Nat) : digitsNat (natDigits n) = n := by
  induction n using Nat.strong_induction_on with
  | _ n ih =>
    by_cases h : n < 10
    · rw [natDigits_lt n h]
      simp [digitsNat, digitsValue, digitVal_digitChar, Nat.mod_eq_of_lt h]
    · have hd : isDigits [digitChar (n % 10)] = true := by simp [isDigits, digitVal_digitChar]
      rw [natDigits_ge n (by omega), digitsNat_append _ _ (isDigits_natDigits _) hd,
        ih (n / 10) (by omega)]
      simp [digitsNat, digitsValue, digitVal_digitChar]
      omega

/-- The digits of the number a digit string denotes are the string, when it has no leading
zero. -/
theorem natDigits_digitsNat (cs : List Char) (h : isDigits cs = true) (hne : cs ≠ [])
    (hhead : cs.head? ≠ some '0') : natDigits (digitsNat cs) = cs := by
  induction cs using List.reverseRecOn with
  | nil => exact absurd rfl hne
  | append_singleton xs x ih =>
    rw [isDigits_append] at h
    simp only [Bool.and_eq_true] at h
    have hd := h.2
    rw [isDigits_cons] at hd
    simp only [Bool.and_eq_true] at hd
    obtain ⟨v, hv⟩ := Option.isSome_iff_exists.mp hd.1
    obtain ⟨hch, hv10⟩ := digitChar_of_digitVal x v hv
    have hx : digitsNat [x] = v := by simp [digitsNat, digitsValue, hv]
    rw [digitsNat_append xs [x] h.1 h.2, hx]
    simp only [List.length_singleton, pow_one]
    by_cases hxs : xs = []
    · subst hxs
      have h0 : digitsNat ([] : List Char) = 0 := by simp [digitsNat, digitsValue]
      rw [h0]
      simp only [Nat.zero_mul, Nat.zero_add, List.nil_append]
      rw [natDigits_lt v hv10]
      have : digitChar v = x := hch
      simp [this]
    · have hhead' : xs.head? ≠ some '0' := by
        cases xs with
        | nil => exact absurd rfl hxs
        | cons y ys => simpa using hhead
      have hrec := ih h.1 hxs hhead'
      have hpos : 1 ≤ digitsNat xs := by
        by_contra hc
        have h0 : digitsNat xs = 0 := by omega
        rw [h0, natDigits_lt 0 (by decide)] at hrec
        rw [← hrec] at hhead'
        exact hhead' (by decide)
      rw [natDigits_ge _ (by omega)]
      have e1 : (digitsNat xs * 10 + v) / 10 = digitsNat xs := by omega
      have e2 : (digitsNat xs * 10 + v) % 10 = v := by omega
      rw [e1, e2, hrec, hch]

/-! ### Reading a numeral -/

theorem digit_range (ch : Char) (h : (digitVal ch).isSome = true) :
    48 ≤ ch.toNat ∧ ch.toNat ≤ 57 := by
  unfold digitVal at h
  split at h
  · assumption
  · simp at h

theorem digit_ne (ch c : Char) (h : (digitVal ch).isSome = true)
    (hc : c.toNat < 48 ∨ 57 < c.toNat) : ch ≠ c := by
  intro he
  subst he
  have := digit_range ch h
  omega

theorem digit_toLower (ch : Char) (h : (digitVal ch).isSome = true) : ch.toLower = ch := by
  have := digit_range ch h
  unfold Char.toLower
  simp only
  rw [if_neg (by omega)]

theorem stripSign_digit (ch : Char) (r : List Char) (h : (digitVal ch).isSome = true) :
    apd.stripSign (ch :: r) = (false, ch :: r) := by
  unfold apd.stripSign
  simp only
  rw [if_neg (digit_ne ch '-' h (by decide)), if_neg (digit_ne ch '+' h (by decide))]

theorem splitExponent_digits (m : List Char) (hm : ∀ ch ∈ m, ch ≠ 'e' ∧ ch ≠ 'E')
    (exp : Option Int) :
    apd.splitExponent (m ++ expPart exp) = (m, exp.map expText) := by
  induction m with
  | nil => cases exp <;> simp [apd.splitExponent, expPart]
  | cons x xs ih =>
    have hx := hm x (List.mem_cons_self _ _)
    have ih' := ih (fun ch hch => hm ch (List.mem_cons_of_mem _ hch))
    simp only [List.cons_append, apd.splitExponent]
    simp [hx.1, hx.2, ih']

theorem splitPoint_digits (m : List Char) (hm : ∀ ch ∈ m, ch ≠ '.') (t : Option (List Char)) :
    apd.splitPoint (m ++ pointPart t) = (m, t) := by
  induction m with
  | nil => cases t <;> simp [apd.splitPoint, pointPart]
  | cons x xs ih =>
    have hx := hm x (List.mem_cons_self _ _)
    have ih' := ih (fun ch hch => hm ch (List.mem_cons_of_mem _ hch))
    simp only [List.cons_append, apd.splitPoint]
    simp [hx, ih']

theorem isDigits_mem (cs : List Char) (h : isDigits cs = true) (ch : Char) (hch : ch ∈ cs) :
    (digitVal ch).isSome = true := by
  unfold isDigits at h
  exact List.all_eq_true.mp h ch hch

theorem parseDigits_of_isDigits (cs : List Char) (h : isDigits cs = true) (hne : cs ≠ []) :
    parseDigits cs = some (digitsNat cs) := by
  unfold parseDigits
  cases cs with
  | nil => exact absurd rfl hne
  | cons x xs =>
    simp only [List.isEmpty_cons, Bool.false_eq_true, if_false]
    rw [digitsValue_of_isDigits _ h 0]
    simp

theorem parseDigits_expDigits (n : Nat) : parseDigits (strconv.expDigits n) = some n := by
  unfold strconv.expDigits
  split
  · have hd : isDigits ('0' :: natDigits n) = true := by
      rw [isDigits_cons, isDigits_natDigits]; decide
    rw [parseDigits_of_isDigits _ hd (by simp)]
    have : digitsNat ('0' :: natDigits n) = digitsNat (natDigits n) := by
      have h1 := digitsNat_append ['0'] (natDigits n) (by decide) (isDigits_natDigits n)
      have h2 : digitsNat ['0'] = 0 := by decide
      simpa [h2] using h1
    rw [this, digitsNat_natDigits]
  · have hne : natDigits n ≠ [] := by
      intro h
      have := natDigits_length n
      rw [h] at this
      have := one_le_decLen n
      simp at *
      omega
    rw [parseDigits_of_isDigits _ (isDigits_natDigits n) hne, digitsNat_natDigits]

theorem ParseInt32_exponent (e : Int) (h : -5000 ≤ e ∧ e ≤ 5000) :
    apd.ParseInt32 (expText e) = some e := by
  unfold apd.ParseInt32 expText
  by_cases he : e < 0
  · have hs : apd.stripSign ('-' :: strconv.expDigits e.natAbs) =
        (true, strconv.expDigits e.natAbs) := rfl
    simp only [he, if_true, hs, parseDigits_expDigits]
    have : -((e.natAbs : Nat) : Int) = e := by omega
    rw [this, if_neg]
    simp only [Bool.or_eq_true, decide_eq_true_eq, not_or, not_lt]
    omega
  · have hs : apd.stripSign ('+' :: strconv.expDigits e.natAbs) =
        (false, strconv.expDigits e.natAbs) := rfl
    simp only [he, if_false, hs, parseDigits_expDigits]
    have : ((e.natAbs : Nat) : Int) = e := by omega
    rw [this]
    simp only [Bool.false_eq_true, if_false]
    rw [if_neg]
    simp only [Bool.or_eq_true, decide_eq_true_eq, not_or, not_lt]
    omega

/-! ### The mantissa of a numeral -/

theorem exponentOutOfRange_of_bounded (xs : List Int)
    (h : ∀ x ∈ xs, -100000 ≤ x ∧ x ≤ 100000) : apd.exponentOutOfRange xs = none := by
  induction xs with
  | nil => rfl
  | cons x xs ih =>
    have hx := h x (List.mem_cons_self _ _)
    unfold apd.exponentOutOfRange apd.MaxExponent apd.MinExponent
    rw [if_neg (by omega), if_neg (by omega)]
    exact ih (fun y hy => h y (List.mem_cons_of_mem _ hy))

/-- Under the base context, a coefficient of at most 5000 digits with exponents of small
size keeps its value: the exponent is the sum, no flag, no error. -/
theorem setExponent_base (neg : Bool) (coeff : Nat) (xs : List Int)
    (hxs : ∀ x ∈ xs, -5000 ≤ x ∧ x ≤ 5000) (hsum : -10000 ≤ xs.sum ∧ xs.sum ≤ 10000)
    (hc : decLen coeff ≤ 5000) :
    (⟨apd.Form.Finite, neg, 0, coeff⟩ : apd.Decimal).setExponent apd.BaseContext 0 xs =
      (⟨apd.Form.Finite, neg, xs.sum, coeff⟩, 0) := by
  have h1 := one_le_decLen coeff
  rw [apd.setExponent_in_range]
  · exact exponentOutOfRange_of_bounded xs (fun x hx => by have := hxs x hx; omega)
  · simp only [apd.BaseContext, apd.MinExponent, apd.Decimal.NumDigits, apd.NumDigits]; omega
  · simp only [apd.BaseContext, apd.MaxExponent, apd.Decimal.NumDigits, apd.NumDigits]; omega
  · simp only [apd.MinExponent, apd.Decimal.NumDigits, apd.NumDigits]; omega
  · simp only [apd.MaxExponent, apd.Decimal.NumDigits, apd.NumDigits]; omega

theorem decLen_digitsNat_le (cs : List Char) (h : isDigits cs = true) (hne : cs ≠ []) :
    decLen (digitsNat cs) ≤ cs.length := by
  apply decLen_le_of_lt_pow
  · cases cs with
    | nil => exact absurd rfl hne
    | cons x xs => simp
  · exact digitsNat_lt cs h

theorem setMantissa_numeral (neg : Bool) (ip : List Char) (fp : Option (List Char))
    (exps1 : List Int)
    (hip : isDigits ip = true) (hne : ip ≠ [])
    (hfp : ∀ f, fp = some f → isDigits f = true)
    (hlen : ip.length + (fp.getD []).length ≤ 5000)
    (hexps : ∀ x ∈ exps1, -5000 ≤ x ∧ x ≤ 5000) (hlen1 : exps1.length ≤ 1) :
    apd.setMantissa apd.BaseContext neg
        (ip ++ pointPart fp) exps1 =
      Except.ok (⟨apd.Form.Finite, neg, exps1.sum - (fp.getD []).length,
        digitsNat (ip ++ fp.getD [])⟩, 0, none) := by
  have hsp := splitPoint_digits ip
    (fun ch hch => digit_ne ch '.' (isDigits_mem ip hip ch hch) (by decide)) fp
  have hsum1 : -5000 ≤ exps1.sum ∧ exps1.sum ≤ 5000 := by
    match exps1, hexps, hlen1 with
    | [], _, _ => simp
    | [x], hx, _ => simpa using hx x (List.mem_singleton_self x)
    | _ :: _ :: _, _, hl => simp at hl
  unfold apd.setMantissa
  rw [hsp]
  cases fp with
  | none =>
    simp only [Option.getD_none, List.append_nil, List.length_nil] at hlen ⊢
    rw [parseDigits_of_isDigits ip hip hne]
    simp only
    rw [setExponent_base neg _ exps1 hexps (by omega)
      (le_trans (decLen_digitsNat_le ip hip hne) (by omega))]
    simp [apd.Context.goError, apd.Condition.GoError]
  | some f =>
    have hf := hfp f rfl
    simp only [Option.getD_some] at hlen ⊢
    have hd : isDigits (ip ++ f) = true := by rw [isDigits_append, hip, hf]; rfl
    have hne2 : ip ++ f ≠ [] := by simp [hne]
    rw [parseDigits_of_isDigits _ hd hne2]
    simp only
    rw [setExponent_base neg _ (exps1 ++ [-(f.length : Int)])]
    · simp [apd.Context.goError, apd.Condition.GoError]
      omega
    · intro x hx
      rcases List.mem_append.mp hx with h | h
      · exact hexps x h
      · have : x = -(f.length : Int) := by simpa using h
        omega
    · simp only [List.sum_append, List.sum_cons, List.sum_nil]
      omega
    · have := decLen_digitsNat_le _ hd hne2
      simp only [List.length_append] at this
      omega

/-! ### `FromString` on a numeral -/

theorem stripSign_numeral (neg : Bool) (c0 : Char) (rest : List Char)
    (h0 : (digitVal c0).isSome = true) :
    apd.stripSign ((if neg then ['-'] else []) ++ c0 :: rest) = (neg, c0 :: rest) := by
  cases neg
  · simpa using stripSign_digit c0 rest h0
  · rfl

theorem not_special (c0 : Char) (rest : List Char) (h0 : (digitVal c0).isSome = true)
    (name : List Char) (hname : ∀ c, name.head? = some c → (digitVal c).isSome = false) :
    (c0 :: rest).map Char.toLower ≠ name := by
  intro h
  rw [List.map_cons, digit_toLower c0 h0] at h
  have := hname c0 (by rw [← h]; rfl)
  rw [h0] at this
  exact absurd this (by decide)

theorem not_special_start (c0 : Char) (rest : List Char) (h0 : (digitVal c0).isSome = true)
    (n : Char) (name : List Char) (hn : (digitVal n).isSome = false) :
    ¬ ((n :: name).isPrefixOf ((c0 :: rest).map Char.toLower) = true) := by
  rw [List.map_cons, digit_toLower c0 h0]
  have hne : (n == c0) = false := by
    rw [beq_eq_false_iff_ne]
    intro h
    rw [h, h0] at hn
    exact absurd hn (by decide)
  simp [List.isPrefixOf, hne]

theorem setString_numeral (neg : Bool) (ip : List Char) (fp : Option (List Char))
    (exp : Option Int)
    (hip : isDigits ip = true) (hne : ip ≠ [])
    (hfp : ∀ f, fp = some f → isDigits f = true)
    (hlen : ip.length + (fp.getD []).length ≤ 5000)
    (hexp : ∀ e, exp = some e → -5000 ≤ e ∧ e ≤ 5000) :
    apd.setString apd.BaseContext (String.mk (numeral neg ip fp exp)) =
      Except.ok (⟨apd.Form.Finite, neg, exp.getD 0 - (fp.getD []).length,
        digitsNat (ip ++ fp.getD [])⟩, 0, none) := by
  obtain ⟨c0, ip', rfl⟩ : ∃ c0 ip', ip = c0 :: ip' := by
    cases ip with
    | nil => exact absurd rfl hne
    | cons c r => exact ⟨c, r, rfl⟩
  have h0 : (digitVal c0).isSome = true := isDigits_mem _ hip c0 (List.mem_cons_self _ _)
  have hstrip : apd.stripSign (numeral neg (c0 :: ip') fp exp) =
      (neg, c0 :: (ip' ++ (pointPart fp ++ expPart exp))) := by
    unfold numeral
    exact stripSign_numeral neg c0 _ h0
  have hmant : ∀ ch ∈ (c0 :: ip') ++ pointPart fp, ch ≠ 'e' ∧ ch ≠ 'E' := by
    intro ch hch
    rcases List.mem_append.mp hch with h | h
    · have hd := isDigits_mem _ hip ch h
      exact ⟨digit_ne ch 'e' hd (by decide), digit_ne ch 'E' hd (by decide)⟩
    · cases fp with
      | none => simp [pointPart] at h
      | some f =>
        simp only [pointPart, List.mem_cons] at h
        rcases h with h | h
        · subst h; exact ⟨by decide, by decide⟩
        · have hd := isDigits_mem _ (hfp f rfl) ch h
          exact ⟨digit_ne ch 'e' hd (by decide), digit_ne ch 'E' hd (by decide)⟩
  have hsplit : apd.splitExponent (c0 :: (ip' ++ (pointPart fp ++ expPart exp))) =
      ((c0 :: ip') ++ pointPart fp, exp.map expText) := by
    have := splitExponent_digits ((c0 :: ip') ++ pointPart fp) hmant exp
    simpa [List.append_assoc] using this
  unfold apd.setString
  simp only [hstrip, hsplit]
  rw [if_neg (by
    simp only [List.head?_cons, Option.some.injEq, not_or]
    exact ⟨digit_ne c0 '-' h0 (by decide), digit_ne c0 '+' h0 (by decide)⟩)]
  rw [if_neg (by
    simp only [not_or]
    exact ⟨not_special c0 _ h0 _ (by intro c hc; simp at hc; subst hc; decide),
      not_special c0 _ h0 _ (by intro c hc; simp at hc; subst hc; decide)⟩)]
  rw [if_neg (not_special_start c0 _ h0 'n' ['a', 'n'] (by decide))]
  rw [if_neg (not_special_start c0 _ h0 's' ['n', 'a', 'n'] (by decide))]
  cases exp with
  | none =>
    simp only [Option.map_none', Option.getD_none]
    rw [setMantissa_numeral neg (c0 :: ip') fp [] hip hne hfp hlen (by simp) (by simp)]
    simp
  | some e =>
    have he := hexp e rfl
    simp only [Option.map_some', Option.getD_some]
    rw [ParseInt32_exponent e he]
    simp only
    rw [setMantissa_numeral neg (c0 :: ip') fp [e] hip hne hfp hlen
      (by intro x hx; have : x = e := by simpa using hx
          subst this; exact he) (by simp)]
    simp

/-- Reading the text of a numeral: the coefficient is the digits without the point, the
exponent the written exponent less the number of digits after the point; no condition and
no error. -/
theorem NewFromString_numeral (neg : Bool) (ip : List Char) (fp : Option (List Char))
    (exp : Option Int)
    (hip : isDigits ip = true) (hne : ip ≠ [])
    (hfp : ∀ f, fp = some f → isDigits f = true)
    (hlen : ip.length + (fp.getD []).length ≤ 5000)
    (hexp : ∀ e, exp = some e → -5000 ≤ e ∧ e ≤ 5000) :
    apd.NewFromString (String.mk (numeral neg ip fp exp)) =
      (some ⟨apd.Form.Finite, neg, exp.getD 0 - (fp.getD []).length,
        digitsNat (ip ++ fp.getD [])⟩, 0, none) := by
  have hd : isDigits (ip ++ fp.getD []) = true := by
    rw [isDigits_append, hip]
    cases fp with
    | none => rfl
    | some f => simpa using hfp f rfl
  have hne2 : ip ++ fp.getD [] ≠ [] := by simp [hne]
  have hdl := decLen_digitsNat_le _ hd hne2
  have hsum : -5000 ≤ exp.getD 0 ∧ exp.getD 0 ≤ 5000 := by
    cases exp with
    | none => simp
    | some e => simpa using hexp e rfl
  unfold apd.NewFromString apd.Context.NewFromString
  rw [setString_numeral neg ip fp exp hip hne hfp hlen hexp]
  simp only
  unfold apd.Context.round
  rw [if_pos (by rfl)]
  rw [apd.setExponent_in_range]
  · simp [apd.Context.goError, apd.Condition.GoError]
  · apply exponentOutOfRange_of_bounded
    intro x hx
    have : x = exp.getD 0 - ((fp.getD []).length : Int) := by simpa using hx
    omega
  all_goals
    simp only [apd.BaseContext, apd.MinExponent, apd.MaxExponent, apd.Decimal.NumDigits,
      apd.NumDigits, List.sum_cons, List.sum_nil, List.length_append] at *
    have := one_le_decLen (digitsNat (ip ++ fp.getD []))
    omega

/-- `conv.FromString` on the text of a numeral. -/
theorem FromString_numeral (neg : Bool) (ip : List Char) (fp : Option (List Char))
    (exp : Option Int)
    (hip : isDigits ip = true) (hne : ip ≠ [])
    (hfp : ∀ f, fp = some f → isDigits f = true)
    (hlen : ip.length + (fp.getD []).length ≤ 5000)
    (hexp : ∀ e, exp = some e → -5000 ≤ e ∧ e ≤ 5000) :
    conv.FromString (String.mk (numeral neg ip fp exp)) =
      (⟨apd.Form.Finite, neg, exp.getD 0 - (fp.getD []).length,
        digitsNat (ip ++ fp.getD [])⟩, none) := by
  unfold conv.FromString
  rw [NewFromString_numeral neg ip fp exp hip hne hfp hlen hexp]
  simp [apd.Condition.Any]

/-! ### Trailing zeros -/

theorem trimZeros_append (l : List Char) :
    ∃ j, l = strconv.trimZeros l ++ List.replicate j '0' := by
  unfold strconv.trimZeros
  have h := List.takeWhile_append_dropWhile (fun ch => ch == '0') l.reverse
  have h2 : List.takeWhile (fun ch => ch == '0') l.reverse =
      List.replicate (List.takeWhile (fun ch => ch == '0') l.reverse).length '0' := by
    apply List.eq_replicate_of_mem
    intro b hb
    have := List.mem_takeWhile_imp hb
    simpa using this
  have h3 := congrArg List.reverse h
  rw [List.reverse_append, List.reverse_reverse] at h3
  have h4 : (List.takeWhile (fun ch => ch == '0') l.reverse).reverse =
      List.replicate (List.takeWhile (fun ch => ch == '0') l.reverse).length '0' := by
    conv_lhs => rw [h2]
    rw [List.reverse_replicate]
  exact ⟨_, by rw [← h4]; exact h3.symm⟩

theorem isDigits_replicate_zero (j : Nat) : isDigits (List.replicate j '0') = true := by
  unfold isDigits
  rw [List.all_eq_true]
  intro ch hch
  have := List.eq_of_mem_replicate hch
  subst this
  decide

theorem isDigits_trimZeros (l : List Char) (h : isDigits l = true) :
    isDigits (strconv.trimZeros l) = true := by
  obtain ⟨j, hj⟩ := trimZeros_append l
  rw [hj, isDigits_append] at h
  simp only [Bool.and_eq_true] at h
  exact h.1

theorem trimZeros_length_le (l : List Char) : (strconv.trimZeros l).length ≤ l.length := by
  obtain ⟨j, hj⟩ := trimZeros_append l
  have := congrArg List.length hj
  simp only [List.length_append, List.length_replicate] at this
  omega

theorem trimZeros_head (l : List Char) (hne : l ≠ []) (hhead : l.head? ≠ some '0') :
    strconv.trimZeros l ≠ [] ∧ (strconv.trimZeros l).head? ≠ some '0' := by
  obtain ⟨j, hj⟩ := trimZeros_append l
  have hne2 : strconv.trimZeros l ≠ [] := by
    intro h
    rw [h, List.nil_append] at hj
    cases j with
    | zero => exact hne (by simpa using hj)
    | succ j => rw [hj] at hhead; exact hhead (by simp [List.replicate_succ])
  refine ⟨hne2, ?_⟩
  cases ht : strconv.trimZeros l with
  | nil => exact absurd ht hne2
  | cons y ys =>
    rw [ht] at hj
    rw [hj] at hhead
    simpa using hhead

theorem natDigits_ne_nil (n : Nat) : natDigits n ≠ [] := by
  intro h
  have := natDigits_length n
  rw [h] at this
  have := one_le_decLen n
  simp at *
  omega

theorem natDigits_head (n : Nat) (hn : 0 < n) : (natDigits n).head? ≠ some '0' := by
  induction n using Nat.strong_induction_on with
  | _ n ih =>
    by_cases h : n < 10
    · rw [natDigits_lt n h]
      simp only [List.head?_cons, ne_eq, Option.some.injEq]
      intro hc
      have h1 := digitVal_digitChar n
      rw [hc, Nat.mod_eq_of_lt h] at h1
      have h2 : digitVal '0' = some 0 := by decide
      rw [h2] at h1
      simp at h1
      omega
    · rw [natDigits_ge n (by omega)]
      have := ih (n / 10) (by omega) (by omega)
      cases hd : natDigits (n / 10) with
      | nil => exact absurd hd (natDigits_ne_nil _)
      | cons y ys =>
        rw [hd] at this
        simpa using this

/-! ### The search for the shortest digits -/

theorem cmpScaled_zero (s : Int) (n d : Nat) (hn : 0 < n) :
    strconv.cmpScaled 0 s n d = Ordering.lt := by
  unfold strconv.cmpScaled
  split
  · simp only [Nat.zero_mul]
    exact Nat.compare_eq_lt.mpr hn
  · simp only [Nat.zero_mul]
    exact Nat.compare_eq_lt.mpr (Nat.mul_pos hn (by positivity))

/-- A candidate for the shortest digits is positive, and at most one above the float
scaled to the candidate's length. -/
theorem candidate_pos_le (nv nlo nhi d : Nat) (inclusive : Bool) (dp : Int) (k c : Nat)
    (hnv : 0 < nv) (hnlo : 0 < nlo) (hd : 0 < d)
    (h : strconv.candidate nv nlo nhi d inclusive dp k = some c) :
    0 < c ∧ c ≤ (if dp - k ≥ 0 then nv else nv * 10 ^ (-(dp - (k : Int))).toNat) + 1 := by
  unfold strconv.candidate at h
  simp only at h
  generalize ha : (if dp - (k : Int) ≥ 0 then nv else nv * 10 ^ (-(dp - (k : Int))).toNat) = a at h ⊢
  generalize hb : (if dp - (k : Int) ≥ 0 then d * 10 ^ (dp - (k : Int)).toNat else d) = b at h
  have hapos : 0 < a := by
    rw [← ha]; split
    · exact hnv
    · exact Nat.mul_pos hnv (by positivity)
  have hbpos : 0 < b := by
    rw [← hb]; split
    · exact Nat.mul_pos hd (by positivity)
    · exact hd
  have hle : a / b ≤ a := Nat.div_le_self a b
  have hdm := Nat.div_add_mod a b
  generalize hq : a / b = q at h hle hdm ⊢
  have hdown :
      (match strconv.cmpScaled q (dp - k) nlo d with
        | Ordering.gt => true
        | Ordering.eq => inclusive
        | Ordering.lt => false) = true → 0 < q := by
    intro hr
    by_contra hc
    have h0 : q = 0 := by omega
    rw [h0, cmpScaled_zero _ _ _ hnlo] at hr
    simp at hr
  split at h
  · rename_i hmod
    simp only [Option.some.injEq] at h
    subst h
    rw [hmod] at hdm
    refine ⟨?_, by omega⟩
    by_contra hc
    have h0 : q = 0 := by omega
    rw [h0] at hdm
    simp at hdm
    omega
  · split at h
    · rename_i hboth
      simp only [Bool.and_eq_true] at hboth
      have hpos := hdown hboth.1
      split at h
      · simp only [Option.some.injEq] at h; subst h; exact ⟨hpos, by omega⟩
      · split at h
        · simp only [Option.some.injEq] at h; subst h; exact ⟨by omega, by omega⟩
        · split at h
          · simp only [Option.some.injEq] at h; subst h; exact ⟨hpos, by omega⟩
          · simp only [Option.some.injEq] at h; subst h; exact ⟨by omega, by omega⟩
    · split at h
      · rename_i hok
        have hpos := hdown hok
        simp only [Option.some.injEq] at h; subst h; exact ⟨hpos, by omega⟩
      · split at h
        · simp only [Option.some.injEq] at h; subst h; exact ⟨by omega, by omega⟩
        · simp at h

theorem shortestFrom_some (nv nlo nhi d : Nat) (inclusive : Bool) (dp : Int)
    (fuel k c k1 : Nat)
    (h : strconv.shortestFrom nv nlo nhi d inclusive dp fuel k = some (c, k1)) :
    k ≤ k1 ∧ k1 < k + fuel ∧ strconv.candidate nv nlo nhi d inclusive dp k1 = some c := by
  induction fuel generalizing k with
  | zero => simp [strconv.shortestFrom] at h
  | succ fuel ih =>
    unfold strconv.shortestFrom at h
    cases hc : strconv.candidate nv nlo nhi d inclusive dp k with
    | some c1 =>
      rw [hc] at h
      simp only [Option.some.injEq, Prod.mk.injEq] at h
      obtain ⟨h1, h2⟩ := h
      subst h1 h2
      exact ⟨le_refl _, by omega, hc⟩
    | none =>
      rw [hc] at h
      have := ih (k + 1) h
      exact ⟨by omega, by omega, this.2.2⟩

theorem pointOf_bounds (n d : Nat) (hn4 : n < 10 ^ 400) (hd4 : d < 10 ^ 400) :
    -400 ≤ strconv.pointOf n d ∧ strconv.pointOf n d ≤ 400 := by
  unfold strconv.pointOf
  split
  · have h1 : decLen (n / d) ≤ 400 :=
      decLen_le_of_lt_pow _ 400 (by decide) (lt_of_le_of_lt (Nat.div_le_self n d) hn4)
    omega
  · have h1 : decLen (d / n) ≤ 400 :=
      decLen_le_of_lt_pow _ 400 (by decide) (lt_of_le_of_lt (Nat.div_le_self d n) hd4)
    have h2 := one_le_decLen (d / n)
    simp only
    split <;> omega

/-! ### The shape of the shortest digits -/

theorem Float64.mant_lt (x : Float64) : x.mant < 9007199254740992 := by
  unfold Float64.mant
  have := x.frac.isLt
  generalize x.frac.val = n at this ⊢
  split <;> omega

theorem Float64.exp2_bounds (x : Float64) : -1074 ≤ x.exp2 ∧ x.exp2 ≤ 972 := by
  unfold Float64.exp2
  have := x.expo.isLt
  generalize x.expo.val = n at this ⊢
  split
  · decide
  · rename_i h
    have h1 : n ≠ 0 := by simpa using h
    clear h
    constructor <;> omega

/-- The shape of the shortest digits of a float: decimal digits without a leading zero, of
bounded length and with a bounded position of the point; no digits only with the point at
zero. -/
theorem shortest_shape (x : Float64) :
    isDigits (strconv.shortest x).d = true ∧ (strconv.shortest x).d.head? ≠ some '0' ∧
      (strconv.shortest x).d.length ≤ 1500 ∧
      -1500 ≤ (strconv.shortest x).dp ∧ (strconv.shortest x).dp ≤ 1500 ∧
      ((strconv.shortest x).d = [] → (strconv.shortest x).dp = 0) := by
  unfold strconv.shortest
  by_cases hm : x.mant = 0
  · simp [hm, isDigits]
  · rw [if_neg hm]
    simp only
    have hmlt := Float64.mant_lt x
    have he := Float64.exp2_bounds x
    generalize hup : (if x.exp2 - 2 ≥ 0 then 2 ^ (x.exp2 - 2).toNat else 1 : Nat) = up
    generalize hd : (if x.exp2 - 2 ≥ 0 then 1 else 2 ^ (-(x.exp2 - 2)).toNat : Nat) = d
    have hup1 : 0 < up ∧ up ≤ 2 ^ 970 := by
      rw [← hup]; split
      · exact ⟨by positivity, Nat.pow_le_pow_right (by decide) (by omega)⟩
      · exact ⟨by decide, by norm_num⟩
    have hd1 : 0 < d ∧ d ≤ 2 ^ 1076 := by
      rw [← hd]; split
      · exact ⟨by decide, by norm_num⟩
      · exact ⟨by positivity, Nat.pow_le_pow_right (by decide) (by omega)⟩
    have hnv : 0 < 4 * x.mant * up := Nat.mul_pos (by omega) hup1.1
    have hnv4 : 4 * x.mant * up < 10 ^ 400 := by
      have h1 : 4 * x.mant * up ≤ 4 * 9007199254740992 * 2 ^ 970 :=
        Nat.mul_le_mul (by omega) hup1.2
      have h2 : 4 * 9007199254740992 * 2 ^ 970 < 10 ^ 400 := by norm_num
      omega
    have hd4 : d < 10 ^ 400 := by
      have h2 : (2 : Nat) ^ 1076 < 10 ^ 400 := by norm_num
      omega
    have hp := pointOf_bounds (4 * x.mant * up) d hnv4 hd4
    generalize hdp : strconv.pointOf (4 * x.mant * up) d = dp at hp
    generalize hklo : (if (x.frac.val == 0 && decide (x.expo.val > 1)) = true then 4 * x.mant - 1
      else 4 * x.mant - 2) = klo
    have hklo1 : 0 < klo * up := by
      apply Nat.mul_pos _ hup1.1
      rw [← hklo]; split <;> omega
    cases hs : strconv.shortestFrom (4 * x.mant * up) (klo * up) ((4 * x.mant + 2) * up) d
        (x.mant % 2 == 0) dp 17 1 with
    | none => simp [isDigits]
    | some r =>
      obtain ⟨c, k⟩ := r
      obtain ⟨hk1, hk2, hc⟩ := shortestFrom_some _ _ _ _ _ _ _ _ _ _ hs
      obtain ⟨hcpos, hcle⟩ := candidate_pos_le _ _ _ _ _ _ _ _ hnv hklo1 hd1.1 hc
      have hcb : c < 10 ^ 818 := by
        have ha : (if dp - (k : Int) ≥ 0 then 4 * x.mant * up
            else 4 * x.mant * up * 10 ^ (-(dp - (k : Int))).toNat) < 10 ^ 817 := by
          split
          · exact lt_of_lt_of_le hnv4 (Nat.pow_le_pow_right (by decide) (by decide))
          · have h1 : 10 ^ (-(dp - (k : Int))).toNat ≤ 10 ^ 417 :=
              Nat.pow_le_pow_right (by decide) (by omega)
            calc 4 * x.mant * up * 10 ^ (-(dp - (k : Int))).toNat
                ≤ 4 * x.mant * up * 10 ^ 417 := Nat.mul_le_mul_left _ h1
              _ < 10 ^ 400 * 10 ^ 417 := Nat.mul_lt_mul_of_pos_right hnv4 (by positivity)
              _ = 10 ^ 817 := by rw [← pow_add]
        have h3 : (10 : Nat) ^ 817 + 1 ≤ 10 ^ 818 := by norm_num
        omega
      have hlen : decLen c ≤ 818 := decLen_le_of_lt_pow c 818 (by decide) hcb
      have hl1 := one_le_decLen c
      have hth := trimZeros_head (natDigits c) (natDigits_ne_nil c) (natDigits_head c hcpos)
      have htl := trimZeros_length_le (natDigits c)
      rw [natDigits_length] at htl
      simp only
      refine ⟨isDigits_trimZeros _ (isDigits_natDigits c), hth.2, by omega, ?_, ?_, ?_⟩
      · rw [natDigits_length]; omega
      · rw [natDigits_length]; omega
      · intro h; exact absurd h hth.1

/-! ### The text of `%e` and `%f` -/

theorem fmtE_numeral (neg : Bool) (c0 : Char) (t : List Char) (dp : Int) :
    strconv.fmtE neg ⟨c0 :: t, dp⟩ t.length =
      numeral neg [c0] (if t = [] then none else some t) (some (dp - 1)) := by
  unfold strconv.fmtE numeral
  cases t with
  | nil => simp [pointPart, expPart, expText]
  | cons y ys => simp [pointPart, expPart, expText]

theorem fmtF_zero (neg : Bool) :
    strconv.fmtF neg ⟨[], 0⟩ 0 = numeral neg ['0'] none none := by
  unfold strconv.fmtF numeral
  simp [pointPart, expPart]

theorem fmtF_low (neg : Bool) (d : List Char) (dp : Int) (hd : d ≠ []) (hdp : dp ≤ 0) :
    strconv.fmtF neg ⟨d, dp⟩ ((d.length : Int) - dp).toNat =
      numeral neg ['0'] (some (List.replicate (-dp).toNat '0' ++ d)) none := by
  have hlen : 0 < d.length := List.length_pos.mpr hd
  have h1 : ¬ dp > 0 := by omega
  have h2 : dp.toNat = 0 := by omega
  have h3 : ((d.length : Int) - dp).toNat > 0 := by omega
  have h4 : ((d.length : Int) - dp).toNat = (-dp).toNat + d.length := by omega
  unfold strconv.fmtF numeral
  simp only [h1, if_false, h2, List.drop_zero, h3, if_true, pointPart, expPart,
    List.append_nil, List.length_append, List.length_replicate]
  rw [h4]
  simp

theorem fmtF_mid (neg : Bool) (d : List Char) (dp : Int) (hdp : 0 < dp)
    (hlt : dp < d.length) :
    strconv.fmtF neg ⟨d, dp⟩ ((d.length : Int) - dp).toNat =
      numeral neg (d.take dp.toNat) (some (d.drop dp.toNat)) none := by
  have h1 : dp.toNat - d.length = 0 := by omega
  have h2 : (-dp).toNat = 0 := by omega
  have h3 : ((d.length : Int) - dp).toNat > 0 := by omega
  have h4 : ((d.length : Int) - dp).toNat = d.length - dp.toNat := by omega
  unfold strconv.fmtF numeral
  simp only [hdp, gt_iff_lt, if_true, h1, h2, h3, List.replicate_zero, List.append_nil,
    List.nil_append, pointPart, expPart, List.length_drop]
  rw [h4]
  simp

theorem fmtF_high (neg : Bool) (d : List Char) (dp : Int) (hd : d ≠ [])
    (hge : (d.length : Int) ≤ dp) :
    strconv.fmtF neg ⟨d, dp⟩ ((d.length : Int) - dp).toNat =
      numeral neg (d ++ List.replicate (dp.toNat - d.length) '0') none none := by
  have hlen : 0 < d.length := List.length_pos.mpr hd
  have h1 : dp > 0 := by omega
  have h3 : ((d.length : Int) - dp).toNat = 0 := by omega
  have h4 : d.length ≤ dp.toNat := by omega
  unfold strconv.fmtF numeral
  simp only [h1, if_true, h3, gt_iff_lt, lt_self_iff_false, if_false, pointPart, expPart,
    List.append_nil, List.take_of_length_le h4]

/-! ### The text of a finite float -/

theorem FromFloat_of_numeral (x : Float64) (neg : Bool) (ip : List Char)
    (fp : Option (List Char)) (exp : Option Int)
    (htext : strconv.FormatFloat x = numeral neg ip fp exp)
    (hip : isDigits ip = true) (hne : ip ≠ [])
    (hfp : ∀ f, fp = some f → isDigits f = true)
    (hlen : ip.length + (fp.getD []).length ≤ 5000)
    (hexp : ∀ e, exp = some e → -5000 ≤ e ∧ e ≤ 5000) :
    conv.FromFloat x =
      (⟨apd.Form.Finite, neg, exp.getD 0 - (fp.getD []).length,
        digitsNat (ip ++ fp.getD [])⟩, none) := by
  unfold conv.FromFloat fmt.Sprintf_v
  simp only [htext, FromString_numeral neg ip fp exp hip hne hfp hlen hexp]

theorem FormatFloat_finite (x : Float64) (hnan : x.IsNaN = false) (hinf : x.IsInf = false) :
    strconv.FormatFloat x =
      if (strconv.shortest x).dp - 1 < -4 ∨ (strconv.shortest x).dp - 1 ≥ 6 then
        strconv.fmtE x.sign (strconv.shortest x) ((strconv.shortest x).d.length - 1)
      else
        strconv.fmtF x.sign (strconv.shortest x)
          (((strconv.shortest x).d.length : Int) - (strconv.shortest x).dp).toNat := by
  unfold strconv.FormatFloat
  simp [hnan, hinf]

/-- The text of a finite float is a numeral that `FromString` reads: which one, by the
form `%v` takes. -/
theorem FormatFloat_cases (x : Float64) (hnan : x.IsNaN = false) (hinf : x.IsInf = false) :
    (∃ c0 t dp, (dp - 1 < -4 ∨ dp - 1 ≥ 6) ∧ isDigits (c0 :: t) = true ∧ t.length ≤ 1500 ∧
        -1500 ≤ dp ∧ dp ≤ 1500 ∧
        strconv.FormatFloat x =
          numeral x.sign [c0] (if t = [] then none else some t) (some (dp - 1))) ∨
    (strconv.FormatFloat x = numeral x.sign ['0'] none none) ∨
    (∃ d dp, d ≠ [] ∧ isDigits d = true ∧ d.head? ≠ some '0' ∧ d.length ≤ 1500 ∧
        -3 ≤ dp ∧ dp ≤ 0 ∧
        strconv.FormatFloat x =
          numeral x.sign ['0'] (some (List.replicate (-dp).toNat '0' ++ d)) none) ∨
    (∃ (d : List Char) (dp : Int), isDigits d = true ∧ d.head? ≠ some '0' ∧ d.length ≤ 1500 ∧
        0 < dp ∧ dp < d.length ∧
        strconv.FormatFloat x = numeral x.sign (d.take dp.toNat) (some (d.drop dp.toNat)) none) ∨
    (∃ d dp, d ≠ [] ∧ isDigits d = true ∧ d.head? ≠ some '0' ∧
        (d.length : Int) ≤ dp ∧ dp ≤ 6 ∧
        strconv.FormatFloat x =
          numeral x.sign (d ++ List.replicate (dp.toNat - d.length) '0') none none) := by
  obtain ⟨hdig, hhead, hlen, hlo, hhi, hnil⟩ := shortest_shape x
  rw [FormatFloat_finite x hnan hinf]
  rcases hs : strconv.shortest x with ⟨d, dp⟩
  rw [hs] at hdig hhead hlen hlo hhi hnil
  simp only at hdig hhead hlen hlo hhi hnil ⊢
  by_cases hcond : dp - 1 < -4 ∨ dp - 1 ≥ 6
  · rw [if_pos hcond]
    left
    cases d with
    | nil =>
      have := hnil rfl
      omega
    | cons c0 t =>
      refine ⟨c0, t, dp, hcond, hdig, ?_, hlo, hhi, ?_⟩
      · simp only [List.length_cons] at hlen; omega
      · have : (c0 :: t).length - 1 = t.length := by simp
        rw [this]
        exact fmtE_numeral x.sign c0 t dp
  · rw [if_neg hcond]
    right
    by_cases hd : d = []
    · left
      subst hd
      have := hnil rfl
      subst this
      exact fmtF_zero x.sign
    · right
      by_cases h1 : dp ≤ 0
      · left
        exact ⟨d, dp, hd, hdig, hhead, hlen, by omega, h1, fmtF_low x.sign d dp hd h1⟩
      · right
        by_cases h2 : dp < d.length
        · left
          exact ⟨d, dp, hdig, hhead, hlen, by omega, h2, fmtF_mid x.sign d dp (by omega) h2⟩
        · right
          exact ⟨d, dp, hd, hdig, hhead, by omega, by omega,
            fmtF_high x.sign d dp hd (by omega)⟩

/-! ### `FromFloat` succeeds -/

theorem FromFloat_nan (x : Float64) (hnan : x.IsNaN = true) :
    conv.FromFloat x = (⟨apd.Form.NaN, false, 0, 0⟩, none) ∧ fmt.Sprintf_v x = "NaN" := by
  have h : strconv.FormatFloat x = "NaN".data := by
    unfold strconv.FormatFloat
    simp [hnan]
  have h2 : conv.FromString "NaN" = (⟨apd.Form.NaN, false, 0, 0⟩, none) := by decide!
  constructor
  · unfold conv.FromFloat fmt.Sprintf_v
    simp only [h]
    exact (by rw [show (String.mk "NaN".data) = "NaN" from rfl, h2])
  · unfold fmt.Sprintf_v
    rw [h]

theorem FromFloat_inf (x : Float64) (hnan : x.IsNaN = false) (hinf : x.IsInf = true) :
    conv.FromFloat x = (⟨apd.Form.Infinite, x.sign, 0, 0⟩, none) := by
  have h : strconv.FormatFloat x = if x.sign then "-Inf".data else "+Inf".data := by
    unfold strconv.FormatFloat
    simp [hnan, hinf]
  have h2 : conv.FromString "-Inf" = (⟨apd.Form.Infinite, true, 0, 0⟩, none) := by decide!
  have h3 : conv.FromString "+Inf" = (⟨apd.Form.Infinite, false, 0, 0⟩, none) := by decide!
  unfold conv.FromFloat fmt.Sprintf_v
  simp only [h]
  cases x.sign
  · simp only [Bool.false_eq_true, if_false]
    rw [show (String.mk "+Inf".data) = "+Inf" from rfl, h3]
  · simp only [if_true]
    rw [show (String.mk "-Inf".data) = "-Inf" from rfl, h2]

/-- `FromFloat` succeeds on every float. -/
theorem FromFloat_ok (x : Float64) : (conv.FromFloat x).2 = none := by
  by_cases hnan : x.IsNaN = true
  · rw [(FromFloat_nan x hnan).1]
  · have hnan' : x.IsNaN = false := by simpa using hnan
    by_cases hinf : x.IsInf = true
    · rw [FromFloat_inf x hnan' hinf]
    · have hinf' : x.IsInf = false := by simpa using hinf
      have hd0 : isDigits ['0'] = true := by decide
      rcases FormatFloat_cases x hnan' hinf' with
        ⟨c0, t, dp, _, hdig, hlen, hlo, hhi, htext⟩ | htext |
        ⟨d, dp, hd, hdig, _, hlen, hlo, hhi, htext⟩ | ⟨d, dp, hdig, _, hlen, hlo, hhi, htext⟩ |
        ⟨d, dp, hd, hdig, _, hlo, hhi, htext⟩
      · rw [isDigits_cons] at hdig
        simp only [Bool.and_eq_true] at hdig
        rw [FromFloat_of_numeral x _ _ _ _ htext (by rw [isDigits_cons, hdig.1]; rfl) (by simp)
          (by
            intro f hf
            split at hf
            · simp at hf
            · simp at hf; subst hf; exact hdig.2)
          (by (split <;> simp); omega)
          (by intro e he; simp at he; omega)]
      · rw [FromFloat_of_numeral x _ _ _ _ htext hd0 (by simp) (by simp) (by simp) (by simp)]
      · rw [FromFloat_of_numeral x _ _ _ _ htext hd0 (by simp)
          (by intro f hf; simp at hf; subst hf
              rw [isDigits_append, isDigits_replicate_zero, hdig]; rfl)
          (by simp; omega) (by simp)]
      · have htd := List.take_append_drop dp.toNat d
        have hdd : isDigits (d.take dp.toNat) = true ∧ isDigits (d.drop dp.toNat) = true := by
          rw [← htd, isDigits_append] at hdig
          simpa using hdig
        rw [FromFloat_of_numeral x _ _ _ _ htext hdd.1
          (by intro h; have := congrArg List.length h
              rw [List.length_take, List.length_nil] at this; omega)
          (by intro f hf; simp at hf; subst hf; exact hdd.2)
          (by simp; omega) (by simp)]
      · rw [FromFloat_of_numeral x _ _ _ _ htext
          (by rw [isDigits_append, isDigits_replicate_zero, hdig]; rfl) (by simp [hd])
          (by simp) (by simp; omega) (by simp)]

/-! ### The textual form of a decimal -/

theorem digitsNat_replicate_zero (k : Nat) : digitsNat (List.replicate k '0') = 0 := by
  induction k with
  | zero => decide
  | succ k ih =>
    rw [List.replicate_succ]
    have h := digitsNat_append ['0'] (List.replicate k '0') (by decide)
      (isDigits_replicate_zero k)
    have h0 : digitsNat ['0'] = 0 := by decide
    simp only [List.singleton_append] at h
    rw [h, h0, ih]
    simp

/-- Zeros before a string of digits do not change the number. -/
theorem digitsNat_leading_zeros (k : Nat) (d : List Char) (hd : isDigits d = true) :
    digitsNat (List.replicate k '0' ++ d) = digitsNat d := by
  rw [digitsNat_append _ _ (isDigits_replicate_zero k) hd, digitsNat_replicate_zero]
  simp

/-- The textual form of a finite decimal in plain notation. -/
theorem Str_plain (neg : Bool) (E : Int) (C : Nat) (hE : E ≤ 0)
    (hadj : -6 ≤ E + (decLen C : Int) - 1) :
    (⟨apd.Form.Finite, neg, E, C⟩ : apd.Decimal).Str =
      String.mk ((if neg then ['-'] else []) ++
        apd.fmtF ⟨apd.Form.Finite, neg, E, C⟩ (natDigits C)) := by
  unfold apd.Decimal.Str
  simp only [natDigits_length]
  rw [if_pos ⟨hE, by omega⟩]

theorem Str_text_zero (neg : Bool) :
    (⟨apd.Form.Finite, neg, 0, digitsNat ['0']⟩ : apd.Decimal).Str =
      String.mk (numeral neg ['0'] none none) := by
  cases neg <;> decide

theorem Str_text_low (neg : Bool) (d : List Char) (k : Nat) (hd : d ≠ [])
    (hdig : isDigits d = true) (hhead : d.head? ≠ some '0') (hk : k ≤ 3) :
    (⟨apd.Form.Finite, neg, 0 - ((List.replicate k '0' ++ d).length : Int),
        digitsNat (['0'] ++ (List.replicate k '0' ++ d))⟩ : apd.Decimal).Str =
      String.mk (numeral neg ['0'] (some (List.replicate k '0' ++ d)) none) := by
  have hlen : 0 < d.length := List.length_pos.mpr hd
  have hC : digitsNat (['0'] ++ (List.replicate k '0' ++ d)) = digitsNat d := by
    have := digitsNat_leading_zeros (k + 1) d hdig
    rw [List.replicate_succ] at this
    simpa using this
  have hnd : natDigits (digitsNat d) = d := natDigits_digitsNat d hdig hd hhead
  have hdl : decLen (digitsNat d) = d.length := by rw [← natDigits_length, hnd]
  have hE : (0 : Int) - ((List.replicate k '0' ++ d).length : Int) =
      -((k : Int) + (d.length : Int)) := by
    simp only [List.length_append, List.length_replicate]
    push_cast
    ring
  have hp := Str_plain neg (-((k : Int) + (d.length : Int))) (digitsNat d) (by omega)
    (by rw [hdl]; omega)
  rw [hC, hE, hp, hnd]
  congr 1
  unfold apd.fmtF numeral
  simp only [pointPart, expPart]
  have h1 : -((k : Int) + (d.length : Int)) < 0 := by omega
  have h2 : -(-((k : Int) + (d.length : Int))) - (d.length : Int) ≥ 0 := by omega
  rw [if_pos h1, if_pos h2]
  have : (-(-((k : Int) + (d.length : Int))) - (d.length : Int)).toNat = k := by omega
  simp [this]

theorem Str_text_mid (neg : Bool) (d : List Char) (n : Nat)
    (hdig : isDigits d = true) (hhead : d.head? ≠ some '0') (hn : 0 < n) (hlt : n < d.length) :
    (⟨apd.Form.Finite, neg, 0 - ((d.drop n).length : Int),
        digitsNat (d.take n ++ d.drop n)⟩ : apd.Decimal).Str =
      String.mk (numeral neg (d.take n) (some (d.drop n)) none) := by
  have hd : d ≠ [] := by intro h; rw [h] at hlt; simp at hlt
  have hnd : natDigits (digitsNat d) = d := natDigits_digitsNat d hdig hd hhead
  have hdl : decLen (digitsNat d) = d.length := by rw [← natDigits_length, hnd]
  have hE : (0 : Int) - ((d.drop n).length : Int) = (n : Int) - (d.length : Int) := by
    simp only [List.length_drop]
    omega
  have hp := Str_plain neg ((n : Int) - (d.length : Int)) (digitsNat d) (by omega)
    (by rw [hdl]; omega)
  rw [List.take_append_drop, hE, hp, hnd]
  congr 1
  unfold apd.fmtF numeral
  simp only [pointPart, expPart]
  have h1 : (n : Int) - (d.length : Int) < 0 := by omega
  have h2 : ¬ (-((n : Int) - (d.length : Int)) - (d.length : Int) ≥ 0) := by omega
  rw [if_pos h1, if_neg h2]
  have : (-(-((n : Int) - (d.length : Int)) - (d.length : Int))).toNat = n := by omega
  simp [this]

theorem Str_text_high (neg : Bool) (d : List Char) (k : Nat) (hd : d ≠ [])
    (hdig : isDigits d = true) (hhead : d.head? ≠ some '0') :
    (⟨apd.Form.Finite, neg, 0 - (([] : List Char).length : Int),
        digitsNat (d ++ List.replicate k '0' ++ [])⟩ : apd.Decimal).Str =
      String.mk (numeral neg (d ++ List.replicate k '0') none none) := by
  have hdig2 : isDigits (d ++ List.replicate k '0') = true := by
    rw [isDigits_append, hdig, isDigits_replicate_zero]; rfl
  have hhead2 : (d ++ List.replicate k '0').head? ≠ some '0' := by
    cases d with
    | nil => exact absurd rfl hd
    | cons y ys => simpa using hhead
  have hnd := natDigits_digitsNat (d ++ List.replicate k '0') hdig2 (by simp [hd]) hhead2
  have hdl : decLen (digitsNat (d ++ List.replicate k '0')) = d.length + k := by
    rw [← natDigits_length, hnd]; simp
  have hE : (0 : Int) - (([] : List Char).length : Int) = 0 := by simp
  have hp := Str_plain neg 0 (digitsNat (d ++ List.replicate k '0')) (by omega)
    (by rw [hdl]; omega)
  rw [List.append_nil, hE, hp, hnd]
  unfold apd.fmtF numeral
  simp [pointPart, expPart]

/-! ### `FromFloat` and `%v` -/

/-- When `%v` prints a float that is not an infinity without an exponent, the textual form
of the decimal `FromFloat` returns is that text. -/
theorem FromFloat_text_plain (x : Float64) (hinf : x.IsInf = false)
    (hne : 'e' ∉ (fmt.Sprintf_v x).data) : (conv.FromFloat x).1.Str = fmt.Sprintf_v x := by
  by_cases hnan : x.IsNaN = true
  · rw [(FromFloat_nan x hnan).1, (FromFloat_nan x hnan).2]
    decide
  · have hnan' : x.IsNaN = false := by simpa using hnan
    have hd0 : isDigits ['0'] = true := by decide
    have hS : fmt.Sprintf_v x = String.mk (strconv.FormatFloat x) := rfl
    rcases FormatFloat_cases x hnan' hinf with
      ⟨c0, t, dp, _, hdig, hlen, hlo, hhi, htext⟩ | htext |
      ⟨d, dp, hd, hdig, hhead, hlen, hlo, hhi, htext⟩ |
      ⟨d, dp, hdig, hhead, hlen, hlo, hhi, htext⟩ |
      ⟨d, dp, hd, hdig, hhead, hlo, hhi, htext⟩
    · exfalso
      apply hne
      rw [hS, htext]
      simp [numeral, expPart]
    · rw [FromFloat_of_numeral x _ _ _ _ htext hd0 (by simp) (by simp) (by simp) (by simp),
        hS, htext]
      exact Str_text_zero x.sign
    · rw [FromFloat_of_numeral x _ _ _ _ htext hd0 (by simp)
          (by intro f hf; simp at hf; subst hf
              rw [isDigits_append, isDigits_replicate_zero, hdig]; rfl)
          (by simp; omega) (by simp), hS, htext]
      simp only [Option.getD_none, Option.getD_some]
      exact Str_text_low x.sign d (-dp).toNat hd hdig hhead (by omega)
    · have htd := List.take_append_drop dp.toNat d
      have hdd : isDigits (d.take dp.toNat) = true ∧ isDigits (d.drop dp.toNat) = true := by
        rw [← htd, isDigits_append] at hdig
        simpa using hdig
      rw [FromFloat_of_numeral x _ _ _ _ htext hdd.1
          (by intro h; have := congrArg List.length h
              rw [List.length_take, List.length_nil] at this; omega)
          (by intro f hf; simp at hf; subst hf; exact hdd.2)
          (by simp; omega) (by simp), hS, htext]
      simp only [Option.getD_none, Option.getD_some]
      exact Str_text_mid x.sign d dp.toNat hdig hhead (by omega) (by omega)
    · rw [FromFloat_of_numeral x _ _ _ _ htext
          (by rw [isDigits_append, isDigits_replicate_zero, hdig]; rfl) (by simp [hd])
          (by simp) (by simp; omega) (by simp), hS, htext]
      simp only [Option.getD_none]
      exact Str_text_high x.sign d (dp.toNat - d.length) hd hdig hhead

/-! ### Floats that are integers -/

theorem bitLenAux_fuel (f g n : Nat) (hf : n ≤ f) (hg : n ≤ g) :
    Float64.bitLenAux f n = Float64.bitLenAux g n := by
  induction f generalizing g n with
  | zero =>
    have : n = 0 := by omega
    subst this
    cases g <;> simp [Float64.bitLenAux]
  | succ f ih =>
    cases g with
    | zero =>
      have : n = 0 := by omega
      subst this
      simp [Float64.bitLenAux]
    | succ g =>
      unfold Float64.bitLenAux
      by_cases h : n = 0
      · simp [h]
      · simp only [h, if_false]
        rw [ih g (n / 2) (by omega) (by omega)]

theorem bitLen_pos (n : Nat) (h : 0 < n) : Float64.bitLen n = Float64.bitLen (n / 2) + 1 := by
  unfold Float64.bitLen
  obtain ⟨m, rfl⟩ : ∃ m, n = m + 1 := ⟨n - 1, by omega⟩
  rw [Float64.bitLenAux]
  simp only [Nat.succ_ne_zero, if_false]
  rw [bitLenAux_fuel m ((m + 1) / 2) ((m + 1) / 2) (by omega) (le_refl _)]

theorem bitLen_zero : Float64.bitLen 0 = 0 := by decide

/-- A positive number lies between the powers of two around its number of bits. -/
theorem bitLen_spec (n : Nat) (h : 0 < n) :
    1 ≤ Float64.bitLen n ∧ 2 ^ (Float64.bitLen n - 1) ≤ n ∧ n < 2 ^ Float64.bitLen n := by
  induction n using Nat.strong_induction_on with
  | _ n ih =>
    rw [bitLen_pos n h]
    by_cases h1 : n / 2 = 0
    · have : n = 1 := by omega
      subst this
      simp [bitLen_zero]
    · obtain ⟨i1, i2, i3⟩ := ih (n / 2) (by omega) (by omega)
      refine ⟨by omega, ?_, ?_⟩
      · have : Float64.bitLen (n / 2) + 1 - 1 = (Float64.bitLen (n / 2) - 1) + 1 := by omega
        rw [this, pow_succ]
        omega
      · rw [pow_succ]
        omega

theorem bitLen_double (m : Nat) (h : 0 < m) : Float64.bitLen (2 * m) = Float64.bitLen m + 1 := by
  rw [bitLen_pos (2 * m) (by omega)]
  have : 2 * m / 2 = m := by omega
  rw [this]

theorem bitLen_mul_pow (n w : Nat) (h : 0 < n) :
    Float64.bitLen (n * 2 ^ w) = Float64.bitLen n + w := by
  induction w with
  | zero => simp
  | succ w ih =>
    have : n * 2 ^ (w + 1) = 2 * (n * 2 ^ w) := by rw [pow_succ]; ring
    rw [this, bitLen_double _ (Nat.mul_pos h (by positivity)), ih]
    omega

theorem bitLen_pow (w : Nat) : Float64.bitLen (2 ^ w) = w + 1 := by
  have := bitLen_mul_pow 1 w (by decide)
  have h1 : Float64.bitLen 1 = 1 := by decide
  rw [Nat.one_mul, h1] at this
  omega

/-- Rounding `n * 2 ^ w / 2 ^ w` for `0 < n < 2 ^ 53`: the float is `n` itself, with the
mantissa `n` shifted to 53 bits. -/
theorem round_scaled (neg : Bool) (n w : Nat) (h0 : 0 < n) (h53 : n < 9007199254740992) :
    Float64.round neg (n * 2 ^ w) (2 ^ w) =
      ⟨neg, ⟨(Float64.bitLen n + 1022) % 2048, Nat.mod_lt _ (by decide)⟩,
        ⟨(n * 2 ^ (53 - Float64.bitLen n) - 4503599627370496) % 4503599627370496,
          Nat.mod_lt _ (by decide)⟩⟩ ∧
    4503599627370496 ≤ n * 2 ^ (53 - Float64.bitLen n) ∧
    n * 2 ^ (53 - Float64.bitLen n) < 9007199254740992 ∧
    1 ≤ Float64.bitLen n ∧ Float64.bitLen n ≤ 53 := by
  obtain ⟨hL1, hLlo, hLhi⟩ := bitLen_spec n h0
  have hbn := bitLen_mul_pow n w h0
  have hbw := bitLen_pow w
  generalize hL : Float64.bitLen n = L at *
  have hL53 : L ≤ 53 := by
    by_contra hc
    have : (2 : Nat) ^ 53 ≤ 2 ^ (L - 1) := Nat.pow_le_pow_right (by decide) (by omega)
    have h2 : (2 : Nat) ^ 53 = 9007199254740992 := by norm_num
    omega
  have ha_lo : 4503599627370496 ≤ n * 2 ^ (53 - L) := by
    have : (2 : Nat) ^ (L - 1) * 2 ^ (53 - L) = 4503599627370496 := by
      rw [← pow_add]
      have : L - 1 + (53 - L) = 52 := by omega
      rw [this]; norm_num
    calc 4503599627370496 = 2 ^ (L - 1) * 2 ^ (53 - L) := this.symm
      _ ≤ n * 2 ^ (53 - L) := Nat.mul_le_mul_right _ hLlo
  have ha_hi : n * 2 ^ (53 - L) < 9007199254740992 := by
    have : (2 : Nat) ^ L * 2 ^ (53 - L) = 9007199254740992 := by
      rw [← pow_add]
      have : L + (53 - L) = 53 := by omega
      rw [this]; norm_num
    calc n * 2 ^ (53 - L) < 2 ^ L * 2 ^ (53 - L) :=
          Nat.mul_lt_mul_of_pos_right hLhi (by positivity)
      _ = 9007199254740992 := this
  refine ⟨?_, ha_lo, ha_hi, hL1, hL53⟩
  have hlead : Float64.leadExp (n * 2 ^ w) (2 ^ w) = (L : Int) - 1 := by
    unfold Float64.leadExp
    simp only [hbn, hbw]
    have e0 : ((L + w : Nat) : Int) - ((w + 1 : Nat) : Int) = (L : Int) - 1 := by omega
    rw [e0]
    have hge : (L : Int) - 1 ≥ 0 := by omega
    have htn : ((L : Int) - 1).toNat = L - 1 := by omega
    simp only [hge, if_true, htn]
    have : 2 ^ w * 2 ^ (L - 1) ≤ n * 2 ^ w := by
      rw [Nat.mul_comm]; exact Nat.mul_le_mul_right _ hLlo
    simp [this]
  have hscale : Float64.scaleOf ((L : Int) - 1) = (L : Int) - 53 := by
    unfold Float64.scaleOf
    rw [if_neg (by omega)]
    ring
  have hq : Float64.roundHalfEven
      (if (L : Int) - 53 ≥ 0 then n * 2 ^ w else n * 2 ^ w * 2 ^ (-((L : Int) - 53)).toNat)
      (if (L : Int) - 53 ≥ 0 then 2 ^ w * 2 ^ ((L : Int) - 53).toNat else 2 ^ w) =
      n * 2 ^ (53 - L) := by
    have hab : (if (L : Int) - 53 ≥ 0 then n * 2 ^ w
          else n * 2 ^ w * 2 ^ (-((L : Int) - 53)).toNat) = n * 2 ^ (53 - L) * 2 ^ w ∧
        (if (L : Int) - 53 ≥ 0 then 2 ^ w * 2 ^ ((L : Int) - 53).toNat else 2 ^ w) = 2 ^ w := by
      by_cases h : (L : Int) - 53 ≥ 0
      · have hL' : L = 53 := by omega
        subst hL'
        simp
      · have h1 : (-((L : Int) - 53)).toNat = 53 - L := by omega
        simp only [h, if_false, h1]
        exact ⟨by ring, trivial⟩
    rw [hab.1, hab.2]
    unfold Float64.roundHalfEven
    have hpos : 0 < 2 ^ w := by positivity
    rw [Nat.mul_mod_left, Nat.mul_div_cancel _ hpos]
    simp
    omega
  unfold Float64.round
  rw [if_neg (by have : 0 < n * 2 ^ w := Nat.mul_pos h0 (by positivity)
                 omega)]
  simp only [hlead, hscale, hq]
  unfold Float64.pack
  have h1 : ¬ n * 2 ^ (53 - L) < 4503599627370496 := by omega
  have h2 : ¬ n * 2 ^ (53 - L) ≥ 9007199254740992 := by omega
  have h3 : ¬ ((L : Int) - 53 + 1075 ≥ 2047) := by omega
  have h4 : ((L : Int) - 53 + 1075).toNat = L + 1022 := by omega
  simp only [h1, h2, h3, h4, if_false]

/-! ### The float of an integer -/

/-- The fields of the float of an integer `0 < n < 2 ^ 53` that the formatting looks at. -/
theorem round_int_fields (neg : Bool) (n : Nat) (h0 : 0 < n) (h53 : n < 9007199254740992) :
    (Float64.round neg n 1).sign = neg ∧
    (Float64.round neg n 1).IsNaN = false ∧ (Float64.round neg n 1).IsInf = false ∧
    (Float64.round neg n 1).mant = n * 2 ^ (53 - Float64.bitLen n) ∧
    (Float64.round neg n 1).exp2 = (Float64.bitLen n : Int) - 53 ∧
    1 ≤ Float64.bitLen n ∧ Float64.bitLen n ≤ 53 := by
  obtain ⟨hr, hlo, hhi, hL1, hL53⟩ := round_scaled neg n 0 h0 h53
  simp only [pow_zero, Nat.mul_one] at hr
  rw [hr]
  have he : (Float64.bitLen n + 1022) % 2048 = Float64.bitLen n + 1022 :=
    Nat.mod_eq_of_lt (by omega)
  have hf : (n * 2 ^ (53 - Float64.bitLen n) - 4503599627370496) % 4503599627370496 =
      n * 2 ^ (53 - Float64.bitLen n) - 4503599627370496 := Nat.mod_eq_of_lt (by omega)
  refine ⟨rfl, ?_, ?_, ?_, ?_, hL1, hL53⟩
  · simp only [Float64.IsNaN, he]
    simp
    intro hc
    omega
  · simp only [Float64.IsInf, he]
    simp
    intro hc
    omega
  · simp only [Float64.mant, he, hf]
    have : ¬ (Float64.bitLen n + 1022 = 0) := by omega
    simp only [beq_iff_eq, this, if_false]
    omega
  · simp only [Float64.exp2, he]
    have : ¬ (Float64.bitLen n + 1022 = 0) := by omega
    simp only [beq_iff_eq, this, if_false]
    push_cast
    omega

theorem ofInt_natCast (n : Nat) : Float64.ofInt (n : Int) = Float64.round false n 1 := by
  unfold Float64.ofInt
  have : ¬ ((n : Int) < 0) := by omega
  simp [this]

/-- A whole number of hours, as a float: `Duration.Hours` is exact. -/
theorem Hours_whole (h : Nat) (hh : h < 9007199254740992) :
    Duration.Hours ((h : Int) * Hour) = Float64.ofInt (h : Int) := by
  have hdiv : Int.tdiv ((h : Int) * Hour) Hour = (h : Int) :=
    Int.mul_tdiv_cancel _ (by decide)
  have hmod : Int.tmod ((h : Int) * Hour) Hour = 0 := Int.mul_tmod_left _ _
  have hz : Float64.div (Float64.ofInt 0) (Float64.ofInt 3600000000000) = Float64.Zero false := by
    decide!
  unfold Duration.Hours
  simp only [hdiv, hmod, hz]
  by_cases h0 : h = 0
  · subst h0
    decide!
  · rw [ofInt_natCast]
    obtain ⟨hs, hnan, hinf, hmant, hexp, hL1, hL53⟩ := round_int_fields false h (by omega) hh
    have hzn : (Float64.Zero false).IsNaN = false := by decide
    have hzi : (Float64.Zero false).IsInf = false := by decide
    obtain ⟨Z, hZ, hzf⟩ : ∃ Z : Nat, Z = 2 ^ 1074 ∧ (Float64.Zero false).toFrac = (0, Z) :=
      ⟨_, rfl, by decide!⟩
    have hzs : (Float64.Zero false).sign = false := rfl
    have hxf : (Float64.round false h 1).toFrac =
        (h * 2 ^ (53 - Float64.bitLen h), 2 ^ (53 - Float64.bitLen h)) := by
      unfold Float64.toFrac
      rw [hmant, hexp]
      by_cases hL : (Float64.bitLen h : Int) - 53 ≥ 0
      · have : Float64.bitLen h = 53 := by omega
        rw [this]
        simp
      · rw [if_neg hL]
        have : (-((Float64.bitLen h : Int) - 53)).toNat = 53 - Float64.bitLen h := by omega
        rw [this]
    unfold Float64.add
    simp only [hnan, hinf, hzn, hzi, hzf, hzs, hs, hxf, Bool.or_self, Bool.false_eq_true,
      if_false, Nat.zero_mul, Nat.add_zero, beq_self_eq_true, if_true]
    have e1 : h * 2 ^ (53 - Float64.bitLen h) * Z =
        h * 2 ^ (53 - Float64.bitLen h + 1074) := by rw [hZ, pow_add]; ring
    have e2 : 2 ^ (53 - Float64.bitLen h) * Z =
        2 ^ (53 - Float64.bitLen h + 1074) := by rw [hZ, pow_add]
    rw [e1, e2, (round_scaled false h _ (by omega) hh).1]
    have := (round_scaled false h 0 (by omega) hh).1
    simp only [pow_zero, Nat.mul_one] at this
    rw [this]

/-! ### The shortest digits of an integer -/

/-- The candidates for the shortest digits of an integer `n`, seen as `n * D / D` with
bounds less than one away: only a divisor `10 ^ (P - k)` of `n` gives one. -/
theorem candidate_int (n D nlo : Nat) (inclusive : Bool) (P k : Nat)
    (hD : 4 ≤ D) (hnlo : n * D - 2 ≤ nlo) (hk : k ≤ P) :
    strconv.candidate (n * D) nlo (n * D + 2) D inclusive (P : Int) k =
      if n % 10 ^ (P - k) = 0 then some (n / 10 ^ (P - k)) else none := by
  have hs : ((P : Int) - (k : Int)) ≥ 0 := by omega
  have hst : ((P : Int) - (k : Int)).toNat = P - k := by omega
  have hpos : 0 < 10 ^ (P - k) := by positivity
  have hDpos : 0 < D := by omega
  have hmod : n * D % (D * 10 ^ (P - k)) = D * (n % 10 ^ (P - k)) := by
    rw [Nat.mul_comm n D, Nat.mul_mod_mul_left]
  have hdiv : n * D / (D * 10 ^ (P - k)) = n / 10 ^ (P - k) := by
    rw [Nat.mul_comm n D, Nat.mul_div_mul_left _ _ hDpos]
  unfold strconv.candidate
  simp only [hs, if_true, hst, hmod, hdiv]
  by_cases hz : n % 10 ^ (P - k) = 0
  · simp [hz]
  · have hne : ¬ (D * (n % 10 ^ (P - k)) = 0) := by
      intro h
      rcases Nat.mul_eq_zero.mp h with h | h
      · omega
      · exact hz h
    rw [if_neg hne, if_neg hz]
    have hdm := Nat.div_add_mod n (10 ^ (P - k))
    have hr := Nat.mod_lt n hpos
    generalize n / 10 ^ (P - k) = q at *
    generalize n % 10 ^ (P - k) = r at *
    generalize hT : 10 ^ (P - k) = T at *
    have h1 : q * T + 1 ≤ n := by
      have : T * q = q * T := Nat.mul_comm _ _
      omega
    have h2 : n + 1 ≤ (q + 1) * T := by
      have : (q + 1) * T = T * q + T := by ring
      omega
    have hdown : strconv.cmpScaled q ((P : Int) - (k : Int)) nlo D = Ordering.lt := by
      unfold strconv.cmpScaled
      rw [if_pos hs, hst, hT]
      apply Nat.compare_eq_lt.mpr
      have h3 := Nat.mul_le_mul_right D h1
      have e : (q * T + 1) * D = q * T * D + D := by ring
      omega
    have hup : strconv.cmpScaled (q + 1) ((P : Int) - (k : Int)) (n * D + 2) D = Ordering.gt := by
      unfold strconv.cmpScaled
      rw [if_pos hs, hst, hT]
      apply Nat.compare_eq_gt.mpr
      have h3 := Nat.mul_le_mul_right D h2
      have e : (n + 1) * D = n * D + D := by ring
      omega
    simp [hdown, hup]

/-- The search for the shortest digits of an integer ends at a divisor of it. -/
theorem shortestFrom_int (n D nlo : Nat) (inclusive : Bool) (P : Nat)
    (hD : 4 ≤ D) (hnlo : n * D - 2 ≤ nlo) :
    ∀ (fuel k : Nat), k ≤ P → P < k + fuel →
      ∃ c k1, strconv.shortestFrom (n * D) nlo (n * D + 2) D inclusive (P : Int) fuel k
          = some (c, k1) ∧ k ≤ k1 ∧ k1 ≤ P ∧ c * 10 ^ (P - k1) = n := by
  intro fuel
  induction fuel with
  | zero => intro k h1 h2; omega
  | succ f ih =>
    intro k h1 h2
    unfold strconv.shortestFrom
    rw [candidate_int n D nlo inclusive P k hD hnlo h1]
    by_cases hz : n % 10 ^ (P - k) = 0
    · rw [if_pos hz]
      refine ⟨n / 10 ^ (P - k), k, rfl, le_refl _, h1, ?_⟩
      exact Nat.div_mul_cancel (Nat.dvd_of_mod_eq_zero hz)
    · rw [if_neg hz]
      have hk : k < P := by
        rcases Nat.lt_or_ge k P with h | h
        · exact h
        · exfalso; apply hz
          have : P - k = 0 := by omega
          rw [this, pow_zero]; exact Nat.mod_one n
      obtain ⟨c, k1, h3, h4, h5, h6⟩ := ih (k + 1) (by omega) (by omega)
      exact ⟨c, k1, h3, by omega, h5, h6⟩

/-- The shortest digits of the float of an integer below `2 ^ 53` are the digits of the
integer without its trailing zeros, the point after all of them. -/
theorem shortest_int (neg : Bool) (n : Nat) (h0 : 0 < n) (h53 : n < 9007199254740992) :
    ∃ d dp, strconv.shortest (Float64.round neg n 1) = ⟨d, dp⟩ ∧ d ≠ [] ∧ isDigits d = true ∧
      d.head? ≠ some '0' ∧ (d.length : Int) ≤ dp ∧ dp ≤ 40 ∧
      digitsNat d * 10 ^ (dp - (d.length : Int)).toNat = n := by
  obtain ⟨_, _, _, hm, he, hb1, hb2⟩ := round_int_fields neg n h0 h53
  generalize Float64.round neg n 1 = x at *
  generalize hL : Float64.bitLen n = L at *
  unfold strconv.shortest
  have hmne : x.mant ≠ 0 := by
    rw [hm]
    exact Nat.pos_iff_ne_zero.mp (Nat.mul_pos h0 (by positivity))
  rw [if_neg hmne]
  simp only
  have hneg : ¬ (x.exp2 - 2 ≥ 0) := by omega
  simp only [hneg, if_false, Nat.mul_one]
  have hexp : (-(x.exp2 - 2)).toNat = 55 - L := by omega
  rw [hexp]
  have hkv : 4 * x.mant = n * 2 ^ (55 - L) := by
    rw [hm]
    have : 55 - L = (53 - L) + 2 := by omega
    rw [this, pow_add]; ring
  rw [hkv]
  have hD : 4 ≤ 2 ^ (55 - L) := by
    have : 55 - L = (53 - L) + 2 := by omega
    rw [this, pow_add]
    have : 0 < 2 ^ (53 - L) := by positivity
    omega
  generalize 2 ^ (55 - L) = D at *
  have hP : strconv.pointOf (n * D) D = (decLen n : Int) := by
    unfold strconv.pointOf
    have h1 : D ≤ n * D := Nat.le_mul_of_pos_left D h0
    rw [if_pos h1, Nat.mul_div_cancel _ (by omega)]
  rw [hP]
  have hP16 : decLen n ≤ 16 := decLen_le_of_lt_pow n 16 (by decide) (by omega)
  have hP1 := one_le_decLen n
  generalize hklo : (if (x.frac.val == 0 && decide (x.expo.val > 1)) = true then n * D - 1
      else n * D - 2) = klo
  have hklo1 : n * D - 2 ≤ klo := by
    rw [← hklo]; split <;> omega
  obtain ⟨c, k, hs, hk1, hk2, hc⟩ :=
    shortestFrom_int n D klo (x.mant % 2 == 0) (decLen n) hD hklo1 17 1 hP1 (by omega)
  rw [hs]
  simp only
  have hcpos : 0 < c := by
    rcases Nat.eq_zero_or_pos c with h | h
    · rw [h] at hc; omega
    · exact h
  obtain ⟨j, hj⟩ := trimZeros_append (natDigits c)
  have hth := trimZeros_head (natDigits c) (natDigits_ne_nil c) (natDigits_head c hcpos)
  have hdig := isDigits_trimZeros _ (isDigits_natDigits c)
  have hlen : (natDigits c).length = (strconv.trimZeros (natDigits c)).length + j := by
    conv_lhs => rw [hj]
    simp
  have hval : c = digitsNat (strconv.trimZeros (natDigits c)) * 10 ^ j := by
    have h1 := digitsNat_natDigits c
    rw [hj, digitsNat_append _ _ hdig (isDigits_replicate_zero j),
      digitsNat_replicate_zero] at h1
    simp at h1
    omega
  have hcle : c ≤ n := by
    rw [← hc]; exact Nat.le_mul_of_pos_right c (by positivity)
  have hlc : decLen c ≤ 16 := decLen_le_of_lt_pow c 16 (by decide) (by omega)
  rw [natDigits_length] at hlen
  refine ⟨_, _, rfl, hth.1, hdig, hth.2, ?_, ?_, ?_⟩
  · rw [natDigits_length]; omega
  · rw [natDigits_length]; omega
  · rw [natDigits_length]
    have : ((decLen n : Int) - (k : Int) + (decLen c : Int) -
        ((strconv.trimZeros (natDigits c)).length : Int)).toNat = j + (decLen n - k) := by omega
    rw [this, pow_add, ← Nat.mul_assoc, ← hval, hc]

/-! ### `FromFloat` on an integer -/

/-- The decimal `FromFloat` makes of the float of an integer below `2 ^ 53`: a finite
decimal of that sign whose exponent is not negative and whose value is the integer. -/
theorem FromFloat_int (neg : Bool) (n : Nat) (h0 : 0 < n) (h53 : n < 9007199254740992) :
    ∃ (e : Int) (c : Nat), conv.FromFloat (Float64.round neg n 1) =
        (⟨apd.Form.Finite, neg, e, c⟩, none) ∧ 0 ≤ e ∧ e ≤ 40 ∧ c * 10 ^ e.toNat = n := by
  obtain ⟨d, dp, hs, hd, hdig, hhead, hge, hle, hval⟩ := shortest_int neg n h0 h53
  obtain ⟨hsign, hnan, hinf, _⟩ := round_int_fields neg n h0 h53
  generalize Float64.round neg n 1 = x at *
  have hF := FormatFloat_finite x hnan hinf
  rw [hs, hsign] at hF
  simp only at hF
  by_cases hcond : dp - 1 < -4 ∨ dp - 1 ≥ 6
  · rw [if_pos hcond] at hF
    cases d with
    | nil => exact absurd rfl hd
    | cons c0 t =>
      have hl : (c0 :: t).length - 1 = t.length := by simp
      rw [hl, fmtE_numeral neg c0 t dp] at hF
      have hg : (if t = [] then none else some t : Option (List Char)).getD [] = t := by
        by_cases ht : t = []
        · simp [ht]
        · simp [ht]
      have hc0 : isDigits [c0] = true := by
        have := hdig
        simp only [isDigits, List.all_cons, Bool.and_eq_true] at this ⊢
        simp [this.1]
      have ht : isDigits t = true := by
        have := hdig
        simp only [isDigits, List.all_cons, Bool.and_eq_true] at this ⊢
        exact this.2
      have hlen : t.length ≤ 1500 := by
        have := (shortest_shape x).2.2.1
        rw [hs] at this
        simp only [List.length_cons] at this
        omega
      have h := FromFloat_of_numeral x neg [c0] (if t = [] then none else some t) (some (dp - 1))
        hF hc0 (by simp)
        (by
          intro f hf
          by_cases h : t = []
          · simp [h] at hf
          · simp [h] at hf; rw [← hf]; exact ht)
        (by rw [hg]; simp; omega)
        (by intro e he; simp at he; omega)
      rw [hg] at h
      simp only [Option.getD_some, List.singleton_append] at h
      refine ⟨_, _, h, ?_, ?_, ?_⟩
      · simp only [List.length_cons] at hge; omega
      · omega
      · have : (dp - 1 - (t.length : Int)) = dp - ((c0 :: t).length : Int) := by
          simp only [List.length_cons]; push_cast; ring
        rw [this]; exact hval
  · rw [if_neg hcond, fmtF_high neg d dp hd hge] at hF
    have hz := isDigits_replicate_zero (dp.toNat - d.length)
    have h := FromFloat_of_numeral x neg (d ++ List.replicate (dp.toNat - d.length) '0') none none
      hF (by rw [isDigits_append, hdig, hz]; rfl) (by simp [hd])
      (by intro f hf; cases hf)
      (by simp; omega)
      (by intro e he; cases he)
    simp only [Option.getD_none, List.length_nil, Nat.cast_zero, sub_zero, List.append_nil] at h
    refine ⟨_, _, h, le_refl _, by decide, ?_⟩
    rw [digitsNat_append _ _ hdig hz, digitsNat_replicate_zero]
    simp only [List.length_replicate, Int.toNat_zero, pow_zero, Nat.mul_one, Nat.add_zero]
    have : dp.toNat - d.length = (dp - (d.length : Int)).toNat := by omega
    rw [this]; exact hval

/-! ### Adding to an integer total -/

/-- The decimal `FromFloat` makes of the float of an integer of magnitude below `2 ^ 53`: a
finite decimal with the sign of the integer, an exponent from 0 to 15, and the magnitude of
the integer as its value. -/
theorem FromFloat_ofInt (p : Int) (hp : p.natAbs < 9007199254740992) :
    ∃ (e : Int) (c : Nat), conv.FromFloat (Float64.ofInt p) =
        (⟨apd.Form.Finite, decide (p < 0), e, c⟩, none) ∧ 0 ≤ e ∧ e ≤ 15 ∧
        c * 10 ^ e.toNat = p.natAbs := by
  unfold Float64.ofInt
  rcases Nat.eq_zero_or_pos p.natAbs with h | h
  · have hp0 : p = 0 := Int.natAbs_eq_zero.mp h
    subst hp0
    exact ⟨0, 0, by decide!, le_refl _, by decide, by decide⟩
  · obtain ⟨e, c, h1, h2, _, h4⟩ := FromFloat_int (decide (p < 0)) p.natAbs h hp
    refine ⟨e, c, h1, h2, ?_, h4⟩
    have hc : 0 < c := by
      rcases Nat.eq_zero_or_pos c with hc | hc
      · rw [hc] at h4; omega
      · exact hc
    have h5 : 10 ^ e.toNat ≤ p.natAbs := by
      rw [← h4]; exact Nat.le_mul_of_pos_left _ hc
    have h6 : e.toNat < 16 := by
      by_contra hcon
      have : (10 : Nat) ^ 16 ≤ 10 ^ e.toNat := Nat.pow_le_pow_right (by decide) (by omega)
      omega
    omega

namespace apd

open billingaccount

/-- Adding a finite decimal with an exponent that is not negative to an integer total: the
sum is the integer total of the two, exactly and with no flag, when it stays below
`10 ^ 65`. -/
theorem Add_int (t : Int) (yn : Bool) (e : Int) (c : Nat) (he : 0 ≤ e ∧ e ≤ 100000)
    (hsum : (t + (if yn then -1 else 1) * ((c * 10 ^ e.toNat : Nat) : Int)).natAbs < 10 ^ 65) :
    apdContext.Add (New t 0) ⟨Form.Finite, yn, e, c⟩ =
      (New (t + (if yn then -1 else 1) * ((c * 10 ^ e.toNat : Nat) : Int)) 0, 0, none) := by
  generalize hB : c * 10 ^ e.toNat = B at *
  generalize hv : t + (if yn then -1 else 1) * (B : Int) = v at *
  have hmin : min (0 : Int) e = 0 := min_eq_left he.1
  have hup : upscale (New t 0) ⟨Form.Finite, yn, e, c⟩ = some (t.natAbs, B, 0) := by
    rw [upscale_eq _ _ (by simp [New]; omega)]
    simp [New, hmin, hB]
  have hround : apdContext.round (New v 0) = (New v 0, 0) := by
    have hd : decLen v.natAbs ≤ 65 := decLen_le_of_lt_pow _ 65 (by decide) hsum
    have hd1 := one_le_decLen v.natAbs
    unfold Context.round
    rw [if_neg (by simp [apdContext])]
    apply Round_in_range
    · simpa [apdContext, Decimal.NumDigits, New, NumDigits] using hd
    · simp [MaxExponent, MinExponent, New]
    · simp only [apdContext, Decimal.NumDigits, New, NumDigits]; omega
    · simp only [apdContext, Decimal.NumDigits, New, NumDigits]; omega
    · simp only [MinExponent, Decimal.NumDigits, New, NumDigits]; omega
    · simp only [MaxExponent, Decimal.NumDigits, New, NumDigits]; omega
  have hraw : (if (decide (t < 0) == yn) = true then
        (⟨Form.Finite, decide (t < 0), 0, t.natAbs + B⟩ : Decimal)
      else if t.natAbs < B then ⟨Form.Finite, !decide (t < 0), 0, B - t.natAbs⟩
      else if B < t.natAbs then ⟨Form.Finite, decide (t < 0), 0, t.natAbs - B⟩
      else ⟨Form.Finite, false, 0, 0⟩) = New v 0 := by
    unfold New
    rw [← hv]
    rcases lt_or_le t 0 with ht | ht <;> cases yn <;>
      rcases lt_trichotomy t.natAbs B with h | h | h
    all_goals
      first
        | (have hd : decide (t < 0) = true := by simpa using ht
           rw [hd])
        | (have hd : decide (t < 0) = false := by simpa using ht
           rw [hd])
      simp only [beq_self_eq_true, if_true, Bool.not_true, Bool.not_false, h, if_false,
        lt_irrefl, Bool.false_eq_true, Bool.true_eq_false, beq_iff_eq]
      first
        | (refine congrArg₂ (fun (a : Bool) (b : Nat) => (⟨Form.Finite, a, 0, b⟩ : Decimal))
            ?_ ?_
           · simp; omega
           · simp; omega)
        | (have h2 : ¬ t.natAbs < B := by omega
           simp only [h2, if_false]
           refine congrArg₂ (fun (a : Bool) (b : Nat) => (⟨Form.Finite, a, 0, b⟩ : Decimal))
            ?_ ?_
           · simp; omega
           · simp; omega)
  unfold Context.Add Context.setIfNaN
  simp only [hup]
  simp only [New] at hraw hround ⊢
  simp only [hraw, hround]
  simp [Context.goError, Condition.GoError]

end apd

/-! ### One account with one order -/

namespace billingaccount
open store

theorem enter_single (accountID : String) (order : Order) (va : apd.Decimal) :
    DemandSpend.enter { BillingAccountID := accountID, Projects := [], Spend := va } order =
      singleSpend accountID order (apd.New 0 0) (apd.New 0 0) va := by
  simp [DemandSpend.enter, singleSpend, StringMap.get, StringMap.set, List.lookup]

theorem orderSpend_single (accountID : String) (order : Order) (vo vp va : apd.Decimal) :
    (singleSpend accountID order vo vp va).orderSpend order.ProjectID order.ID = vo := by
  simp [DemandSpend.orderSpend, singleSpend, StringMap.get, List.lookup]

theorem projectSpend_single (accountID : String) (order : Order) (vo vp va : apd.Decimal) :
    (singleSpend accountID order vo vp va).projectSpend order.ProjectID = vp := by
  simp [DemandSpend.projectSpend, singleSpend, StringMap.get, List.lookup]

theorem setOrderSpend_single (accountID : String) (order : Order) (vo vp va v : apd.Decimal) :
    (singleSpend accountID order vo vp va).setOrderSpend order.ProjectID order.ID v =
      singleSpend accountID order v vp va := by
  simp [DemandSpend.setOrderSpend, singleSpend, StringMap.get, StringMap.set, List.lookup]

theorem setProjectSpend_single (accountID : String) (order : Order) (vo vp va v : apd.Decimal) :
    (singleSpend accountID order vo vp va).setProjectSpend order.ProjectID v =
      singleSpend accountID order vo v va := by
  simp [DemandSpend.setProjectSpend, singleSpend, StringMap.get, StringMap.set, List.lookup]

/-- The step of the lease loop on a lease inside the period that lasts `h` whole hours at the
integer price `p`: `h * p` is added to the three totals. -/
theorem leaseStep_whole (startTime endTime : Time) (accountID : String) (order : Order)
    (lease : Lease) (t : Int) (h : Nat) (p : Int)
    (hstart : startTime ≤ lease.CreateTime) (hvalid : lease.EndTime.Valid = true)
    (hend : lease.EndTime.Time < endTime)
    (hdur : lease.EndTime.Time - lease.CreateTime = (h : Int) * Hour)
    (hmax : (h : Int) * Hour ≤ maxDuration)
    (hprice : lease.PriceHr = Float64.ofInt p) (hp : p.natAbs < 9007199254740992)
    (hsum : t.natAbs + h * p.natAbs < 10 ^ 65) :
    leaseStep startTime endTime order
        (singleSpend accountID order (apd.New t 0) (apd.New t 0) (apd.New t 0)) lease =
      Except.ok (singleSpend accountID order (apd.New (t + h * p) 0) (apd.New (t + h * p) 0)
        (apd.New (t + h * p) 0)) := by
  have hh : h < 9007199254740992 := by
    unfold Hour maxDuration at hmax
    norm_num at hmax
    omega
  have he : leaseEndTime lease endTime = lease.EndTime.Time := by
    simp [leaseEndTime, Time.Before, hend, hvalid]
  have hs : leaseStartTime lease startTime = lease.CreateTime := by
    unfold leaseStartTime Time.After
    by_cases hc : startTime < lease.CreateTime
    · simp [hc]
    · have : startTime = lease.CreateTime := le_antisymm hstart (not_lt.mp hc)
      simp [this]
  have hsub : Time.Sub lease.EndTime.Time lease.CreateTime = (h : Int) * Hour := by
    unfold Time.Sub
    rw [hdur]
    have h1 : ¬ ((h : Int) * Hour < minDuration) := by
      unfold Hour minDuration; norm_num; omega
    rw [if_neg h1, if_neg (not_lt.mpr hmax)]
  obtain ⟨e1, c1, hf1, he1, he1b, hc1⟩ := FromFloat_ofInt (h : Int) (by simpa using hh)
  obtain ⟨e2, c2, hf2, he2, he2b, hc2⟩ := FromFloat_ofInt p hp
  have hneg : decide ((h : Int) < 0) = false := by simp
  rw [hneg] at hf1
  simp only [Int.natAbs_ofNat] at hc1
  have hprod : c1 * c2 * 10 ^ (e1 + e2).toNat = h * p.natAbs := by
    have : (e1 + e2).toNat = e1.toNat + e2.toNat := by omega
    rw [this, pow_add, ← hc1, ← hc2]; ring
  have hlt : h * p.natAbs < 10 ^ 65 := by omega
  have hcc : c1 * c2 < 10 ^ 32 := by
    have h1 : c1 ≤ h := by rw [← hc1]; exact Nat.le_mul_of_pos_right _ (by positivity)
    have h2 : c2 ≤ p.natAbs := by rw [← hc2]; exact Nat.le_mul_of_pos_right _ (by positivity)
    have h3 : c1 * c2 ≤ 9007199254740992 * 9007199254740992 :=
      Nat.mul_le_mul (by omega) (by omega)
    have h4 : 9007199254740992 * 9007199254740992 < 10 ^ 32 := by norm_num
    omega
  have hdl : decLen (c1 * c2) ≤ 32 := decLen_le_of_lt_pow _ 32 (by decide) hcc
  have hd1 := one_le_decLen (c1 * c2)
  have hmul := apd.Mul_exact_aux ⟨apd.Form.Finite, false, e1, c1⟩
    ⟨apd.Form.Finite, decide (p < 0), e2, c2⟩ rfl rfl
    (by simp [apd.MinExponent, apd.MaxExponent]; omega)
    (by simp [apd.MinExponent, apd.MaxExponent]; omega)
    (by simp only [apd.NumDigits]; omega)
    (by simp only [apd.NumDigits]; omega)
    (by simp only [apd.NumDigits]; omega)
  simp only [Bool.false_bne] at hmul
  have hv : t + (if decide (p < 0) = true then -1 else 1) *
      ((c1 * c2 * 10 ^ (e1 + e2).toNat : Nat) : Int) = t + h * p := by
    rw [hprod]
    push_cast
    by_cases hp0 : p < 0
    · simp only [hp0, decide_True, if_true]
      rw [abs_of_neg hp0]; ring
    · simp only [hp0, decide_False, if_false, Bool.false_eq_true]
      rw [abs_of_nonneg (not_lt.mp hp0)]; ring
  have hbound : (t + h * p).natAbs < 10 ^ 65 := by
    have h1 := Int.natAbs_add_le t (h * p)
    rw [Int.natAbs_mul, Int.natAbs_ofNat] at h1
    omega
  have hadd := apd.Add_int t (decide (p < 0)) (e1 + e2) (c1 * c2) (by omega)
    (by rw [hv]; exact hbound)
  rw [hv] at hadd
  unfold leaseStep
  simp only [he, hs, hsub, Hours_whole h hh, hprice, hf1, hf2, hmul, orderSpend_single,
    projectSpend_single, setOrderSpend_single, setProjectSpend_single, hadd]
  simp [apd.Condition.Any, singleSpend, hadd]

/-- The lease loop on leases inside the period that last whole hours at integer prices: the
sum of the products is added to the three totals. -/
theorem leasesLoop_whole (startTime endTime : Time) (accountID : String) (order : Order)
    (h : Lease → Nat) (p : Lease → Int) :
    ∀ (leases : List Lease) (t : Int),
      (∀ l ∈ leases, startTime ≤ l.CreateTime ∧ l.EndTime.Valid = true ∧
        l.EndTime.Time < endTime ∧ l.EndTime.Time - l.CreateTime = (h l : Int) * Hour ∧
        (h l : Int) * Hour ≤ maxDuration ∧ l.PriceHr = Float64.ofInt (p l) ∧
        (p l).natAbs < 9007199254740992) →
      t.natAbs + (leases.map (fun l => h l * (p l).natAbs)).sum < 10 ^ 65 →
      leasesLoop startTime endTime order
          (singleSpend accountID order (apd.New t 0) (apd.New t 0) (apd.New t 0)) leases =
        Except.ok (singleSpend accountID order
          (apd.New (t + (leases.map (fun l => (h l : Int) * p l)).sum) 0)
          (apd.New (t + (leases.map (fun l => (h l : Int) * p l)).sum) 0)
          (apd.New (t + (leases.map (fun l => (h l : Int) * p l)).sum) 0)) := by
  intro leases
  induction leases with
  | nil => intro t _ _; simp [leasesLoop]
  | cons l ls ih =>
    intro t hall hsum
    obtain ⟨h1, h2, h3, h4, h5, h6, h7⟩ := hall l (List.mem_cons_self _ _)
    simp only [List.map_cons, List.sum_cons] at hsum ⊢
    have hstep := leaseStep_whole startTime endTime accountID order l t (h l) (p l)
      h1 h2 h3 h4 h5 h6 h7 (by omega)
    have hb : (t + (h l : Int) * p l).natAbs ≤ t.natAbs + h l * (p l).natAbs := by
      have := Int.natAbs_add_le t ((h l : Int) * p l)
      rw [Int.natAbs_mul, Int.natAbs_ofNat] at this
      exact this
    have hrest := ih (t + (h l : Int) * p l)
      (fun l1 hl1 => hall l1 (List.mem_cons_of_mem _ hl1)) (by omega)
    unfold leasesLoop
    rw [hstep]
    simp only
    rw [hrest, add_assoc]

/-- The textual form of an integer decimal: its digits, after a `-` when it is negative. -/
theorem Str_int (t : Int) :
    (apd.New t 0).Str = String.mk ((if t < 0 then ['-'] else []) ++ natDigits t.natAbs) := by
  unfold apd.New
  have h1 := one_le_decLen t.natAbs
  rw [Str_plain _ 0 _ (le_refl _) (by omega)]
  simp [apd.fmtF]

/-- C4 (as amended): one billing account with one order, whose leases each lie inside the
period (`S ≤ C`, end time present, `E < T`), last a whole number of hours `h l` that fits a
`Duration`, and have an integer hourly price `p l` of magnitude below `2 ^ 53`, the products
`h l * |p l|` summing to less than `10 ^ 65`; the listings and the upserts of the gateway
succeed. Then `calculateDemandSpend` succeeds, and it persists, in this order, the order
spend, the project spend and the billing account spend, all three the integer decimal
`Σ h l * p l`, whose textual form is the digits of that sum. -/
theorem calculateDemandSpend_whole_hours (querier : TxQuerier) (account : BillingAccount)
    (order : Order) (leases : List Lease) (startTime endTime : Time)
    (h : Lease → Nat) (p : Lease → Int)
    (horders : querier.ListOrdersByBillingAccountId account.ID = Except.ok [order])
    (hleases : querier.ListLeasesForTimeRangeByOrderId
      { OrderID := order.ID, StartTime := { Time := startTime, Valid := true },
        EndTime := endTime } = Except.ok leases)
    (hupserts : (∀ a, querier.CreateOrderSpend a = none) ∧
      (∀ a, querier.CreateProjectSpend a = none) ∧
      (∀ a, querier.CreateBillingAccountSpend a = none))
    (hinside : ∀ l ∈ leases, startTime ≤ l.CreateTime ∧ l.EndTime.Valid = true ∧
      l.EndTime.Time < endTime ∧ l.EndTime.Time - l.CreateTime = (h l : Int) * Hour ∧
      (h l : Int) * Hour ≤ maxDuration ∧ l.PriceHr = Float64.ofInt (p l) ∧
      (p l).natAbs < 2 ^ 53)
    (hsum : (leases.map (fun l => h l * (p l).natAbs)).sum < 10 ^ 65) :
    calculateDemandSpend querier [account] startTime endTime =
      ([Call.ListOrdersByBillingAccountId account.ID,
        Call.ListLeasesForTimeRangeByOrderId
          { OrderID := order.ID, StartTime := { Time := startTime, Valid := true },
            EndTime := endTime },
        Call.CreateOrderSpend
          { OrderID := order.ID,
            Spend := apd.New (leases.map (fun l => (h l : Int) * p l)).sum 0,
            StartTime := startTime, EndTime := endTime },
        Call.CreateProjectSpend
          { ProjectID := order.ProjectID,
            Spend := apd.New (leases.map (fun l => (h l : Int) * p l)).sum 0,
            StartTime := startTime, EndTime := endTime },
        Call.CreateBillingAccountSpend
          { BillingAccountID := account.ID,
            Spend := apd.New (leases.map (fun l => (h l : Int) * p l)).sum 0,
            StartTime := startTime, EndTime := endTime }], none) ∧
    (apd.New (leases.map (fun l => (h l : Int) * p l)).sum 0).Str =
      String.mk ((if (leases.map (fun l => (h l : Int) * p l)).sum < 0 then ['-'] else []) ++
        natDigits (leases.map (fun l => (h l : Int) * p l)).sum.natAbs) := by
  refine ⟨?_, Str_int _⟩
  have hloop := leasesLoop_whole startTime endTime account.ID order h p leases 0
    (fun l hl => by
      obtain ⟨h1, h2, h3, h4, h5, h6, h7⟩ := hinside l hl
      exact ⟨h1, h2, h3, h4, h5, h6, by norm_num at h7; exact h7⟩)
    (by simpa using hsum)
  simp only [zero_add] at hloop
  generalize (leases.map (fun l => (h l : Int) * p l)).sum = total at *
  simp only [calculateDemandSpend, accountStep, horders, ordersLoop, orderStep, enter_single,
    hleases, hloop, hupserts.1, hupserts.2.1, hupserts.2.2, orderSpend_single,
    projectSpend_single]
  simp [singleSpend]

end billingaccount

namespace billingaccount
open store

/-- C4, witness: the test with a lease of 24 hours and a lease of 48 hours at `100` an hour
persists `7200` at the three levels, and the lease of 24 hours alone `2400`. -/
theorem calculateDemandSpend_whole_hours_witness :
    (calculateDemandSpend (fakeQuerier (Except.ok oneOrder) (Except.ok endDefinedLeases)
        none none none) oneAccount testStart testEnd =
      ([Call.ListOrdersByBillingAccountId "1",
        Call.ListLeasesForTimeRangeByOrderId ⟨"1", ⟨testStart, true⟩, testEnd⟩,
        Call.CreateOrderSpend ⟨"1", apd.New 7200 0, testStart, testEnd⟩,
        Call.CreateProjectSpend ⟨"1", apd.New 7200 0, testStart, testEnd⟩,
        Call.CreateBillingAccountSpend ⟨"1", apd.New 7200 0, testStart, testEnd⟩], none) ∧
      (apd.New 7200 0).Str = "7200") ∧
    (calculateDemandSpend (fakeQuerier (Except.ok oneOrder)
        (Except.ok (endDefinedLeases.take 1)) none none none) oneAccount testStart testEnd =
      ([Call.ListOrdersByBillingAccountId "1",
        Call.ListLeasesForTimeRangeByOrderId ⟨"1", ⟨testStart, true⟩, testEnd⟩,
        Call.CreateOrderSpend ⟨"1", apd.New 2400 0, testStart, testEnd⟩,
        Call.CreateProjectSpend ⟨"1", apd.New 2400 0, testStart, testEnd⟩,
        Call.CreateBillingAccountSpend ⟨"1", apd.New 2400 0, testStart, testEnd⟩], none) ∧
      (apd.New 2400 0).Str = "2400") :=
  ⟨calculateDemandSpend_whole_hours
      (fakeQuerier (Except.ok oneOrder) (Except.ok endDefinedLeases) none none none)
      ⟨"1", 1577836800000000000, true, true⟩ ⟨"1", "1", "1", Float64.ofInt 100⟩
      endDefinedLeases testStart testEnd (fun l => if l.ID = "1" then 24 else 48)
      (fun _ => 100) rfl rfl ⟨fun _ => rfl, fun _ => rfl, fun _ => rfl⟩
      (by decide!) (by decide!),
   calculateDemandSpend_whole_hours
      (fakeQuerier (Except.ok oneOrder) (Except.ok (endDefinedLeases.take 1)) none none none)
      ⟨"1", 1577836800000000000, true, true⟩ ⟨"1", "1", "1", Float64.ofInt 100⟩
      (endDefinedLeases.take 1) testStart testEnd (fun _ => 24)
      (fun _ => 100) rfl rfl ⟨fun _ => rfl, fun _ => rfl, fun _ => rfl⟩
      (by decide!) (by decide!)⟩

end billingaccount

namespace conv

/-- C8 (as amended): `FromFloat` succeeds for every float; the textual form of its decimal
is the `%v` text of the float whenever the float is not an infinity and `%v` prints it
without an exponent. For example `FromFloat(123.321)` has the textual form `"123.321"`. -/
theorem FromFloat_text (x : Float64) :
    (FromFloat x).2 = none ∧
      (x.IsInf = false → 'e' ∉ (fmt.Sprintf_v x).data →
        (FromFloat x).1.Str = fmt.Sprintf_v x) ∧
      (FromFloat (Float64.ofLiteral 123321 (-3))).1.Str = "123.321" :=
  ⟨FromFloat_ok x, FromFloat_text_plain x, by decide!⟩

/-- C8, witness: `123.321` is not an infinity and `%v` prints it as `"123.321"`, without an
exponent; `FromFloat` succeeds on it and the textual form of its decimal is that text. -/
theorem FromFloat_text_witness :
    (Float64.ofLiteral 123321 (-3)).IsInf = false ∧
      'e' ∉ (fmt.Sprintf_v (Float64.ofLiteral 123321 (-3))).data ∧
      fmt.Sprintf_v (Float64.ofLiteral 123321 (-3)) = "123.321" ∧
      (FromFloat (Float64.ofLiteral 123321 (-3))).2 = none ∧
      (FromFloat (Float64.ofLiteral 123321 (-3))).1.Str =
        fmt.Sprintf_v (Float64.ofLiteral 123321 (-3)) :=
  ⟨by decide!, by decide!, by decide!, (FromFloat_text (Float64.ofLiteral 123321 (-3))).1,
    (FromFloat_text (Float64.ofLiteral 123321 (-3))).2.1 (by decide!) (by decide!)⟩

end conv

namespace billingaccount

open store

/-- C11 (the code at a failing input): two orders under one project; the leases of order `1`
spend `1` and `5e64`, the lease of order `2` spends `5e64`. The additions to the two order
totals are exact. The addition of the last lease to the project total `5e64 + 1` reports
`Rounded` and `Inexact` and gives `1E+65`; the run succeeds all the same, and persists this
rounded total for the project and for the billing account. -/
theorem calculateDemandSpend_unchecked_additions :
    apdContext.Add ⟨apd.Form.Finite, false, 0, 5 * 10 ^ 64 + 1⟩ ⟨apd.Form.Finite, false, 64, 5⟩ =
      (⟨apd.Form.Finite, false, 1, 10 ^ 64⟩, apd.Inexact + apd.Rounded, none) ∧
    apd.Condition.Any (apd.Inexact + apd.Rounded) = true ∧
    (calculateDemandSpend roundingQuerier oneAccount testStart testEnd).2 = none ∧
    upsertSpends (calculateDemandSpend roundingQuerier oneAccount testStart testEnd).1 =
      [("order", "1", ⟨apd.Form.Finite, false, 0, 5 * 10 ^ 64 + 1⟩),
       ("project", "1", ⟨apd.Form.Finite, false, 0, 5 * 10 ^ 64 + 1⟩),
       ("order", "2", ⟨apd.Form.Finite, false, 0, 5 * 10 ^ 64⟩),
       ("project", "1", ⟨apd.Form.Finite, false, 1, 10 ^ 64⟩),
       ("account", "1", ⟨apd.Form.Finite, false, 1, 10 ^ 64⟩)] := by
  decide!

/-- C13 (the code at a failing input): three orders under one project, with spends `1`, `5e64`
and `5e64`. The project upserts that follow the first and the second order carry `1` and
`5e64 + 1`, the sums of the order spends so far; the one that follows the third order carries
`1E+65`, which is not the sum `10^65 + 1` of the three order spends. -/
theorem calculateDemandSpend_project_upsert_not_cumulative :
    (calculateDemandSpend overflowQuerier oneAccount testStart testEnd).2 = none ∧
    ((upsertSpends (calculateDemandSpend overflowQuerier oneAccount testStart testEnd).1).filter
        (fun u => u.1 == "order")).map (fun u => u.2.2.signedCoeff * 10 ^ u.2.2.Exponent.toNat) =
      [1, 5 * 10 ^ 64, 5 * 10 ^ 64] ∧
    ((upsertSpends (calculateDemandSpend overflowQuerier oneAccount testStart testEnd).1).filter
        (fun u => u.1 == "project")).map (fun u => u.2.2.signedCoeff * 10 ^ u.2.2.Exponent.toNat) =
      [1, 1 + 5 * 10 ^ 64, 10 ^ 65] ∧
    (10 : Int) ^ 65 ≠ 1 + 5 * 10 ^ 64 + 5 * 10 ^ 64 := by
  decide!

/-- C19 (the code at a failing input): order `2` has a lease that spends `15` and a lease that
spends `5`, and the project total before them is `10^65 - 10`. Both orders of the two leases
give a successful run with the same order totals; with `15` first the project and the account
total persisted last are `10^65 + 20`, with `5` first they are `10^65 + 10`. -/
theorem calculateDemandSpend_lease_order_matters :
    smallLeases.reverse.Perm smallLeases ∧
    (calculateDemandSpend (permQuerier smallLeases) oneAccount testStart testEnd).2 = none ∧
    (calculateDemandSpend (permQuerier smallLeases.reverse) oneAccount testStart testEnd).2 = none ∧
    upsertSpends (calculateDemandSpend (permQuerier smallLeases) oneAccount testStart testEnd).1 =
      [("order", "1", ⟨apd.Form.Finite, false, 0, 10 ^ 65 - 10⟩),
       ("project", "1", ⟨apd.Form.Finite, false, 0, 10 ^ 65 - 10⟩),
       ("order", "2", ⟨apd.Form.Finite, false, 0, 20⟩),
       ("project", "1", ⟨apd.Form.Finite, false, 1, 10 ^ 64 + 2⟩),
       ("account", "1", ⟨apd.Form.Finite, false, 1, 10 ^ 64 + 2⟩)] ∧
    upsertSpends (calculateDemandSpend (permQuerier smallLeases.reverse) oneAccount testStart
        testEnd).1 =
      [("order", "1", ⟨apd.Form.Finite, false, 0, 10 ^ 65 - 10⟩),
       ("project", "1", ⟨apd.Form.Finite, false, 0, 10 ^ 65 - 10⟩),
       ("order", "2", ⟨apd.Form.Finite, false, 0, 20⟩),
       ("project", "1", ⟨apd.Form.Finite, false, 1, 10 ^ 64 + 1⟩),
       ("account", "1", ⟨apd.Form.Finite, false, 1, 10 ^ 64 + 1⟩)] := by
  refine ⟨List.reverse_perm _, ?_, ?_, ?_, ?_⟩ <;> decide!

end billingaccount

/-! ### The log of calls of a run and its error -/

namespace billingaccount

open store

theorem Traced_append (querier : TxQuerier) (calls1 calls2 : List Call) (err : Option String)
    (h1 : ∀ c ∈ calls1, callError querier c = none) (h2 : Traced querier calls2 err) :
    Traced querier (calls1 ++ calls2) err := by
  cases err with
  | none =>
    intro c hc
    rcases List.mem_append.mp hc with h | h
    · exact h1 c h
    · exact h2 c h
  | some m =>
    obtain ⟨pre, c, hcalls, hpre, hc⟩ := h2
    refine ⟨calls1 ++ pre, c, by rw [hcalls, List.append_assoc], ?_, hc⟩
    intro x hx
    rcases List.mem_append.mp hx with h | h
    · exact h1 x h
    · exact hpre x h

/-- In a log that fits its error, a call that the gateway fails is the last one, and the
error of the run is the error of that call. -/
theorem Traced_failed_call (querier : TxQuerier) (calls : List Call) (err : Option String)
    (h : Traced querier calls err) (pre post : List Call) (c : Call) (m : String)
    (hcalls : calls = pre ++ c :: post) (hc : callError querier c = some m) :
    post = [] ∧ err = some m := by
  cases err with
  | none =>
    have := h c (by rw [hcalls]; simp)
    rw [hc] at this
    cases this
  | some m1 =>
    obtain ⟨pre1, c1, hcalls1, hpre1, hc1⟩ := h
    rw [hcalls] at hcalls1
    rcases List.eq_nil_or_concat post with hp | ⟨post1, x, hp⟩
    · subst hp
      have h2 : c = c1 := by
        have := congrArg List.getLast? hcalls1
        simpa using this
      subst h2
      rw [hc] at hc1
      rcases hc1 with h3 | h3
      · exact ⟨rfl, by rw [Option.some.inj h3]⟩
      · cases h3
    · exfalso
      subst hp
      have h2 : pre ++ c :: post1 = pre1 := by
        have h3 : pre ++ c :: post1.concat x = (pre ++ c :: post1) ++ [x] := by simp
        rw [h3] at hcalls1
        exact (List.append_inj' hcalls1 rfl).1
      have := hpre1 c (by rw [← h2]; simp)
      rw [hc] at this
      cases this

theorem orderStep_traced (querier : TxQuerier) (startTime endTime : Time) (spend : DemandSpend)
    (order : Order) :
    Traced querier (orderStep querier startTime endTime spend order).1
      (errorOf (orderStep querier startTime endTime spend order).2) := by
  unfold orderStep
  simp only
  cases hl : querier.ListLeasesForTimeRangeByOrderId
      { OrderID := order.ID, StartTime := { Time := startTime, Valid := true },
        EndTime := endTime } with
  | error e =>
    refine ⟨[], _, rfl, by simp, Or.inl ?_⟩
    simp [callError, hl, fmt.Errorf_w]
  | ok leases =>
    simp only
    cases hloop : leasesLoop startTime endTime order (spend.enter order) leases with
    | error e =>
      refine ⟨[], _, rfl, by simp, Or.inr ?_⟩
      simp [callError, hl]
    | ok spend2 =>
      simp only
      cases ho : querier.CreateOrderSpend
          { OrderID := order.ID, Spend := spend2.orderSpend order.ProjectID order.ID,
            StartTime := startTime, EndTime := endTime } with
      | some e =>
        refine ⟨[_], _, rfl, ?_, Or.inl ?_⟩
        · intro x hx
          simp only [List.mem_singleton] at hx
          subst hx
          simp [callError, hl]
        · simp [callError, ho, fmt.Errorf_w]
      | none =>
        simp only
        cases hp : querier.CreateProjectSpend
            { ProjectID := order.ProjectID, Spend := spend2.projectSpend order.ProjectID,
              StartTime := startTime, EndTime := endTime } with
        | some e =>
          refine ⟨[_, _], _, rfl, ?_, Or.inl ?_⟩
          · intro x hx
            simp only [List.mem_cons, List.mem_singleton, List.not_mem_nil, or_false] at hx
            rcases hx with hx | hx <;> subst hx
            · simp [callError, hl]
            · simp [callError, ho]
          · simp [callError, hp, fmt.Errorf_w]
        | none =>
          intro x hx
          simp only [List.mem_cons, List.mem_singleton, List.not_mem_nil, or_false] at hx
          rcases hx with hx | hx | hx <;> subst hx
          · simp [callError, hl]
          · simp [callError, ho]
          · simp [callError, hp]

theorem ordersLoop_traced (querier : TxQuerier) (startTime endTime : Time) (orders : List Order) :
    ∀ spend : DemandSpend, Traced querier (ordersLoop querier startTime endTime spend orders).1
      (errorOf (ordersLoop querier startTime endTime spend orders).2) := by
  induction orders with
  | nil => intro spend c hc; simp [ordersLoop] at hc
  | cons order orders ih =>
    intro spend
    have hstep := orderStep_traced querier startTime endTime spend order
    unfold ordersLoop
    rcases hs : orderStep querier startTime endTime spend order with ⟨calls, r⟩
    rw [hs] at hstep
    cases r with
    | error e => exact hstep
    | ok spend1 => exact Traced_append querier _ _ _ hstep (ih spend1)

theorem accountStep_traced (querier : TxQuerier) (startTime endTime : Time)
    (billingAccount : BillingAccount) :
    Traced querier (accountStep querier startTime endTime billingAccount).1
      (accountStep querier startTime endTime billingAccount).2 := by
  unfold accountStep
  simp only
  cases hl : querier.ListOrdersByBillingAccountId billingAccount.ID with
  | error e =>
    refine ⟨[], _, rfl, by simp, Or.inl ?_⟩
    simp [callError, hl, fmt.Errorf_w]
  | ok orders =>
    simp only
    have hloop := ordersLoop_traced querier startTime endTime orders
      { BillingAccountID := billingAccount.ID, Projects := [], Spend := apd.New 0 0 }
    rcases ho : ordersLoop querier startTime endTime
      { BillingAccountID := billingAccount.ID, Projects := [], Spend := apd.New 0 0 } orders
      with ⟨calls, r⟩
    rw [ho] at hloop
    have hfirst : ∀ c ∈ [Call.ListOrdersByBillingAccountId billingAccount.ID],
        callError querier c = none := by
      intro c hc
      simp only [List.mem_singleton] at hc
      subst hc
      simp [callError, hl]
    cases r with
    | error e =>
      exact Traced_append querier [Call.ListOrdersByBillingAccountId billingAccount.ID] calls
        (some e) hfirst hloop
    | ok spend1 =>
      simp only
      have hgood : ∀ c ∈ Call.ListOrdersByBillingAccountId billingAccount.ID :: calls,
          callError querier c = none := by
        intro c hc
        rcases List.mem_cons.mp hc with h | h
        · exact hfirst c (by simp [h])
        · exact hloop c h
      cases ha : querier.CreateBillingAccountSpend
          { BillingAccountID := billingAccount.ID, Spend := spend1.Spend,
            StartTime := startTime, EndTime := endTime } with
      | some e =>
        refine ⟨_, _, (List.cons_append _ _ _).symm, hgood, Or.inl ?_⟩
        simp [callError, ha, fmt.Errorf_w]
      | none =>
        intro c hc
        rcases List.mem_cons.mp hc with h | h
        · exact hgood c (by simp [h])
        · rcases List.mem_append.mp h with h | h
          · exact hgood c (List.mem_cons_of_mem _ h)
          · simp only [List.mem_singleton] at h
            subst h
            simp [callError, ha]

/-- The log of calls of `calculateDemandSpend` fits its error: only the last call can have
failed, and when it has, its wrapped error is the error of the run. -/
theorem calculateDemandSpend_traced (querier : TxQuerier) (startTime endTime : Time)
    (billingAccounts : List BillingAccount) :
    Traced querier (calculateDemandSpend querier billingAccounts startTime endTime).1
      (calculateDemandSpend querier billingAccounts startTime endTime).2 := by
  induction billingAccounts with
  | nil => intro c hc; simp [calculateDemandSpend] at hc
  | cons account accounts ih =>
    have hstep := accountStep_traced querier startTime endTime account
    unfold calculateDemandSpend
    rcases hs : accountStep querier startTime endTime account with ⟨calls, r⟩
    rw [hs] at hstep
    cases r with
    | some e => exact hstep
    | none => exact Traced_append querier _ _ _ hstep ih

end billingaccount

namespace billingaccount

open store

/-- C15: when the gateway fails a call of `ListOrdersByBillingAccountId` that the run makes,
with error `e`, the run returns the error "error when listing orders for billing account: "
followed by `e`, and that call is the last call of the run: no lease is listed and nothing is
upserted for that billing account or for a later one. -/
theorem calculateDemandSpend_list_orders_error (querier : TxQuerier)
    (billingAccounts : List BillingAccount) (startTime endTime : Time) (pre post : List Call)
    (billingAccountID e : String)
    (hcalls : (calculateDemandSpend querier billingAccounts startTime endTime).1 =
      pre ++ Call.ListOrdersByBillingAccountId billingAccountID :: post)
    (hfail : querier.ListOrdersByBillingAccountId billingAccountID = Except.error e) :
    post = [] ∧
      (calculateDemandSpend querier billingAccounts startTime endTime).2 =
        some ("error when listing orders for billing account: " ++ e) :=
  Traced_failed_call querier _ _
    (calculateDemandSpend_traced querier startTime endTime billingAccounts) pre post _ _ hcalls
    (by simp [callError, hfail])

/-- C15, witness: the test "should fail when ListOrdersByBillingAccountId query returns an
error". The listing of the orders of account `1` is the only call, and the error is the
wrapped error of the gateway. -/
theorem calculateDemandSpend_list_orders_error_witness :
    (calculateDemandSpend failingOrdersQuerier testAccounts testStart testEnd).1 =
        [] ++ Call.ListOrdersByBillingAccountId "1" :: [] ∧
      (calculateDemandSpend failingOrdersQuerier testAccounts testStart testEnd).2 =
        some "error when listing orders for billing account: list orders by billing account id error" :=
  ⟨by decide!,
    (calculateDemandSpend_list_orders_error failingOrdersQuerier testAccounts testStart testEnd
      [] [] "1" "list orders by billing account id error" (by decide!) rfl).2⟩

/-- C14: when the gateway fails a call of `ListLeasesForTimeRangeByOrderId` that the run
makes, with error `e`, the run returns the error "list leases for time range by order id
failed: " followed by `e`, and that call is the last call of the run: nothing is upserted for
that order, for its project at that step, or for an order or account after it. -/
theorem calculateDemandSpend_list_leases_error (querier : TxQuerier)
    (billingAccounts : List BillingAccount) (startTime endTime : Time) (pre post : List Call)
    (arg : ListLeasesForTimeRangeByOrderIdParams) (e : String)
    (hcalls : (calculateDemandSpend querier billingAccounts startTime endTime).1 =
      pre ++ Call.ListLeasesForTimeRangeByOrderId arg :: post)
    (hfail : querier.ListLeasesForTimeRangeByOrderId arg = Except.error e) :
    post = [] ∧
      (calculateDemandSpend querier billingAccounts startTime endTime).2 =
        some ("list leases for time range by order id failed: " ++ e) :=
  Traced_failed_call querier _ _
    (calculateDemandSpend_traced querier startTime endTime billingAccounts) pre post _ _ hcalls
    (by simp [callError, hfail])

/-- C14, witness: the test "should fail when ListLeasesForTimeRangeByOrderId". The run lists
the orders of account `1` and the leases of order `1`, and returns the wrapped error; there
is no upsert. -/
theorem calculateDemandSpend_list_leases_error_witness :
    (calculateDemandSpend (fakeQuerier (Except.ok twoOrders)
        (Except.error "list orders by order id error") none none none)
        testAccounts testStart testEnd).1 =
      [Call.ListOrdersByBillingAccountId "1"] ++
        Call.ListLeasesForTimeRangeByOrderId ⟨"1", ⟨testStart, true⟩, testEnd⟩ :: [] ∧
    (calculateDemandSpend (fakeQuerier (Except.ok twoOrders)
        (Except.error "list orders by order id error") none none none)
        testAccounts testStart testEnd).2 =
      some "list leases for time range by order id failed: list orders by order id error" :=
  ⟨by decide!,
    (calculateDemandSpend_list_leases_error (fakeQuerier (Except.ok twoOrders)
        (Except.error "list orders by order id error") none none none)
      testAccounts testStart testEnd [Call.ListOrdersByBillingAccountId "1"] []
      ⟨"1", ⟨testStart, true⟩, testEnd⟩ "list orders by order id error" (by decide!) rfl).2⟩

/-- C16: when the gateway fails an upsert that the run makes, with error `e`, the run returns
an error that names the level, "create order spend failed: ", "create project spend
failed: " or "create billing account spend failed: " followed by `e`, and that upsert is the
last call of the run. -/
theorem calculateDemandSpend_upsert_error (querier : TxQuerier)
    (billingAccounts : List BillingAccount) (startTime endTime : Time) :
    (∀ (pre post : List Call) (arg : CreateOrderSpendParams) (e : String),
      (calculateDemandSpend querier billingAccounts startTime endTime).1 =
        pre ++ Call.CreateOrderSpend arg :: post →
      querier.CreateOrderSpend arg = some e →
      post = [] ∧ (calculateDemandSpend querier billingAccounts startTime endTime).2 =
        some ("create order spend failed: " ++ e)) ∧
    (∀ (pre post : List Call) (arg : CreateProjectSpendParams) (e : String),
      (calculateDemandSpend querier billingAccounts startTime endTime).1 =
        pre ++ Call.CreateProjectSpend arg :: post →
      querier.CreateProjectSpend arg = some e →
      post = [] ∧ (calculateDemandSpend querier billingAccounts startTime endTime).2 =
        some ("create project spend failed: " ++ e)) ∧
    (∀ (pre post : List Call) (arg : CreateBillingAccountSpendParams) (e : String),
      (calculateDemandSpend querier billingAccounts startTime endTime).1 =
        pre ++ Call.CreateBillingAccountSpend arg :: post →
      querier.CreateBillingAccountSpend arg = some e →
      post = [] ∧ (calculateDemandSpend querier billingAccounts startTime endTime).2 =
        some ("create billing account spend failed: " ++ e)) := by
  have h := calculateDemandSpend_traced querier startTime endTime billingAccounts
  refine ⟨?_, ?_, ?_⟩
  · intro pre post arg e hcalls hfail
    exact Traced_failed_call querier _ _ h pre post _ _ hcalls (by simp [callError, hfail])
  · intro pre post arg e hcalls hfail
    exact Traced_failed_call querier _ _ h pre post _ _ hcalls (by simp [callError, hfail])
  · intro pre post arg e hcalls hfail
    exact Traced_failed_call querier _ _ h pre post _ _ hcalls (by simp [callError, hfail])

/-- C16, witness: the order of the tests with its leases of 24 and 48 hours, and a gateway
that fails the order upsert, the project upsert or the account upsert. Each time the failed
upsert is the last call and the error names its level. -/
theorem calculateDemandSpend_upsert_error_witness :
    (calculateDemandSpend (fakeQuerier (Except.ok oneOrder) (Except.ok endDefinedLeases)
        (some "create order spend error") none none) oneAccount testStart testEnd =
      ([Call.ListOrdersByBillingAccountId "1",
        Call.ListLeasesForTimeRangeByOrderId ⟨"1", ⟨testStart, true⟩, testEnd⟩] ++
        Call.CreateOrderSpend ⟨"1", apd.New 7200 0, testStart, testEnd⟩ :: [],
       some "create order spend failed: create order spend error")) ∧
    (calculateDemandSpend (fakeQuerier (Except.ok oneOrder) (Except.ok endDefinedLeases)
        none (some "create project spend error") none) oneAccount testStart testEnd =
      ([Call.ListOrdersByBillingAccountId "1",
        Call.ListLeasesForTimeRangeByOrderId ⟨"1", ⟨testStart, true⟩, testEnd⟩,
        Call.CreateOrderSpend ⟨"1", apd.New 7200 0, testStart, testEnd⟩] ++
        Call.CreateProjectSpend ⟨"1", apd.New 7200 0, testStart, testEnd⟩ :: [],
       some "create project spend failed: create project spend error")) ∧
    (calculateDemandSpend (fakeQuerier (Except.ok oneOrder) (Except.ok endDefinedLeases)
        none none (some "create billing account spend error")) oneAccount testStart testEnd =
      ([Call.ListOrdersByBillingAccountId "1",
        Call.ListLeasesForTimeRangeByOrderId ⟨"1", ⟨testStart, true⟩, testEnd⟩,
        Call.CreateOrderSpend ⟨"1", apd.New 7200 0, testStart, testEnd⟩,
        Call.CreateProjectSpend ⟨"1", apd.New 7200 0, testStart, testEnd⟩] ++
        Call.CreateBillingAccountSpend ⟨"1", apd.New 7200 0, testStart, testEnd⟩ :: [],
       some "create billing account spend failed: create billing account spend error")) :=
  ⟨Prod.ext (by decide!)
      ((calculateDemandSpend_upsert_error _ oneAccount testStart testEnd).1
        [Call.ListOrdersByBillingAccountId "1",
          Call.ListLeasesForTimeRangeByOrderId ⟨"1", ⟨testStart, true⟩, testEnd⟩] []
        ⟨"1", apd.New 7200 0, testStart, testEnd⟩ "create order spend error"
        (by decide!) rfl).2,
    Prod.ext (by decide!)
      ((calculateDemandSpend_upsert_error _ oneAccount testStart testEnd).2.1
        [Call.ListOrdersByBillingAccountId "1",
          Call.ListLeasesForTimeRangeByOrderId ⟨"1", ⟨testStart, true⟩, testEnd⟩,
          Call.CreateOrderSpend ⟨"1", apd.New 7200 0, testStart, testEnd⟩] []
        ⟨"1", apd.New 7200 0, testStart, testEnd⟩ "create project spend error"
        (by decide!) rfl).2,
    Prod.ext (by decide!)
      ((calculateDemandSpend_upsert_error _ oneAccount testStart testEnd).2.2
        [Call.ListOrdersByBillingAccountId "1",
          Call.ListLeasesForTimeRangeByOrderId ⟨"1", ⟨testStart, true⟩, testEnd⟩,
          Call.CreateOrderSpend ⟨"1", apd.New 7200 0, testStart, testEnd⟩,
          Call.CreateProjectSpend ⟨"1", apd.New 7200 0, testStart, testEnd⟩] []
        ⟨"1", apd.New 7200 0, testStart, testEnd⟩ "create billing account spend error"
        (by decide!) rfl).2⟩

end billingaccount

namespace billingaccount

open store

/-- The calls of a successful pass over the orders of an account, without their spends. -/
theorem ordersLoop_calls (querier : TxQuerier) (startTime endTime : Time) (orders : List Order) :
    ∀ spend : DemandSpend,
      errorOf (ordersLoop querier startTime endTime spend orders).2 = none →
      (ordersLoop querier startTime endTime spend orders).1.map Call.withoutSpend =
        (orders.map (fun o =>
          [Call.ListLeasesForTimeRangeByOrderId
              { OrderID := o.ID, StartTime := { Time := startTime, Valid := true },
                EndTime := endTime },
            Call.CreateOrderSpend
              { OrderID := o.ID, Spend := apd.New 0 0, StartTime := startTime,
                EndTime := endTime },
            Call.CreateProjectSpend
              { ProjectID := o.ProjectID, Spend := apd.New 0 0, StartTime := startTime,
                EndTime := endTime }])).flatten := by
  induction orders with
  | nil => intro spend _; simp [ordersLoop]
  | cons order orders ih =>
    intro spend hok
    unfold ordersLoop at hok ⊢
    rcases hs : orderStep querier startTime endTime spend order with ⟨calls, r⟩
    rw [hs] at hok
    cases r with
    | error e => simp [errorOf] at hok
    | ok spend1 =>
      simp only at hok ⊢
      have hrest := ih spend1 hok
      rw [List.map_append, hrest, List.map_cons, List.flatten_cons]
      congr 1
      unfold orderStep at hs
      simp only at hs
      cases hl : querier.ListLeasesForTimeRangeByOrderId
          { OrderID := order.ID, StartTime := { Time := startTime, Valid := true },
            EndTime := endTime } with
      | error e => rw [hl] at hs; simp at hs
      | ok leases =>
        rw [hl] at hs
        simp only at hs
        cases hloop : leasesLoop startTime endTime order (spend.enter order) leases with
        | error e => rw [hloop] at hs; simp at hs
        | ok spend2 =>
          rw [hloop] at hs
          simp only at hs
          cases ho : querier.CreateOrderSpend
              { OrderID := order.ID, Spend := spend2.orderSpend order.ProjectID order.ID,
                StartTime := startTime, EndTime := endTime } with
          | some e => rw [ho] at hs; simp at hs
          | none =>
            rw [ho] at hs
            simp only at hs
            cases hp : querier.CreateProjectSpend
                { ProjectID := order.ProjectID, Spend := spend2.projectSpend order.ProjectID,
                  StartTime := startTime, EndTime := endTime } with
            | some e => rw [hp] at hs; simp at hs
            | none =>
              rw [hp] at hs
              simp only [Prod.mk.injEq] at hs
              rw [← hs.1]
              simp [Call.withoutSpend]

/-- C12: in a successful run the calls are, account by account in list order: the listing of
the orders of the account; then for each of its orders in list order the listing of its
leases, `CreateOrderSpend` for the order and right after it `CreateProjectSpend` for the
project of the order; then one `CreateBillingAccountSpend` for the account. Every upsert
carries the period bounds `startTime` and `endTime` as they were passed in. -/
theorem calculateDemandSpend_upsert_sequence (querier : TxQuerier)
    (billingAccounts : List BillingAccount) (startTime endTime : Time)
    (hok : (calculateDemandSpend querier billingAccounts startTime endTime).2 = none) :
    (calculateDemandSpend querier billingAccounts startTime endTime).1.map Call.withoutSpend =
      (billingAccounts.map (fun a =>
        Call.ListOrdersByBillingAccountId a.ID ::
          ((ordersOf querier a.ID).map (fun o =>
            [Call.ListLeasesForTimeRangeByOrderId
                { OrderID := o.ID, StartTime := { Time := startTime, Valid := true },
                  EndTime := endTime },
              Call.CreateOrderSpend
                { OrderID := o.ID, Spend := apd.New 0 0, StartTime := startTime,
                  EndTime := endTime },
              Call.CreateProjectSpend
                { ProjectID := o.ProjectID, Spend := apd.New 0 0, StartTime := startTime,
                  EndTime := endTime }])).flatten ++
          [Call.CreateBillingAccountSpend
            { BillingAccountID := a.ID, Spend := apd.New 0 0, StartTime := startTime,
              EndTime := endTime }])).flatten := by
  induction billingAccounts with
  | nil => simp [calculateDemandSpend]
  | cons account accounts ih =>
    unfold calculateDemandSpend at hok ⊢
    rcases hs : accountStep querier startTime endTime account with ⟨calls, r⟩
    rw [hs] at hok
    cases r with
    | some e => simp at hok
    | none =>
      simp only at hok ⊢
      rw [List.map_append, ih hok, List.map_cons, List.flatten_cons]
      congr 1
      unfold accountStep at hs
      simp only at hs
      cases hl : querier.ListOrdersByBillingAccountId account.ID with
      | error e => rw [hl] at hs; simp at hs
      | ok orders =>
        rw [hl] at hs
        simp only at hs
        have hloop := ordersLoop_calls querier startTime endTime orders
          { BillingAccountID := account.ID, Projects := [], Spend := apd.New 0 0 }
        rcases ho : ordersLoop querier startTime endTime
          { BillingAccountID := account.ID, Projects := [], Spend := apd.New 0 0 } orders
          with ⟨calls1, r1⟩
        rw [ho] at hs hloop
        cases r1 with
        | error e => simp at hs
        | ok spend1 =>
          simp only at hs
          cases ha : querier.CreateBillingAccountSpend
              { BillingAccountID := account.ID, Spend := spend1.Spend,
                StartTime := startTime, EndTime := endTime } with
          | some e => rw [ha] at hs; simp at hs
          | none =>
            rw [ha] at hs
            simp only [Prod.mk.injEq, and_true] at hs
            rw [← hs]
            simp only [List.map_cons, List.map_append, List.map_nil, hloop rfl, ordersOf, hl]
            simp [Call.withoutSpend]

/-- C12, witness: the successful test with one order and its two leases. -/
theorem calculateDemandSpend_upsert_sequence_witness :
    (calculateDemandSpend (fakeQuerier (Except.ok oneOrder) (Except.ok endDefinedLeases)
        none none none) oneAccount testStart testEnd).2 = none ∧
    (calculateDemandSpend (fakeQuerier (Except.ok oneOrder) (Except.ok endDefinedLeases)
        none none none) oneAccount testStart testEnd).1.map Call.withoutSpend =
      [Call.ListOrdersByBillingAccountId "1",
        Call.ListLeasesForTimeRangeByOrderId ⟨"1", ⟨testStart, true⟩, testEnd⟩,
        Call.CreateOrderSpend ⟨"1", apd.New 0 0, testStart, testEnd⟩,
        Call.CreateProjectSpend ⟨"1", apd.New 0 0, testStart, testEnd⟩,
        Call.CreateBillingAccountSpend ⟨"1", apd.New 0 0, testStart, testEnd⟩] :=
  ⟨by decide!,
    calculateDemandSpend_upsert_sequence (fakeQuerier (Except.ok oneOrder)
      (Except.ok endDefinedLeases) none none none) oneAccount testStart testEnd (by decide!)⟩

end billingaccount

/-! ### Two runs against gateways that answer the same up to a call -/

namespace billingaccount

open store

theorem Diverge_append_right (q1 q2 : TxQuerier) (calls1 calls2 more1 more2 : List Call)
    (h : Diverge q1 q2 calls1 calls2) : Diverge q1 q2 (calls1 ++ more1) (calls2 ++ more2) := by
  obtain ⟨pre, c, post1, post2, h1, h2, h3, h4⟩ := h
  exact ⟨pre, c, post1 ++ more1, post2 ++ more2, by rw [h1]; simp, by rw [h2]; simp, h3, h4⟩

theorem Diverge_append_left (q1 q2 : TxQuerier) (first calls1 calls2 : List Call)
    (hfirst : ∀ x ∈ first, sameAnswer q1 q2 x) (h : Diverge q1 q2 calls1 calls2) :
    Diverge q1 q2 (first ++ calls1) (first ++ calls2) := by
  obtain ⟨pre, c, post1, post2, h1, h2, h3, h4⟩ := h
  refine ⟨first ++ pre, c, post1, post2, by rw [h1]; simp, by rw [h2]; simp, ?_, h4⟩
  intro x hx
  rcases List.mem_append.mp hx with h | h
  · exact hfirst x h
  · exact h3 x h

/-- The step for an order, by the answers of the gateway. -/
theorem orderStep_cases (q : TxQuerier) (startTime endTime : Time) (spend : DemandSpend)
    (order : Order) :
    (∃ e, q.ListLeasesForTimeRangeByOrderId
          { OrderID := order.ID, StartTime := { Time := startTime, Valid := true },
            EndTime := endTime } = Except.error e ∧
        orderStep q startTime endTime spend order =
          ([leasesCall startTime endTime order],
            Except.error (fmt.Errorf_w "list leases for time range by order id failed: "
              (some e)))) ∨
    (∃ leases, q.ListLeasesForTimeRangeByOrderId
          { OrderID := order.ID, StartTime := { Time := startTime, Valid := true },
            EndTime := endTime } = Except.ok leases ∧
      ((∃ e, leasesLoop startTime endTime order (spend.enter order) leases = Except.error e ∧
          orderStep q startTime endTime spend order =
            ([leasesCall startTime endTime order], Except.error e)) ∨
       (∃ spend2, leasesLoop startTime endTime order (spend.enter order) leases =
            Except.ok spend2 ∧
          ((∃ e, q.CreateOrderSpend
                { OrderID := order.ID, Spend := spend2.orderSpend order.ProjectID order.ID,
                  StartTime := startTime, EndTime := endTime } = some e ∧
              orderStep q startTime endTime spend order =
                ([leasesCall startTime endTime order,
                  orderSpendCall startTime endTime order spend2],
                  Except.error (fmt.Errorf_w "create order spend failed: " (some e)))) ∨
           (q.CreateOrderSpend
                { OrderID := order.ID, Spend := spend2.orderSpend order.ProjectID order.ID,
                  StartTime := startTime, EndTime := endTime } = none ∧
             ((∃ e, q.CreateProjectSpend
                  { ProjectID := order.ProjectID,
                    Spend := spend2.projectSpend order.ProjectID,
                    StartTime := startTime, EndTime := endTime } = some e ∧
                orderStep q startTime endTime spend order =
                  ([leasesCall startTime endTime order,
                    orderSpendCall startTime endTime order spend2,
                    projectSpendCall startTime endTime order spend2],
                    Except.error (fmt.Errorf_w "create project spend failed: " (some e)))) ∨
              (q.CreateProjectSpend
                  { ProjectID := order.ProjectID,
                    Spend := spend2.projectSpend order.ProjectID,
                    StartTime := startTime, EndTime := endTime } = none ∧
                orderStep q startTime endTime spend order =
                  ([leasesCall startTime endTime order,
                    orderSpendCall startTime endTime order spend2,
                    projectSpendCall startTime endTime order spend2],
                    Except.ok spend2)))))))) := by
  unfold orderStep
  simp only
  cases hl : q.ListLeasesForTimeRangeByOrderId
      { OrderID := order.ID, StartTime := { Time := startTime, Valid := true },
        EndTime := endTime } with
  | error e => exact Or.inl ⟨e, rfl, rfl⟩
  | ok leases =>
    refine Or.inr ⟨leases, rfl, ?_⟩
    simp only
    cases hloop : leasesLoop startTime endTime order (spend.enter order) leases with
    | error e => exact Or.inl ⟨e, rfl, rfl⟩
    | ok spend2 =>
      refine Or.inr ⟨spend2, rfl, ?_⟩
      simp only
      cases ho : q.CreateOrderSpend
          { OrderID := order.ID, Spend := spend2.orderSpend order.ProjectID order.ID,
            StartTime := startTime, EndTime := endTime } with
      | some e => exact Or.inl ⟨e, rfl, rfl⟩
      | none =>
        refine Or.inr ⟨rfl, ?_⟩
        simp only
        cases hp : q.CreateProjectSpend
            { ProjectID := order.ProjectID, Spend := spend2.projectSpend order.ProjectID,
              StartTime := startTime, EndTime := endTime } with
        | some e => exact Or.inl ⟨e, rfl, rfl⟩
        | none => exact Or.inr ⟨rfl, rfl⟩

theorem orderStep_head (q : TxQuerier) (startTime endTime : Time) (spend : DemandSpend)
    (order : Order) :
    ∃ rest, (orderStep q startTime endTime spend order).1 =
      leasesCall startTime endTime order :: rest := by
  rcases orderStep_cases q startTime endTime spend order with
    ⟨e, _, hs⟩ | ⟨leases, _, ⟨e, _, hs⟩ | ⟨spend2, _, ⟨e, _, hs⟩ | ⟨_, ⟨e, _, hs⟩ | ⟨_, hs⟩⟩⟩⟩
  all_goals exact ⟨_, by rw [hs]⟩

theorem orderStep_head2 (q : TxQuerier) (startTime endTime : Time) (spend spend2 : DemandSpend)
    (order : Order) (leases : List Lease)
    (hl : q.ListLeasesForTimeRangeByOrderId
      { OrderID := order.ID, StartTime := { Time := startTime, Valid := true },
        EndTime := endTime } = Except.ok leases)
    (hloop : leasesLoop startTime endTime order (spend.enter order) leases = Except.ok spend2) :
    ∃ rest, (orderStep q startTime endTime spend order).1 =
      leasesCall startTime endTime order :: orderSpendCall startTime endTime order spend2 ::
        rest := by
  rcases orderStep_cases q startTime endTime spend order with
    ⟨e, hl1, hs⟩ | ⟨leases1, hl1, ⟨e, hloop1, hs⟩ |
      ⟨spend3, hloop1, ⟨e, _, hs⟩ | ⟨_, ⟨e, _, hs⟩ | ⟨_, hs⟩⟩⟩⟩
  · rw [hl] at hl1; cases hl1
  · rw [hl] at hl1; cases hl1; rw [hloop] at hloop1; cases hloop1
  all_goals
    rw [hl] at hl1; cases hl1; rw [hloop] at hloop1; cases hloop1
    exact ⟨_, by rw [hs]⟩

/-- The step for an order against two gateways: either the gateways answer every call of
the step the same and the two steps are the same, or the two logs part at a call. -/
theorem orderStep_same_or_diverge (q1 q2 : TxQuerier) (startTime endTime : Time)
    (spend : DemandSpend) (order : Order) :
    ((∀ c ∈ (orderStep q1 startTime endTime spend order).1, sameAnswer q1 q2 c) ∧
        orderStep q2 startTime endTime spend order = orderStep q1 startTime endTime spend order) ∨
      Diverge q1 q2 (orderStep q1 startTime endTime spend order).1
        (orderStep q2 startTime endTime spend order).1 := by
  by_cases h1 : sameAnswer q1 q2 (leasesCall startTime endTime order)
  swap
  · right
    obtain ⟨r1, hr1⟩ := orderStep_head q1 startTime endTime spend order
    obtain ⟨r2, hr2⟩ := orderStep_head q2 startTime endTime spend order
    exact ⟨[], _, r1, r2, hr1, hr2, by simp, h1⟩
  have h1' : q1.ListLeasesForTimeRangeByOrderId
      { OrderID := order.ID, StartTime := { Time := startTime, Valid := true },
        EndTime := endTime } = q2.ListLeasesForTimeRangeByOrderId
      { OrderID := order.ID, StartTime := { Time := startTime, Valid := true },
        EndTime := endTime } := h1
  have hm1 : ∀ c ∈ [leasesCall startTime endTime order], sameAnswer q1 q2 c := by
    intro c hc
    simp only [List.mem_singleton] at hc
    subst hc
    exact h1
  rcases orderStep_cases q1 startTime endTime spend order with
    ⟨e, hl, hs⟩ | ⟨leases, hl, ⟨e, hloop, hs⟩ | ⟨spend2, hloop, hrest⟩⟩
  · left
    rw [hs]
    refine ⟨hm1, ?_⟩
    unfold orderStep
    simp only [← h1', hl]
  · left
    rw [hs]
    refine ⟨hm1, ?_⟩
    unfold orderStep
    simp only [← h1', hl, hloop]
  by_cases h2 : sameAnswer q1 q2 (orderSpendCall startTime endTime order spend2)
  swap
  · right
    obtain ⟨r1, hr1⟩ := orderStep_head2 q1 startTime endTime spend spend2 order leases hl hloop
    obtain ⟨r2, hr2⟩ := orderStep_head2 q2 startTime endTime spend spend2 order leases
      (h1' ▸ hl) hloop
    exact ⟨[_], _, r1, r2, hr1, hr2, hm1, h2⟩
  have h2' : q1.CreateOrderSpend
      { OrderID := order.ID, Spend := spend2.orderSpend order.ProjectID order.ID,
        StartTime := startTime, EndTime := endTime } = q2.CreateOrderSpend
      { OrderID := order.ID, Spend := spend2.orderSpend order.ProjectID order.ID,
        StartTime := startTime, EndTime := endTime } := h2
  have hm2 : ∀ c ∈ [leasesCall startTime endTime order,
      orderSpendCall startTime endTime order spend2], sameAnswer q1 q2 c := by
    intro c hc
    simp only [List.mem_cons, List.mem_singleton, List.not_mem_nil, or_false] at hc
    rcases hc with hc | hc <;> subst hc
    · exact h1
    · exact h2
  rcases hrest with ⟨e, ho, hs⟩ | ⟨ho, hrest⟩
  · left
    rw [hs]
    refine ⟨hm2, ?_⟩
    unfold orderStep
    simp only [← h1', hl, hloop, ← h2', ho]
  have hq2 : ∀ r, (match q2.CreateProjectSpend
        { ProjectID := order.ProjectID, Spend := spend2.projectSpend order.ProjectID,
          StartTime := startTime, EndTime := endTime } with
      | some e =>
        ([leasesCall startTime endTime order, orderSpendCall startTime endTime order spend2,
          projectSpendCall startTime endTime order spend2],
          (Except.error (fmt.Errorf_w "create project spend failed: " (some e)) :
            Except String DemandSpend))
      | none =>
        ([leasesCall startTime endTime order, orderSpendCall startTime endTime order spend2,
          projectSpendCall startTime endTime order spend2], Except.ok spend2)) = r →
      orderStep q2 startTime endTime spend order = r := by
    intro r hr
    unfold orderStep
    simp only [← h1', hl, hloop, ← h2', ho]
    exact hr
  by_cases h3 : sameAnswer q1 q2 (projectSpendCall startTime endTime order spend2)
  swap
  · right
    have hr1 : (orderStep q1 startTime endTime spend order).1 =
        [leasesCall startTime endTime order, orderSpendCall startTime endTime order spend2] ++
          projectSpendCall startTime endTime order spend2 :: [] := by
      rcases hrest with ⟨e, _, hs⟩ | ⟨_, hs⟩ <;> rw [hs] <;> rfl
    have hr2 : (orderStep q2 startTime endTime spend order).1 =
        [leasesCall startTime endTime order, orderSpendCall startTime endTime order spend2] ++
          projectSpendCall startTime endTime order spend2 :: [] := by
      rw [hq2 _ rfl]
      split <;> rfl
    exact ⟨_, _, [], [], hr1, hr2, hm2, h3⟩
  have h3' : q1.CreateProjectSpend
      { ProjectID := order.ProjectID, Spend := spend2.projectSpend order.ProjectID,
        StartTime := startTime, EndTime := endTime } = q2.CreateProjectSpend
      { ProjectID := order.ProjectID, Spend := spend2.projectSpend order.ProjectID,
        StartTime := startTime, EndTime := endTime } := h3
  have hm3 : ∀ c ∈ [leasesCall startTime endTime order,
      orderSpendCall startTime endTime order spend2,
      projectSpendCall startTime endTime order spend2], sameAnswer q1 q2 c := by
    intro c hc
    simp only [List.mem_cons, List.mem_singleton, List.not_mem_nil, or_false] at hc
    rcases hc with hc | hc | hc <;> subst hc
    · exact h1
    · exact h2
    · exact h3
  left
  rcases hrest with ⟨e, hp, hs⟩ | ⟨hp, hs⟩
  · rw [hs]
    refine ⟨hm3, hq2 _ ?_⟩
    rw [← h3', hp]
  · rw [hs]
    refine ⟨hm3, hq2 _ ?_⟩
    rw [← h3', hp]

theorem ordersLoop_same_or_diverge (q1 q2 : TxQuerier) (startTime endTime : Time)
    (orders : List Order) :
    ∀ spend : DemandSpend,
      ((∀ c ∈ (ordersLoop q1 startTime endTime spend orders).1, sameAnswer q1 q2 c) ∧
          ordersLoop q2 startTime endTime spend orders =
            ordersLoop q1 startTime endTime spend orders) ∨
        Diverge q1 q2 (ordersLoop q1 startTime endTime spend orders).1
          (ordersLoop q2 startTime endTime spend orders).1 := by
  induction orders with
  | nil => intro spend; left; simp [ordersLoop]
  | cons order orders ih =>
    intro spend
    have hmore : ∀ q : TxQuerier, ∃ more,
        (ordersLoop q startTime endTime spend (order :: orders)).1 =
          (orderStep q startTime endTime spend order).1 ++ more := by
      intro q
      unfold ordersLoop
      rcases orderStep q startTime endTime spend order with ⟨calls, r⟩
      cases r with
      | error e => exact ⟨[], by simp⟩
      | ok s1 => exact ⟨_, rfl⟩
    rcases orderStep_same_or_diverge q1 q2 startTime endTime spend order with ⟨hall, heq⟩ | hd
    · unfold ordersLoop
      rw [heq]
      rcases hs : orderStep q1 startTime endTime spend order with ⟨calls, r⟩
      rw [hs] at hall
      cases r with
      | error e => exact Or.inl ⟨hall, rfl⟩
      | ok spend1 =>
        simp only
        rcases ih spend1 with ⟨hall2, heq2⟩ | hd2
        · left
          refine ⟨?_, by rw [heq2]⟩
          intro c hc
          rcases List.mem_append.mp hc with h | h
          · exact hall c h
          · exact hall2 c h
        · exact Or.inr (Diverge_append_left q1 q2 calls _ _ hall hd2)
    · right
      obtain ⟨m1, hm1⟩ := hmore q1
      obtain ⟨m2, hm2⟩ := hmore q2
      rw [hm1, hm2]
      exact Diverge_append_right q1 q2 _ _ m1 m2 hd

theorem accountStep_more (q : TxQuerier) (startTime endTime : Time) (account : BillingAccount)
    (orders : List Order) (hl : q.ListOrdersByBillingAccountId account.ID = Except.ok orders) :
    ∃ more, (accountStep q startTime endTime account).1 =
      [Call.ListOrdersByBillingAccountId account.ID] ++
        (ordersLoop q startTime endTime
          { BillingAccountID := account.ID, Projects := [], Spend := apd.New 0 0 } orders).1 ++
        more := by
  unfold accountStep
  simp only [hl]
  rcases ordersLoop q startTime endTime
    { BillingAccountID := account.ID, Projects := [], Spend := apd.New 0 0 } orders
    with ⟨calls, r⟩
  cases r with
  | error e => exact ⟨[], by simp⟩
  | ok s1 =>
    simp only
    split <;> exact ⟨[Call.CreateBillingAccountSpend
      { BillingAccountID := account.ID, Spend := s1.Spend,
        StartTime := startTime, EndTime := endTime }], by simp⟩

theorem accountStep_same_or_diverge (q1 q2 : TxQuerier) (startTime endTime : Time)
    (account : BillingAccount) :
    ((∀ c ∈ (accountStep q1 startTime endTime account).1, sameAnswer q1 q2 c) ∧
        accountStep q2 startTime endTime account = accountStep q1 startTime endTime account) ∨
      Diverge q1 q2 (accountStep q1 startTime endTime account).1
        (accountStep q2 startTime endTime account).1 := by
  have hhead : ∀ q : TxQuerier, ∃ rest, (accountStep q startTime endTime account).1 =
      Call.ListOrdersByBillingAccountId account.ID :: rest := by
    intro q
    unfold accountStep
    simp only
    split
    · exact ⟨_, rfl⟩
    · split
      · exact ⟨_, rfl⟩
      · split <;> exact ⟨_, rfl⟩
  by_cases h0 : sameAnswer q1 q2 (Call.ListOrdersByBillingAccountId account.ID)
  swap
  · right
    obtain ⟨r1, hr1⟩ := hhead q1
    obtain ⟨r2, hr2⟩ := hhead q2
    exact ⟨[], _, r1, r2, hr1, hr2, by simp, h0⟩
  have h0' : q1.ListOrdersByBillingAccountId account.ID =
      q2.ListOrdersByBillingAccountId account.ID := h0
  have hm0 : ∀ c ∈ [Call.ListOrdersByBillingAccountId account.ID], sameAnswer q1 q2 c := by
    intro c hc
    simp only [List.mem_singleton] at hc
    subst hc
    exact h0
  cases hl : q1.ListOrdersByBillingAccountId account.ID with
  | error e =>
    left
    have e1 : accountStep q1 startTime endTime account =
        ([Call.ListOrdersByBillingAccountId account.ID],
          some (fmt.Errorf_w "error when listing orders for billing account: " (some e))) := by
      unfold accountStep
      simp only [hl]
    have e2 : accountStep q2 startTime endTime account =
        ([Call.ListOrdersByBillingAccountId account.ID],
          some (fmt.Errorf_w "error when listing orders for billing account: " (some e))) := by
      unfold accountStep
      simp only [← h0', hl]
    rw [e1, e2]
    exact ⟨hm0, rfl⟩
  | ok orders =>
    rcases ordersLoop_same_or_diverge q1 q2 startTime endTime orders
        { BillingAccountID := account.ID, Projects := [], Spend := apd.New 0 0 } with
      ⟨hall, heq⟩ | hd
    · unfold accountStep
      simp only [← h0', hl]
      rw [heq]
      rcases ho : ordersLoop q1 startTime endTime
          { BillingAccountID := account.ID, Projects := [], Spend := apd.New 0 0 } orders
        with ⟨calls, r⟩
      rw [ho] at hall
      have hm1 : ∀ c ∈ Call.ListOrdersByBillingAccountId account.ID :: calls,
          sameAnswer q1 q2 c := by
        intro c hc
        rcases List.mem_cons.mp hc with h | h
        · subst h; exact h0
        · exact hall c h
      cases r with
      | error e => exact Or.inl ⟨hm1, rfl⟩
      | ok spend1 =>
        simp only
        by_cases h3 : sameAnswer q1 q2 (Call.CreateBillingAccountSpend
            { BillingAccountID := account.ID, Spend := spend1.Spend,
              StartTime := startTime, EndTime := endTime })
        · have h3' : q1.CreateBillingAccountSpend
              { BillingAccountID := account.ID, Spend := spend1.Spend,
                StartTime := startTime, EndTime := endTime } = q2.CreateBillingAccountSpend
              { BillingAccountID := account.ID, Spend := spend1.Spend,
                StartTime := startTime, EndTime := endTime } := h3
          left
          rw [← h3']
          refine ⟨?_, rfl⟩
          intro c hc
          have hmem : c ∈ Call.ListOrdersByBillingAccountId account.ID ::
              (calls ++ [Call.CreateBillingAccountSpend
                { BillingAccountID := account.ID, Spend := spend1.Spend,
                  StartTime := startTime, EndTime := endTime }]) := by
            revert hc
            split <;> exact id
          rcases List.mem_cons.mp hmem with h | h
          · subst h; exact h0
          · rcases List.mem_append.mp h with h | h
            · exact hall c h
            · simp only [List.mem_singleton] at h
              subst h
              exact h3
        · right
          refine ⟨Call.ListOrdersByBillingAccountId account.ID :: calls, _, [], [], ?_, ?_,
            hm1, h3⟩
          · split <;> simp
          · split <;> simp
    · right
      obtain ⟨m1, hm1⟩ := accountStep_more q1 startTime endTime account orders hl
      obtain ⟨m2, hm2⟩ := accountStep_more q2 startTime endTime account orders (h0' ▸ hl)
      rw [hm1, hm2]
      exact Diverge_append_right q1 q2 _ _ m1 m2 (Diverge_append_left q1 q2 _ _ _ hm0 hd)

/-- Two runs of `calculateDemandSpend` against two gateways: either the gateways answer
every call of the first run the same and the two runs are the same, or the two logs part at
a call that the gateways answer differently. -/
theorem calculateDemandSpend_same_or_diverge (q1 q2 : TxQuerier) (startTime endTime : Time)
    (billingAccounts : List BillingAccount) :
    ((∀ c ∈ (calculateDemandSpend q1 billingAccounts startTime endTime).1, sameAnswer q1 q2 c) ∧
        calculateDemandSpend q2 billingAccounts startTime endTime =
          calculateDemandSpend q1 billingAccounts startTime endTime) ∨
      Diverge q1 q2 (calculateDemandSpend q1 billingAccounts startTime endTime).1
        (calculateDemandSpend q2 billingAccounts startTime endTime).1 := by
  induction billingAccounts with
  | nil => left; simp [calculateDemandSpend]
  | cons account accounts ih =>
    have hmore : ∀ q : TxQuerier, ∃ more,
        (calculateDemandSpend q (account :: accounts) startTime endTime).1 =
          (accountStep q startTime endTime account).1 ++ more := by
      intro q
      unfold calculateDemandSpend
      rcases accountStep q startTime endTime account with ⟨calls, r⟩
      cases r with
      | some e => exact ⟨[], by simp⟩
      | none => exact ⟨_, rfl⟩
    rcases accountStep_same_or_diverge q1 q2 startTime endTime account with ⟨hall, heq⟩ | hd
    · unfold calculateDemandSpend
      rw [heq]
      rcases hs : accountStep q1 startTime endTime account with ⟨calls, r⟩
      rw [hs] at hall
      cases r with
      | some e => exact Or.inl ⟨hall, rfl⟩
      | none =>
        simp only
        rcases ih with ⟨hall2, heq2⟩ | hd2
        · left
          refine ⟨?_, by rw [heq2]⟩
          intro c hc
          rcases List.mem_append.mp hc with h | h
          · exact hall c h
          · exact hall2 c h
        · exact Or.inr (Diverge_append_left q1 q2 calls _ _ hall hd2)
    · right
      obtain ⟨m1, hm1⟩ := hmore q1
      obtain ⟨m2, hm2⟩ := hmore q2
      rw [hm1, hm2]
      exact Diverge_append_right q1 q2 _ _ m1 m2 hd

end billingaccount

namespace billingaccount

open store

/-- C17: take a run whose log of calls is `pre`, then the call `c`, then `post`; in a run
that fails at `c`, or at the arithmetic on the leases that `c` lists, `post` is empty. Take
a second run over the same accounts and period, against a gateway that answers the calls of
`pre` the same (it may answer `c` differently: the step succeeds instead). Then the second
run starts with the calls `pre` and `c`, and the upserts of `pre`, which are the rollups the
first run has persisted up to that point, are an initial segment of the upserts of the second
run, with the same spends and in the same order. -/
theorem calculateDemandSpend_prefix_kept (q1 q2 : TxQuerier)
    (billingAccounts : List BillingAccount) (startTime endTime : Time) (pre post : List Call)
    (c : Call)
    (hcalls : (calculateDemandSpend q1 billingAccounts startTime endTime).1 = pre ++ c :: post)
    (hsame : ∀ x ∈ pre, sameAnswer q1 q2 x) :
    pre ++ [c] <+: (calculateDemandSpend q2 billingAccounts startTime endTime).1 ∧
      upsertSpends pre <+:
        upsertSpends (calculateDemandSpend q2 billingAccounts startTime endTime).1 := by
  have hmain : pre ++ [c] <+: (calculateDemandSpend q2 billingAccounts startTime endTime).1 := by
    rcases calculateDemandSpend_same_or_diverge q1 q2 startTime endTime billingAccounts with
      ⟨_, heq⟩ | ⟨pre1, c1, post1, post2, h1, h2, hpre1, hc1⟩
    · rw [heq, hcalls]
      exact ⟨post, by simp⟩
    · rw [h2]
      rw [hcalls] at h1
      have hp1 : pre ++ [c] <+: pre ++ c :: post := ⟨post, by simp⟩
      have hp2 : pre1 ++ [c1] <+: pre ++ c :: post := ⟨post1, by rw [h1]; simp⟩
      have hp3 : pre <+: pre ++ c :: post := ⟨c :: post, rfl⟩
      have hlen : pre.length ≤ pre1.length := by
        by_contra hcon
        have hle : (pre1 ++ [c1]).length ≤ pre.length := by
          simp only [List.length_append, List.length_singleton]
          omega
        have hp4 : pre1 ++ [c1] <+: pre := List.prefix_of_prefix_length_le hp2 hp3 hle
        exact hc1 (hsame c1 (hp4.mem (by simp)))
      have hp5 : pre ++ [c] <+: pre1 ++ [c1] :=
        List.prefix_of_prefix_length_le hp1 hp2 (by simp; omega)
      exact hp5.trans ⟨post2, by simp⟩
  refine ⟨hmain, ?_⟩
  have h1 : pre <+: pre ++ [c] := ⟨[c], rfl⟩
  exact List.IsPrefix.filterMap _ (h1.trans hmain)

/-- C17, witness: a run in which the project upsert fails, and the run in which it succeeds
instead. The first run has persisted the order rollup `7200`; the second run starts with the
same four calls, and that order rollup is the first of its upserts. -/
theorem calculateDemandSpend_prefix_kept_witness :
    (calculateDemandSpend (fakeQuerier (Except.ok oneOrder) (Except.ok endDefinedLeases)
        none (some "create project spend error") none) oneAccount testStart testEnd =
      ([Call.ListOrdersByBillingAccountId "1",
        Call.ListLeasesForTimeRangeByOrderId ⟨"1", ⟨testStart, true⟩, testEnd⟩,
        Call.CreateOrderSpend ⟨"1", apd.New 7200 0, testStart, testEnd⟩] ++
        Call.CreateProjectSpend ⟨"1", apd.New 7200 0, testStart, testEnd⟩ :: [],
       some "create project spend failed: create project spend error")) ∧
    ([Call.ListOrdersByBillingAccountId "1",
        Call.ListLeasesForTimeRangeByOrderId ⟨"1", ⟨testStart, true⟩, testEnd⟩,
        Call.CreateOrderSpend ⟨"1", apd.New 7200 0, testStart, testEnd⟩] ++
        [Call.CreateProjectSpend ⟨"1", apd.New 7200 0, testStart, testEnd⟩] <+:
      (calculateDemandSpend (fakeQuerier (Except.ok oneOrder) (Except.ok endDefinedLeases)
        none none none) oneAccount testStart testEnd).1) ∧
    (upsertSpends [Call.ListOrdersByBillingAccountId "1",
        Call.ListLeasesForTimeRangeByOrderId ⟨"1", ⟨testStart, true⟩, testEnd⟩,
        Call.CreateOrderSpend ⟨"1", apd.New 7200 0, testStart, testEnd⟩] <+:
      upsertSpends (calculateDemandSpend (fakeQuerier (Except.ok oneOrder)
        (Except.ok endDefinedLeases) none none none) oneAccount testStart testEnd).1) :=
  ⟨by decide!,
    calculateDemandSpend_prefix_kept
      (fakeQuerier (Except.ok oneOrder) (Except.ok endDefinedLeases)
        none (some "create project spend error") none)
      (fakeQuerier (Except.ok oneOrder) (Except.ok endDefinedLeases) none none none)
      oneAccount testStart testEnd
      [Call.ListOrdersByBillingAccountId "1",
        Call.ListLeasesForTimeRangeByOrderId ⟨"1", ⟨testStart, true⟩, testEnd⟩,
        Call.CreateOrderSpend ⟨"1", apd.New 7200 0, testStart, testEnd⟩] []
      (Call.CreateProjectSpend ⟨"1", apd.New 7200 0, testStart, testEnd⟩)
      (by decide!)
      (by
        intro x hx
        simp only [List.mem_cons, List.mem_singleton, List.not_mem_nil, or_false] at hx
        rcases hx with hx | hx | hx <;> subst hx <;> rfl)⟩

end billingaccount

/-! ### Upserts into a table of rollups -/

namespace store

theorem upsertRow_present (rows : List SpendRow) (r : SpendRow)
    (h : ∃ x ∈ rows, x.key = r.key) :
    upsertRow rows r =
      rows.map (fun x => if x.key = r.key then { x with Spend := r.Spend } else x) := by
  unfold upsertRow
  have : rows.any (fun x => decide (x.key = r.key)) = true := by
    rw [List.any_eq_true]
    obtain ⟨x, hx, hk⟩ := h
    exact ⟨x, hx, by simpa using hk⟩
  rw [if_pos this]

theorem key_set_spend (x : SpendRow) (v : apd.Decimal) :
    ({ x with Spend := v } : SpendRow).key = x.key := rfl

/-- After an upsert the table has a row with the key of the upsert, and keeps the keys it
had. -/
theorem upsertRow_keys (rows : List SpendRow) (r : SpendRow) :
    (∃ x ∈ upsertRow rows r, x.key = r.key) ∧
      ∀ k, (∃ x ∈ rows, x.key = k) → ∃ x ∈ upsertRow rows r, x.key = k := by
  unfold upsertRow
  by_cases h : rows.any (fun x => decide (x.key = r.key)) = true
  · rw [if_pos h]
    rw [List.any_eq_true] at h
    obtain ⟨y, hy, hk⟩ := h
    have hk' : y.key = r.key := by simpa using hk
    have hkeep : ∀ k, (∃ x ∈ rows, x.key = k) →
        ∃ x ∈ rows.map (fun x => if x.key = r.key then { x with Spend := r.Spend } else x),
          x.key = k := by
      intro k hx
      obtain ⟨x, hx, hxk⟩ := hx
      refine ⟨_, List.mem_map_of_mem _ hx, ?_⟩
      split
      · rw [key_set_spend]; exact hxk
      · exact hxk
    exact ⟨hkeep _ ⟨y, hy, hk'⟩, hkeep⟩
  · rw [if_neg h]
    refine ⟨⟨r, by simp, rfl⟩, ?_⟩
    intro k hx
    obtain ⟨x, hx, hxk⟩ := hx
    exact ⟨x, by simp [hx], hxk⟩

/-- A row of the table after an upsert with another key was in the table before. -/
theorem upsertRow_other (rows : List SpendRow) (r x : SpendRow) (hx : x ∈ upsertRow rows r)
    (hk : ¬ r.key = x.key) : x ∈ rows := by
  unfold upsertRow at hx
  split at hx
  · rw [List.mem_map] at hx
    obtain ⟨y, hy, hyx⟩ := hx
    by_cases hyk : y.key = r.key
    · rw [if_pos hyk] at hyx
      exfalso
      apply hk
      rw [← hyx]
      exact hyk.symm
    · rw [if_neg hyk] at hyx
      rw [← hyx]; exact hy
  · rcases List.mem_append.mp hx with h | h
    · exact h
    · simp only [List.mem_singleton] at h
      exact absurd (by rw [h]) hk

/-- A row of the table after an upsert with its key has the spend of the upsert. -/
theorem upsertRow_spend (rows : List SpendRow) (r x : SpendRow) (hx : x ∈ upsertRow rows r)
    (hk : r.key = x.key) : x.Spend = r.Spend := by
  unfold upsertRow at hx
  split at hx
  · rw [List.mem_map] at hx
    obtain ⟨y, hy, hyx⟩ := hx
    by_cases hyk : y.key = r.key
    · rw [if_pos hyk] at hyx
      rw [← hyx]
    · rw [if_neg hyk] at hyx
      exfalso
      apply hyk
      rw [hyx, hk]
  · rename_i hany
    rcases List.mem_append.mp hx with h | h
    · exfalso
      apply hany
      rw [List.any_eq_true]
      exact ⟨x, h, by simpa using hk.symm⟩
    · simp only [List.mem_singleton] at h
      rw [h]

theorem foldl_upsertRow_keep (ops : List SpendRow) :
    ∀ (rows : List SpendRow) (k : String × Time × Time), (∃ x ∈ rows, x.key = k) →
      ∃ x ∈ ops.foldl upsertRow rows, x.key = k := by
  induction ops with
  | nil => intro rows k h; exact h
  | cons op ops ih =>
    intro rows k h
    exact ih _ k ((upsertRow_keys rows op).2 k h)

/-- After a sequence of upserts the table has a row for the key of each of them. -/
theorem foldl_upsertRow_covers (ops : List SpendRow) :
    ∀ (rows : List SpendRow), ∀ op ∈ ops, ∃ x ∈ ops.foldl upsertRow rows, x.key = op.key := by
  induction ops with
  | nil => intro rows op hop; cases hop
  | cons o ops ih =>
    intro rows op hop
    rcases List.mem_cons.mp hop with h | h
    · subst h
      exact foldl_upsertRow_keep ops _ _ (upsertRow_keys rows op).1
    · exact ih _ op h

/-- A row whose key no upsert of the sequence has was in the table before. -/
theorem foldl_upsertRow_other (ops : List SpendRow) :
    ∀ (rows : List SpendRow) (x : SpendRow), x ∈ ops.foldl upsertRow rows →
      lastSpend ops x.key = none → x ∈ rows := by
  induction ops with
  | nil => intro rows x hx _; exact hx
  | cons op ops ih =>
    intro rows x hx hlast
    unfold lastSpend at hlast
    cases hl : lastSpend ops x.key with
    | some v => rw [hl] at hlast; cases hlast
    | none =>
      rw [hl] at hlast
      have hk : ¬ op.key = x.key := by
        intro h
        rw [if_pos h] at hlast
        cases hlast
      exact upsertRow_other rows op x (ih _ x hx hl) hk

/-- After a sequence of upserts a row has the spend of the last upsert with its key. -/
theorem foldl_upsertRow_spend (ops : List SpendRow) :
    ∀ (rows : List SpendRow) (x : SpendRow) (v : apd.Decimal), x ∈ ops.foldl upsertRow rows →
      lastSpend ops x.key = some v → x.Spend = v := by
  induction ops with
  | nil => intro rows x v _ hlast; cases hlast
  | cons op ops ih =>
    intro rows x v hx hlast
    unfold lastSpend at hlast
    cases hl : lastSpend ops x.key with
    | some w =>
      rw [hl] at hlast
      have hw : w = v := Option.some.inj hlast
      rw [← hw]
      exact ih _ x w hx hl
    | none =>
      rw [hl] at hlast
      by_cases hk : op.key = x.key
      · rw [if_pos hk] at hlast
        cases hlast
        exact upsertRow_spend rows op x (foldl_upsertRow_other ops _ x hx hl) hk
      · rw [if_neg hk] at hlast
        cases hlast

/-- Upserts into a table that has a row for each of their keys: every row gets the spend of
the last upsert with its key. -/
theorem foldl_upsertRow_covered (ops : List SpendRow) :
    ∀ (rows : List SpendRow), (∀ op ∈ ops, ∃ x ∈ rows, x.key = op.key) →
      ops.foldl upsertRow rows = rows.map (overwrite ops) := by
  induction ops with
  | nil =>
    intro rows _
    have h : overwrite [] = id := by
      funext x
      simp [overwrite, lastSpend]
    rw [h, List.map_id, List.foldl_nil]
  | cons op ops ih =>
    intro rows hcov
    rw [List.foldl_cons, upsertRow_present rows op (hcov op (List.mem_cons_self _ _))]
    rw [ih]
    · rw [List.map_map]
      apply List.map_congr_left
      intro x _
      simp only [Function.comp]
      by_cases hk : x.key = op.key
      · rw [if_pos hk]
        unfold overwrite
        simp only [key_set_spend]
        conv_rhs => unfold lastSpend
        cases hl : lastSpend ops x.key with
        | some v => rfl
        | none => simp [hk.symm]
      · rw [if_neg hk]
        unfold overwrite
        conv_rhs => unfold lastSpend
        cases hl : lastSpend ops x.key with
        | some v => rfl
        | none =>
          have : ¬ op.key = x.key := fun h => hk h.symm
          simp [this]
    · intro o ho
      obtain ⟨x, hx, hxk⟩ := hcov o (List.mem_cons_of_mem _ ho)
      refine ⟨_, List.mem_map_of_mem _ hx, ?_⟩
      split
      · exact hxk
      · exact hxk

/-- Writing a sequence of upserts a second time leaves the table as it is after the first
time. -/
theorem foldl_upsertRow_twice (ops rows : List SpendRow) :
    ops.foldl upsertRow (ops.foldl upsertRow rows) = ops.foldl upsertRow rows := by
  rw [foldl_upsertRow_covered ops _ (foldl_upsertRow_covers ops rows)]
  conv_rhs => rw [← List.map_id (ops.foldl upsertRow rows)]
  apply List.map_congr_left
  intro x hx
  unfold overwrite
  cases hl : lastSpend ops x.key with
  | none => rfl
  | some v =>
    have := foldl_upsertRow_spend ops rows x v hx hl
    simp only [id]
    rw [← this]

/-- An upsert keeps the keys of a table distinct. -/
theorem upsertRow_nodup (rows : List SpendRow) (r : SpendRow)
    (h : (rows.map SpendRow.key).Nodup) : ((upsertRow rows r).map SpendRow.key).Nodup := by
  unfold upsertRow
  split
  · have : (rows.map (fun x => if x.key = r.key then { x with Spend := r.Spend } else x)).map
        SpendRow.key = rows.map SpendRow.key := by
      rw [List.map_map]
      apply List.map_congr_left
      intro x _
      simp only [Function.comp]
      split <;> rfl
    rw [this]; exact h
  · rename_i hany
    rw [List.map_append, List.map_singleton]
    rw [List.nodup_append]
    refine ⟨h, List.nodup_singleton _, ?_⟩
    intro k hk1 hk2
    simp only [List.mem_singleton] at hk2
    rw [List.mem_map] at hk1
    obtain ⟨x, hx, hxk⟩ := hk1
    apply hany
    rw [List.any_eq_true]
    exact ⟨x, hx, by simp [hxk, hk2]⟩

theorem foldl_upsertRow_nodup (ops : List SpendRow) :
    ∀ rows : List SpendRow, (rows.map SpendRow.key).Nodup →
      ((ops.foldl upsertRow rows).map SpendRow.key).Nodup := by
  induction ops with
  | nil => intro rows h; exact h
  | cons op ops ih => intro rows h; exact ih _ (upsertRow_nodup rows op h)

/-- The tables after a log of calls, table by table. -/
theorem SpendTables.run_eq (calls : List Call) :
    ∀ t : SpendTables, t.run calls =
      ⟨(orderRows calls).foldl upsertRow t.orderSpend,
        (projectRows calls).foldl upsertRow t.projectSpend,
        (accountRows calls).foldl upsertRow t.billingAccountSpend⟩ := by
  induction calls with
  | nil => intro t; rfl
  | cons c calls ih =>
    intro t
    unfold SpendTables.run at ih ⊢
    rw [List.foldl_cons, ih]
    cases c <;> simp [SpendTables.apply, orderRows, projectRows, accountRows]

end store

namespace billingaccount

open store

/-- C18: against tables whose upserts replace the spend stored under the key (entity id,
period start, period end), a second run of `calculateDemandSpend` with the same listings and
the same period leaves the tables exactly as the first run left them; and tables with at
most one row per key still have at most one row per key after a run. -/
theorem runOnTables_twice (listOrders : String → Except String (List Order))
    (listLeases : ListLeasesForTimeRangeByOrderIdParams → Except String (List Lease))
    (billingAccounts : List BillingAccount) (startTime endTime : Time) (t : SpendTables) :
    (runOnTables listOrders listLeases billingAccounts startTime endTime
        (runOnTables listOrders listLeases billingAccounts startTime endTime t).1).1 =
      (runOnTables listOrders listLeases billingAccounts startTime endTime t).1 ∧
    (t.WellKeyed →
      (runOnTables listOrders listLeases billingAccounts startTime endTime t).1.WellKeyed) := by
  unfold runOnTables
  simp only
  generalize (calculateDemandSpend (storeQuerier listOrders listLeases) billingAccounts startTime
    endTime).1 = calls
  constructor
  · rw [SpendTables.run_eq calls (t.run calls), SpendTables.run_eq calls t]
    simp only [foldl_upsertRow_twice]
  · intro h
    rw [SpendTables.run_eq calls t]
    exact ⟨foldl_upsertRow_nodup _ _ h.1, foldl_upsertRow_nodup _ _ h.2.1,
      foldl_upsertRow_nodup _ _ h.2.2⟩

/-- C18, witness: the order of the tests with its leases of 24 and 48 hours, and empty
tables. After one run and after two runs each table has the one row with the spend `7200`. -/
theorem runOnTables_twice_witness :
    (⟨[], [], []⟩ : SpendTables).WellKeyed ∧
    (runOnTables (fun _ => Except.ok oneOrder) (fun _ => Except.ok endDefinedLeases) oneAccount
        testStart testEnd ⟨[], [], []⟩).1 =
      ⟨[⟨"1", apd.New 7200 0, testStart, testEnd⟩], [⟨"1", apd.New 7200 0, testStart, testEnd⟩],
        [⟨"1", apd.New 7200 0, testStart, testEnd⟩]⟩ ∧
    (runOnTables (fun _ => Except.ok oneOrder) (fun _ => Except.ok endDefinedLeases) oneAccount
        testStart testEnd
        (runOnTables (fun _ => Except.ok oneOrder) (fun _ => Except.ok endDefinedLeases)
          oneAccount testStart testEnd ⟨[], [], []⟩).1).1 =
      (runOnTables (fun _ => Except.ok oneOrder) (fun _ => Except.ok endDefinedLeases) oneAccount
        testStart testEnd ⟨[], [], []⟩).1 ∧
    (runOnTables (fun _ => Except.ok oneOrder) (fun _ => Except.ok endDefinedLeases) oneAccount
        testStart testEnd ⟨[], [], []⟩).1.WellKeyed :=
  ⟨⟨List.nodup_nil, List.nodup_nil, List.nodup_nil⟩, by decide!,
    (runOnTables_twice (fun _ => Except.ok oneOrder) (fun _ => Except.ok endDefinedLeases)
      oneAccount testStart testEnd ⟨[], [], []⟩).1,
    (runOnTables_twice (fun _ => Except.ok oneOrder) (fun _ => Except.ok endDefinedLeases)
      oneAccount testStart testEnd ⟨[], [], []⟩).2
      ⟨List.nodup_nil, List.nodup_nil, List.nodup_nil⟩⟩

end billingaccount

/-! ### The calendar -/

theorem fdiv_pos (a b : Int) (hb : 0 < b) : Int.fdiv a b = a / b :=
  Int.fdiv_eq_ediv a (le_of_lt hb)

/-- The month of a day is one of the twelve. -/
theorem civilFromDays_month (z : Int) :
    1 ≤ (civilFromDays z).2.1 ∧ (civilFromDays z).2.1 ≤ 12 := by
  unfold civilFromDays
  simp only [fdiv_pos _ _ (by decide : (0:Int) < 146097), fdiv_pos _ _ (by decide : (0:Int) < 1460),
    fdiv_pos _ _ (by decide : (0:Int) < 36524), fdiv_pos _ _ (by decide : (0:Int) < 146096),
    fdiv_pos _ _ (by decide : (0:Int) < 365), fdiv_pos _ _ (by decide : (0:Int) < 4),
    fdiv_pos _ _ (by decide : (0:Int) < 100), fdiv_pos _ _ (by decide : (0:Int) < 153),
    fdiv_pos _ _ (by decide : (0:Int) < 5)]
  split <;> omega

/-- The year of the era of a day of the era, found back from the day. -/
theorem yoe_roundtrip (yoe doy doe : Int) (h0 : 0 ≤ yoe) (h1 : yoe ≤ 399) (hd0 : 0 ≤ doy)
    (hd1 : doy ≤ 364) (hdoe : doe = 365 * yoe + yoe / 4 - yoe / 100 + doy) :
    (doe - doe / 1460 + doe / 36524 - doe / 146096) / 365 = yoe ∧ 0 ≤ doe ∧ doe ≤ 146096 := by
  generalize hq : yoe / 4 = q at hdoe
  generalize hc : yoe / 100 = c at hdoe
  generalize he : doe / 1460 = e
  generalize hf : doe / 36524 = f
  generalize hg : doe / 146096 = g
  have hc4 : c = 0 ∨ c = 1 ∨ c = 2 ∨ c = 3 := by omega
  have hg0 : g = 0 := by rcases hc4 with h | h | h | h <;> omega
  have hfc : f = c := by rcases hc4 with h | h | h | h <;> omega
  have heq : e = q ∨ e = q + 1 := by rcases hc4 with h | h | h | h <;> omega
  refine ⟨?_, by omega, by omega⟩
  rcases heq with h | h <;> omega

/-- The first day of a month, turned into a count of days and back. -/
theorem civilFromDays_daysFromCivil (y m : Int) (h1 : 1 ≤ m) (h12 : m ≤ 12) :
    civilFromDays (daysFromCivil y m 1) = (y, m, 1) := by
  unfold daysFromCivil
  simp only [fdiv_pos _ _ (by decide : (0:Int) < 400), fdiv_pos _ _ (by decide : (0:Int) < 4),
    fdiv_pos _ _ (by decide : (0:Int) < 100), fdiv_pos _ _ (by decide : (0:Int) < 5)]
  generalize hy1 : (if m ≤ 2 then y - 1 else y) = y1
  generalize hmp : (if m ≤ 2 then m + 9 else m - 3) = mp
  generalize hera : y1 / 400 = era
  generalize hyoe : y1 - era * 400 = yoe
  generalize hdoy : (153 * mp + 2) / 5 + 1 - 1 = doy
  generalize hdoe : yoe * 365 + yoe / 4 - yoe / 100 + doy = doe
  have hmp0 : 0 ≤ mp ∧ mp ≤ 11 := by rw [← hmp]; split <;> omega
  have hyoe0 : 0 ≤ yoe ∧ yoe ≤ 399 := by omega
  have hdoy0 : 0 ≤ doy ∧ doy ≤ 364 := by omega
  obtain ⟨hr, hdoe0, hdoe1⟩ := yoe_roundtrip yoe doy doe hyoe0.1 hyoe0.2 hdoy0.1 hdoy0.2
    (by rw [← hdoe]; ring)
  unfold civilFromDays
  simp only [fdiv_pos _ _ (by decide : (0:Int) < 146097), fdiv_pos _ _ (by decide : (0:Int) < 1460),
    fdiv_pos _ _ (by decide : (0:Int) < 36524), fdiv_pos _ _ (by decide : (0:Int) < 146096),
    fdiv_pos _ _ (by decide : (0:Int) < 365), fdiv_pos _ _ (by decide : (0:Int) < 4),
    fdiv_pos _ _ (by decide : (0:Int) < 100), fdiv_pos _ _ (by decide : (0:Int) < 153),
    fdiv_pos _ _ (by decide : (0:Int) < 5)]
  have hz : era * 146097 + doe - 719468 + 719468 = era * 146097 + doe := by ring
  have he2 : (era * 146097 + doe) / 146097 = era := by omega
  have hd2 : era * 146097 + doe - era * 146097 = doe := by ring
  simp only [hz, he2, hd2, hr]
  have hdoy2 : doe - (365 * yoe + yoe / 4 - yoe / 100) = doy := by rw [← hdoe]; ring
  have hmp2 : (5 * doy + 2) / 153 = mp := by omega
  simp only [hdoy2, hmp2]
  have hm : (if mp < 10 then mp + 3 else mp - 9) = m := by
    rw [← hmp]; split <;> split <;> omega
  have hd : doy - (153 * mp + 2) / 5 + 1 = 1 := by omega
  rw [hm, hd]
  have hy : (if m ≤ 2 then yoe + era * 400 + 1 else yoe + era * 400) = y := by
    rw [← hy1] at hera hyoe
    split <;> simp_all <;> omega
  rw [hy]

/-- `time.Date` at midnight on the first of a month, in a location that is regular there:
the instant at which the wall clock shows it. -/
theorem Date_monthStart (year month : Int) (loc : Location)
    (hreg : loc.regularAt (monthStart (year + Int.fdiv (month - 1) 12)
      (month - 1 - 12 * Int.fdiv (month - 1) 12 + 1))) :
    time.Date year month 1 0 0 0 0 loc =
      ⟨(monthStart (year + Int.fdiv (month - 1) 12)
          (month - 1 - 12 * Int.fdiv (month - 1) 12 + 1) -
        (loc.lookup (monthStart (year + Int.fdiv (month - 1) 12)
          (month - 1 - 12 * Int.fdiv (month - 1) 12 + 1))).1) * 1000000000, loc⟩ := by
  unfold Location.regularAt at hreg
  generalize hW : monthStart (year + Int.fdiv (month - 1) 12)
    (month - 1 - 12 * Int.fdiv (month - 1) 12 + 1) = W at hreg ⊢
  unfold time.Date
  have hu : (daysFromCivil (year + Int.fdiv (month - 1) 12)
      (month - 1 - 12 * Int.fdiv (month - 1) 12 + 1) 1 + (1 - 1)) * 86400 + 0 * 3600 + 0 * 60 +
      0 + Int.fdiv 0 1000000000 = W := by
    rw [← hW]
    unfold monthStart
    have : Int.fdiv 0 1000000000 = 0 := by decide
    rw [this]
    ring
  simp only [hu]
  have hn : (0 : Int) - 1000000000 * Int.fdiv 0 1000000000 = 0 := by decide
  rw [hn]
  show (⟨(if (loc.lookup W).1 ≠ 0 then
        (if W - (loc.lookup W).1 < (loc.lookup W).2.1 ∨ W - (loc.lookup W).1 ≥ (loc.lookup W).2.2
          then W - (loc.lookup (W - (loc.lookup W).1)).1 else W - (loc.lookup W).1)
      else W) * 1000000000 + 0, loc⟩ : ZonedTime) = _
  rw [hreg]
  by_cases ho : (loc.lookup W).1 = 0
  · simp [ho]
  · simp [ho]

/-- The wall clock at the instant that `Date_monthStart` gives, for a month from 1 to 12. -/
theorem monthStart_wall (y m : Int) (hm1 : 1 ≤ m) (hm12 : m ≤ 12) (loc : Location)
    (hreg : loc.regularAt (monthStart y m)) :
    (⟨(monthStart y m - (loc.lookup (monthStart y m)).1) * 1000000000, loc⟩ : ZonedTime).abs =
        monthStart y m ∧
      (⟨(monthStart y m - (loc.lookup (monthStart y m)).1) * 1000000000, loc⟩ : ZonedTime).Date =
        (y, m, 1) ∧
      (⟨(monthStart y m - (loc.lookup (monthStart y m)).1) * 1000000000, loc⟩ :
        ZonedTime).Clock = (0, 0, 0) ∧
      (⟨(monthStart y m - (loc.lookup (monthStart y m)).1) * 1000000000, loc⟩ :
        ZonedTime).Nanosecond = 0 := by
  unfold Location.regularAt at hreg
  have hdiv : ∀ a : Int, Int.fdiv (a * 1000000000) 1000000000 = a := by
    intro a
    rw [fdiv_pos _ _ (by decide)]
    omega
  have habs : (⟨(monthStart y m - (loc.lookup (monthStart y m)).1) * 1000000000, loc⟩ :
      ZonedTime).abs = monthStart y m := by
    unfold ZonedTime.abs
    simp only [hdiv, hreg]
    ring
  have hday : Int.fdiv (monthStart y m) 86400 = daysFromCivil y m 1 := by
    unfold monthStart
    rw [fdiv_pos _ _ (by decide)]
    omega
  refine ⟨habs, ?_, ?_, ?_⟩
  · unfold ZonedTime.Date
    rw [habs, hday, civilFromDays_daysFromCivil y m hm1 hm12]
  · unfold ZonedTime.Clock
    rw [habs, hday]
    unfold monthStart
    have h0 : daysFromCivil y m 1 * 86400 - 86400 * daysFromCivil y m 1 = 0 := by ring
    simp only [h0]
    decide
  · unfold ZonedTime.Nanosecond
    simp only [hdiv]
    ring

namespace billingaccount

open store

/-- C20 (the code at a failing input): a current instant in October 2017 (2017-10-15 12:00
UTC) in a location whose clocks skip midnight of 2017-10-01. `Run` computes spend for a
period that starts when the wall clock of that location shows 2017-09-30 23:00:00, not
00:00:00 on day 1 of October, and that ends when it shows 2017-10-30 23:00:00, not 00:00:00
on day 1 of November. -/
theorem Run_period_skipped_midnight :
    (⟨1508068800000000000, midnightGap⟩ : ZonedTime).Year = 2017 ∧
    (⟨1508068800000000000, midnightGap⟩ : ZonedTime).Month = 10 ∧
    Run idleQuerier ⟨1508068800000000000, midnightGap⟩ =
      ([Call.ListAllBillingAccounts, Call.ListOrdersByBillingAccountId "1",
        Call.ListLeasesForTimeRangeByOrderId
          ⟨"1", ⟨1506826800000000000, true⟩, 1509415200000000000⟩,
        Call.CreateOrderSpend ⟨"1", apd.New 0 0, 1506826800000000000, 1509415200000000000⟩,
        Call.CreateProjectSpend ⟨"1", apd.New 0 0, 1506826800000000000, 1509415200000000000⟩,
        Call.CreateBillingAccountSpend
          ⟨"1", apd.New 0 0, 1506826800000000000, 1509415200000000000⟩], none) ∧
    (⟨1506826800000000000, midnightGap⟩ : ZonedTime).Date = (2017, 9, 30) ∧
    (⟨1506826800000000000, midnightGap⟩ : ZonedTime).Clock = (23, 0, 0) ∧
    (⟨1509415200000000000, midnightGap⟩ : ZonedTime).Date = (2017, 10, 30) ∧
    (⟨1509415200000000000, midnightGap⟩ : ZonedTime).Clock = (23, 0, 0) := by
  decide!

end billingaccount

namespace billingaccount

open store

/-- Away from changes of offset the period is the calendar month. The current instant `now`
is in a location that does not change its offset around 00:00:00 on day 1 of the month of
`now` nor around 00:00:00 on day 1 of the following month (so in every location with one
fixed offset, such as UTC), and the billing accounts are listed without an error. Then `Run`
computes the spend for the period from `startTime` to `endTime`, two times in the location
of `now` whose wall clock shows 00:00:00.000000000 on day 1 of the month and year of `now`
at `startTime`, and 00:00:00.000000000 on day 1 of the following month at `endTime`: January
of the next year when `now` is in December. -/
theorem Run_period (querier : TxQuerier) (now : ZonedTime)
    (billingAccounts : List BillingAccount)
    (hlist : querier.ListAllBillingAccounts = Except.ok billingAccounts)
    (hstart : now.loc.regularAt (monthStart now.Year now.Month))
    (hend : now.loc.regularAt (monthStart (if now.Month = 12 then now.Year + 1 else now.Year)
      (if now.Month = 12 then 1 else now.Month + 1))) :
    ∃ startTime endTime : ZonedTime,
      Run querier now = (Call.ListAllBillingAccounts ::
        (calculateDemandSpend querier billingAccounts startTime.instant endTime.instant).1,
        none) ∧
      startTime.loc = now.loc ∧ endTime.loc = now.loc ∧
      startTime.Date = (now.Year, now.Month, 1) ∧ startTime.Clock = (0, 0, 0) ∧
      startTime.Nanosecond = 0 ∧
      endTime.Date = (if now.Month = 12 then now.Year + 1 else now.Year,
        if now.Month = 12 then 1 else now.Month + 1, 1) ∧
      endTime.Clock = (0, 0, 0) ∧ endTime.Nanosecond = 0 := by
  have hm : 1 ≤ now.Month ∧ now.Month ≤ 12 := by
    unfold ZonedTime.Month ZonedTime.Date
    exact civilFromDays_month _
  generalize hy : now.Year = y at *
  generalize hmo : now.Month = m at *
  have hn1 : y + Int.fdiv (m - 1) 12 = y ∧ m - 1 - 12 * Int.fdiv (m - 1) 12 + 1 = m := by
    rw [fdiv_pos _ _ (by decide)]
    constructor <;> omega
  have hn2 : y + 0 + Int.fdiv (m + 1 - 1) 12 = (if m = 12 then y + 1 else y) ∧
      m + 1 - 1 - 12 * Int.fdiv (m + 1 - 1) 12 + 1 = (if m = 12 then 1 else m + 1) := by
    rw [fdiv_pos _ _ (by decide)]
    constructor <;> split <;> omega
  have hm2 : 1 ≤ (if m = 12 then 1 else m + 1) ∧ (if m = 12 then (1 : Int) else m + 1) ≤ 12 := by
    constructor <;> split <;> omega
  have hS := Date_monthStart y m now.loc (by rw [hn1.1, hn1.2]; exact hstart)
  rw [hn1.1, hn1.2] at hS
  obtain ⟨habs, hdate, hclock, hnano⟩ := monthStart_wall y m hm.1 hm.2 now.loc hstart
  have hE : (time.Date y m 1 0 0 0 0 now.loc).AddDate 0 1 0 =
      time.Date (y + 0) (m + 1) 1 0 0 0 0 now.loc := by
    rw [hS]
    unfold ZonedTime.AddDate
    rw [hdate, habs]
    have h1 : monthStart y m - 86400 * Int.fdiv (monthStart y m) 86400 = 0 := by
      unfold monthStart
      rw [fdiv_pos _ _ (by decide)]
      omega
    have h2 : (monthStart y m - (now.loc.lookup (monthStart y m)).1) * 1000000000 -
        1000000000 * Int.fdiv ((monthStart y m - (now.loc.lookup (monthStart y m)).1) *
          1000000000) 1000000000 = 0 := by
      rw [fdiv_pos _ _ (by decide)]
      omega
    simp only [h1, h2]
    have h3 : Int.fdiv 0 3600 = 0 := by decide
    have h4 : (0 : Int) - 3600 * 0 = 0 := by decide
    have h5 : Int.fdiv 0 60 = 0 := by decide
    have h6 : (0 : Int) - 60 * 0 = 0 := by decide
    simp only [h3, h4, h5, h6]
    rfl
  have hE2 := Date_monthStart (y + 0) (m + 1) now.loc (by rw [hn2.1, hn2.2]; exact hend)
  rw [hn2.1, hn2.2] at hE2
  obtain ⟨_, hdate2, hclock2, hnano2⟩ := monthStart_wall (if m = 12 then y + 1 else y)
    (if m = 12 then 1 else m + 1) hm2.1 hm2.2 now.loc hend
  refine ⟨time.Date y m 1 0 0 0 0 now.loc, (time.Date y m 1 0 0 0 0 now.loc).AddDate 0 1 0,
    ?_, ?_, ?_, ?_, ?_, ?_, ?_, ?_, ?_⟩
  · unfold Run
    simp only [hlist, hy, hmo, ZonedTime.Location]
  · rw [hS]
  · rw [hE, hE2]
  · rw [hS]; exact hdate
  · rw [hS]; exact hclock
  · rw [hS]; exact hnano
  · rw [hE, hE2]; exact hdate2
  · rw [hE, hE2]; exact hclock2
  · rw [hE, hE2]; exact hnano2

/-- An instance of `Run_period`: at 2019-12-15 12:00 UTC, `Run` computes the spend for the
period from 2019-12-01 00:00:00 to 2020-01-01 00:00:00 UTC. -/
theorem Run_period_witness :
    idleQuerier.ListAllBillingAccounts = Except.ok oneAccount ∧
    UTC.regularAt (monthStart 2019 12) ∧ UTC.regularAt (monthStart 2020 1) ∧
    (⟨1576411200000000000, UTC⟩ : ZonedTime).Year = 2019 ∧
    (⟨1576411200000000000, UTC⟩ : ZonedTime).Month = 12 ∧
    Run idleQuerier ⟨1576411200000000000, UTC⟩ =
      (Call.ListAllBillingAccounts ::
        (calculateDemandSpend idleQuerier oneAccount 1575158400000000000
          1577836800000000000).1, none) ∧
    ∃ startTime endTime : ZonedTime,
      Run idleQuerier ⟨1576411200000000000, UTC⟩ = (Call.ListAllBillingAccounts ::
        (calculateDemandSpend idleQuerier oneAccount startTime.instant endTime.instant).1,
        none) ∧
      startTime.loc = UTC ∧ endTime.loc = UTC ∧
      startTime.Date = (2019, 12, 1) ∧ startTime.Clock = (0, 0, 0) ∧
      startTime.Nanosecond = 0 ∧
      endTime.Date = (2020, 1, 1) ∧ endTime.Clock = (0, 0, 0) ∧ endTime.Nanosecond = 0 :=
  ⟨rfl, rfl, rfl, by decide!, by decide!, by decide!,
    Run_period idleQuerier ⟨1576411200000000000, UTC⟩ oneAccount rfl rfl rfl⟩

end billingaccount

namespace billingaccount

open store

/-- C24 (the code at a failing input): when the listing of the billing accounts fails, `Run`
returns the error of the gateway as it is, with no text in front of it. -/
theorem Run_list_accounts_error_bare :
    ∀ now : ZonedTime,
      Run failingAccountsQuerier now =
        ([Call.ListAllBillingAccounts], some "list all billing accounts error") := by
  intro now
  rfl

end billingaccount

namespace billingaccount

open store

/-- C25: the time a lease is billed for lies inside the period: it starts no earlier than the
period, it ends before the end of the period, and when the clamped duration is not negative
it is less than the length of the period (also as a `Duration`, when the length of the period
is one). -/
theorem lease_interval_inside_period (lease : Lease) (startTime endTime : Time) :
    startTime ≤ leaseStartTime lease startTime ∧
    leaseEndTime lease endTime < endTime ∧
    (0 ≤ (leaseEndTime lease endTime).Sub (leaseStartTime lease startTime) →
      (leaseEndTime lease endTime).Sub (leaseStartTime lease startTime) < endTime - startTime ∧
      (endTime - startTime ≤ maxDuration →
        (leaseEndTime lease endTime).Sub (leaseStartTime lease startTime) <
          endTime.Sub startTime)) := by
  have h1 : startTime ≤ leaseStartTime lease startTime := by
    unfold leaseStartTime Time.After
    split
    · rename_i h
      exact le_of_lt (of_decide_eq_true h)
    · exact le_refl _
  have h2 : leaseEndTime lease endTime < endTime := by
    unfold leaseEndTime Time.Before Time.Add Nanosecond
    split
    · rename_i h
      simp only [Bool.and_eq_true, decide_eq_true_eq] at h
      exact h.1
    · unfold Time Duration at *
      omega
  refine ⟨h1, h2, ?_⟩
  intro h0
  have h3 : (leaseEndTime lease endTime).Sub (leaseStartTime lease startTime) <
      endTime - startTime := by
    revert h0
    unfold Time.Sub minDuration maxDuration
    unfold Time Duration at *
    split
    · intro h0
      norm_num at h0
    · split
      · intro _
        omega
      · intro _
        omega
  refine ⟨h3, ?_⟩
  intro hlen
  have hS : endTime.Sub startTime = endTime - startTime := by
    unfold Time.Sub
    have : ¬ (endTime - startTime < minDuration) := by
      unfold minDuration
      have := h3
      unfold Time Duration at *
      omega
    rw [if_neg this, if_neg (not_lt.mpr hlen)]
  rw [hS]
  exact h3

/-- Witness for C25: the first lease of the test, in the period of the test. -/
theorem lease_interval_inside_period_witness :
    testStart ≤ leaseStartTime (endDefinedLeases.headD endedBeforeLease) testStart ∧
    leaseEndTime (endDefinedLeases.headD endedBeforeLease) testEnd < testEnd ∧
    (0 ≤ (leaseEndTime (endDefinedLeases.headD endedBeforeLease) testEnd).Sub
        (leaseStartTime (endDefinedLeases.headD endedBeforeLease) testStart) →
      (leaseEndTime (endDefinedLeases.headD endedBeforeLease) testEnd).Sub
          (leaseStartTime (endDefinedLeases.headD endedBeforeLease) testStart) <
        testEnd - testStart ∧
      (testEnd - testStart ≤ maxDuration →
        (leaseEndTime (endDefinedLeases.headD endedBeforeLease) testEnd).Sub
            (leaseStartTime (endDefinedLeases.headD endedBeforeLease) testStart) <
          testEnd.Sub testStart)) ∧
    (0 : Int) ≤ (leaseEndTime (endDefinedLeases.headD endedBeforeLease) testEnd).Sub
        (leaseStartTime (endDefinedLeases.headD endedBeforeLease) testStart) ∧
    testEnd - testStart ≤ maxDuration :=
  ⟨(lease_interval_inside_period (endDefinedLeases.headD endedBeforeLease) testStart testEnd).1,
    (lease_interval_inside_period (endDefinedLeases.headD endedBeforeLease) testStart testEnd).2.1,
    (lease_interval_inside_period (endDefinedLeases.headD endedBeforeLease) testStart testEnd).2.2,
    by decide, by decide⟩

/-- The sign of a saturated difference is the sign of the difference. -/
theorem Time.Sub_nonneg_iff (t u : Time) : 0 ≤ Time.Sub t u ↔ u ≤ t := by
  unfold Time.Sub minDuration maxDuration
  unfold Time Duration at *
  split
  · constructor
    · intro h
      norm_num at h
    · intro h
      omega
  · split
    · constructor
      · intro _
        omega
      · intro _
        norm_num
    · omega

/-- C26: in a period that starts before it ends, the clamped duration of a lease is not
negative exactly when the lease was created before the end of the period and has no end, or
ends at or after the end of the period, or ends no earlier than the later of its creation and
the start of the period. Every other lease has a negative duration, and it is billed: for the
lease that ended a day before the start of the test period, at `100` an hour, the duration is
`-24` hours and the run succeeds, persisting `-2400` for the order, the project and the
account. -/
theorem lease_duration_nonneg_iff (lease : Lease) (startTime endTime : Time)
    (hperiod : startTime < endTime) :
    (0 ≤ (leaseEndTime lease endTime).Sub (leaseStartTime lease startTime) ↔
      lease.CreateTime < endTime ∧
        (lease.EndTime.Valid = false ∨ endTime ≤ lease.EndTime.Time ∨
          max lease.CreateTime startTime ≤ lease.EndTime.Time)) ∧
    (¬ (lease.CreateTime < endTime ∧
        (lease.EndTime.Valid = false ∨ endTime ≤ lease.EndTime.Time ∨
          max lease.CreateTime startTime ≤ lease.EndTime.Time)) →
      (leaseEndTime lease endTime).Sub (leaseStartTime lease startTime) < 0) ∧
    (leaseEndTime endedBeforeLease testEnd).Sub (leaseStartTime endedBeforeLease testStart) =
      -24 * Hour ∧
    calculateDemandSpend
        (fakeQuerier (Except.ok oneOrder) (Except.ok [endedBeforeLease]) none none none)
        oneAccount testStart testEnd =
      ([Call.ListOrdersByBillingAccountId "1",
        Call.ListLeasesForTimeRangeByOrderId ⟨"1", ⟨testStart, true⟩, testEnd⟩,
        Call.CreateOrderSpend ⟨"1", ⟨apd.Form.Finite, true, 0, 2400⟩, testStart, testEnd⟩,
        Call.CreateProjectSpend ⟨"1", ⟨apd.Form.Finite, true, 0, 2400⟩, testStart, testEnd⟩,
        Call.CreateBillingAccountSpend ⟨"1", ⟨apd.Form.Finite, true, 0, 2400⟩, testStart,
          testEnd⟩], none) := by
  have hiff : (0 ≤ (leaseEndTime lease endTime).Sub (leaseStartTime lease startTime) ↔
      lease.CreateTime < endTime ∧
        (lease.EndTime.Valid = false ∨ endTime ≤ lease.EndTime.Time ∨
          max lease.CreateTime startTime ≤ lease.EndTime.Time)) := by
    rw [Time.Sub_nonneg_iff]
    unfold leaseEndTime leaseStartTime Time.Before Time.After Time.Add Nanosecond
    rcases lease with ⟨id, oid, C, ⟨E, valid⟩, price⟩
    simp only
    unfold Time Duration at *
    cases valid
    · simp only [Bool.and_false, Bool.false_eq_true, if_false, true_or, and_true,
        decide_eq_true_eq]
      split <;> omega
    · simp only [Bool.and_true, decide_eq_true_eq, Bool.true_eq_false, false_or]
      split <;> split <;> omega
  refine ⟨hiff, ?_, by decide, by decide!⟩
  intro hn
  exact not_le.mp (fun h0 => hn (hiff.mp h0))

/-- Witness for C26: the first lease of the test, in the period of the test. -/
theorem lease_duration_nonneg_iff_witness :
    testStart < testEnd ∧
    (0 ≤ (leaseEndTime (endDefinedLeases.headD endedBeforeLease) testEnd).Sub
        (leaseStartTime (endDefinedLeases.headD endedBeforeLease) testStart) ↔
      (endDefinedLeases.headD endedBeforeLease).CreateTime < testEnd ∧
        ((endDefinedLeases.headD endedBeforeLease).EndTime.Valid = false ∨
          testEnd ≤ (endDefinedLeases.headD endedBeforeLease).EndTime.Time ∨
          max (endDefinedLeases.headD endedBeforeLease).CreateTime testStart ≤
            (endDefinedLeases.headD endedBeforeLease).EndTime.Time)) ∧
    ¬ (endedBeforeLease.CreateTime < testEnd ∧
        (endedBeforeLease.EndTime.Valid = false ∨ testEnd ≤ endedBeforeLease.EndTime.Time ∨
          max endedBeforeLease.CreateTime testStart ≤ endedBeforeLease.EndTime.Time)) ∧
    (leaseEndTime endedBeforeLease testEnd).Sub (leaseStartTime endedBeforeLease testStart) < 0 :=
  ⟨by decide,
    (lease_duration_nonneg_iff (endDefinedLeases.headD endedBeforeLease) testStart testEnd
      (by decide)).1,
    by decide,
    (lease_duration_nonneg_iff endedBeforeLease testStart testEnd (by decide)).2.1 (by decide)⟩

end billingaccount

namespace billingaccount

open store

/-- The step of a lease reads the id and the project of the order, not its price. -/
theorem leaseStep_withoutPrice (startTime endTime : Time) (order : Order) (spend : DemandSpend)
    (lease : Lease) :
    leaseStep startTime endTime (withoutPrice order) spend lease =
      leaseStep startTime endTime order spend lease := by
  simp only [leaseStep, withoutPrice]

theorem leasesLoop_withoutPrice (startTime endTime : Time) (order : Order) (leases : List Lease) :
    ∀ spend : DemandSpend,
      leasesLoop startTime endTime (withoutPrice order) spend leases =
        leasesLoop startTime endTime order spend leases := by
  induction leases with
  | nil => intro spend; rfl
  | cons lease leases ih =>
    intro spend
    simp only [leasesLoop, leaseStep_withoutPrice]
    cases leaseStep startTime endTime order spend lease with
    | error e => rfl
    | ok spend1 => exact ih spend1

theorem enter_withoutPrice (spend : DemandSpend) (order : Order) :
    spend.enter (withoutPrice order) = spend.enter order := by
  simp only [DemandSpend.enter, withoutPrice]

theorem orderStep_withoutPrice (querier : TxQuerier) (startTime endTime : Time)
    (spend : DemandSpend) (order : Order) :
    orderStep querier startTime endTime spend (withoutPrice order) =
      orderStep querier startTime endTime spend order := by
  simp only [orderStep, enter_withoutPrice, leasesLoop_withoutPrice]
  simp only [withoutPrice]

/-- The step of an order uses the gateway for the listing of leases and the two upserts. -/
theorem orderStep_congr (q1 q2 : TxQuerier) (startTime endTime : Time) (spend : DemandSpend)
    (order : Order)
    (hleases : q1.ListLeasesForTimeRangeByOrderId = q2.ListLeasesForTimeRangeByOrderId)
    (horder : q1.CreateOrderSpend = q2.CreateOrderSpend)
    (hproject : q1.CreateProjectSpend = q2.CreateProjectSpend) :
    orderStep q1 startTime endTime spend order = orderStep q2 startTime endTime spend order := by
  unfold orderStep
  rw [hleases, horder, hproject]

theorem ordersLoop_priceless (q1 q2 : TxQuerier) (startTime endTime : Time)
    (hleases : q1.ListLeasesForTimeRangeByOrderId = q2.ListLeasesForTimeRangeByOrderId)
    (horder : q1.CreateOrderSpend = q2.CreateOrderSpend)
    (hproject : q1.CreateProjectSpend = q2.CreateProjectSpend) (orders1 : List Order) :
    ∀ (orders2 : List Order) (spend : DemandSpend),
      orders1.map withoutPrice = orders2.map withoutPrice →
      ordersLoop q1 startTime endTime spend orders1 =
        ordersLoop q2 startTime endTime spend orders2 := by
  induction orders1 with
  | nil =>
    intro orders2 spend h
    cases orders2 with
    | nil => rfl
    | cons o os => simp at h
  | cons o1 os1 ih =>
    intro orders2 spend h
    cases orders2 with
    | nil => simp at h
    | cons o2 os2 =>
      simp only [List.map_cons, List.cons.injEq] at h
      have hstep : orderStep q1 startTime endTime spend o1 =
          orderStep q2 startTime endTime spend o2 := by
        rw [← orderStep_withoutPrice q1, h.1, orderStep_withoutPrice,
          orderStep_congr q1 q2 _ _ _ _ hleases horder hproject]
      simp only [ordersLoop, hstep]
      rcases orderStep q2 startTime endTime spend o2 with ⟨calls, r⟩
      cases r with
      | error e => rfl
      | ok spend1 =>
        simp only
        rw [ih os2 spend1 h.2]

theorem accountStep_priceless (q1 q2 : TxQuerier) (startTime endTime : Time)
    (account : BillingAccount) (h : samePricelessInputs q1 q2) :
    accountStep q1 startTime endTime account = accountStep q2 startTime endTime account := by
  obtain ⟨horders, hleases, horder, hproject, haccount⟩ := h
  have ho := horders account.ID
  unfold accountStep
  rcases h1 : q1.ListOrdersByBillingAccountId account.ID with e1 | orders1 <;>
    rcases h2 : q2.ListOrdersByBillingAccountId account.ID with e2 | orders2 <;>
    rw [h1, h2] at ho <;> simp only at ho
  · rw [ho]
  · simp only
    rw [ordersLoop_priceless q1 q2 startTime endTime hleases horder hproject orders1 orders2 _ ho,
      haccount]

/-- A lease that is billed is billed at its own price: when the step of a lease succeeds, the
price of the lease was converted without error and the totals after the step are the totals
before it with the spend of the lease added at the three levels. -/
theorem leaseStep_bills_lease_price (startTime endTime : Time) (order : Order)
    (spend spend1 : DemandSpend) (lease : Lease)
    (h : leaseStep startTime endTime order spend lease = Except.ok spend1) :
    (conv.FromFloat lease.PriceHr).2 = none ∧
    spend1 = spend.bill order (leaseSpendOf startTime endTime lease) := by
  unfold leaseStep at h
  simp only at h
  rcases hp : conv.FromFloat lease.PriceHr with ⟨price, perr⟩
  rw [hp] at h
  cases perr with
  | some e => cases h
  | none =>
    simp only at h
    rcases hh : conv.FromFloat
      (Duration.Hours ((leaseEndTime lease endTime).Sub (leaseStartTime lease startTime)))
      with ⟨hours, herr⟩
    rw [hh] at h
    cases herr with
    | some e => cases h
    | none =>
      simp only at h
      rcases hm : apdContext.Mul hours price with ⟨amount, cond, merr⟩
      rw [hm] at h
      cases merr with
      | some e => cases h
      | none =>
        simp only at h
        split at h
        · cases h
        · split at h
          · cases h
          · split at h
            · cases h
            · simp only [Except.ok.injEq] at h
              refine ⟨rfl, ?_⟩
              rw [← h]
              unfold DemandSpend.bill leaseSpendOf
              rw [hp, hh, hm]

/-- The loop over the leases of an order, when it succeeds, adds to the totals the spend of
every lease in turn, each at the lease's own price. -/
theorem leasesLoop_bills_lease_prices (startTime endTime : Time) (order : Order)
    (leases : List Lease) :
    ∀ spend spend1 : DemandSpend,
      leasesLoop startTime endTime order spend leases = Except.ok spend1 →
      spend1 =
        leases.foldl (fun s lease => s.bill order (leaseSpendOf startTime endTime lease)) spend ∧
      ∀ lease ∈ leases, (conv.FromFloat lease.PriceHr).2 = none := by
  induction leases with
  | nil =>
    intro spend spend1 h
    simp only [leasesLoop, Except.ok.injEq] at h
    exact ⟨h.symm, fun _ hl => absurd hl (List.not_mem_nil _)⟩
  | cons lease leases ih =>
    intro spend spend1 h
    unfold leasesLoop at h
    cases hs : leaseStep startTime endTime order spend lease with
    | error e =>
      rw [hs] at h
      cases h
    | ok spend2 =>
      rw [hs] at h
      simp only at h
      obtain ⟨hp, hb⟩ := leaseStep_bills_lease_price startTime endTime order spend spend2 lease hs
      obtain ⟨h1, h2⟩ := ih spend2 spend1 h
      refine ⟨?_, ?_⟩
      · rw [List.foldl_cons, ← hb]
        exact h1
      · intro l hl
        rcases List.mem_cons.mp hl with hl | hl
        · rw [hl]
          exact hp
        · exact h2 l hl

/-- C27: two runs whose gateways differ at most in the `PriceHr` of the listed orders make the
same gateway calls, upserts and their spends included, and end alike. What is billed is the
price of the lease: the loop over the leases of an order, when it succeeds, has added to the
totals of the order, its project and the account the spend of every lease, which is the
hours of the lease times the lease's own `PriceHr`. With the order of the test at `5` an
hour and its two leases at `100` an hour, the three upserts carry `7200`, the 72 hours at
`100`. -/
theorem calculateDemandSpend_order_price_unused (q1 q2 : TxQuerier)
    (accounts : List BillingAccount) (startTime endTime : Time)
    (h : samePricelessInputs q1 q2) :
    calculateDemandSpend q1 accounts startTime endTime =
      calculateDemandSpend q2 accounts startTime endTime ∧
    (∀ (order : Order) (spend spend1 : DemandSpend) (leases : List Lease),
      leasesLoop startTime endTime order spend leases = Except.ok spend1 →
      spend1 =
        leases.foldl (fun s lease => s.bill order (leaseSpendOf startTime endTime lease)) spend ∧
      ∀ lease ∈ leases, (conv.FromFloat lease.PriceHr).2 = none) ∧
    upsertSpends (calculateDemandSpend
        (fakeQuerier (Except.ok [⟨"1", "1", "1", Float64.ofInt 5⟩]) (Except.ok endDefinedLeases)
          none none none) oneAccount testStart testEnd).1 =
      [("order", "1", ⟨apd.Form.Finite, false, 0, 7200⟩),
       ("project", "1", ⟨apd.Form.Finite, false, 0, 7200⟩),
       ("account", "1", ⟨apd.Form.Finite, false, 0, 7200⟩)] := by
  refine ⟨?_, fun order spend spend1 leases hl =>
    leasesLoop_bills_lease_prices startTime endTime order leases spend spend1 hl, by decide!⟩
  induction accounts with
  | nil => rfl
  | cons account accounts ih =>
    simp only [calculateDemandSpend, accountStep_priceless q1 q2 startTime endTime account h, ih]

/-- Witness for C27: the gateway of the test, with the order at `100` an hour and at `5` an
hour; the spend of the first lease of the test is the 24 hours at its price of `100`. -/
theorem calculateDemandSpend_order_price_unused_witness :
    samePricelessInputs
      (fakeQuerier (Except.ok oneOrder) (Except.ok endDefinedLeases) none none none)
      (fakeQuerier (Except.ok [⟨"1", "1", "1", Float64.ofInt 5⟩]) (Except.ok endDefinedLeases)
        none none none) ∧
    calculateDemandSpend
        (fakeQuerier (Except.ok oneOrder) (Except.ok endDefinedLeases) none none none)
        oneAccount testStart testEnd =
      calculateDemandSpend
        (fakeQuerier (Except.ok [⟨"1", "1", "1", Float64.ofInt 5⟩]) (Except.ok endDefinedLeases)
          none none none)
        oneAccount testStart testEnd ∧
    leaseSpendOf testStart testEnd (endDefinedLeases.headD endedBeforeLease) =
      ⟨apd.Form.Finite, false, 0, 2400⟩ :=
  ⟨⟨fun _ => rfl, rfl, rfl, rfl, rfl⟩,
    (calculateDemandSpend_order_price_unused
      (fakeQuerier (Except.ok oneOrder) (Except.ok endDefinedLeases) none none none)
      (fakeQuerier (Except.ok [⟨"1", "1", "1", Float64.ofInt 5⟩]) (Except.ok endDefinedLeases)
        none none none)
      oneAccount testStart testEnd ⟨fun _ => rfl, rfl, rfl, rfl, rfl⟩).1, by decide!⟩

/-- C28: a billing account whose listing of orders is empty, met after the billing accounts
`pre` were processed without error: the calls made for it are the listing of its orders and
one `CreateBillingAccountSpend` with the spend zero and the bounds of the period, whatever the
fields of the account; no leases are listed and no order or project spend is written for it.
The run ends with the error of that upsert, or goes on with the billing accounts that
follow. -/
theorem calculateDemandSpend_no_orders (querier : TxQuerier) (pre post : List BillingAccount)
    (account : BillingAccount) (startTime endTime : Time) (calls : List Call)
    (hpre : calculateDemandSpend querier pre startTime endTime = (calls, none))
    (hempty : querier.ListOrdersByBillingAccountId account.ID = Except.ok []) :
    calculateDemandSpend querier (pre ++ account :: post) startTime endTime =
      match querier.CreateBillingAccountSpend
        { BillingAccountID := account.ID, Spend := apd.New 0 0, StartTime := startTime,
          EndTime := endTime } with
      | some err =>
        (calls ++ [Call.ListOrdersByBillingAccountId account.ID,
            Call.CreateBillingAccountSpend
              { BillingAccountID := account.ID, Spend := apd.New 0 0, StartTime := startTime,
                EndTime := endTime }],
          some (fmt.Errorf_w "create billing account spend failed: " (some err)))
      | none =>
        (calls ++ [Call.ListOrdersByBillingAccountId account.ID,
            Call.CreateBillingAccountSpend
              { BillingAccountID := account.ID, Spend := apd.New 0 0, StartTime := startTime,
                EndTime := endTime }] ++
            (calculateDemandSpend querier post startTime endTime).1,
          (calculateDemandSpend querier post startTime endTime).2) := by
  rw [calculateDemandSpend_append, hpre]
  simp only [calculateDemandSpend, accountStep, hempty, ordersLoop]
  cases querier.CreateBillingAccountSpend
    { BillingAccountID := account.ID, Spend := apd.New 0 0, StartTime := startTime,
      EndTime := endTime } with
  | some err => simp
  | none => simp

/-- Witness for C28: the two billing accounts of the tests, neither enabled for demand, with
a gateway that lists no orders. -/
theorem calculateDemandSpend_no_orders_witness :
    calculateDemandSpend (fakeQuerier (Except.ok []) (Except.ok endDefinedLeases) none none none)
        ([⟨"1", 1578009600000000000, true, false⟩] ++
          ⟨"2", 1578182400000000000, false, false⟩ :: []) testStart testEnd =
      ([Call.ListOrdersByBillingAccountId "1",
        Call.CreateBillingAccountSpend ⟨"1", apd.New 0 0, testStart, testEnd⟩,
        Call.ListOrdersByBillingAccountId "2",
        Call.CreateBillingAccountSpend ⟨"2", apd.New 0 0, testStart, testEnd⟩], none) :=
  calculateDemandSpend_no_orders
    (fakeQuerier (Except.ok []) (Except.ok endDefinedLeases) none none none)
    [⟨"1", 1578009600000000000, true, false⟩] [] ⟨"2", 1578182400000000000, false, false⟩
    testStart testEnd
    [Call.ListOrdersByBillingAccountId "1",
      Call.CreateBillingAccountSpend ⟨"1", apd.New 0 0, testStart, testEnd⟩] rfl rfl

end billingaccount

namespace resource

theorem startAlphabet_class : ∀ k, k < 26 → isLower (startAlphabet.getD k 'a') = true := by
  decide

theorem midAlphabet_class : ∀ k, k < 37 → isLowerDigitOrDash (midAlphabet.getD k 'a') = true := by
  decide

theorem endAlphabet_class : ∀ k, k < 36 → isLowerOrDigit (endAlphabet.getD k 'a') = true := by
  decide

theorem idRune_first (size : Nat) (bytes : List Nat) (h : 2 ≤ size) :
    isLower (idRune size bytes 0) = true := by
  unfold idRune
  have h1 : ¬ (0 < 0 ∧ 0 + 1 < size) := by omega
  have h2 : ¬ (0 + 1 = size) := by omega
  simp only [if_neg h1, if_neg h2]
  exact startAlphabet_class _ (Nat.mod_lt _ (by decide))

theorem idRune_mid (size : Nat) (bytes : List Nat) (i : Nat) (h0 : 0 < i) (h1 : i + 1 < size) :
    isLowerDigitOrDash (idRune size bytes i) = true := by
  unfold idRune
  simp only [if_pos (And.intro h0 h1)]
  exact midAlphabet_class _ (Nat.mod_lt _ (by decide))

theorem idRune_last (size : Nat) (bytes : List Nat) (i : Nat) (h1 : i + 1 = size) :
    isLowerOrDigit (idRune size bytes i) = true := by
  unfold idRune
  have h2 : ¬ (0 < i ∧ i + 1 < size) := by omega
  simp only [if_neg h2, if_pos h1]
  exact endAlphabet_class _ (Nat.mod_lt _ (by decide))

/-- The characters of an id of `k + 2` characters: the first, the `k` in the middle, the
last. -/
theorem idRunes_split (k : Nat) (bytes : List Nat) :
    (List.range (k + 2)).map (idRune (k + 2) bytes) =
      idRune (k + 2) bytes 0 ::
        (((List.range k).map (fun i => idRune (k + 2) bytes (i + 1))) ++
          [idRune (k + 2) bytes (k + 1)]) := by
  rw [List.range_succ_eq_map, List.range_succ]
  simp [List.map_map, Function.comp_def]

theorem idRunes_mid_class (k : Nat) (bytes : List Nat) :
    ((List.range k).map (fun i => idRune (k + 2) bytes (i + 1))).all isLowerDigitOrDash = true := by
  rw [List.all_eq_true]
  intro c hc
  rw [List.mem_map] at hc
  obtain ⟨i, hi, rfl⟩ := hc
  rw [List.mem_range] at hi
  exact idRune_mid (k + 2) bytes (i + 1) (by omega) (by omega)

/-- C29 (as amended): for every size from 2 to 63 and all bytes the random source delivers,
`NewNanoID` returns no error and an id of `size` characters that `ValidResourceID` accepts,
with a letter first, a letter or digit last and only letters, digits and dashes; for the size
12 `ValidNanoID` accepts it too. -/
theorem NewNanoID_valid (size : Nat) (bytes : List Nat) (hlow : 2 ≤ size) (hhigh : size ≤ 63) :
    (NewNanoID size (Except.ok bytes)).2 = none ∧
    (NewNanoID size (Except.ok bytes)).1.length = size ∧
    ValidResourceID (NewNanoID size (Except.ok bytes)).1 = true ∧
    ((NewNanoID size (Except.ok bytes)).1.toList.head?.map isLower = some true ∧
      (NewNanoID size (Except.ok bytes)).1.toList.getLast?.map isLowerOrDigit = some true ∧
      (NewNanoID size (Except.ok bytes)).1.toList.all isLowerDigitOrDash = true) ∧
    (size = 12 → ValidNanoID (NewNanoID size (Except.ok bytes)).1 = true) := by
  obtain ⟨k, rfl⟩ : ∃ k, size = k + 2 := ⟨size - 2, by omega⟩
  have hfirst := idRune_first (k + 2) bytes hlow
  have hmid := idRunes_mid_class k bytes
  have hlast := idRune_last (k + 2) bytes (k + 1) rfl
  have hlen : ((List.range k).map (fun i => idRune (k + 2) bytes (i + 1))).length = k := by
    simp
  simp only [NewNanoID, ValidResourceID, ValidNanoID, String.length, String.toList, idRunes_split]
  generalize idRune (k + 2) bytes 0 = c0 at hfirst ⊢
  generalize (List.range k).map (fun i => idRune (k + 2) bytes (i + 1)) = mids at hmid hlen ⊢
  generalize idRune (k + 2) bytes (k + 1) = cl at hlast ⊢
  have hk : decide (mids.length ≤ 61) = true := decide_eq_true (by omega)
  have hne : (mids ++ [cl]).isEmpty = false := by
    cases mids <;> rfl
  refine ⟨trivial, ?_, ?_, ⟨?_, ?_, ?_⟩, ?_⟩
  · simp only [List.length_cons, List.length_append, List.length_singleton, List.length_nil, hlen]
  · simp only [resourceIDRegexp, hfirst, List.dropLast_concat, hmid, hk,
      List.getLast?_concat, Option.map_some', hlast, Option.getD_some, Bool.true_and,
      Bool.and_true, Bool.or_true]
  · simp only [List.head?_cons, Option.map_some', hfirst]
  · rw [show c0 :: (mids ++ [cl]) = (c0 :: mids) ++ [cl] from rfl, List.getLast?_concat,
      Option.map_some', hlast]
  · have hcl : isLowerDigitOrDash cl = true := by
      unfold isLowerDigitOrDash
      unfold isLowerOrDigit at hlast
      rw [hlast]
      rfl
    have hc0 : isLowerDigitOrDash c0 = true := by
      unfold isLowerDigitOrDash
      rw [hfirst]
      rfl
    simp only [List.all_cons, List.all_append, List.all_nil, hc0, hmid, hcl, Bool.and_true]
  · intro h12
    have hk10 : decide (mids.length = 10) = true := decide_eq_true (by omega)
    simp only [nanoIDRegexp, hfirst, List.dropLast_concat, hmid, hk10,
      List.getLast?_concat, Option.map_some', hlast, Option.getD_some, Bool.true_and,
      Bool.and_true]

/-- Witness for C29: the id of size 12 from the bytes `0, 1, 2, ...`. -/
theorem NewNanoID_valid_witness :
    (NewNanoID 12 (Except.ok (List.range 48))).1 = "s1wqke82xrl8" ∧
    ValidResourceID "s1wqke82xrl8" = true ∧ ValidNanoID "s1wqke82xrl8" = true :=
  ⟨by decide,
    (NewNanoID_valid 12 (List.range 48) (by decide) (by decide)).2.2.1,
    (NewNanoID_valid 12 (List.range 48) (by decide) (by decide)).2.2.2.2 rfl⟩

/-- C29 (counterexample): when the random source fails, `NewNanoID` returns the error and the
empty string, which has not 12 characters and is no resource id. -/
theorem NewNanoID_read_error_counterexample :
    NewNanoID 12 (Except.error "unexpected EOF") = ("", some "unexpected EOF") ∧
    (NewNanoID 12 (Except.error "unexpected EOF")).1.length ≠ 12 ∧
    ValidResourceID (NewNanoID 12 (Except.error "unexpected EOF")).1 = false := by
  decide

end resource

namespace billingaccount

/-- `EnsureDemandEnabled` returns `nil` exactly when the lookup reports no error and the
account it returns is enabled for demand. -/
theorem EnsureDemandEnabled_nil_iff (querier : store.Querier) (accountID : String) :
    EnsureDemandEnabled querier accountID = none ↔
      (querier.FindBillingAccountById accountID).2 = none ∧
        (querier.FindBillingAccountById accountID).1.DemandEnabled = true := by
  unfold EnsureDemandEnabled
  rcases querier.FindBillingAccountById accountID with ⟨account, err⟩
  cases err with
  | none =>
    cases h : account.DemandEnabled <;> simp [h]
  | some e =>
    by_cases he : e = GoError.ErrNoRows <;> simp [he]

end billingaccount

namespace project

/-- The lemma of the three failures of the demand check of `CreateProject`: with valid ids
and a transaction begun, an error of `EnsureDemandEnabled` is the error of `CreateProject`,
and no call follows the lookup. -/
theorem CreateProject_of_demand_error (s : server) (req : CreateProjectRequest) (err : GoError)
    (hid : resource.ValidResourceID req.Project.Id = true)
    (hacc : resource.ValidResourceID req.Project.BillingAccountId = true)
    (htx : s.BeginTx = none)
    (herr : billingaccount.EnsureDemandEnabled s.txq req.Project.BillingAccountId = some err) :
    CreateProject s req =
      ([Call.BeginTx, Call.FindBillingAccountById req.Project.BillingAccountId, Call.Rollback],
        ⟨"", ""⟩, some err) := by
  have hne : req.Project.Id ≠ "" := by
    intro h
    rw [h] at hid
    exact absurd hid (by decide)
  unfold CreateProject
  simp only [if_neg hne, hid, hacc, htx, herr, Bool.not_true, Bool.false_eq_true, if_false]

/-- C22: for a `CreateProject` request with a valid project id and a valid billing account
id, once the transaction is begun: when the lookup of the billing account reports
`pgx.ErrNoRows` the error is the status `NotFound`; when it reports another error, the status
`Internal` with the message of that error; when it reports no error and the account is not
enabled for demand, the status `PermissionDenied`. In the three cases no gateway call follows
the lookup. `EnsureDemandEnabled` returns `nil` exactly when the lookup reports no error and
the account is enabled for demand. -/
theorem CreateProject_demand_check (s : server) (req : CreateProjectRequest)
    (hid : resource.ValidResourceID req.Project.Id = true)
    (hacc : resource.ValidResourceID req.Project.BillingAccountId = true)
    (htx : s.BeginTx = none) :
    (∀ account : store.BillingAccount,
      s.txq.FindBillingAccountById req.Project.BillingAccountId =
          (account, some GoError.ErrNoRows) →
        CreateProject s req =
          ([Call.BeginTx, Call.FindBillingAccountById req.Project.BillingAccountId,
              Call.Rollback], ⟨"", ""⟩,
            some (GoError.status codes.Code.NotFound "billing account not found"))) ∧
    (∀ (account : store.BillingAccount) (err : GoError),
      s.txq.FindBillingAccountById req.Project.BillingAccountId = (account, some err) →
        err ≠ GoError.ErrNoRows →
        CreateProject s req =
          ([Call.BeginTx, Call.FindBillingAccountById req.Project.BillingAccountId,
              Call.Rollback], ⟨"", ""⟩,
            some (GoError.status codes.Code.Internal err.Error))) ∧
    (∀ account : store.BillingAccount,
      s.txq.FindBillingAccountById req.Project.BillingAccountId = (account, none) →
        account.DemandEnabled = false →
        CreateProject s req =
          ([Call.BeginTx, Call.FindBillingAccountById req.Project.BillingAccountId,
              Call.Rollback], ⟨"", ""⟩,
            some (GoError.status codes.Code.PermissionDenied
              "billing account not enabled for demand"))) ∧
    (billingaccount.EnsureDemandEnabled s.txq req.Project.BillingAccountId = none ↔
      (s.txq.FindBillingAccountById req.Project.BillingAccountId).2 = none ∧
        (s.txq.FindBillingAccountById req.Project.BillingAccountId).1.DemandEnabled = true) := by
  refine ⟨?_, ?_, ?_, billingaccount.EnsureDemandEnabled_nil_iff _ _⟩
  · intro account h
    apply CreateProject_of_demand_error s req _ hid hacc htx
    simp [billingaccount.EnsureDemandEnabled, h, status.Error]
  · intro account err h hne
    apply CreateProject_of_demand_error s req _ hid hacc htx
    simp [billingaccount.EnsureDemandEnabled, h, status.Error, hne]
  · intro account h hd
    apply CreateProject_of_demand_error s req _ hid hacc htx
    simp [billingaccount.EnsureDemandEnabled, h, status.Error, hd]

/-- Witness for C22: the three tests of the demand check of `CreateProject`. -/
theorem CreateProject_demand_check_witness :
    (CreateProject (FakeTxQuerier ⟨"", 0, false, false⟩ (some GoError.ErrNoRows) ⟨"", 0, ""⟩
        ⟨"", 0, ""⟩) testCreateRequest).2.2 =
      some (GoError.status codes.Code.NotFound "billing account not found") ∧
    (CreateProject (FakeTxQuerier ⟨"", 0, false, false⟩
        (some (GoError.other "failure to find billing account")) ⟨"", 0, ""⟩ ⟨"", 0, ""⟩)
        testCreateRequest).2.2 =
      some (GoError.status codes.Code.Internal "failure to find billing account") ∧
    (CreateProject (FakeTxQuerier ⟨"", 0, false, false⟩ none ⟨"", 0, ""⟩ ⟨"", 0, ""⟩)
        testCreateRequest).2.2 =
      some (GoError.status codes.Code.PermissionDenied
        "billing account not enabled for demand") :=
  ⟨congrArg (fun r => r.2.2)
      ((CreateProject_demand_check
        (FakeTxQuerier ⟨"", 0, false, false⟩ (some GoError.ErrNoRows) ⟨"", 0, ""⟩ ⟨"", 0, ""⟩)
        testCreateRequest (by decide) (by decide) rfl).1 ⟨"", 0, false, false⟩ rfl),
    congrArg (fun r => r.2.2)
      ((CreateProject_demand_check
        (FakeTxQuerier ⟨"", 0, false, false⟩
          (some (GoError.other "failure to find billing account")) ⟨"", 0, ""⟩ ⟨"", 0, ""⟩)
        testCreateRequest (by decide) (by decide) rfl).2.1 ⟨"", 0, false, false⟩
          (GoError.other "failure to find billing account") rfl (by decide)),
    congrArg (fun r => r.2.2)
      ((CreateProject_demand_check
        (FakeTxQuerier ⟨"", 0, false, false⟩ none ⟨"", 0, ""⟩ ⟨"", 0, ""⟩)
        testCreateRequest (by decide) (by decide) rfl).2.2.1 ⟨"", 0, false, false⟩ rfl rfl)⟩

/-- Every call of the store's `UpdateProject` that `server.UpdateProject` makes has the empty
string as `ID`. -/
theorem UpdateProject_id_empty (s : server) (req : UpdateProjectRequest)
    (arg : store.UpdateProjectParams) (h : Call.UpdateProject arg ∈ (UpdateProject s req).1) :
    arg.ID = "" := by
  have hfin : ∀ (calls : List Call) (updates : store.UpdateProjectParams),
      (∀ a, Call.UpdateProject a ∉ calls) → updates.ID = "" →
      Call.UpdateProject arg ∈ (finishUpdate s calls updates).1 → arg.ID = "" := by
    intro calls updates hc hu hm
    unfold finishUpdate at hm
    rcases hup : s.txq.UpdateProject updates with ⟨updated, e⟩
    rw [hup] at hm
    have key : ∀ tail : List Call, (∀ a, Call.UpdateProject a ∉ tail) →
        Call.UpdateProject arg ∈ calls ++ Call.UpdateProject updates :: tail → arg.ID = "" := by
      intro tail ht hin
      rw [List.mem_append, List.mem_cons] at hin
      rcases hin with hin | hin | hin
      · exact absurd hin (hc arg)
      · cases hin
        exact hu
      · exact absurd hin (ht arg)
    cases e with
    | some e => exact key [Call.Rollback] (by simp) hm
    | none =>
      cases hcm : s.Commit with
      | some e =>
        rw [hcm] at hm
        exact key [Call.Commit, Call.Rollback] (by simp) hm
      | none =>
        rw [hcm] at hm
        exact key [Call.Commit, Call.Rollback] (by simp) hm
  unfold UpdateProject at h
  split at h
  · simp at h
  · split at h
    · simp at h
    · split at h
      · simp at h
      · split at h
        · split at h
          · simp at h
          · exact hfin _ _ (by simp) rfl h
        · exact hfin _ _ (by simp) rfl h

end project

namespace project

/-- C30 (the code at a failing input): in the test "should successfully return an updated
project" the request names the project `test`; `UpdateProject` succeeds, and the parameters
it passes to the store's `UpdateProject` have the empty string as `ID`, which is bound to
`$2` of `WHERE id = $2`. -/
theorem UpdateProject_passes_empty_id :
    UpdateProject updateTestServer updateTestRequest =
      ([Call.BeginTx, Call.SelectProjectForUpdate "test",
        Call.FindBillingAccountById "billing-account-id-update",
        Call.UpdateProject { BillingAccountID := "billing-account-id-update", ID := "" },
        Call.Commit, Call.Rollback],
        ⟨"test-update", "billing-account-id-update"⟩, none) ∧
    (store.UpdateProjectParams.bound
      { BillingAccountID := "billing-account-id-update", ID := "" }).2 = "" ∧
    updateTestRequest.Project.Id = "test" := by
  decide

end project

namespace conv

end conv

namespace conv

end conv

namespace flag

theorem lookup_congr (f f1 : FlagSet) (h : f1.formal = f.formal) (name : String) :
    f1.lookup name = f.lookup name := by
  unfold FlagSet.lookup
  rw [h]

theorem Grows.refl (f : FlagSet) (rest : List String) : Grows f { f with args := rest } :=
  ⟨rfl, fun _ _ => rfl, fun _ h => h⟩

theorem Grows.assign (f : FlagSet) (name : String) (flag : Flag) (v : String)
    (rest : List String) (hl : f.lookup name = some flag) :
    Grows f { f.assign name flag v with args := rest } := by
  refine ⟨rfl, ?_, ?_⟩
  · intro x hx
    have hne : x ≠ flag.Var := fun h => hx name flag (List.mem_cons_self _ _) hl h.symm
    simp only [FlagSet.assign, if_neg hne]
  · intro n hn
    exact List.mem_cons_of_mem _ hn

theorem Grows.trans {f f1 f2 : FlagSet} (h1 : Grows f f1) (h2 : Grows f1 f2) : Grows f f2 := by
  refine ⟨h2.1.trans h1.1, ?_, fun n hn => h2.2.2 n (h1.2.2 n hn)⟩
  intro x hx
  rw [h2.2.1 x (fun n g hn hg => hx n g hn (by rw [← lookup_congr f f1 h1.1]; exact hg))]
  exact h1.2.1 x (fun n g hn hg => hx n g (h2.2.2 n hn) hg)

theorem parseFlag_grows (f f1 : FlagSet) (name : String) (value : Option String)
    (rest : List String) (b : Bool) (h : f.parseFlag name value rest = Except.ok (b, f1)) :
    Grows f f1 := by
  unfold FlagSet.parseFlag at h
  cases hl : f.lookup name with
  | none =>
    rw [hl] at h
    simp only at h
    split at h <;> cases h
  | some flag =>
    rw [hl] at h
    simp only at h
    have key : ∀ (text : String) (rest1 : List String) (err : String → ParseError),
        (match flag.Set text with
          | Except.error e => Except.error (err e)
          | Except.ok v => Except.ok (true, { f.assign name flag v with args := rest1 })) =
            (Except.ok (b, f1) : Except ParseError (Bool × FlagSet)) → Grows f f1 := by
      intro text rest1 err hk
      cases hs : flag.Set text with
      | error e =>
        rw [hs] at hk
        cases hk
      | ok v =>
        rw [hs] at hk
        simp only [Except.ok.injEq, Prod.mk.injEq] at hk
        rw [← hk.2]
        exact Grows.assign f name flag v rest1 hl
    by_cases hb : flag.IsBoolFlag = true
    · rw [if_pos hb] at h
      cases value with
      | some value => exact key value rest _ h
      | none => exact key "true" rest _ h
    · rw [if_neg hb] at h
      cases value with
      | some value => exact key value rest _ h
      | none =>
        cases rest with
        | nil => cases h
        | cons value rest1 => exact key value rest1 _ h

theorem parseOne_grows (f f1 : FlagSet) (b : Bool) (h : f.parseOne = Except.ok (b, f1)) :
    Grows f f1 := by
  unfold FlagSet.parseOne at h
  split at h
  · simp only [Except.ok.injEq, Prod.mk.injEq] at h
    rw [← h.2]
    exact Grows.refl f f.args
  · split at h
    · split at h
      · simp only [Except.ok.injEq, Prod.mk.injEq] at h
        rw [← h.2]
        exact Grows.refl f _
      · split at h
        · cases h
        · exact parseFlag_grows f f1 _ _ _ b h
    · simp only [Except.ok.injEq, Prod.mk.injEq] at h
      rw [← h.2]
      exact Grows.refl f f.args

theorem parseLoop_grows (fuel : Nat) :
    ∀ f f1 : FlagSet, FlagSet.parseLoop fuel f = Except.ok f1 → Grows f f1 := by
  induction fuel with
  | zero =>
    intro f f1 h
    simp only [FlagSet.parseLoop, Except.ok.injEq] at h
    rw [← h]
    exact Grows.refl f f.args
  | succ fuel ih =>
    intro f f1 h
    unfold FlagSet.parseLoop at h
    split at h
    · cases h
    · rename_i f2 hone
      simp only [Except.ok.injEq] at h
      rw [← h]
      exact parseOne_grows f f2 false hone
    · rename_i f2 hone
      exact (parseOne_grows f f2 true hone).trans (ih f2 f1 h)

theorem Parse_grows (f f1 : FlagSet) (arguments : List String)
    (h : f.Parse arguments = Except.ok f1) : Grows f f1 := by
  have h1 := parseLoop_grows _ _ _ h
  exact ⟨h1.1, h1.2.1, h1.2.2⟩

theorem mem_insertFlag (f g : Flag) (l : List Flag) : g ∈ insertFlag f l ↔ g = f ∨ g ∈ l := by
  induction l with
  | nil => simp [insertFlag]
  | cons x xs ih =>
    unfold insertFlag
    split
    · simp
    · simp only [List.mem_cons, ih]
      tauto

theorem mem_sortFlags (g : Flag) (l : List Flag) : g ∈ sortFlags l ↔ g ∈ l := by
  induction l with
  | nil => simp [sortFlags]
  | cons x xs ih =>
    simp only [sortFlags, mem_insertFlag, ih, List.mem_cons]

theorem lookup_mem (f : FlagSet) (name : String) (g : Flag) (h : f.lookup name = some g) :
    g ∈ f.formal ∧ g.Name = name := by
  unfold FlagSet.lookup at h
  refine ⟨List.mem_of_find?_eq_some h, ?_⟩
  have := List.find?_some h
  simpa using this

end flag

namespace ff

open flag

theorem foldl_visit_error (U : String → String) (provided : List String)
    (getenv : String → String) (pre : String) (l : List Flag) (fs : FlagSet) (err : Error) :
    l.foldl (visit U provided getenv pre) (fs, some err) = (fs, some err) := by
  induction l with
  | nil => rfl
  | cons g gs ih => simpa [List.foldl_cons, visit] using ih

/-- What a step of the loop over the flags does to the variables. -/
theorem visit_vars (U : String → String) (provided : List String) (getenv : String → String)
    (pre : String) (fsa fsb : FlagSet) (g : Flag)
    (h : visit U provided getenv pre (fsa, none) g = (fsb, none)) :
    fsb.formal = fsa.formal ∧
    (∀ x, (g.Name ∈ provided ∨ getenv (envKey U pre g.Name) = "" ∨
        ∀ f, fsa.lookup g.Name = some f → f.Var ≠ x) → fsb.vars x = fsa.vars x) ∧
    (g.Name ∉ provided → getenv (envKey U pre g.Name) ≠ "" →
      ∃ f v, fsa.lookup g.Name = some f ∧ f.Set (getenv (envKey U pre g.Name)) = Except.ok v ∧
        fsb.vars f.Var = v) := by
  unfold visit at h
  simp only at h
  by_cases hp : g.Name ∈ provided
  · rw [if_pos hp] at h
    cases h
    exact ⟨rfl, fun _ _ => rfl, fun h1 => absurd hp h1⟩
  · rw [if_neg hp] at h
    by_cases he : getenv (envKey U pre g.Name) = ""
    · rw [if_pos he] at h
      cases h
      exact ⟨rfl, fun _ _ => rfl, fun _ h2 => absurd he h2⟩
    · rw [if_neg he] at h
      unfold FlagSet.Set at h
      cases hl : fsa.lookup g.Name with
      | none =>
        rw [hl] at h
        cases h
      | some f =>
        rw [hl] at h
        simp only at h
        cases hs : f.Set (getenv (envKey U pre g.Name)) with
        | error e =>
          rw [hs] at h
          cases h
        | ok v =>
          rw [hs] at h
          simp only [Prod.mk.injEq, and_true] at h
          rw [← h]
          refine ⟨rfl, ?_, fun _ _ => ⟨f, v, rfl, hs, ?_⟩⟩
          · intro x hx
            rcases hx with hx | hx | hx
            · exact absurd hx hp
            · exact absurd hx he
            · have hne : x ≠ f.Var := fun hh => hx f rfl hh.symm
              simp only [FlagSet.assign, if_neg hne]
          · simp only [FlagSet.assign, if_true]

/-- The loop over the flags: a variable is kept when every flag visited was set on the command
line, or has an empty environment variable, or is kept in another variable; the variable of
a visited flag that was not set and has a non-empty environment variable holds the value set
from it, when no flag of another name is kept in that variable. -/
theorem foldl_visit_vars (U : String → String) (provided : List String)
    (getenv : String → String) (pre : String) (l : List Flag) :
    ∀ fsa fsb : FlagSet, l.foldl (visit U provided getenv pre) (fsa, none) = (fsb, none) →
      fsb.formal = fsa.formal ∧
      (∀ x, (∀ g ∈ l, g.Name ∈ provided ∨ getenv (envKey U pre g.Name) = "" ∨
          ∀ f, fsa.lookup g.Name = some f → f.Var ≠ x) → fsb.vars x = fsa.vars x) ∧
      (∀ n f, n ∉ provided → getenv (envKey U pre n) ≠ "" → n ∈ l.map (fun g => g.Name) →
        fsa.lookup n = some f →
        (∀ g ∈ l, ∀ f1, fsa.lookup g.Name = some f1 → f1.Var = f.Var → g.Name = n) →
        ∃ v, f.Set (getenv (envKey U pre n)) = Except.ok v ∧ fsb.vars f.Var = v) := by
  induction l with
  | nil =>
    intro fsa fsb h
    simp only [List.foldl_nil, Prod.mk.injEq, and_true] at h
    rw [← h]
    exact ⟨rfl, fun _ _ => rfl, fun n _ _ _ hn => absurd hn (by simp)⟩
  | cons g gs ih =>
    intro fsa fsb h
    rw [List.foldl_cons] at h
    rcases hstep : visit U provided getenv pre (fsa, none) g with ⟨fsm, e⟩
    rw [hstep] at h
    cases e with
    | some err =>
      rw [foldl_visit_error] at h
      cases h
    | none =>
      obtain ⟨hf1, hk1, hs1⟩ := visit_vars U provided getenv pre fsa fsm g hstep
      obtain ⟨hf2, hk2, hs2⟩ := ih fsm fsb h
      have hlk : ∀ n, fsm.lookup n = fsa.lookup n := lookup_congr fsa fsm hf1
      refine ⟨hf2.trans hf1, ?_, ?_⟩
      · intro x hx
        rw [hk2 x (fun g1 hg1 => by
          rw [hlk]
          exact hx g1 (List.mem_cons_of_mem _ hg1))]
        exact hk1 x (hx g (List.mem_cons_self _ _))
      · intro n f hp he hn hl hsep
        by_cases hin : n ∈ gs.map (fun g => g.Name)
        · exact hs2 n f hp he hin (by rw [hlk]; exact hl)
            (fun g1 hg1 f1 hf hv => hsep g1 (List.mem_cons_of_mem _ hg1) f1
              (by rw [← hlk]; exact hf) hv)
        · have hng : n = g.Name := by
            rw [List.map_cons, List.mem_cons] at hn
            rcases hn with hn | hn
            · exact hn
            · exact absurd hn hin
          subst hng
          obtain ⟨f1, v, hl1, hs, hv⟩ := hs1 hp he
          have hff : f1 = f := by
            rw [hl] at hl1
            exact (Option.some.inj hl1).symm
          subst hff
          refine ⟨v, hs, ?_⟩
          rw [hk2 f1.Var (fun g1 hg1 => Or.inr (Or.inr (fun f2 hf2l hv2 => hin (by
            have := hsep g1 (List.mem_cons_of_mem _ hg1) f2 (by rw [← hlk]; exact hf2l) hv2
            rw [← this]
            exact List.mem_map.mpr ⟨g1, hg1, rfl⟩))))]
          exact hv

theorem envKey_empty (U : String → String) (name : String) :
    envKey U "" name = envVarReplacer.Replace (U name) := by
  simp [envKey]

/-- C21 (as amended): a flag set whose flags are as defined (none set, every variable at the
default of its flag) and have each a variable of their own. After a successful `Fill`, every
defined flag holds the value the parsing of the command line gave it if it was set there;
otherwise, when the environment variable named by its name in upper case, with `-`, `.` and
`/` replaced by `_`, is not empty, the value set from that variable; otherwise its
default. -/
theorem Fill_precedence (ToUpper : String → String) (fs fs2 : FlagSet) (args : List String)
    (getenv : String → String) (hfresh : fs.fresh) (hown : fs.ownVariables)
    (hfill : Fill ToUpper fs args getenv = Except.ok fs2) :
    ∃ fs1 : FlagSet, fs.Parse args = Except.ok fs1 ∧
      ∀ (name : String) (f : Flag), fs.lookup name = some f →
        (name ∈ fs1.actual → fs2.value name = fs1.value name) ∧
        (name ∉ fs1.actual → getenv (envVarReplacer.Replace (ToUpper name)) ≠ "" →
          ∃ v, f.Set (getenv (envVarReplacer.Replace (ToUpper name))) = Except.ok v ∧
            fs2.value name = some v) ∧
        (name ∉ fs1.actual → getenv (envVarReplacer.Replace (ToUpper name)) = "" →
          fs2.value name = some f.DefValue) := by
  unfold Fill FillUsingPrefix at hfill
  cases hparse : fs.Parse args with
  | error e =>
    rw [hparse] at hfill
    cases hfill
  | ok fs1 =>
    rw [hparse] at hfill
    simp only at hfill
    rcases hloop : (sortFlags fs1.formal).foldl (visit ToUpper fs1.actual getenv "") (fs1, none)
      with ⟨fsb, e⟩
    rw [hloop] at hfill
    cases e with
    | some err => cases hfill
    | none =>
      simp only [Except.ok.injEq] at hfill
      subst hfill
      obtain ⟨hg1, hg2, _⟩ := Parse_grows fs fs1 args hparse
      obtain ⟨hfb, hk, hs⟩ := foldl_visit_vars ToUpper fs1.actual getenv "" _ fs1 fsb hloop
      refine ⟨fs1, rfl, ?_⟩
      intro name f hl
      obtain ⟨hmem, hname⟩ := lookup_mem fs name f hl
      have hl1 : fs1.lookup name = some f := by rw [lookup_congr fs fs1 hg1]; exact hl
      have hlb : fsb.lookup name = some f := by rw [lookup_congr fs1 fsb hfb]; exact hl1
      have hsep : ∀ g ∈ sortFlags fs1.formal, ∀ f1, fs1.lookup g.Name = some f1 →
          f1.Var = f.Var → g.Name = name := by
        intro g _ f1 hf1 hv
        obtain ⟨hm1, hn1⟩ := lookup_mem fs1 g.Name f1 hf1
        rw [hg1] at hm1
        rw [← hn1, ← hname]
        exact hown f1 hm1 f hmem hv
      have hval2 : fsb.value name = some (fsb.vars f.Var) := by
        unfold FlagSet.value
        rw [hlb]
        rfl
      have hval1 : fs1.value name = some (fs1.vars f.Var) := by
        unfold FlagSet.value
        rw [hl1]
        rfl
      refine ⟨?_, ?_, ?_⟩
      · intro hin
        rw [hval2, hval1, hk f.Var (fun g hg => by
          by_cases hgn : g.Name = name
          · exact Or.inl (by rw [hgn]; exact hin)
          · exact Or.inr (Or.inr (fun f1 hf1 hv => hgn (hsep g hg f1 hf1 hv))))]
      · intro hnot henv
        rw [← envKey_empty] at henv ⊢
        have hvis : name ∈ (sortFlags fs1.formal).map (fun g => g.Name) := by
          rw [List.mem_map]
          exact ⟨f, (mem_sortFlags f _).mpr (by rw [hg1]; exact hmem), hname⟩
        obtain ⟨v, hs1, hv⟩ := hs name f hnot henv hvis hl1 hsep
        exact ⟨v, hs1, by rw [hval2, hv]⟩
      · intro hnot henv
        rw [← envKey_empty] at henv
        rw [hval2, hk f.Var (fun g hg => by
          by_cases hgn : g.Name = name
          · exact Or.inr (Or.inl (by rw [hgn]; exact henv))
          · exact Or.inr (Or.inr (fun f1 hf1 hv => hgn (hsep g hg f1 hf1 hv)))),
          hg2 f.Var (fun m g hm hgl hv => hnot (by
            obtain ⟨hmg, hng⟩ := lookup_mem fs m g hgl
            have := hown g hmg f hmem hv
            rw [hng, hname] at this
            rw [← this]
            exact hm))]
        rw [hfresh.2 f hmem]

/-- Witness for C21: the two tests. With `TEST_FLAG=env-flag`, the arguments
`--test-flag cli-flag` leave `cli-flag` in the flag, and no flag on the command line leaves
`env-flag`. -/
theorem Fill_precedence_witness :
    testFlagSet.fresh ∧ testFlagSet.ownVariables ∧
    Fill strings.upperASCII testFlagSet ["--test-flag", "cli-flag"] testEnv =
      Except.ok (filled testFlagSet ["--test-flag", "cli-flag"] testEnv) ∧
    (filled testFlagSet ["--test-flag", "cli-flag"] testEnv).value "test-flag" =
      some "cli-flag" ∧
    (filled testFlagSet [""] testEnv).value "test-flag" = some "env-flag" ∧
    (∃ fs1 : FlagSet, testFlagSet.Parse [""] = Except.ok fs1 ∧
      ∀ (name : String) (f : Flag), testFlagSet.lookup name = some f →
        (name ∈ fs1.actual → (filled testFlagSet [""] testEnv).value name = fs1.value name) ∧
        (name ∉ fs1.actual →
          testEnv (envVarReplacer.Replace (strings.upperASCII name)) ≠ "" →
          ∃ v, f.Set (testEnv (envVarReplacer.Replace (strings.upperASCII name))) =
              Except.ok v ∧
            (filled testFlagSet [""] testEnv).value name = some v) ∧
        (name ∉ fs1.actual →
          testEnv (envVarReplacer.Replace (strings.upperASCII name)) = "" →
          (filled testFlagSet [""] testEnv).value name = some f.DefValue)) :=
  ⟨⟨rfl, by decide⟩, by unfold FlagSet.ownVariables; decide, rfl, by decide, by decide,
    Fill_precedence strings.upperASCII testFlagSet (filled testFlagSet [""] testEnv) [""]
      testEnv ⟨rfl, by decide⟩ (by unfold FlagSet.ownVariables; decide) rfl⟩

/-- C21 (counterexample): the flags `a` and `b` are defined on one variable. With `-a cli-flag`
on the command line and `B=env-flag` in the environment, `Fill` succeeds; the flag `a` was
set on the command line, to `cli-flag`, and holds `env-flag` after `Fill`. And a flag that
the program set to `earlier` before `Fill` holds `earlier` after it, with no flag on the
command line and `TEST_FLAG=env-flag`: not the value of the variable and not its default. -/
theorem Fill_shared_variable_counterexample :
    Fill strings.upperASCII sharedFlagSet ["-a", "cli-flag"] sharedEnv =
      Except.ok (filled sharedFlagSet ["-a", "cli-flag"] sharedEnv) ∧
    (∃ fs1 : FlagSet, sharedFlagSet.Parse ["-a", "cli-flag"] = Except.ok fs1 ∧
      "a" ∈ fs1.actual ∧ fs1.value "a" = some "cli-flag") ∧
    (filled sharedFlagSet ["-a", "cli-flag"] sharedEnv).value "a" = some "env-flag" ∧
    Fill strings.upperASCII earlierFlagSet [""] testEnv =
      Except.ok (filled earlierFlagSet [""] testEnv) ∧
    (∃ fs1 : FlagSet, earlierFlagSet.Parse [""] = Except.ok fs1 ∧ fs1.args = [""]) ∧
    (filled earlierFlagSet [""] testEnv).value "test-flag" = some "earlier" :=
  ⟨rfl, ⟨_, rfl, by decide, by decide⟩, by decide, rfl, ⟨_, rfl, rfl⟩, by decide⟩

end ff

end Biller
